import Mathlib

/-!
# PlantGL `Discretizer` (src/cpp/plantgl/algo/base/discretizer.cpp)

A shallow embedding of the visitor that turns a scene graph into explicit
models, followed by theorems about its dispatch and its cache.

Conventions of the embedding.

* A smart pointer `ExplicitModelPtr` is an `Option (Ref α)`: `none` is the null
  pointer, `Ref.node` points to a scene node that is itself an explicit model,
  `Ref.alloc a` points to the `a`-th object created with `new`.
* The free store is the list `Discretizer.heap`; `new` appends to it, so the
  number of objects ever built is its length.
* A member function returns `Option (Bool × Discretizer α)`: `none` stands for
  undefined behaviour (a call through a null pointer, `begin()` of an empty
  array), `some (b, d)` for a normal return of `b` in state `d`.
* Floating-point array contents are not computed: the arrays of a model are a
  value of an arbitrary type `α`, produced by the functions of `Extern`. At
  this level a tessellation kernel is the allocation of one object, of the
  class the source builds, with a texcoord list exactly when the source sets
  one. The kernel of a parametric primitive without children or of a swept
  primitive can be undefined on its node and its profiles (a remainder by
  zero, a write outside an array): `process` is then undefined too
  (`Extern.kernelDefined`). The kernels of the NURBS patch and of the 2D
  curves are taken to run to completion.
* The index arithmetic of the kernels of the sphere, the cone, the cylinder,
  the frustum and the two patches is embedded separately (`sphereKernel`,
  `coneKernel`, `cylinderKernel`, `frustumKernel`, `bezierPatchKernel`,
  `nurbsPatchKernel`): a `uint32_t` is a `Nat` reduced modulo 2^32 by `u32`, an
  array is a `Buffer` (its size and the calls of `setAt` in program order), a
  loop is `forLoop`, and the operations on `real_t` are the fields of `RealOps`.
  A loop whose counter is a `real_t` running over 0, 1, 2, ... is a `forLoop`
  over the number of these values below its bound.
* The kernels of the box, the revolution and the elevation grid follow the same
  conventions (`boxKernel`, `revolutionKernel`, `elevationGridKernel`). Where a
  statement is about the values of the coordinates (the extrusion, the rings
  of the extruded hull, `gridTexCoord`), `real_t` is an arbitrary linearly
  ordered field `K`: the arithmetic is exact and rounding is not modelled;
  functions of classes that are not part of the sources (the norm of a
  vector, `normalize`, the image of a point by a basis) are parameters.
* The texcoord arrays of the sphere (`sphereTexKernel`), the chains and the
  arrays of the extruded hull (`hullChain`, `extrudedHullKernel`) and the
  asymmetric hull (`asymmetricHullKernel`) follow the conventions of the
  kernels; a `while` loop is `whileLoop`, bounded by a fuel that the theorems
  show to be sufficient.
* For the statements about merged meshes the arrays are `MeshArrays` (points
  and faces) and the merge of `Extern` is `composerMerge`, written from the
  description of the Composer, whose class is not part of the sources.
-/

namespace PlantGL

/-! ## Scene nodes -/

/-- Modelled from the spec: class `SceneObject` is not part of the sources; a
node has a stable integer id (`getId`) and an optional name (`getName`), and
`isNamed` holds when the name is not empty. -/
structure NodeInfo where
  id : Nat
  name : String
deriving DecidableEq, Repr

/-- The member `isNamed()` of a scene node. -/
def NodeInfo.isNamed (n : NodeInfo) : Bool := n.name != ""

/-- Classes of explicit models built or passed through by the Discretizer. -/
inductive ExplicitKind
  | amapSymbol | faceSet | pointSet | polyline | quadSet | triangleSet
deriving DecidableEq, Repr

/-- Whether `MeshPtr::Cast` succeeds on an object of this class: point sets and
polylines are explicit models but not meshes. -/
def ExplicitKind.isMesh : ExplicitKind → Bool
  | .pointSet => false
  | .polyline => false
  | _ => true

/-- Modelled from the spec: the explicit-model container classes are not part of
the sources. An object records its class, whether its point list and its
texcoord list are set, its name, and its arrays. -/
structure ExplicitModel (α : Type) where
  cls : ExplicitKind
  hasPointList : Bool
  hasTexCoordList : Bool
  name : String
  arrays : α
deriving DecidableEq, Repr

/-- What a non-null `ExplicitModelPtr` points to. -/
inductive Ref (α : Type)
  | node (id : Nat) (self : ExplicitModel α)
  | alloc (addr : Nat)
deriving DecidableEq, Repr

/-- The 2D curves (`Curve2D`), used on their own and as profiles. -/
inductive Curve2DKind
  | bezierCurve2D | nurbsCurve2D | polyline2D
deriving DecidableEq, Repr

/-- A `Curve2D` node. -/
structure Curve2D where
  kind : Curve2DKind
  info : NodeInfo
deriving DecidableEq, Repr

/-- Parametric primitives without children whose `process` looks the cache up
with `GEOM_DISCRETIZER_CHECK_CACHE`. -/
inductive LeafKind
  | asymmetricHull | bezierCurve | box | cone
  | cylinder (solid : Bool) | frustum (solid : Bool)
  | nurbsCurve | paraboloid | swung | pointSet2D
deriving DecidableEq, Repr

/-- Class of the object the kernel of a leaf primitive allocates. -/
def LeafKind.cls : LeafKind → ExplicitKind
  | .asymmetricHull => .triangleSet
  | .bezierCurve => .polyline
  | .box => .quadSet
  | .cone => .triangleSet
  | .cylinder solid => if solid then .faceSet else .quadSet
  | .frustum solid => if solid then .faceSet else .quadSet
  | .nurbsCurve => .polyline
  | .paraboloid => .triangleSet
  | .swung => .triangleSet
  | .pointSet2D => .pointSet

/-- Parametric primitives without children whose `process` looks the cache up
with `GEOM_DISCRETIZER_CHECK_CACHE_WITH_TEX` and stores the built mesh. -/
inductive TexLeafKind
  | bezierPatch | elevationGrid | sphere | disc
deriving DecidableEq, Repr

/-- Class of the mesh the kernel of such a primitive allocates. -/
def TexLeafKind.cls : TexLeafKind → ExplicitKind
  | .bezierPatch => .quadSet
  | .elevationGrid => .triangleSet
  | .sphere => .triangleSet
  | .disc => .triangleSet

/-- Transformed nodes whose `process` is `GEOM_DISCRETIZER_TRANSFORM`. -/
inductive TransformedKind
  | axisRotated | eulerRotated | oriented | scaled | translated
deriving DecidableEq, Repr

/-- Nodes for which `process` produces no geometry. `Text` is a geometry and is
a constructor of `Geometry` below. -/
inductive NonGeometricKind
  | material | imageTexture | monoSpectral | multiSpectral | font
deriving DecidableEq, Repr

/-- Primitives: explicit models, parametric leaves, and the three swept
primitives whose profiles (`Curve2D`) are dispatched through the visitor. -/
inductive Primitive (α : Type)
  | explicit (id : Nat) (self : ExplicitModel α)
  | leaf (k : LeafKind) (info : NodeInfo)
  | texLeaf (k : TexLeafKind) (info : NodeInfo)
  | nurbsPatch (info : NodeInfo)
  | curve2D (c : Curve2D)
  | extrudedHull (info : NodeInfo) (horizontal vertical : Curve2D)
  | extrusion (info : NodeInfo) (solid : Bool) (crossSection : Curve2D)
  | revolution (info : NodeInfo) (profile : Curve2D)
deriving DecidableEq, Repr

/-- Geometry nodes. `τ` is the type of transformations. -/
inductive Geometry (α τ : Type)
  | primitive (p : Primitive α)
  | transformed (k : TransformedKind) (info : NodeInfo) (t : τ) (geometry : Geometry α τ)
  | tapered (info : NodeInfo) (t : τ) (primitive : Primitive α)
  | group (info : NodeInfo) (geometryList : List (Geometry α τ))
  | ifs (info : NodeInfo) (matrices : List τ) (geometry : Geometry α τ)
  | text (info : NodeInfo)

/-- Everything the visitor can be applied to. -/
inductive SceneObject (α τ : Type)
  | shape (geometry : Geometry α τ)
  | nonGeometric (k : NonGeometricKind) (info : NodeInfo)
  | geometry (g : Geometry α τ)

/-! ## External collaborators -/

/-- Operations of classes that are not part of the sources, taken as
parameters: the arrays a tessellation kernel writes for the node with a given
id (depending on the texcoord flag and on the arrays of its discretized
profiles); whether that kernel runs to completion for the node with a given
id, under a given texcoord flag and on given arrays of its profiles (it does
not when it takes a remainder by zero or writes outside an array, as the
kernels do for a sphere of one stack, for a cone that is not solid and for an
extruded hull whose vertical profile has two points);
`ExplicitModel::transform`; and the merge of two models by the Composer (`none`
when the two cannot be merged). -/
structure Extern (α τ : Type) where
  tessellate : Nat → Bool → List α → α
  kernelDefined : Nat → Bool → List α → Bool
  transform : τ → ExplicitModel α → ExplicitModel α
  merge : ExplicitModel α → ExplicitModel α → Option (ExplicitModel α)

/-! ## The Discretizer -/

/-- Modelled from the spec: class `Cache` is not part of the sources; it maps a
node id to the last stored pointer (`lookup`, `store`, `clear`). -/
abbrev Cache (α : Type) := List (Nat × Option (Ref α))

/-- The member `find` of the cache: `none` is `end()`. -/
def Cache.find {α : Type} (c : Cache α) (id : Nat) : Option (Option (Ref α)) :=
  match c with
  | [] => none
  | (k, v) :: rest => if k = id then some v else Cache.find rest id

/-- The member `insert` of the cache: store `p` under `id`. -/
def Cache.insert {α : Type} (c : Cache α) (id : Nat) (p : Option (Ref α)) : Cache α :=
  (id, p) :: c.filter (fun e => e.1 != id)

/-- State of a `Discretizer`: the free store, `__cache`, `__discretization`
and `__computeTexCoord`. -/
structure Discretizer (α : Type) where
  heap : List (ExplicitModel α)
  cache : Cache α
  discretization : Option (Ref α)
  computeTexCoord : Bool
deriving DecidableEq, Repr

/-- Constructor `Discretizer::Discretizer()`, for a given free store: empty
cache, null result, texcoord flag off. -/
def Discretizer.new {α : Type} (heap : List (ExplicitModel α)) : Discretizer α :=
  { heap := heap, cache := [], discretization := none, computeTexCoord := false }

/-- Member `Discretizer::clear()`. -/
def Discretizer.clear {α : Type} (d : Discretizer α) : Discretizer α :=
  { d with discretization := none, cache := [] }

/-- Member `Discretizer::getDiscretization()`. -/
def Discretizer.getDiscretization {α : Type} (d : Discretizer α) : Option (Ref α) :=
  d.discretization

/-- Modelled from the spec: the `compute_tex_coords` toggle of the dispatcher
surface (its setter is declared in discretizer.h, which is not part of the
sources). -/
def Discretizer.setComputeTexCoord {α : Type} (d : Discretizer α) (b : Bool) : Discretizer α :=
  { d with computeTexCoord := b }

/-- The object a pointer designates: a scene node carries its own model, an
allocated object is read from the free store; `none` for a dangling address. -/
def deref {α : Type} (heap : List (ExplicitModel α)) : Ref α → Option (ExplicitModel α)
  | .node _ self => some self
  | .alloc a => heap[a]?

/-- Operator `new`: the object is appended to the free store. -/
def alloc {α : Type} (heap : List (ExplicitModel α)) (m : ExplicitModel α) :
    List (ExplicitModel α) × Ref α :=
  (heap ++ [m], .alloc heap.length)

/-- Statement `__discretization = ExplicitModelPtr(new ...)`. -/
def newModel {α : Type} (d : Discretizer α) (m : ExplicitModel α) : Discretizer α :=
  { d with heap := d.heap ++ [m], discretization := some (.alloc d.heap.length) }

/-- Member `setName` called through a pointer: it changes the object in place. -/
def setName {α : Type} (heap : List (ExplicitModel α)) (r : Ref α) (name : String) :
    List (ExplicitModel α) × Ref α :=
  match r with
  | .node id self => (heap, .node id { self with name := name })
  | .alloc a => (heap.modify (fun m => { m with name := name }) a, .alloc a)

/-- How the expansion of a macro ends: undefined behaviour, a `return` from the
enclosing member function, or falling through to the next statement. -/
inductive Flow (σ : Type)
  | fault
  | ret (b : Bool) (s : σ)
  | go (s : σ)

/-- Macro `GEOM_DISCRETIZER_CHECK_CACHE`. -/
def checkCache {α : Type} (info : NodeInfo) (d : Discretizer α) : Flow (Discretizer α) :=
  if info.isNamed then
    match d.cache.find info.id with
    | some p =>
      match p with
      | some r => .ret true { d with discretization := some r }
      | none => .go { d with discretization := none }
    | none => .go d
  else .go { d with discretization := none }

/-- Expression `MeshPtr::Cast(p)->hasTexCoordList()`: the cast yields null for a
null pointer and for an object that is not a mesh, and the call through null is
undefined (`none`). -/
def castHasTexCoordList {α : Type} (heap : List (ExplicitModel α)) (p : Option (Ref α)) :
    Option Bool :=
  match p with
  | none => none
  | some r =>
    match deref heap r with
    | none => none
    | some m => if m.cls.isMesh then some m.hasTexCoordList else none

/-- Macro `GEOM_DISCRETIZER_CHECK_CACHE_WITH_TEX`. -/
def checkCacheWithTex {α : Type} (info : NodeInfo) (d : Discretizer α) :
    Flow (Discretizer α) :=
  if info.isNamed then
    match d.cache.find info.id with
    | some p =>
      match castHasTexCoordList d.heap p with
      | none => .fault
      | some true =>
        match p with
        | some r => .ret true { d with discretization := some r }
        | none => .go { d with discretization := none }
      | some false => .go d
    | none => .go d
  else .go { d with discretization := none }

/-- Macro `GEOM_DISCRETIZER_UPDATE_CACHE`. -/
def updateCache {α : Type} (info : NodeInfo) (d : Discretizer α) : Discretizer α :=
  if info.isNamed then
    match d.discretization with
    | some r =>
      let hr := setName d.heap r info.name
      { d with heap := hr.1, discretization := some hr.2,
               cache := d.cache.insert info.id (some hr.2) }
    | none => { d with cache := d.cache.insert info.id none }
  else d

/-! ## Primitives -/

/-- Members `process` of `AmapSymbol`, `FaceSet`, `PointSet`, `Polyline`,
`QuadSet` and `TriangleSet`: the result is the node itself. -/
def processExplicit {α : Type} (id : Nat) (self : ExplicitModel α) (d : Discretizer α) :
    Option (Bool × Discretizer α) :=
  some (true, { d with discretization := some (.node id self) })

/-- Members `process` of `Material`, `ImageTexture`, `MonoSpectral`,
`MultiSpectral`, `Text` and `Font`. -/
def processNothing {α : Type} (d : Discretizer α) : Option (Bool × Discretizer α) :=
  some (false, { d with discretization := none })

/-- Members `process` of the leaf primitives looked up with
`GEOM_DISCRETIZER_CHECK_CACHE`: the kernel allocates one object without
texcoords, which is stored when the node is named; the call is undefined when the
kernel is. -/
def processLeaf {α τ : Type} (E : Extern α τ) (k : LeafKind) (info : NodeInfo)
    (d : Discretizer α) : Option (Bool × Discretizer α) :=
  match checkCache info d with
  | .fault => none
  | .ret b d1 => some (b, d1)
  | .go d1 =>
    if E.kernelDefined info.id false [] then
      some (true, updateCache info (newModel d1
        { cls := k.cls, hasPointList := true, hasTexCoordList := false, name := "",
          arrays := E.tessellate info.id false [] }))
    else none

/-- Members `process` of `BezierPatch`, `ElevationGrid`, `Sphere` and `Disc`:
the mesh gets a texcoord list exactly when `__computeTexCoord` is set; the call
is undefined when the kernel is. -/
def processTexLeaf {α τ : Type} (E : Extern α τ) (k : TexLeafKind) (info : NodeInfo)
    (d : Discretizer α) : Option (Bool × Discretizer α) :=
  match checkCacheWithTex info d with
  | .fault => none
  | .ret b d1 => some (b, d1)
  | .go d1 =>
    if E.kernelDefined info.id d1.computeTexCoord [] then
      some (true, updateCache info (newModel d1
        { cls := k.cls, hasPointList := true, hasTexCoordList := d1.computeTexCoord,
          name := "", arrays := E.tessellate info.id d1.computeTexCoord [] }))
    else none

/-- Member `process(NurbsPatch*)`: the quad set `q` is allocated, then
`__discretization` is set to the null pointer, the cache is updated and `true`
is returned. -/
def processNurbsPatch {α τ : Type} (E : Extern α τ) (info : NodeInfo)
    (d : Discretizer α) : Option (Bool × Discretizer α) :=
  match checkCacheWithTex info d with
  | .fault => none
  | .ret b d1 => some (b, d1)
  | .go d1 =>
    let q : ExplicitModel α :=
      { cls := .quadSet, hasPointList := true, hasTexCoordList := d1.computeTexCoord,
        name := "", arrays := E.tessellate info.id d1.computeTexCoord [] }
    some (true, updateCache info
      { d1 with heap := d1.heap ++ [q], discretization := none })

/-- Members `process` of `BezierCurve2D`, `NurbsCurve2D` and `Polyline2D`: a
polyline is allocated. -/
def processCurve2D {α τ : Type} (E : Extern α τ) (c : Curve2D)
    (d : Discretizer α) : Option (Bool × Discretizer α) :=
  match checkCache c.info d with
  | .fault => none
  | .ret b d1 => some (b, d1)
  | .go d1 =>
    some (true, updateCache c.info (newModel d1
      { cls := .polyline, hasPointList := true, hasTexCoordList := false, name := "",
        arrays := E.tessellate c.info.id false [] }))

/-- Discretization of a profile in `ExtrudedHull` and `Revolution`: when the
visitor fails on the curve, a second, fresh Discretizer is tried; when that
fails too the member returns `false`, otherwise its result is taken over. -/
def applyProfile {α τ : Type} (E : Extern α τ) (c : Curve2D) (d : Discretizer α) :
    Flow (Discretizer α) :=
  match processCurve2D E c d with
  | none => .fault
  | some (true, d1) => .go d1
  | some (false, d1) =>
    match processCurve2D E c (Discretizer.new d1.heap) with
    | none => .fault
    | some (false, second) => .ret false { d1 with heap := second.heap }
    | some (true, second) =>
      .go { d1 with heap := second.heap, discretization := second.getDiscretization }

/-- Expression `__discretization->getPointList()`: undefined (`none`) through a
null or dangling pointer, `some none` for a null point list. -/
def getPointList {α : Type} (d : Discretizer α) : Option (Option α) :=
  match d.discretization with
  | none => none
  | some r =>
    match deref d.heap r with
    | none => none
    | some m => some (if m.hasPointList then some m.arrays else none)

/-- Member `process(ExtrudedHull*)`; the call is undefined when the kernel is
on the two discretized profiles. -/
def processExtrudedHull {α τ : Type} (E : Extern α τ) (info : NodeInfo)
    (horizontal vertical : Curve2D) (d : Discretizer α) : Option (Bool × Discretizer α) :=
  match checkCache info d with
  | .fault => none
  | .ret b d1 => some (b, d1)
  | .go d1 =>
    match applyProfile E horizontal d1 with
    | .fault => none
    | .ret b d2 => some (b, d2)
    | .go d2 =>
      match getPointList d2 with
      | none => none
      | some none => some (false, d2)
      | some (some h) =>
        match applyProfile E vertical d2 with
        | .fault => none
        | .ret b d3 => some (b, d3)
        | .go d3 =>
          match getPointList d3 with
          | none => none
          | some none => some (false, d3)
          | some (some v) =>
            if E.kernelDefined info.id false [h, v] then
              some (true, updateCache info (newModel d3
                { cls := .triangleSet, hasPointList := true, hasTexCoordList := false,
                  name := "", arrays := E.tessellate info.id false [h, v] }))
            else none

/-- Member `process(Revolution*)`: the point list of the profile is read
without a null check; the call is undefined when the kernel is on the
discretized profile. -/
def processRevolution {α τ : Type} (E : Extern α τ) (info : NodeInfo)
    (profile : Curve2D) (d : Discretizer α) : Option (Bool × Discretizer α) :=
  match checkCache info d with
  | .fault => none
  | .ret b d1 => some (b, d1)
  | .go d1 =>
    match applyProfile E profile d1 with
    | .fault => none
    | .ret b d2 => some (b, d2)
    | .go d2 =>
      match getPointList d2 with
      | some (some c) =>
        if E.kernelDefined info.id false [c] then
          some (true, updateCache info (newModel d2
            { cls := .triangleSet, hasPointList := true, hasTexCoordList := false,
              name := "", arrays := E.tessellate info.id false [c] }))
        else none
      | _ => none

/-- Member `process(Extrusion*)`: the mesh is a face set when solid, a quad set
otherwise, and its texcoord list is `_texList`, allocated only when
`__computeTexCoord` is set; the call is undefined when the kernel is on the
discretized cross-section. -/
def processExtrusion {α τ : Type} (E : Extern α τ) (info : NodeInfo) (solid : Bool)
    (crossSection : Curve2D) (d : Discretizer α) : Option (Bool × Discretizer α) :=
  match checkCacheWithTex info d with
  | .fault => none
  | .ret b d1 => some (b, d1)
  | .go d1 =>
    match processCurve2D E crossSection d1 with
    | none => none
    | some (false, d2) => some (false, { d2 with discretization := none })
    | some (true, d2) =>
      match d2.discretization with
      | none => some (false, { d2 with discretization := none })
      | some _ =>
        match getPointList d2 with
        | some (some c) =>
          if E.kernelDefined info.id d2.computeTexCoord [c] then
            some (true, updateCache info (newModel d2
              { cls := if solid then .faceSet else .quadSet, hasPointList := true,
                hasTexCoordList := d2.computeTexCoord, name := "",
                arrays := E.tessellate info.id d2.computeTexCoord [c] }))
          else none
        | _ => none

/-- Dispatch of the visitor on a primitive (`primitive->apply(*this)`). -/
def processPrimitive {α τ : Type} (E : Extern α τ) (p : Primitive α) (d : Discretizer α) :
    Option (Bool × Discretizer α) :=
  match p with
  | .explicit id self => processExplicit id self d
  | .leaf k info => processLeaf E k info d
  | .texLeaf k info => processTexLeaf E k info d
  | .nurbsPatch info => processNurbsPatch E info d
  | .curve2D c => processCurve2D E c d
  | .extrudedHull info horizontal vertical => processExtrudedHull E info horizontal vertical d
  | .extrusion info solid crossSection => processExtrusion E info solid crossSection d
  | .revolution info profile => processRevolution E info profile d

/-! ## Composer, transformed nodes, groups and IFS -/

/-- Modelled from the spec: class `Merge` (merge.h) is not part of the sources.
The Composer holds the model built so far and the iso-model count it was told;
merging a model into it produces a single new model. -/
structure Merge (α : Type) where
  model : Ref α
  isoModel : Nat
deriving DecidableEq, Repr

/-- Modelled from the spec: `Merge::apply` on an explicit model, which is missing
from the sources: a null model is refused, otherwise the held model and the
given one are merged into a new object when the Composer can merge them. -/
def Merge.applyModel {α τ : Type} (E : Extern α τ) (heap : List (ExplicitModel α))
    (fusion : Merge α) (p : Option (Ref α)) :
    Option (Bool × List (ExplicitModel α) × Merge α) :=
  match p with
  | none => some (false, heap, fusion)
  | some r =>
    match deref heap fusion.model, deref heap r with
    | some a, some b =>
      match E.merge a b with
      | none => some (false, heap, fusion)
      | some m => some (true, heap ++ [m], { fusion with model := .alloc heap.length })
    | _, _ => none

/-- Whether a pointer designates the given geometry node itself (the test
`__discretization == _geometryList->getBegin()->toPtr()`). -/
def Geometry.isPtr {α τ : Type} : Geometry α τ → Ref α → Bool
  | .primitive (.explicit id _), .node id2 _ => id == id2
  | _, _ => false

/-- The `basegeom` of a group: a deep copy of the result of the first child when
that result is the child itself, the result otherwise. -/
def baseGeom {α τ : Type} (first : Geometry α τ) (heap : List (ExplicitModel α))
    (r : Ref α) : List (ExplicitModel α) × Ref α :=
  match r with
  | .node id self => if first.isPtr (.node id self) then alloc heap self else (heap, r)
  | .alloc a => (heap, .alloc a)

/-- The loop of `process(IFS*)` over the matrices after the first: each one
transforms the model `__discretization` points to, and the copy is merged. The
result is `some (none, _)` when a merge is refused. -/
def ifsLoop {α τ : Type} (E : Extern α τ) (r : Ref α) :
    List τ → Merge α → List (ExplicitModel α) →
    Option (Option (Merge α) × List (ExplicitModel α))
  | [], fusion, heap => some (some fusion, heap)
  | m :: rest, fusion, heap =>
    match deref heap r with
    | none => none
    | some base =>
      let tmpD := alloc heap (E.transform m base)
      match Merge.applyModel E tmpD.1 fusion (some tmpD.2) with
      | none => none
      | some (false, heap2, _) => some (none, heap2)
      | some (true, heap2, fusion2) => ifsLoop E r rest fusion2 heap2

mutual
/-- Dispatch of the visitor on a geometry (`geometry->apply(*this)`): the
members `process` of the transformed nodes (`GEOM_DISCRETIZER_TRANSFORM`), of
`Tapered`, `Group`, `IFS` and `Text`, and of the primitives. -/
def process {α τ : Type} (E : Extern α τ) :
    Geometry α τ → Discretizer α → Option (Bool × Discretizer α)
  | .primitive p, d => processPrimitive E p d
  | .text _, d => processNothing d
  | .transformed _ info t geometry, d =>
    match checkCache info d with
    | .fault => none
    | .ret b d1 => some (b, d1)
    | .go d1 =>
      match process E geometry d1 with
      | none => none
      | some (b, d2) =>
        match b, d2.discretization with
        | true, some r =>
          match deref d2.heap r with
          | none => none
          | some m => some (true, updateCache info (newModel d2 (E.transform t m)))
        | _, _ => some (false, { d2 with discretization := none })
  | .tapered info t primitive, d =>
    match checkCache info d with
    | .fault => none
    | .ret b d1 => some (b, d1)
    | .go d1 =>
      match processPrimitive E primitive d1 with
      | none => none
      | some (false, d2) => some (false, { d2 with discretization := none })
      | some (true, d2) =>
        match d2.discretization with
        | none => none
        | some r =>
          match deref d2.heap r with
          | none => none
          | some m => some (true, updateCache info (newModel d2 (E.transform t m)))
  | .group info geometryList, d =>
    match checkCache info d with
    | .fault => none
    | .ret b d1 => some (b, d1)
    | .go d1 =>
      match geometryList with
      | [] => none
      | first :: rest =>
        match process E first d1 with
        | none => none
        | some (_, d2) =>
          match d2.discretization with
          | none => some (false, updateCache info d2)
          | some r =>
            let basegeom := baseGeom first d2.heap r
            match mergeList E rest { model := basegeom.2, isoModel := 0 }
                { d2 with heap := basegeom.1 } with
            | none => none
            | some (none, d3) =>
              some (false, updateCache info { d3 with discretization := none })
            | some (some fusion, d3) =>
              some (true, updateCache info { d3 with discretization := some fusion.model })
  | .ifs info matrices geometry, d =>
    match checkCache info d with
    | .fault => none
    | .ret b d1 => some (b, d1)
    | .go d1 =>
      match process E geometry d1 with
      | none => none
      | some (false, d2) => some (false, { d2 with discretization := none })
      | some (true, d2) =>
        match matrices with
        | [] => none
        | matrix :: rest =>
          match d2.discretization with
          | none => none
          | some r =>
            match deref d2.heap r with
            | none => none
            | some base =>
              let bigD := alloc d2.heap (E.transform matrix base)
              match ifsLoop E r rest { model := bigD.2, isoModel := matrices.length }
                  bigD.1 with
              | none => none
              | some (none, heap3) =>
                some (false, { d2 with heap := heap3, discretization := none })
              | some (some fusion, heap3) =>
                some (true, updateCache info
                  { d2 with heap := heap3, discretization := some fusion.model })
/-- Modelled from the spec: the loop of `process(Group*)` over the children
after the first, with `Merge::apply` on a geometry, which is missing from the
sources: the child is dispatched through the Discretizer the Composer was
built on and, when that succeeds, its result is merged. The result is
`some (none, _)` when a child fails or a merge is refused. -/
def mergeList {α τ : Type} (E : Extern α τ) :
    List (Geometry α τ) → Merge α → Discretizer α →
    Option (Option (Merge α) × Discretizer α)
  | [], fusion, d => some (some fusion, d)
  | geom2 :: rest, fusion, d =>
    match process E geom2 d with
    | none => none
    | some (false, d1) => some (none, d1)
    | some (true, d1) =>
      match Merge.applyModel E d1.heap fusion d1.discretization with
      | none => none
      | some (false, heap2, _) => some (none, { d1 with heap := heap2 })
      | some (true, heap2, fusion2) => mergeList E rest fusion2 { d1 with heap := heap2 }
end

/-- Member `process(Shape*)` and the other entry points of the visitor. -/
def processSceneObject {α τ : Type} (E : Extern α τ) (o : SceneObject α τ)
    (d : Discretizer α) : Option (Bool × Discretizer α) :=
  match o with
  | .shape geometry => process E geometry d
  | .nonGeometric _ _ => processNothing d
  | .geometry g => process E g d

/-! ## A concrete instance -/

/-- A concrete instance of the external operations, on which the embedding can
be evaluated: arrays are lists of numbers; a kernel writes the id of its node,
the texcoord flag and the arrays of its profiles, and runs to completion on
every node; a transformation is a number put in front; merging concatenates and
keeps texcoords when both models carry them. -/
def sampleExtern : Extern (List Nat) Nat :=
  { tessellate := fun id tex profiles => id :: (if tex then 1 else 0) :: profiles.flatten,
    kernelDefined := fun _ _ _ => true,
    transform := fun t m => { m with arrays := t :: m.arrays },
    merge := fun a b =>
      some { a with arrays := a.arrays ++ b.arrays,
                    hasTexCoordList := a.hasTexCoordList && b.hasTexCoordList } }

/-! ## Predicates used in the statements -/

/-- The identity of a parametric primitive without children (`none` for the
explicit models and for the primitives that dispatch a profile). -/
def Primitive.leafInfo {α : Type} : Primitive α → Option NodeInfo
  | .leaf _ info => some info
  | .texLeaf _ info => some info
  | .nurbsPatch info => some info
  | .curve2D c => some c.info
  | _ => none

/-- The id of a primitive that is a named `NurbsPatch`. -/
def Primitive.nullStoreIds {α : Type} : Primitive α → List Nat
  | .nurbsPatch info => if info.isNamed then [info.id] else []
  | _ => []

mutual
/-- The ids of the named `Group` and of the named `NurbsPatch` nodes of a
geometry. -/
def Geometry.nullStoreIds {α τ : Type} : Geometry α τ → List Nat
  | .primitive p => p.nullStoreIds
  | .transformed _ _ _ geometry => geometry.nullStoreIds
  | .tapered _ _ primitive => primitive.nullStoreIds
  | .group info geometryList =>
    (if info.isNamed then [info.id] else []) ++ listNullStoreIds geometryList
  | .ifs _ _ geometry => geometry.nullStoreIds
  | .text _ => []
/-- The ids of the named `Group` and of the named `NurbsPatch` nodes of a list
of geometries. -/
def listNullStoreIds {α τ : Type} : List (Geometry α τ) → List Nat
  | [] => []
  | g :: rest => g.nullStoreIds ++ listNullStoreIds rest
end

/-- Every null entry of the cache `c` is a null entry of `c0` or is stored
under one of the ids of `ids`. -/
def Cache.nullsFrom {α : Type} (c c0 : Cache α) (ids : List Nat) : Prop :=
  ∀ k : Nat, c.find k = some none → c0.find k = some none ∨ k ∈ ids

/-- States of a Discretizer reached from a new one by calls of `process` on any
geometries, by `clear` and by changes of the texcoord flag, together with the
ids of the named `Group` and named `NurbsPatch` nodes of the geometries
processed. -/
inductive ReachableWith {α τ : Type} (E : Extern α τ) : List Nat → Discretizer α → Prop
  | init (heap : List (ExplicitModel α)) : ReachableWith E [] (Discretizer.new heap)
  | step (g : Geometry α τ) (ids : List Nat) (d d1 : Discretizer α) (b : Bool) :
      ReachableWith E ids d → process E g d = some (b, d1) →
      ReachableWith E (g.nullStoreIds ++ ids) d1
  | cleared (ids : List Nat) (d : Discretizer α) :
      ReachableWith E ids d → ReachableWith E ids d.clear
  | toggled (ids : List Nat) (d : Discretizer α) (b : Bool) :
      ReachableWith E ids d → ReachableWith E ids (d.setComputeTexCoord b)

/-! ## Machine arithmetic, reals and arrays of the kernels -/

/-- The value of an expression of type `uint32_t`: the result modulo 2^32. -/
def u32 (n : Nat) : Nat := n % 4294967296

/-- Subtraction of two `uint32_t` values. -/
def sub32 (a b : Nat) : Nat := (a + (4294967296 - b % 4294967296)) % 4294967296

/-- The operations on `real_t` used by the kernels and the constants `GEOM_PI`,
`GEOM_HALF_PI` and `GEOM_TWO_PI` (macros of util_math.h, which is not part of
the sources), taken as parameters: floating-point values are not computed. -/
structure RealOps (R : Type) where
  ofNat : Nat → R
  add : R → R → R
  sub : R → R → R
  mul : R → R → R
  div : R → R → R
  neg : R → R
  cos : R → R
  sin : R → R
  pi : R
  halfPi : R
  twoPi : R

/-- Modelled from the spec: class `Vector3` is not part of the sources; a 3D
point is its three coordinates. -/
structure Vector3 (R : Type) where
  x : R
  y : R
  z : R
deriving DecidableEq, Repr

/-- Modelled from the spec: product of a vector by a scalar (`Vector3 * real_t`),
taken coordinate by coordinate. -/
def Vector3.scale {R : Type} (ops : RealOps R) (v : Vector3 R) (s : R) : Vector3 R :=
  { x := ops.mul v.x s, y := ops.mul v.y s, z := ops.mul v.z s }

/-- Modelled from the spec: class `Index3` is not part of the sources; a
triangle is its three point indices, in the order of the constructor. -/
structure Index3 where
  i0 : Nat
  i1 : Nat
  i2 : Nat
deriving DecidableEq, Repr

/-- The indices of a triangle, in order. -/
def Index3.toList (t : Index3) : List Nat := [t.i0, t.i1, t.i2]

/-- Modelled from the spec: class `Index4` is not part of the sources; a quad is
its four point indices, in the order of the constructor. -/
structure Index4 where
  i0 : Nat
  i1 : Nat
  i2 : Nat
  i3 : Nat
deriving DecidableEq, Repr

/-- The indices of a quad, in order. -/
def Index4.toList (q : Index4) : List Nat := [q.i0, q.i1, q.i2, q.i3]

/-- Modelled from the spec: class `Index` is not part of the sources; a face of
any arity is the list of its point indices (`Index(n)` followed by `n` calls of
`setAt` at 0, ..., `n - 1` is the list of the values set). -/
abbrev Index := List Nat

/-- Modelled from the spec: the array classes (`Point3Array`, `Index3Array`,
`Index4Array`, `IndexArray`) are not part of the sources. An array while a
kernel fills it is the size given to its constructor and the calls of `setAt`
(position, value) in program order; an array of size `n` has the slots 0, ...,
`n - 1`. -/
structure Buffer (β : Type) where
  size : Nat
  writes : List (Nat × β)
deriving DecidableEq, Repr

/-- Constructor of an array of a given size. -/
def Buffer.new {β : Type} (size : Nat) : Buffer β := { size := size, writes := [] }

/-- Member `setAt(i, v)`. -/
def Buffer.setAt {β : Type} (b : Buffer β) (i : Nat) (v : β) : Buffer β :=
  { b with writes := b.writes ++ [(i, v)] }

/-- The positions written, in program order. -/
def Buffer.positions {β : Type} (b : Buffer β) : List Nat := b.writes.map Prod.fst

/-- The values written, in program order. -/
def Buffer.values {β : Type} (b : Buffer β) : List β := b.writes.map Prod.snd

/-- Whether every call of `setAt` was made at a position inside the array. -/
def Buffer.inBounds {β : Type} (b : Buffer β) : Bool := b.positions.all (fun i => i < b.size)

/-- The content of the array once filled, slots never written holding the
default value; undefined (`none`) when a write fell outside the array. -/
def Buffer.toList {β : Type} (b : Buffer β) (dflt : β) : Option (List β) :=
  if b.inBounds then
    some (b.writes.foldl (fun l w => l.set w.1 w.2) (List.replicate b.size dflt))
  else none

/-- A loop `for (i = start; i < start + count; ++i) body`, undefined as soon as
an iteration is. -/
def forLoop {σ : Type} (body : Nat → σ → Option σ) : Nat → Nat → σ → Option σ
  | _, 0, s => some s
  | start, count + 1, s =>
    match body start s with
    | none => none
    | some s1 => forLoop body (start + 1) count s1

/-! ## Kernel of the cone -/

/-- Local variables of `process(Cone*)` that change in the loop, and the two
arrays. -/
structure ConeState (R : Type) where
  cur : Nat
  next : Nat
  pointsCount : Nat
  facesCount : Nat
  pointList : Buffer (Vector3 R)
  indexList : Buffer Index3
deriving DecidableEq, Repr

/-- Body of the loop over the slices of `process(Cone*)`. -/
def coneBody {R : Type} (ops : RealOps R) (radius angleStep : R) (solid : Bool)
    (slices base top : Nat) (i : Nat) (s : ConeState R) : Option (ConeState R) :=
  let x := ops.mul (ops.cos (ops.mul (ops.ofNat i) angleStep)) radius
  let y := ops.mul (ops.sin (ops.mul (ops.ofNat i) angleStep)) radius
  let pointList := s.pointList.setAt s.pointsCount { x := x, y := y, z := ops.ofNat 0 }
  let pointsCount := u32 (s.pointsCount + 1)
  let indexList := s.indexList.setAt s.facesCount { i0 := s.cur, i1 := s.next, i2 := top }
  let facesCount := u32 (s.facesCount + 1)
  let indexList2 :=
    if solid then indexList.setAt facesCount { i0 := s.cur, i1 := base, i2 := s.next }
    else indexList
  let facesCount2 := if solid then u32 (facesCount + 1) else facesCount
  if slices = 0 then none
  else some
    { cur := s.next, next := u32 (s.next + 1) % slices,
      pointsCount := pointsCount, facesCount := facesCount2,
      pointList := pointList, indexList := indexList2 }

/-- The arrays built by `process(Cone*)` between the lookup and the update of
the cache, for a cone of the given radius, height, solid flag and number of
slices (a `uint32_t`). -/
def coneKernel {R : Type} (ops : RealOps R) (radius height : R) (solid : Bool)
    (slices : Nat) : Option (ConeState R) :=
  let offset := if solid then 1 else 0
  let pointList : Buffer (Vector3 R) := Buffer.new (u32 (u32 (slices + 1) + offset))
  let indexList : Buffer Index3 := Buffer.new (u32 (slices * u32 (1 + offset)))
  let base := slices
  let top := u32 (base + 1)
  let angleStep := ops.div ops.twoPi (ops.ofNat slices)
  let pointList1 := pointList.setAt top { x := ops.ofNat 0, y := ops.ofNat 0, z := height }
  forLoop (coneBody ops radius angleStep solid slices base top) 0 slices
    { cur := 0, next := 1, pointsCount := 0, facesCount := 0,
      pointList := pointList1, indexList := indexList }

/-- The value of `_next` in slice `i` of the cone: 1 in the first slice, then
the following ring index, the last slice closing on 0. -/
def coneNext (slices i : Nat) : Nat := if i = 0 then 1 else (i + 1) % slices

/-- The triangles slice `i` of a cone contributes: the side triangle, ending
with the index `slices + 1` used for the apex, and, when solid, the base
triangle, whose middle index is `slices`. -/
def coneFaces (solid : Bool) (slices i : Nat) : List Index3 :=
  { i0 := i, i1 := coneNext slices i, i2 := slices + 1 } ::
    (if solid then [{ i0 := i, i1 := slices, i2 := coneNext slices i }] else [])

/-! ## Kernel of the cylinder and of the frustum -/

/-- Local variables of `process(Cylinder*)` and `process(Frustum*)` that change
in the loop, and the arrays: `_indexList` is allocated only when solid,
`_index4List` only when not (`none` is the null pointer). -/
structure CylinderState (R : Type) where
  cur : Nat
  next : Nat
  pointsCount : Nat
  facesCount : Nat
  pointList : Buffer (Vector3 R)
  indexList : Option (Buffer Index)
  index4List : Option (Buffer Index4)
deriving DecidableEq, Repr

/-- Body of the loop over the slices of `process(Cylinder*)` and
`process(Frustum*)`, which differ only in the point of the upper ring
(`upper x y`). A call of `setAt` through a null pointer and a remainder by zero
are undefined. -/
def cylinderBody {R : Type} (ops : RealOps R) (radius angleStep : R)
    (upper : R → R → Vector3 R) (solid : Bool) (slices base top : Nat) (i : Nat)
    (s : CylinderState R) : Option (CylinderState R) :=
  let x := ops.mul (ops.cos (ops.mul (ops.ofNat i) angleStep)) radius
  let y := ops.mul (ops.sin (ops.mul (ops.ofNat i) angleStep)) radius
  let pointList1 := s.pointList.setAt s.pointsCount { x := x, y := y, z := ops.ofNat 0 }
  let pointsCount1 := u32 (s.pointsCount + 1)
  let pointList2 := pointList1.setAt pointsCount1 (upper x y)
  let pointsCount2 := u32 (pointsCount1 + 1)
  let faces : Option (Nat × Option (Buffer Index) × Option (Buffer Index4)) :=
    if solid then
      match s.indexList with
      | none => none
      | some l =>
        let l1 := l.setAt s.facesCount [s.cur, s.next, u32 (s.next + 1), u32 (s.cur + 1)]
        let f1 := u32 (s.facesCount + 1)
        let l2 := l1.setAt f1 [u32 (s.cur + 1), u32 (s.next + 1), top]
        let f2 := u32 (f1 + 1)
        let l3 := l2.setAt f2 [s.cur, base, s.next]
        some (u32 (f2 + 1), some l3, s.index4List)
    else
      match s.index4List with
      | none => none
      | some l =>
        some (u32 (s.facesCount + 1), s.indexList,
          some (l.setAt s.facesCount
            { i0 := s.cur, i1 := s.next, i2 := u32 (s.next + 1), i3 := u32 (s.cur + 1) }))
  match faces with
  | none => none
  | some (facesCount, indexList, index4List) =>
    if u32 (2 * slices) = 0 then none
    else some
      { cur := s.next, next := u32 (s.next + 2) % u32 (2 * slices),
        pointsCount := pointsCount2, facesCount := facesCount,
        pointList := pointList2, indexList := indexList, index4List := index4List }

/-- The part common to `process(Cylinder*)` and `process(Frustum*)`: the arrays
built for the given radius, height, solid flag and number of slices (a
`uint32_t`), `upper x y` being the point of the upper ring above `(x, y, 0)`. -/
def ringsKernel {R : Type} (ops : RealOps R) (radius height : R)
    (upper : R → R → Vector3 R) (solid : Bool) (slices : Nat) : Option (CylinderState R) :=
  let offset := if solid then 2 else 0
  let pointList : Buffer (Vector3 R) := Buffer.new (u32 (u32 (slices * 2) + offset))
  let indexList : Option (Buffer Index) :=
    if solid then some (Buffer.new (u32 (slices * 3))) else none
  let index4List : Option (Buffer Index4) :=
    if solid then none else some (Buffer.new slices)
  let base := u32 (2 * slices)
  let top := u32 (base + 1)
  let angleStep := ops.div ops.twoPi (ops.ofNat slices)
  let pointList1 :=
    if solid then pointList.setAt top { x := ops.ofNat 0, y := ops.ofNat 0, z := height }
    else pointList
  forLoop (cylinderBody ops radius angleStep upper solid slices base top) 0 slices
    { cur := 0, next := 2, pointsCount := 0, facesCount := 0,
      pointList := pointList1, indexList := indexList, index4List := index4List }

/-- The arrays built by `process(Cylinder*)`: the upper ring is the lower ring
lifted to the height. -/
def cylinderKernel {R : Type} (ops : RealOps R) (radius height : R) (solid : Bool)
    (slices : Nat) : Option (CylinderState R) :=
  ringsKernel ops radius height (fun x y => { x := x, y := y, z := height }) solid slices

/-- The arrays built by `process(Frustum*)`: the upper ring is the lower ring
scaled by the taper and lifted to the height. -/
def frustumKernel {R : Type} (ops : RealOps R) (radius height taper : R) (solid : Bool)
    (slices : Nat) : Option (CylinderState R) :=
  ringsKernel ops radius height
    (fun x y => { x := ops.mul x taper, y := ops.mul y taper, z := height }) solid slices

/-- The value of `_next` in slice `i` of a cylinder or frustum: 2 in the first
slice, then the lower ring point of the following slice, the last slice
closing on 0. -/
def cylinderNext (slices i : Nat) : Nat := if i = 0 then 2 else 2 * ((i + 1) % slices)

/-- The faces slice `i` of a solid cylinder or frustum contributes: the side
quad, the top triangle (ending with the top centre `2 * slices + 1`) and the
bottom triangle (through the base centre `2 * slices`). -/
def cylinderFaces (slices i : Nat) : List Index :=
  [[2 * i, cylinderNext slices i, cylinderNext slices i + 1, 2 * i + 1],
   [2 * i + 1, cylinderNext slices i + 1, 2 * slices + 1],
   [2 * i, 2 * slices, cylinderNext slices i]]

/-- The side quad slice `i` of a cylinder or frustum that is not solid
contributes. -/
def cylinderQuad (slices i : Nat) : Index4 :=
  { i0 := 2 * i, i1 := cylinderNext slices i, i2 := cylinderNext slices i + 1, i3 := 2 * i + 1 }

/-! ## Kernel of the sphere -/

/-- Local variables of `process(Sphere*)` that change in the loops, and the two
arrays. -/
structure SphereState (R : Type) where
  cur : Nat
  next : Nat
  pointCount : Nat
  indexCount : Nat
  el : R
  pointList : Buffer (Vector3 R)
  indexList : Buffer Index3
deriving DecidableEq, Repr

/-- Body of the inner loop of `process(Sphere*)`, over the rings `_j` of a
slice. -/
def sphereRingBody {R : Type} (ops : RealOps R) (radius elStep cosAz sinAz : R) (j : Nat)
    (s : SphereState R) : Option (SphereState R) :=
  let el := ops.add s.el elStep
  let cosEl := ops.cos el
  let p : Vector3 R :=
    Vector3.scale ops { x := ops.mul cosAz cosEl, y := ops.mul sinAz cosEl, z := ops.sin el }
      radius
  let pointList := s.pointList.setAt s.pointCount p
  let pointCount := u32 (s.pointCount + 1)
  let indexList1 := s.indexList.setAt s.indexCount
    { i0 := u32 (s.cur + j), i1 := sub32 (u32 (s.cur + j)) 1,
      i2 := sub32 (u32 (s.next + j)) 1 }
  let indexCount1 := u32 (s.indexCount + 1)
  let indexList2 := indexList1.setAt indexCount1
    { i0 := u32 (s.cur + j), i1 := sub32 (u32 (s.next + j)) 1, i2 := u32 (s.next + j) }
  some { s with el := el, pointList := pointList, pointCount := pointCount,
                indexList := indexList2, indexCount := u32 (indexCount1 + 1) }

/-- Body of the outer loop of `process(Sphere*)`, over the slices `_i`; the
remainder by `_ringCount * _slices` is undefined when that product is zero. -/
def sphereSliceBody {R : Type} (ops : RealOps R) (radius azStep elStep : R)
    (slices ringCount bot top : Nat) (i : Nat) (s : SphereState R) :
    Option (SphereState R) :=
  let az := ops.mul (ops.ofNat i) azStep
  let el := ops.add (ops.neg ops.halfPi) elStep
  let cosAz := ops.cos az
  let sinAz := ops.sin az
  let cosEl := ops.cos el
  let p : Vector3 R :=
    Vector3.scale ops { x := ops.mul cosAz cosEl, y := ops.mul sinAz cosEl, z := ops.sin el }
      radius
  let pointList := s.pointList.setAt s.pointCount p
  let pointCount := u32 (s.pointCount + 1)
  let indexList1 := s.indexList.setAt s.indexCount { i0 := s.cur, i1 := bot, i2 := s.next }
  let indexCount1 := u32 (s.indexCount + 1)
  let indexList2 := indexList1.setAt indexCount1
    { i0 := sub32 (u32 (s.cur + ringCount)) 1, i1 := sub32 (u32 (s.next + ringCount)) 1,
      i2 := top }
  let indexCount2 := u32 (indexCount1 + 1)
  match forLoop (sphereRingBody ops radius elStep cosAz sinAz) 1 (ringCount - 1)
      { s with el := el, pointList := pointList, pointCount := pointCount,
               indexList := indexList2, indexCount := indexCount2 } with
  | none => none
  | some s1 =>
    if u32 (ringCount * slices) = 0 then none
    else some { s1 with cur := s1.next,
                        next := u32 (s1.next + ringCount) % u32 (ringCount * slices) }

/-- The point and index arrays built by `process(Sphere*)` (up to its two
`GEOM_ASSERT`), for a sphere of the given radius, number of slices and number of stacks
(two `uchar_t`). -/
def sphereKernel {R : Type} (ops : RealOps R) (radius : R) (slices nbStacks : Nat) :
    Option (SphereState R) :=
  let ringCount := sub32 nbStacks 1
  let bot := u32 (slices * ringCount)
  let top := u32 (bot + 1)
  let pointList : Buffer (Vector3 R) := Buffer.new (u32 (top + 1))
  let indexList : Buffer Index3 := Buffer.new (u32 (slices * u32 (2 * ringCount)))
  let azStep := ops.div ops.twoPi (ops.ofNat slices)
  let elStep := ops.div ops.pi (ops.ofNat nbStacks)
  match forLoop (sphereSliceBody ops radius azStep elStep slices ringCount bot top) 0 slices
      { cur := 0, next := ringCount, pointCount := 0, indexCount := 0, el := ops.ofNat 0,
        pointList := pointList, indexList := indexList } with
  | none => none
  | some s =>
    let pointList1 := s.pointList.setAt s.pointCount
      { x := ops.ofNat 0, y := ops.ofNat 0, z := ops.neg radius }
    let pointCount1 := u32 (s.pointCount + 1)
    let pointList2 := pointList1.setAt pointCount1
      { x := ops.ofNat 0, y := ops.ofNat 0, z := radius }
    some { s with pointList := pointList2, pointCount := u32 (pointCount1 + 1) }

/-- Whether the three indices of a triangle are smaller than `n`. -/
def Index3.below (n : Nat) (t : Index3) : Bool := t.toList.all (fun i => i < n)

/-- Whether the four indices of a quad are smaller than `n`. -/
def Index4.below (n : Nat) (q : Index4) : Bool := q.toList.all (fun i => i < n)

/-! ## Symbolic reals -/

/-- Terms over the operations on reals: a concrete instance of `RealOps` on
which the kernels can be evaluated without computing floating-point values. -/
inductive RealTerm
  | ofNat (n : Nat)
  | var (name : String)
  | add (a b : RealTerm)
  | sub (a b : RealTerm)
  | mul (a b : RealTerm)
  | div (a b : RealTerm)
  | neg (a : RealTerm)
  | cos (a : RealTerm)
  | sin (a : RealTerm)
  | pi
  | halfPi
  | twoPi
deriving DecidableEq, Repr

/-- The operations on symbolic reals. -/
def symbolicReal : RealOps RealTerm :=
  { ofNat := .ofNat, add := .add, sub := .sub, mul := .mul, div := .div, neg := .neg,
    cos := .cos, sin := .sin, pi := .pi, halfPi := .halfPi, twoPi := .twoPi }

/-! ## Kernels of the Bezier and NURBS patches -/

/-- Local variables of `process(BezierPatch*)` and `process(NurbsPatch*)` that
change in the loops, and the two arrays. -/
structure PatchState (R : Type) where
  cur : Nat
  pointCount : Nat
  indexCount : Nat
  pointList : Buffer (Vector3 R)
  indexList : Buffer Index4
deriving DecidableEq, Repr

/-- Body of the inner loop (over `_v`) of the two patch kernels, `point v` being
the sample of the patch the kernel computes there. -/
def patchCellBody {R : Type} (point : Nat → Vector3 R) (uStride : Nat) (v : Nat)
    (s : PatchState R) : Option (PatchState R) :=
  some
    { cur := u32 (s.cur + 1),
      pointCount := u32 (s.pointCount + 1),
      indexCount := u32 (s.indexCount + 1),
      pointList := s.pointList.setAt s.pointCount (point v),
      indexList := s.indexList.setAt s.indexCount
        { i0 := s.cur, i1 := u32 (s.cur + 1), i2 := u32 (u32 (s.cur + uStride) + 1),
          i3 := u32 (s.cur + uStride) } }

/-- Body of the outer loop (over `_u`) of the two patch kernels: the inner loop,
then the last point of the row. -/
def patchRowBody {R : Type} (point : Nat → Nat → Vector3 R) (rowEnd : Nat → Vector3 R)
    (uStride vCount : Nat) (u : Nat) (s : PatchState R) : Option (PatchState R) :=
  match forLoop (patchCellBody (point u) uStride) 0 vCount s with
  | none => none
  | some s1 =>
    some { s1 with
      pointList := s1.pointList.setAt s1.pointCount (rowEnd u),
      pointCount := u32 (s1.pointCount + 1),
      cur := u32 (s1.cur + 1) }

/-- Body of the loop that samples the last row of a patch. -/
def patchLastRowBody {R : Type} (lastRow : Nat → Vector3 R) (v : Nat) (s : PatchState R) :
    Option (PatchState R) :=
  some { s with
    pointList := s.pointList.setAt s.pointCount (lastRow v),
    pointCount := u32 (s.pointCount + 1) }

/-- The part common to `process(BezierPatch*)` and `process(NurbsPatch*)`, which
differ in the parameters at which the patch is sampled (`point u v` in the
double loop, `rowEnd u` after each inner loop, `lastRow v` in the last loop,
`corner` at the end) and in the way the loop bounds `_uStride1`, `_vStride1` are
computed; `uCount` and `vCount` are the numbers of values 0, 1, 2, ... of the
`real_t` counters `_u`, `_v` that are below these bounds. -/
def patchGrid {R : Type} (point : Nat → Nat → Vector3 R) (rowEnd lastRow : Nat → Vector3 R)
    (corner : Vector3 R) (uStride vStride uCount vCount : Nat) : Option (PatchState R) :=
  let pointList : Buffer (Vector3 R) := Buffer.new (u32 (uStride * vStride))
  let indexList : Buffer Index4 := Buffer.new (u32 (sub32 uStride 1 * sub32 vStride 1))
  match forLoop (patchRowBody point rowEnd uStride vCount) 0 uCount
      { cur := 0, pointCount := 0, indexCount := 0,
        pointList := pointList, indexList := indexList } with
  | none => none
  | some s1 =>
    match forLoop (patchLastRowBody lastRow) 0 vCount s1 with
    | none => none
    | some s2 => some { s2 with pointList := s2.pointList.setAt s2.pointCount corner }

/-- The point and index arrays built by `process(BezierPatch*)` for a patch of
strides `uStride` and `vStride` (two `uint32_t`) whose point at parameters
`(u, v)` is `getPointAt u v`. The bounds are `getUStride() - real_t(1)` and
`getVStride() - real_t(1)`, computed in `real_t`. -/
def bezierPatchKernel {R : Type} (ops : RealOps R) (getPointAt : R → R → Vector3 R)
    (uStride vStride : Nat) : Option (PatchState R) :=
  let uStride1 := ops.sub (ops.ofNat uStride) (ops.ofNat 1)
  let vStride1 := ops.sub (ops.ofNat vStride) (ops.ofNat 1)
  patchGrid
    (fun u v => getPointAt (ops.div (ops.ofNat u) uStride1) (ops.div (ops.ofNat v) vStride1))
    (fun u => getPointAt (ops.div (ops.ofNat u) uStride1) (ops.ofNat 1))
    (fun v => getPointAt (ops.ofNat 1) (ops.div (ops.ofNat v) vStride1))
    (getPointAt (ops.ofNat 1) (ops.ofNat 1))
    uStride vStride (uStride - 1) (vStride - 1)

/-- The point and index arrays built by `process(NurbsPatch*)` for a patch of
strides `uStride` and `vStride` (two `uint32_t`), of knot ranges
`[ufirst, ulast]` and `[vfirst, vlast]`, whose point at parameters `(u, v)` is
`getPointAt u v`. The bounds are `getUStride() - 1` and `getVStride() - 1`,
computed in `uint32_t` and then converted to `real_t`. -/
def nurbsPatchKernel {R : Type} (ops : RealOps R) (getPointAt : R → R → Vector3 R)
    (ufirst ulast vfirst vlast : R) (uStride vStride : Nat) : Option (PatchState R) :=
  let uStride1 := ops.ofNat (sub32 uStride 1)
  let vStride1 := ops.ofNat (sub32 vStride 1)
  let uinter := ops.sub ulast ufirst
  let vinter := ops.sub vlast vfirst
  patchGrid
    (fun u v =>
      getPointAt (ops.add ufirst (ops.div (ops.mul (ops.ofNat u) uinter) uStride1))
        (ops.add vfirst (ops.div (ops.mul (ops.ofNat v) vinter) vStride1)))
    (fun u => getPointAt (ops.div (ops.ofNat u) uStride1) (ops.ofNat 1))
    (fun v => getPointAt ulast (ops.add vfirst (ops.div (ops.mul (ops.ofNat v) vinter) vStride1)))
    (getPointAt ulast vlast)
    uStride vStride (sub32 uStride 1) (sub32 vStride 1)

/-- A patch for the examples: its point at `(u, v)` is `(u, v, 0)`. -/
def flatPatch (u v : RealTerm) : Vector3 RealTerm := { x := u, y := v, z := .ofNat 0 }

/-! ## Exact arithmetic and vectors -/

/-- The operations of a field `K` taken as the operations on `real_t`: the
arithmetic is exact (rounding is not modelled); the functions `cos` and `sin`
and the constant π are given. -/
def exactReal (K : Type) [Field K] (cos sin : K → K) (pi : K) : RealOps K :=
  { ofNat := fun n => (n : K), add := fun a b => a + b, sub := fun a b => a - b,
    mul := fun a b => a * b, div := fun a b => a / b, neg := fun a => -a,
    cos := cos, sin := sin, pi := pi, halfPi := pi / 2, twoPi := 2 * pi }

/-- Modelled from the spec: class `Vector2` is not part of the sources; a 2D
point is its two coordinates. -/
structure Vector2 (R : Type) where
  x : R
  y : R
deriving DecidableEq, Repr

/-- Modelled from the spec: sum of two vectors (`Vector3 + Vector3`). -/
def Vector3.add {K : Type} [Field K] (a b : Vector3 K) : Vector3 K :=
  { x := a.x + b.x, y := a.y + b.y, z := a.z + b.z }

/-- Modelled from the spec: difference of two vectors (`Vector3 - Vector3`). -/
def Vector3.sub {K : Type} [Field K] (a b : Vector3 K) : Vector3 K :=
  { x := a.x - b.x, y := a.y - b.y, z := a.z - b.z }

/-- Modelled from the spec: opposite of a vector (`- Vector3`). -/
def Vector3.neg {K : Type} [Field K] (a : Vector3 K) : Vector3 K :=
  { x := -a.x, y := -a.y, z := -a.z }

/-- Modelled from the spec: function `cross` of two vectors. -/
def Vector3.cross {K : Type} [Field K] (a b : Vector3 K) : Vector3 K :=
  { x := a.y * b.z - a.z * b.y, y := a.z * b.x - a.x * b.z, z := a.x * b.y - a.y * b.x }

/-- Modelled from the spec: function `dot` of two vectors. -/
def Vector3.dot {K : Type} [Field K] (a b : Vector3 K) : K :=
  a.x * b.x + a.y * b.y + a.z * b.z

/-- Modelled from the spec: function `normSquared` of a vector. -/
def Vector3.normSquared {K : Type} [Field K] (a : Vector3 K) : K := a.dot a

/-- Modelled from the spec: the constant `Vector3::ORIGIN`. -/
def Vector3.ORIGIN {K : Type} [Field K] : Vector3 K := { x := 0, y := 0, z := 0 }

/-- Modelled from the spec: the constant `Vector3::OX`. -/
def Vector3.OX {K : Type} [Field K] : Vector3 K := { x := 1, y := 0, z := 0 }

/-- Modelled from the spec: the constant `Vector3::OY`. -/
def Vector3.OY {K : Type} [Field K] : Vector3 K := { x := 0, y := 1, z := 0 }

/-- Modelled from the spec: the constant `Vector3::OZ`. -/
def Vector3.OZ {K : Type} [Field K] : Vector3 K := { x := 0, y := 0, z := 1 }

/-- A norm on the vectors of rational coordinates for the examples: the sum of
the absolute values of the coordinates, which is the Euclidean norm of a vector
with at most one coordinate that is not zero. -/
def axisNorm (v : Vector3 ℚ) : ℚ := |v.x| + |v.y| + |v.z|

/-! ## Kernel of the box -/

/-- The three arrays allocated by `process(Box*)`. -/
structure BoxState (R : Type) where
  pointList : Buffer (Vector3 R)
  indexList : Buffer Index4
  normalList : Buffer (Vector3 R)
deriving DecidableEq, Repr

/-- The arrays built by `process(Box*)` for a box of the given size: eight
points, six quads; the array of normals is allocated and left as it is. -/
def boxKernel {R : Type} (ops : RealOps R) (size : Vector3 R) : BoxState R :=
  let pointList : Buffer (Vector3 R) := Buffer.new 8
  let indexList : Buffer Index4 := Buffer.new 6
  let normalList : Buffer (Vector3 R) := Buffer.new 6
  let pointList := pointList.setAt 0
    { x := size.x, y := ops.neg size.y, z := ops.neg size.z }
  let pointList := pointList.setAt 1
    { x := ops.neg size.x, y := ops.neg size.y, z := ops.neg size.z }
  let pointList := pointList.setAt 2
    { x := ops.neg size.x, y := size.y, z := ops.neg size.z }
  let pointList := pointList.setAt 3
    { x := size.x, y := size.y, z := ops.neg size.z }
  let pointList := pointList.setAt 4
    { x := size.x, y := ops.neg size.y, z := size.z }
  let pointList := pointList.setAt 5
    { x := ops.neg size.x, y := ops.neg size.y, z := size.z }
  let pointList := pointList.setAt 6
    { x := ops.neg size.x, y := size.y, z := size.z }
  let pointList := pointList.setAt 7
    { x := size.x, y := size.y, z := size.z }
  let indexList := indexList.setAt 0 { i0 := 0, i1 := 1, i2 := 2, i3 := 3 }
  let indexList := indexList.setAt 1 { i0 := 0, i1 := 3, i2 := 7, i3 := 4 }
  let indexList := indexList.setAt 2 { i0 := 1, i1 := 0, i2 := 4, i3 := 5 }
  let indexList := indexList.setAt 3 { i0 := 2, i1 := 1, i2 := 5, i3 := 6 }
  let indexList := indexList.setAt 4 { i0 := 3, i1 := 2, i2 := 6, i3 := 7 }
  let indexList := indexList.setAt 5 { i0 := 4, i1 := 7, i2 := 6, i3 := 5 }
  { pointList := pointList, indexList := indexList, normalList := normalList }

/-- The corner of a box of the given size with the given signs (`true` for +). -/
def boxCorner {R : Type} (ops : RealOps R) (size : Vector3 R) (sg : Bool × Bool × Bool) :
    Vector3 R :=
  { x := if sg.1 then size.x else ops.neg size.x,
    y := if sg.2.1 then size.y else ops.neg size.y,
    z := if sg.2.2 then size.z else ops.neg size.z }

/-- The three coordinate axes. -/
inductive Coord
  | x | y | z
deriving DecidableEq, Repr

/-- The coordinate of a vector along an axis. -/
def Vector3.coord {R : Type} (v : Vector3 R) : Coord → R
  | .x => v.x
  | .y => v.y
  | .z => v.z

/-- The point of index `i` of a list of points (the origin outside the list). -/
def pointAt {K : Type} [Field K] (pts : List (Vector3 K)) (i : Nat) : Vector3 K :=
  pts.getD i Vector3.ORIGIN

/-- The normal of a quad computed from the order of its vertices: the cross
product of its first two edges. -/
def quadNormal {K : Type} [Field K] (pts : List (Vector3 K)) (q : Index4) : Vector3 K :=
  ((pointAt pts q.i1).sub (pointAt pts q.i0)).cross ((pointAt pts q.i2).sub (pointAt pts q.i1))

/-- The centroid of a quad. -/
def quadCentroid {K : Type} [Field K] (pts : List (Vector3 K)) (q : Index4) : Vector3 K :=
  { x := ((pointAt pts q.i0).x + (pointAt pts q.i1).x + (pointAt pts q.i2).x
          + (pointAt pts q.i3).x) / 4,
    y := ((pointAt pts q.i0).y + (pointAt pts q.i1).y + (pointAt pts q.i2).y
          + (pointAt pts q.i3).y) / 4,
    z := ((pointAt pts q.i0).z + (pointAt pts q.i1).z + (pointAt pts q.i2).z
          + (pointAt pts q.i3).z) / 4 }

/-! ## Kernel of the revolution -/

/-- Local variables of `process(Revolution*)` that change in the loops, and the
two arrays. -/
structure RevolutionState (R : Type) where
  cur : Nat
  next : Nat
  pointsCount : Nat
  facesCount : Nat
  pointList : Buffer (Vector3 R)
  indexList : Buffer Index3
deriving DecidableEq, Repr

/-- Body of the inner loop of `process(Revolution*)`, over the points `_j` of
the profile; `x` and `y` are the cosine and the sine of the angle of the
slice. A read outside the profile is undefined. -/
def revolutionRingBody {R : Type} (ops : RealOps R) (curve : List (Vector3 R)) (x y : R)
    (j : Nat) (s : RevolutionState R) : Option (RevolutionState R) :=
  match curve[j]? with
  | none => none
  | some c =>
    let rad := c.x
    let z := c.y
    let pointList := s.pointList.setAt s.pointsCount
      { x := ops.mul x rad, y := ops.mul y rad, z := z }
    let pointsCount := u32 (s.pointsCount + 1)
    let indexList := s.indexList.setAt s.facesCount
      { i0 := u32 (s.cur + j), i1 := sub32 (u32 (s.cur + j)) 1,
        i2 := sub32 (u32 (s.next + j)) 1 }
    let facesCount := u32 (s.facesCount + 1)
    let indexList := indexList.setAt facesCount
      { i0 := u32 (s.cur + j), i1 := sub32 (u32 (s.next + j)) 1, i2 := u32 (s.next + j) }
    let facesCount := u32 (facesCount + 1)
    some { s with pointList := pointList, pointsCount := pointsCount,
                  indexList := indexList, facesCount := facesCount }

/-- Body of the outer loop of `process(Revolution*)`, over the slices `_i`. A
read outside the profile and a remainder by zero are undefined. -/
def revolutionSliceBody {R : Type} (ops : RealOps R) (curve : List (Vector3 R))
    (curveSize slices : Nat) (angleStep : R) (i : Nat) (s : RevolutionState R) :
    Option (RevolutionState R) :=
  let x := ops.cos (ops.mul (ops.ofNat i) angleStep)
  let y := ops.sin (ops.mul (ops.ofNat i) angleStep)
  match curve[0]? with
  | none => none
  | some c =>
    let rad := c.x
    let z := c.y
    let s1 := { s with
      pointList := s.pointList.setAt s.pointsCount
        { x := ops.mul x rad, y := ops.mul y rad, z := z },
      pointsCount := u32 (s.pointsCount + 1) }
    match forLoop (revolutionRingBody ops curve x y) 1 (curveSize - 1) s1 with
    | none => none
    | some s2 =>
      if u32 (curveSize * slices) = 0 then none
      else some { s2 with cur := s2.next,
                          next := u32 (s2.next + curveSize) % u32 (curveSize * slices) }

/-- The point and index arrays built by `process(Revolution*)` once the profile
is discretized, for the points `curve` of the profile (a point array, whose
size is a `uint32_t`) and the number of slices (a `uint32_t`). -/
def revolutionKernel {R : Type} (ops : RealOps R) (curve : List (Vector3 R)) (slices : Nat) :
    Option (RevolutionState R) :=
  let curveSize := u32 curve.length
  let pointList : Buffer (Vector3 R) := Buffer.new (u32 (slices * curveSize))
  let indexList : Buffer Index3 := Buffer.new (u32 (u32 (slices * 2) * sub32 curveSize 1))
  let angleStep := ops.div ops.twoPi (ops.ofNat slices)
  forLoop (revolutionSliceBody ops curve curveSize slices angleStep) 0 slices
    { cur := 0, next := curveSize, pointsCount := 0, facesCount := 0,
      pointList := pointList, indexList := indexList }

/-- The value of `_next` in slice `i` of a revolution of `slices` slices whose
profile has `n` points: `n` in the first slice, then the first index of the
following slice, the last slice closing on 0. -/
def revolutionNext (n slices i : Nat) : Nat := if i = 0 then n else (i + 1) % slices * n

/-- The two triangles of the segment that ends at point `m + 1` of the profile,
between a slice whose first index is `c` and a slice whose first index is
`nx`. -/
def revolutionTriangles (c nx m : Nat) : List Index3 :=
  [{ i0 := c + (m + 1), i1 := c + m, i2 := nx + m },
   { i0 := c + (m + 1), i1 := nx + m, i2 := nx + (m + 1) }]

/-! ## Kernel of the elevation grid -/

/-- Local variables of `process(ElevationGrid*)` that change in the loops, and
the two arrays. -/
structure GridState (R : Type) where
  cur : Nat
  next : Nat
  pointCount : Nat
  indexCount : Nat
  pointList : Buffer (Vector3 R)
  indexList : Buffer Index3
deriving DecidableEq, Repr

/-- Body of the inner loop of `process(ElevationGrid*)`, over the columns `_i`
of row `_j`; `getPointAt i j` is the point of the grid. -/
def elevationCellBody {R : Type} (getPointAt : Nat → Nat → Vector3 R)
    (xDim rowCount colCount j i : Nat) (s : GridState R) : Option (GridState R) :=
  let pointList := s.pointList.setAt s.pointCount (getPointAt i j)
  let pointCount := u32 (s.pointCount + 1)
  let indexList :=
    if i < rowCount ∧ j < colCount then
      (s.indexList.setAt s.indexCount
          { i0 := s.cur, i1 := s.next, i2 := u32 (s.cur + xDim) }).setAt
        (u32 (s.indexCount + 1))
        { i0 := s.next, i1 := u32 (s.next + xDim), i2 := u32 (s.cur + xDim) }
    else s.indexList
  let indexCount :=
    if i < rowCount ∧ j < colCount then u32 (u32 (s.indexCount + 1) + 1) else s.indexCount
  some { cur := s.next, next := u32 (s.next + 1), pointCount := pointCount,
         indexCount := indexCount, pointList := pointList, indexList := indexList }

/-- The point and index arrays built by `process(ElevationGrid*)` for a grid of
dimensions `xDim` and `yDim` (two `uint32_t`) whose point of column `i` and row
`j` is `getPointAt i j`. -/
def elevationGridKernel {R : Type} (getPointAt : Nat → Nat → Vector3 R) (xDim yDim : Nat) :
    Option (GridState R) :=
  let colCount := sub32 yDim 1
  let rowCount := sub32 xDim 1
  let pointList : Buffer (Vector3 R) := Buffer.new (u32 (xDim * yDim))
  let indexList : Buffer Index3 := Buffer.new (u32 (u32 (rowCount * colCount) * 2))
  forLoop (fun j s => forLoop (elevationCellBody getPointAt xDim rowCount colCount j) 0 xDim s)
    0 yDim
    { cur := 0, next := 1, pointCount := 0, indexCount := 0,
      pointList := pointList, indexList := indexList }

/-- The two triangles of the cell whose first corner has the index `c`, in a
grid of `xDim` points per row. -/
def cellTriangles (xDim c : Nat) : List Index3 :=
  [{ i0 := c, i1 := c + 1, i2 := c + xDim }, { i0 := c + 1, i1 := c + 1 + xDim, i2 := c + xDim }]

/-! ## Kernel of the extrusion -/

/-- Modelled from the spec: class `LineicModel` is not part of the sources; the
axis of an extrusion is its knot range, its stride (a `uint32_t`) and its
point, tangent and normal at a parameter. -/
structure Axis (K : Type) where
  getFirstKnot : K
  getLastKnot : K
  getStride : Nat
  getPointAt : K → Vector3 K
  getTangentAt : K → Vector3 K
  getNormalAt : K → Vector3 K

/-- Modelled from the spec: class `ProfileTransformation` is not part of the
sources; it has a parameter range and gives, at a parameter `u`, a 2D
transformation that maps a point array point by point. -/
structure ProfileTransformation (K : Type) where
  getUMin : K
  getUMax : K
  transform : K → Vector3 K → Vector3 K

/-- Modelled from the spec: the functions on vectors and the constant that the
kernel of the extrusion takes from classes that are not part of the sources:
`norm`, `Vector3::normalize` (as the function that gives the normalized vector),
the image of a point by `OrthonormalBasis3D(Matrix3(n, b, v))` (a point array is
mapped point by point), the constant `GEOM_EPSILON` and the value of a
default-constructed `Vector3`. -/
structure VectorExtern (K : Type) where
  norm : Vector3 K → K
  normalize : Vector3 K → Vector3 K
  basisTransform : Vector3 K → Vector3 K → Vector3 K → Vector3 K → Vector3 K
  epsilon : K
  dflt : Vector3 K

/-- Local variables of `process(Extrusion*)` that change in the loops, and the
three arrays (`_texList` is null, `none`, unless texture coordinates are
computed). -/
structure ExtrusionState (K : Type) where
  j : Nat
  k : Nat
  start : K
  starttransf : K
  oldBinormal : Vector3 K
  normal : Vector3 K
  pointList : Buffer (Vector3 K)
  texList : Option (Buffer (Vector2 K))
  indexList : Buffer Index4

/-- Closure handling of `process(Extrusion*)`: the section is closed when the
norm of the difference of its first and last points is not above
`GEOM_EPSILON`, and it then loses its last point. Reading a point of an empty
section is undefined. -/
def extrusionSection {K : Type} [LinearOrderedField K] (V : VectorExtern K)
    (crossPoints : List (Vector3 K)) : Option (Bool × List (Vector3 K)) :=
  match crossPoints[0]?, crossPoints[sub32 (u32 crossPoints.length) 1]? with
  | some a, some b =>
    if ¬ (V.epsilon < V.norm (a.sub b)) then some (true, crossPoints.dropLast)
    else some (false, crossPoints)
  | _, _ => none

/-- The axis `U` chosen by `process(Extrusion*)` when the normal of the axis is
zero, from the tangent `tg`. -/
def extrusionFallbackAxis {K : Type} [LinearOrderedField K] (tg : Vector3 K) : Vector3 K :=
  if tg.x < tg.y then (if tg.z < tg.x then Vector3.OZ else Vector3.OX)
  else (if tg.z < tg.y then Vector3.OZ else Vector3.OY)

/-- The value of `_normal` when `process(Extrusion*)` enters its loop: the
normal of the axis at the first knot or, when its squared norm is below
`GEOM_EPSILON`, the cross product of the tangent and of the axis `U`. -/
def extrusionInitialNormal {K : Type} [LinearOrderedField K] (V : VectorExtern K)
    (axis : Axis K) : Vector3 K :=
  let normal := axis.getNormalAt axis.getFirstKnot
  if normal.normSquared < V.epsilon then
    let tg := axis.getTangentAt axis.getFirstKnot
    tg.cross (extrusionFallbackAxis tg)
  else normal

/-- The points of a section in the frame `(normal, binormal, velocity)`, after
the profile transformation at `u` when there is one. -/
def extrusionNewPoint {K : Type} (V : VectorExtern K)
    (profileTransf : Option (ProfileTransformation K)) (crossPoints : List (Vector3 K))
    (u : K) (normal binormal velocity : Vector3 K) : List (Vector3 K) :=
  match profileTransf with
  | some t => (crossPoints.map (t.transform u)).map (V.basisTransform normal binormal velocity)
  | none => crossPoints.map (V.basisTransform normal binormal velocity)

/-- The write of the texture coordinates of point `_j`, when they are computed;
it is undefined through a null pointer. -/
def extrusionSetTex {K : Type} [LinearOrderedField K] (computeTexCoord : Bool)
    (nbPoints idPoint : Nat) (s : ExtrusionState K) : Option (Option (Buffer (Vector2 K))) :=
  if computeTexCoord then
    match s.texList with
    | none => none
    | some t =>
      some (some (t.setAt s.j { x := s.start, y := (idPoint : K) / ((sub32 nbPoints 1 : Nat) : K) }))
  else some s.texList

/-- Body of the loop of `process(Extrusion*)` over the points of the section of
a step: point number `idPoint` of `newPoint` is written at `_j`, with a quad to
the next section unless `_j + 1` is a multiple of `_nbPoints`. A remainder by
zero is undefined. -/
def extrusionPointBody {K : Type} [LinearOrderedField K] (computeTexCoord : Bool)
    (nbPoints : Nat) (center : Vector3 K) (newPoint : List (Vector3 K)) (idPoint : Nat)
    (s : ExtrusionState K) : Option (ExtrusionState K) :=
  match newPoint[idPoint]? with
  | none => none
  | some p =>
    match extrusionSetTex computeTexCoord nbPoints idPoint s with
    | none => none
    | some texList =>
      if nbPoints = 0 then none
      else if u32 (s.j + 1) % nbPoints ≠ 0 then
        some { s with
          pointList := s.pointList.setAt s.j (p.add center),
          texList := texList,
          indexList := s.indexList.setAt s.k
            { i0 := s.j, i1 := u32 (s.j + 1), i2 := u32 (u32 (s.j + nbPoints) + 1),
              i3 := u32 (s.j + nbPoints) },
          k := u32 (s.k + 1),
          j := u32 (s.j + 1) }
      else
        some { s with
          pointList := s.pointList.setAt s.j (p.add center),
          texList := texList,
          j := u32 (s.j + 1) }

/-- Body of the loop over the points of the last section: no quad. -/
def extrusionLastPointBody {K : Type} [LinearOrderedField K] (computeTexCoord : Bool)
    (nbPoints : Nat) (center : Vector3 K) (newPoint : List (Vector3 K)) (idPoint : Nat)
    (s : ExtrusionState K) : Option (ExtrusionState K) :=
  match newPoint[idPoint]? with
  | none => none
  | some p =>
    match extrusionSetTex computeTexCoord nbPoints idPoint s with
    | none => none
    | some texList =>
      some { s with
        pointList := s.pointList.setAt s.j (p.add center),
        texList := texList,
        j := u32 (s.j + 1) }

/-- The frame of step `_i` of `process(Extrusion*)`: the normal, the binormal
and the velocity, normalized. At the first step the normal is the normal of the
axis, afterwards the cross product of the previous binormal and of the
tangent. -/
def extrusionStepFrame {K : Type} [LinearOrderedField K] (V : VectorExtern K) (axis : Axis K)
    (i : Nat) (s : ExtrusionState K) : Vector3 K × Vector3 K × Vector3 K :=
  let velocity := axis.getTangentAt s.start
  let normal := if i ≠ 0 then s.oldBinormal.cross velocity else axis.getNormalAt s.start
  let velocity := V.normalize velocity
  let normal := V.normalize normal
  let binormal := V.normalize (velocity.cross normal)
  (normal, binormal, velocity)

/-- The state of `process(Extrusion*)` when the loop over the points of a step
starts: `_normal` and `_oldBinormal` are those of the frame, and when the
section is closed the quad that joins its last and its first point is
written. -/
def extrusionWrapQuad {K : Type} (closed : Bool) (nbPoints : Nat) (normal binormal : Vector3 K)
    (s : ExtrusionState K) : ExtrusionState K :=
  if closed then
    { s with
      normal := normal, oldBinormal := binormal,
      indexList := s.indexList.setAt s.k
        { i0 := sub32 (u32 (s.j + nbPoints)) 1, i1 := s.j, i2 := u32 (s.j + nbPoints),
          i3 := sub32 (u32 (s.j + u32 (2 * nbPoints))) 1 },
      k := u32 (s.k + 1) }
  else { s with normal := normal, oldBinormal := binormal }

/-- Body of the loop of `process(Extrusion*)` over the steps `_i` of the
axis. -/
def extrusionStepBody {K : Type} [LinearOrderedField K] (V : VectorExtern K) (axis : Axis K)
    (profileTransf : Option (ProfileTransformation K)) (computeTexCoord closed : Bool)
    (crossPoints : List (Vector3 K)) (nbPoints : Nat) (step steptransf : K) (i : Nat)
    (s : ExtrusionState K) : Option (ExtrusionState K) :=
  let center := axis.getPointAt s.start
  let frame := extrusionStepFrame V axis i s
  let newPoint :=
    extrusionNewPoint V profileTransf crossPoints s.starttransf frame.1 frame.2.1 frame.2.2
  match forLoop (extrusionPointBody computeTexCoord nbPoints center newPoint) 0
      newPoint.length (extrusionWrapQuad closed nbPoints frame.1 frame.2.1 s) with
  | none => none
  | some s2 =>
    some { s2 with start := s2.start + step, starttransf := s2.starttransf + steptransf }

/-- The initial value of `_starttransf`: the lower bound of the parameter of the
profile transformation when there is one, 0 otherwise. -/
def extrusionStartTransf {K : Type} [LinearOrderedField K]
    (profileTransf : Option (ProfileTransformation K)) : K :=
  match profileTransf with
  | some t => t.getUMin
  | none => 0

/-- The value of `_steptransf` for an axis of the given stride. -/
def extrusionStepTransf {K : Type} [LinearOrderedField K]
    (profileTransf : Option (ProfileTransformation K)) (size : Nat) : K :=
  match profileTransf with
  | some t => (t.getUMax - t.getUMin) / (size : K)
  | none => 0

/-- The value of `_starttransf` for the last section: the upper bound of the
parameter of the profile transformation when there is one, otherwise the value
`cur` it has at the end of the loop. -/
def extrusionLastTransf {K : Type}
    (profileTransf : Option (ProfileTransformation K)) (cur : K) : K :=
  match profileTransf with
  | some t => t.getUMax
  | none => cur

/-- The part of `process(Extrusion*)` that follows the choice of the initial
value `normal0` of `_normal`, up to the end of the loop over the last section:
the point array, the array of texture coordinates and the array of quads of
the sides, for a section of points `crossPoints` (after closure handling). -/
def extrusionFrom {K : Type} [LinearOrderedField K] (V : VectorExtern K) (axis : Axis K)
    (profileTransf : Option (ProfileTransformation K)) (computeTexCoord closed : Bool)
    (crossPoints : List (Vector3 K)) (normal0 : Vector3 K) : Option (ExtrusionState K) :=
  let nbPoints := u32 crossPoints.length
  let start := axis.getFirstKnot
  let size := axis.getStride
  let step := (axis.getLastKnot - start) / (size : K)
  let starttransf : K := extrusionStartTransf profileTransf
  let steptransf : K := extrusionStepTransf profileTransf size
  let pointList : Buffer (Vector3 K) := Buffer.new (u32 (u32 (size + 1) * nbPoints))
  let texList : Option (Buffer (Vector2 K)) :=
    if computeTexCoord then some (Buffer.new (u32 (u32 (size + 1) * nbPoints))) else none
  let indexList : Buffer Index4 :=
    Buffer.new (u32 (size * sub32 nbPoints (if closed then 0 else 1)))
  match forLoop
      (extrusionStepBody V axis profileTransf computeTexCoord closed crossPoints nbPoints step
        steptransf) 0 size
      { j := 0, k := 0, start := start, starttransf := starttransf, oldBinormal := V.dflt,
        normal := normal0, pointList := pointList, texList := texList,
        indexList := indexList } with
  | none => none
  | some s =>
    let start := axis.getLastKnot
    let starttransf : K := extrusionLastTransf profileTransf s.starttransf
    let velocity := axis.getTangentAt start
    let normal := s.oldBinormal.cross velocity
    let velocity := V.normalize velocity
    let normal := V.normalize normal
    let binormal := velocity.cross normal
    let center := axis.getPointAt start
    let newPoint :=
      extrusionNewPoint V profileTransf crossPoints starttransf normal binormal velocity
    forLoop (extrusionLastPointBody computeTexCoord nbPoints center newPoint) 0 newPoint.length
      { s with start := start, starttransf := starttransf, normal := normal }

/-- The arrays built by `process(Extrusion*)` once the cross-section is
discretized to the points `crossPoints`, up to the construction of the mesh
(the caps of a solid extrusion are not part of it). -/
def extrusionKernel {K : Type} [LinearOrderedField K] (V : VectorExtern K) (axis : Axis K)
    (profileTransf : Option (ProfileTransformation K)) (computeTexCoord : Bool)
    (crossPoints : List (Vector3 K)) : Option (ExtrusionState K) :=
  match extrusionSection V crossPoints with
  | none => none
  | some (closed, sectionPoints) =>
    extrusionFrom V axis profileTransf computeTexCoord closed sectionPoints
      (extrusionInitialNormal V axis)

/-- The quads step `i` of an extrusion contributes, for a section of `n`
points: when the section is closed the quad that joins its last and its first
point, then the quad of each pair of consecutive points. -/
def extrusionQuads (closed : Bool) (n i : Nat) : List Index4 :=
  (if closed then
    [{ i0 := i * n + n - 1, i1 := i * n, i2 := i * n + n, i3 := i * n + 2 * n - 1 }]
   else []) ++
  (List.range (n - 1)).map (fun m =>
    { i0 := i * n + m, i1 := i * n + m + 1, i2 := i * n + m + n + 1, i3 := i * n + m + n })

/-! ## Examples over the rationals -/

/-- For the examples over the rationals: the norm is `axisNorm`, `normalize`
leaves a vector as it is (the vectors of the examples are unit vectors or the
zero vector), the basis of columns `n`, `b`, `v` maps `p` to
`p.x * n + p.y * b + p.z * v`, `GEOM_EPSILON` is a millionth and a
default-constructed vector is the origin. -/
def sampleVector : VectorExtern ℚ :=
  { norm := axisNorm,
    normalize := fun v => v,
    basisTransform := fun n b v p =>
      { x := p.x * n.x + p.y * b.x + p.z * v.x,
        y := p.x * n.y + p.y * b.y + p.z * v.y,
        z := p.x * n.z + p.y * b.z + p.z * v.z },
    epsilon := 1 / 1000000,
    dflt := Vector3.ORIGIN }

/-- For the examples: a straight axis along `OZ`, from parameter 0 to 1 in one
step, whose normal is zero everywhere. -/
def lineAxis : Axis ℚ :=
  { getFirstKnot := 0, getLastKnot := 1, getStride := 1,
    getPointAt := fun u => { x := 0, y := 0, z := u },
    getTangentAt := fun _ => { x := 0, y := 0, z := 1 },
    getNormalAt := fun _ => { x := 0, y := 0, z := 0 } }

/-! ## Rings of the extruded hull -/

/-- The value of `_width` in `process(ExtrudedHull*)`, from the points of the
horizontal profile of smallest and largest `x` (given by `getXMinAndMax`, of a
class that is not part of the sources). -/
def hullWidth {K : Type} [LinearOrderedField K] (xMin xMax : Vector3 K) : K :=
  |xMax.x - xMin.x|

/-- The value of `_xcenter` in `process(ExtrudedHull*)`. -/
def hullXCenter {K : Type} [LinearOrderedField K] (xMin xMax : Vector3 K) : K :=
  (xMax.x + xMin.x) / 2

/-- The value of `_ycenter` in `process(ExtrudedHull*)`, from the points of the
horizontal profile of smallest and largest `y`. -/
def hullYCenter {K : Type} [LinearOrderedField K] (yMin yMax : Vector3 K) : K :=
  (yMax.y + yMin.y) / 2

/-- The vector `_p12` of `process(ExtrudedHull*)`: from `p1` to `p2`, turned to
the opposite when its `x` is below `GEOM_EPSILON`. -/
def hullDirection {K : Type} [LinearOrderedField K] (epsilon : K) (p1 p2 : Vector3 K) :
    Vector3 K :=
  if (p2.sub p1).x < epsilon then (p2.sub p1).neg else p2.sub p1

/-- The point that `process(ExtrudedHull*)` writes for the point `h` of the
horizontal profile in the ring built from the points `p1` and `p2` of the
vertical profile (body of the loop over `_hPoint`, without the triangles);
`norm` is the norm of a vector, of a class that is not part of the sources. -/
def hullRingPoint {K : Type} [LinearOrderedField K] (norm : Vector3 K → K) (epsilon : K)
    (width xcenter ycenter : K) (p1 p2 h : Vector3 K) : Vector3 K :=
  let p12 := hullDirection epsilon p1 p2
  let nrm := norm p12
  let cosA := p12.x / nrm
  let sinA := p12.y / nrm
  let sf := nrm / width
  let v : Vector2 K := { x := (p1.x + p2.x) / 2, y := (p1.y + p2.y) / 2 }
  let p : Vector2 K := { x := h.x, y := h.y }
  { x := cosA * sf * (p.x - xcenter) + v.x,
    y := sf * (p.y - ycenter) + ycenter,
    z := sinA * p.x * sf + v.y }

/-- The points of the ring built from `p1` and `p2`, in the order in which the
loop over the horizontal profile writes them. -/
def hullRing {K : Type} [LinearOrderedField K] (norm : Vector3 K → K) (epsilon : K)
    (horizontal : List (Vector3 K)) (xMin xMax yMin yMax p1 p2 : Vector3 K) :
    List (Vector3 K) :=
  horizontal.map
    (hullRingPoint norm epsilon (hullWidth xMin xMax) (hullXCenter xMin xMax)
      (hullYCenter yMin yMax) p1 p2)

/-! ## Texture coordinates of a grid -/

/-- Local variables of the inner loops of `gridTexCoord`: the previous point,
the length accumulated, and the array of texture coordinates (its content). -/
structure TexState (K : Type) where
  p1 : Vector3 K
  length : K
  texList : List (Vector2 K)

/-- Body of the loops of `gridTexCoord` that add up the length of a row or of a
column, whose point number `k` has the index `idx k`. A read outside the point
array is undefined. -/
def texLengthBody {K : Type} [LinearOrderedField K] (norm : Vector3 K → K)
    (pts : List (Vector3 K)) (idx : Nat → Nat) (k : Nat) (s : TexState K) :
    Option (TexState K) :=
  match pts[idx k]? with
  | none => none
  | some p2 => some { s with length := s.length + norm (p2.sub s.p1), p1 := p2 }

/-- Body of the loop of `gridTexCoord` that writes the second coordinate along
row `u`, `total` being the length of the row. An access outside an array is
undefined. -/
def texRowWriteBody {K : Type} [LinearOrderedField K] (norm : Vector3 K → K)
    (pts : List (Vector3 K)) (gh u : Nat) (total : K) (v : Nat) (s : TexState K) :
    Option (TexState K) :=
  match pts[u * gh + v]? with
  | none => none
  | some p2 =>
    let length2 := s.length + norm (p2.sub s.p1)
    if u * gh + v < s.texList.length then
      some { p1 := p2, length := length2,
             texList := s.texList.set (u * gh + v) { x := 0, y := length2 / total } }
    else none

/-- Body of the first loop of `gridTexCoord`, over the rows `_u`. -/
def texRowBody {K : Type} [LinearOrderedField K] (norm : Vector3 K → K)
    (pts : List (Vector3 K)) (gh u : Nat) (texList : List (Vector2 K)) :
    Option (List (Vector2 K)) :=
  match pts[u * gh]? with
  | none => none
  | some p1 =>
    if u * gh < texList.length then
      let texList := texList.set (u * gh) { x := 0, y := 0 }
      match forLoop (texLengthBody norm pts (fun v => u * gh + v)) 1 (gh - 1)
          { p1 := p1, length := 0, texList := texList } with
      | none => none
      | some s1 =>
        match forLoop (texRowWriteBody norm pts gh u s1.length) 1 (gh - 1)
            { p1 := p1, length := 0, texList := s1.texList } with
        | none => none
        | some s2 => some s2.texList
    else none

/-- Body of the loop of `gridTexCoord` that writes the first coordinate along
column `v`, `total` being the length of the column: the entry is read and its
`x` is assigned. -/
def texColWriteBody {K : Type} [LinearOrderedField K] (norm : Vector3 K → K)
    (pts : List (Vector3 K)) (gh v : Nat) (total : K) (u : Nat) (s : TexState K) :
    Option (TexState K) :=
  match pts[u * gh + v]? with
  | none => none
  | some p2 =>
    let length2 := s.length + norm (p2.sub s.p1)
    match s.texList[v + u * gh]? with
    | none => none
    | some t =>
      some { p1 := p2, length := length2,
             texList := s.texList.set (v + u * gh) { t with x := length2 / total } }

/-- Body of the second loop of `gridTexCoord`, over the columns `_v`. -/
def texColBody {K : Type} [LinearOrderedField K] (norm : Vector3 K → K)
    (pts : List (Vector3 K)) (gw gh v : Nat) (texList : List (Vector2 K)) :
    Option (List (Vector2 K)) :=
  match pts[v]? with
  | none => none
  | some p1 =>
    match forLoop (texLengthBody norm pts (fun u => u * gh + v)) 1 (gw - 1)
        { p1 := p1, length := 0, texList := texList } with
    | none => none
    | some s1 =>
      match forLoop (texColWriteBody norm pts gh v s1.length) 1 (gw - 1)
          { p1 := p1, length := 0, texList := s1.texList } with
      | none => none
      | some s2 => some s2.texList

/-- Member `gridTexCoord(pts, gw, gh)`, for two dimensions that are not
negative: the content of the array of `gw * gh` texture coordinates it
returns. `norm` is the norm of a vector and `dflt` the value of a
default-constructed `Vector2` (classes that are not part of the sources); a
product `gw * gh` that does not fit an `int` is undefined. -/
def gridTexCoord {K : Type} [LinearOrderedField K] (norm : Vector3 K → K) (dflt : Vector2 K)
    (pts : List (Vector3 K)) (gw gh : Nat) : Option (List (Vector2 K)) :=
  if 2147483648 ≤ gw * gh then none
  else
    match forLoop (texRowBody norm pts gh) 0 gw (List.replicate (gw * gh) dflt) with
    | none => none
    | some texList => forLoop (texColBody norm pts gw gh) 0 gh texList

/-- The cumulative chord length up to point number `k` along the points of
indices `idx 0`, `idx 1`, ... of `pts`: 0 at the first point. -/
def chordLength {K : Type} [LinearOrderedField K] (norm : Vector3 K → K)
    (pts : List (Vector3 K)) (idx : Nat → Nat) : Nat → K
  | 0 => 0
  | k + 1 =>
    chordLength norm pts idx k + norm ((pointAt pts (idx (k + 1))).sub (pointAt pts (idx k)))

/-! ## Cells of a grid of points -/

/-- The quad of cell `(u, v)` of a grid of points stored row after row, a row
holding `vStride` points: the indices of the grid points `(u, v)`, `(u, v + 1)`,
`(u + 1, v + 1)` and `(u + 1, v)`, in that order. -/
def gridQuad (vStride u v : Nat) : Index4 :=
  { i0 := u * vStride + v, i1 := u * vStride + (v + 1),
    i2 := (u + 1) * vStride + (v + 1), i3 := (u + 1) * vStride + v }

/-- A patch for the examples over a field: its point at `(u, v)` is `(u, v, 0)`. -/
def planePatch {K : Type} [Field K] (u v : K) : Vector3 K := { x := u, y := v, z := 0 }

/-! ## Texture coordinates of the sphere -/

/-- Local variables of the part of `process(Sphere*)` that computes texture
coordinates, and its two arrays. -/
structure SphereTexState (R : Type) where
  cur : Nat
  next : Nat
  pointCount : Nat
  indexCount : Nat
  texList : Buffer (Vector2 R)
  texIndexList : Buffer Index3
deriving DecidableEq, Repr

/-- Body of the loop over `_j` that writes the texture coordinates of column
`_i`, `sCoord` being the value of `_s`; the sum `_stacks + 1` is computed in
`int`. -/
def sphereTexRingBody {R : Type} (ops : RealOps R) (nbStacks : Nat) (sCoord : R) (j : Nat)
    (s : SphereTexState R) : Option (SphereTexState R) :=
  some { s with
    texList := s.texList.setAt s.pointCount
      { x := sCoord, y := ops.div (ops.ofNat j) (ops.ofNat (nbStacks + 1)) },
    pointCount := u32 (s.pointCount + 1) }

/-- Body of the first loop over `_i` of the texture part: the rings of column
`_i`. -/
def sphereTexColumnBody {R : Type} (ops : RealOps R) (slices nbStacks : Nat) (i : Nat)
    (s : SphereTexState R) : Option (SphereTexState R) :=
  forLoop (sphereTexRingBody ops nbStacks (ops.div (ops.ofNat i) (ops.ofNat slices))) 1
    (nbStacks - 1) s

/-- Body of the loops over `_i` that write the row of the bottom pole (`v` is 0)
and the row of the top pole (`v` is 1). -/
def sphereTexPoleBody {R : Type} (ops : RealOps R) (slices v : Nat) (i : Nat)
    (s : SphereTexState R) : Option (SphereTexState R) :=
  some { s with
    texList := s.texList.setAt s.pointCount
      { x := ops.div (ops.ofNat i) (ops.ofNat slices), y := ops.ofNat v },
    pointCount := u32 (s.pointCount + 1) }

/-- Body of the loop over `_j` that writes the texture triangles between two
columns. -/
def sphereTexCellBody {R : Type} (j : Nat) (s : SphereTexState R) :
    Option (SphereTexState R) :=
  let indexList1 := s.texIndexList.setAt s.indexCount
    { i0 := u32 (s.cur + j), i1 := sub32 (u32 (s.cur + j)) 1,
      i2 := sub32 (u32 (s.next + j)) 1 }
  let indexCount1 := u32 (s.indexCount + 1)
  let indexList2 := indexList1.setAt indexCount1
    { i0 := u32 (s.cur + j), i1 := sub32 (u32 (s.next + j)) 1, i2 := u32 (s.next + j) }
  some { s with texIndexList := indexList2, indexCount := u32 (indexCount1 + 1) }

/-- Body of the loop over `_i` that writes the texture triangles of slice `_i`. -/
def sphereTexSliceBody {R : Type} (ringCount bot top : Nat) (i : Nat)
    (s : SphereTexState R) : Option (SphereTexState R) :=
  let indexList1 := s.texIndexList.setAt s.indexCount
    { i0 := s.cur, i1 := u32 (bot + i), i2 := s.next }
  let indexCount1 := u32 (s.indexCount + 1)
  let indexList2 := indexList1.setAt indexCount1
    { i0 := sub32 (u32 (s.cur + ringCount)) 1, i1 := sub32 (u32 (s.next + ringCount)) 1,
      i2 := u32 (top + i) }
  let indexCount2 := u32 (indexCount1 + 1)
  match forLoop sphereTexCellBody 1 (ringCount - 1)
      { s with texIndexList := indexList2, indexCount := indexCount2 } with
  | none => none
  | some s1 => some { s1 with cur := s1.next, next := u32 (s1.next + ringCount) }

/-- The arrays built by `process(Sphere*)` when `__computeTexCoord` is set, for
a sphere of the given numbers of slices and stacks (two `uchar_t`): the
texture coordinates and their triangles. `_slices1` is a `uchar_t`, so the sum
`_slices + 1` is reduced modulo 256; the size `_slices1 * (_stacks + 1)` is
computed in `int`. -/
def sphereTexKernel {R : Type} (ops : RealOps R) (slices nbStacks : Nat) :
    Option (SphereTexState R) :=
  let ringCount := sub32 nbStacks 1
  let slices1 := (slices + 1) % 256
  let texList : Buffer (Vector2 R) := Buffer.new (slices1 * (nbStacks + 1))
  match forLoop (sphereTexColumnBody ops slices nbStacks) 0 slices1
      { cur := 0, next := 0, pointCount := 0, indexCount := 0, texList := texList,
        texIndexList := Buffer.new 0 } with
  | none => none
  | some s1 =>
    let bot := s1.pointCount
    match forLoop (sphereTexPoleBody ops slices 0) 0 slices1 s1 with
    | none => none
    | some s2 =>
      let top := s2.pointCount
      match forLoop (sphereTexPoleBody ops slices 1) 0 slices1 s2 with
      | none => none
      | some s3 =>
        forLoop (sphereTexSliceBody ringCount bot top) 0 slices
          { s3 with
            texIndexList := Buffer.new (u32 (slices * u32 (2 * ringCount))),
            indexCount := 0, cur := 0, next := ringCount }

/-! ## Points of the sphere in exact arithmetic -/

/-- The point `Vector3(_x, _y, _z) * _radius` that `process(Sphere*)` writes for
the azimuth of cosine `cosAz` and sine `sinAz` and the elevation `el`. -/
def sphereRingPoint {K : Type} [Field K] (cos sin : K → K) (radius cosAz sinAz el : K) :
    Vector3 K :=
  { x := cosAz * cos el * radius, y := sinAz * cos el * radius, z := sin el * radius }

/-- The point of ring `j` of slice `i` of a sphere of radius `r` with `slices`
slices and `nbStacks` stacks, as the description of the mesh gives it:
`r * (cos az * cos el, sin az * cos el, sin el)` with `az = i * 2π / slices` and
`el = -π / 2 + (j + 1) * π / nbStacks`. -/
def spherePoint {K : Type} [Field K] (cos sin : K → K) (pi r : K) (slices nbStacks i j : Nat) :
    Vector3 K :=
  { x := r * (cos ((i : K) * (2 * pi) / (slices : K)) *
          cos (-(pi / 2) + ((j : K) + 1) * pi / (nbStacks : K))),
    y := r * (sin ((i : K) * (2 * pi) / (slices : K)) *
          cos (-(pi / 2) + ((j : K) + 1) * pi / (nbStacks : K))),
    z := r * sin (-(pi / 2) + ((j : K) + 1) * pi / (nbStacks : K)) }

/-- For the examples over the rationals: a pair of functions with
`c x ^ 2 + s x ^ 2 = 1` for every `x`, standing for the cosine and the sine. -/
def rationalCos (x : ℚ) : ℚ := (1 - x * x) / (1 + x * x)

/-- See `rationalCos`. -/
def rationalSin (x : ℚ) : ℚ := 2 * x / (1 + x * x)

/-! ## Kernel of the extruded hull -/

/-- A loop `while (cond) body`, run for at most `fuel` iterations: undefined
(`none`) as soon as an iteration is, and when the condition still holds after
`fuel` iterations. -/
def whileLoop {σ : Type} (cond : σ → Bool) (body : σ → Option σ) : Nat → σ → Option σ
  | 0, s => if cond s then none else some s
  | fuel + 1, s =>
    if cond s then
      match body s with
      | none => none
      | some s1 => whileLoop cond body fuel s1
    else some s

/-- Modelled from the spec: product of a vector by a scalar (`Vector3 * real_t`)
in exact arithmetic, taken coordinate by coordinate. -/
def Vector3.times {K : Type} [Field K] (v : Vector3 K) (s : K) : Vector3 K :=
  { x := v.x * s, y := v.y * s, z := v.z * s }

/-- Local variables of a loop of `process(ExtrudedHull*)` that walks along the
vertical profile: the index `_iNdx`, the vector of indices (`_ndx1` or `_ndx2`)
and the length (`_len1` or `_len2`). -/
structure ChainState (K : Type) where
  iNdx : Nat
  ndx : List Nat
  len : K

/-- Body of the first `while` loop of `process(ExtrudedHull*)`: a step forward
along the vertical profile of `vSize` points. A remainder by zero and a read
outside the profile are undefined. -/
def hullForwardBody {K : Type} [Field K] (norm : Vector3 K → K) (vertical : List (Vector3 K))
    (vSize : Nat) (s : ChainState K) : Option (ChainState K) :=
  if vSize = 0 then none
  else
    let jNdx := u32 (s.iNdx + 1) % vSize
    match vertical[s.iNdx]?, vertical[jNdx]? with
    | some a, some b =>
      some { iNdx := jNdx, ndx := s.ndx ++ [s.iNdx], len := s.len + norm (a.sub b) }
    | _, _ => none

/-- Body of the second `while` loop of `process(ExtrudedHull*)`: a step backward
along the vertical profile. -/
def hullBackwardBody {K : Type} [Field K] (norm : Vector3 K → K) (vertical : List (Vector3 K))
    (vSize : Nat) (s : ChainState K) : Option (ChainState K) :=
  let jNdx := if s.iNdx = 0 then sub32 vSize 1 else sub32 s.iNdx 1
  match vertical[s.iNdx]?, vertical[jNdx]? with
  | some a, some b =>
    some { iNdx := jNdx, ndx := s.ndx ++ [s.iNdx], len := s.len + norm (a.sub b) }
  | _, _ => none

/-- One of the two walks of `process(ExtrudedHull*)` from `_ndxBot` to `_ndxTop`
(the `while` loop and the `push_back(_ndxTop)` that follows it), the loop being
run for at most `fuel` iterations. -/
def hullChain {K : Type} [Field K] (body : ChainState K → Option (ChainState K))
    (fuel ndxBot ndxTop : Nat) : Option (ChainState K) :=
  match whileLoop (fun s => s.iNdx != ndxTop) body fuel
      { iNdx := ndxBot, ndx := [], len := 0 } with
  | none => none
  | some s => some { s with ndx := s.ndx ++ [ndxTop] }

/-- Local variables of the interpolation along a chain of the vertical profile:
the index `_i1` (or `_i2`), the parameter `_dt1` reached and the length
`_dtSeg1` of the last segment. -/
structure HullWalk (K : Type) where
  i : Nat
  dt : K
  dtSeg : K

/-- Body of the loop `while (_dt1 < _t)`: the next segment of the chain `ndx`,
of total length `len`, counted when it is longer than `GEOM_TOLERANCE`. A read
outside the chain or outside the profile is undefined. -/
def hullAdvanceBody {K : Type} [LinearOrderedField K] (norm : Vector3 K → K) (tolerance : K)
    (vertical : List (Vector3 K)) (ndx : List Nat) (len : K) (w : HullWalk K) :
    Option (HullWalk K) :=
  let i := u32 (w.i + 1)
  match ndx[i]?, ndx[u32 (i + 1)]? with
  | some a, some b =>
    match vertical[a]?, vertical[b]? with
    | some pa, some pb =>
      let dtSeg := norm (pa.sub pb) / len
      some { i := i, dtSeg := dtSeg, dt := if tolerance < dtSeg then w.dt + dtSeg else w.dt }
    | _, _ => none
  | _, _ => none

/-- The point `_p1` (or `_p2`) of `process(ExtrudedHull*)` at the parameter `t`
along a chain of `stacksK` segments: interpolated when the chain has fewer
segments than `stacks`, the next point of the chain otherwise. -/
def hullChainPoint {K : Type} [LinearOrderedField K] (norm : Vector3 K → K) (tolerance : K)
    (vertical : List (Vector3 K)) (ndx : List Nat) (len : K) (stacksK nbStacks fuel : Nat)
    (t : K) (w : HullWalk K) : Option (Vector3 K × HullWalk K) :=
  if stacksK ≠ nbStacks then
    match whileLoop (fun w => decide (w.dt < t))
        (hullAdvanceBody norm tolerance vertical ndx len) fuel w with
    | none => none
    | some w1 =>
      let alpha := (w1.dt - t) / w1.dtSeg
      match ndx[u32 (w1.i + 1)]?, ndx[w1.i]? with
      | some b, some a =>
        match vertical[b]?, vertical[a]? with
        | some pb, some pa => some ((pb.times (1 - alpha)).add (pa.times alpha), w1)
        | _, _ => none
      | _, _ => none
  else
    let i := u32 (w.i + 1)
    match ndx[i]? with
    | none => none
    | some a =>
      match vertical[a]? with
      | none => none
      | some pa => some (pa, { w with i := i })

/-- Local variables of `process(ExtrudedHull*)` that change in the loops that
write the mesh, and the two arrays. -/
structure HullState (K : Type) where
  cur : Nat
  pointCount : Nat
  indexCount : Nat
  walk1 : HullWalk K
  walk2 : HullWalk K
  pointList : Buffer (Vector3 K)
  indexList : Buffer Index3

/-- Body of the loop of `process(ExtrudedHull*)` that writes the triangles of
the bottom fan. -/
def hullBottomBody {K : Type} (hSize bot : Nat) (i : Nat) (s : HullState K) :
    Option (HullState K) :=
  if hSize = 0 then none
  else
    let j := u32 (i + 1) % hSize
    some { s with
      indexList := s.indexList.setAt s.indexCount
        { i0 := u32 (s.cur + i), i1 := bot, i2 := u32 (s.cur + j) },
      indexCount := u32 (s.indexCount + 1) }

/-- Body of the loop over `_hPoint`: the point of the ring built from `p1` and
`p2`, and the triangles to the next ring, or to the top for the last ring. -/
def hullPointBody {K : Type} [LinearOrderedField K] (norm : Vector3 K → K) (epsilon : K)
    (horizontal : List (Vector3 K)) (width xcenter ycenter : K) (p1 p2 : Vector3 K)
    (hSize nbStacks top iStacks : Nat) (hPoint : Nat) (s : HullState K) :
    Option (HullState K) :=
  match horizontal[hPoint]? with
  | none => none
  | some h =>
    if hSize = 0 then none
    else
      let pointList := s.pointList.setAt s.pointCount
        (hullRingPoint norm epsilon width xcenter ycenter p1 p2 h)
      let pointCount := u32 (s.pointCount + 1)
      let hNextPoint := u32 (hPoint + 1) % hSize
      if iStacks ≠ sub32 nbStacks 1 then
        let indexList1 := s.indexList.setAt s.indexCount
          { i0 := u32 (s.cur + hPoint), i1 := u32 (s.cur + hNextPoint),
            i2 := u32 (u32 (s.cur + hNextPoint) + hSize) }
        let indexCount1 := u32 (s.indexCount + 1)
        let indexList2 := indexList1.setAt indexCount1
          { i0 := u32 (s.cur + hPoint), i1 := u32 (u32 (s.cur + hNextPoint) + hSize),
            i2 := u32 (u32 (s.cur + hPoint) + hSize) }
        some { s with pointList := pointList, pointCount := pointCount,
                      indexList := indexList2, indexCount := u32 (indexCount1 + 1) }
      else
        some { s with
          pointList := pointList, pointCount := pointCount,
          indexList := s.indexList.setAt s.indexCount
            { i0 := u32 (s.cur + hPoint), i1 := u32 (s.cur + hNextPoint), i2 := top },
          indexCount := u32 (s.indexCount + 1) }

/-- Body of the loop over `_iStacks`: the two points of the vertical profile at
the parameter `_iStacks / _stacks`, then the ring. -/
def hullStackBody {K : Type} [LinearOrderedField K] (norm : Vector3 K → K)
    (tolerance epsilon : K) (horizontal vertical : List (Vector3 K))
    (width xcenter ycenter : K) (c1 c2 : ChainState K)
    (stacks1 stacks2 nbStacks hSize top fuel : Nat) (iStacks : Nat) (s : HullState K) :
    Option (HullState K) :=
  let t := (iStacks : K) / (nbStacks : K)
  match hullChainPoint norm tolerance vertical c1.ndx c1.len stacks1 nbStacks fuel t s.walk1 with
  | none => none
  | some (p1, w1) =>
    match hullChainPoint norm tolerance vertical c2.ndx c2.len stacks2 nbStacks fuel t
        s.walk2 with
    | none => none
    | some (p2, w2) =>
      match forLoop
          (hullPointBody norm epsilon horizontal width xcenter ycenter p1 p2 hSize nbStacks top
            iStacks) 0 hSize { s with walk1 := w1, walk2 := w2 } with
      | none => none
      | some s1 => some { s1 with cur := u32 (s1.cur + hSize) }

/-- The first segment of a chain divided by the length of the chain (the
initial value of `_dtSeg1` and `_dtSeg2`). -/
def hullFirstSegment {K : Type} [Field K] (norm : Vector3 K → K) (vertical : List (Vector3 K))
    (c : ChainState K) : Option K :=
  match c.ndx[0]?, c.ndx[1]? with
  | some a, some b =>
    match vertical[a]?, vertical[b]? with
    | some pa, some pb => some (norm (pa.sub pb) / c.len)
    | _, _ => none
  | _, _ => none

/-- The number of segments of a chain (`_ndx1.size() - 1`, a `uint32_t`). -/
def hullStacks {K : Type} (c : ChainState K) : Nat := sub32 (u32 c.ndx.length) 1

/-- The part of `process(ExtrudedHull*)` that allocates and fills the two
arrays, from the two chains `c1` and `c2`, their numbers of segments, the value
`nbStacks` of `_stacks`, the number `hSize` of points of the horizontal profile
and the initial values of `_dtSeg1` and `_dtSeg2`. -/
def hullFill {K : Type} [LinearOrderedField K] (norm : Vector3 K → K)
    (tolerance epsilon : K) (horizontal vertical : List (Vector3 K))
    (width xcenter ycenter : K) (c1 c2 : ChainState K)
    (stacks1 stacks2 nbStacks hSize : Nat) (dtSeg1 dtSeg2 : K) (ndxBot ndxTop fuel : Nat) :
    Option (HullState K) :=
  let ringBySize := u32 (sub32 nbStacks 1 * hSize)
  let bot := ringBySize
  let top := u32 (bot + 1)
  match forLoop (hullBottomBody hSize bot) 0 hSize
      { cur := 0, pointCount := 0, indexCount := 0,
        walk1 := { i := 0, dt := dtSeg1, dtSeg := dtSeg1 },
        walk2 := { i := 0, dt := dtSeg2, dtSeg := dtSeg2 },
        pointList := Buffer.new (u32 (ringBySize + 2)),
        indexList := Buffer.new (u32 (ringBySize * 2)) } with
  | none => none
  | some s1 =>
    match forLoop
        (hullStackBody norm tolerance epsilon horizontal vertical width xcenter ycenter
          c1 c2 stacks1 stacks2 nbStacks hSize top fuel) 1 (nbStacks - 1) s1 with
    | none => none
    | some s2 =>
      match vertical[ndxBot]?, vertical[ndxTop]? with
      | some pb, some pt =>
        let pointList1 := s2.pointList.setAt s2.pointCount
          { x := pb.x, y := ycenter, z := pb.y }
        let pointCount1 := u32 (s2.pointCount + 1)
        some { s2 with
          pointList := pointList1.setAt pointCount1 { x := pt.x, y := ycenter, z := pt.y },
          pointCount := u32 (pointCount1 + 1) }
      | _, _ => none

/-- The point and index arrays built by `process(ExtrudedHull*)` (up to its two
final `GEOM_ASSERT`) from the points of the horizontal and of the vertical
profile. The norm of a vector, `GEOM_TOLERANCE`, `GEOM_EPSILON`, the points of
the horizontal profile of smallest and largest `x` and `y` (`getXMinAndMax`,
`getYMinAndMax`) and the indices `_ndxBot` and `_ndxTop` of the points of the
vertical profile of smallest and largest `y` are given; every `while` loop is
run for at most `fuel` iterations; the assertions on `_dtSeg1` and `_norm` are
not part of the kernel. -/
def extrudedHullKernel {K : Type} [LinearOrderedField K] (norm : Vector3 K → K)
    (tolerance epsilon : K) (horizontal vertical : List (Vector3 K))
    (xMin xMax yMin yMax : Vector3 K) (ndxBot ndxTop fuel : Nat) : Option (HullState K) :=
  match hullChain (hullForwardBody norm vertical (u32 vertical.length)) fuel ndxBot ndxTop,
      hullChain (hullBackwardBody norm vertical (u32 vertical.length)) fuel ndxBot ndxTop with
  | some c1, some c2 =>
    match hullFirstSegment norm vertical c1, hullFirstSegment norm vertical c2 with
    | some dtSeg1, some dtSeg2 =>
      hullFill norm tolerance epsilon horizontal vertical (hullWidth xMin xMax)
        (hullXCenter xMin xMax) (hullYCenter yMin yMax) c1 c2 (hullStacks c1) (hullStacks c2)
        (max (hullStacks c1) (hullStacks c2)) (u32 horizontal.length) dtSeg1 dtSeg2
        ndxBot ndxTop fuel
    | _, _ => none
  | _, _ => none

/-! ## Kernel of the asymmetric hull -/

/-- Modelled from the spec: class `Vector3::Cylindrical` is not part of the
sources; cylindrical coordinates are a radius, an angle and a height. -/
structure Cylindrical (R : Type) where
  radius : R
  theta : R
  z : R

/-- Functions used by `process(AsymmetricHull*)` that are not part of the
sources, taken as parameters: the conversions between `Vector3` and
`Vector3::Cylindrical`, and `pow`. -/
structure CylindricalExtern (R : Type) where
  ofVector : Vector3 R → Cylindrical R
  toVector : Cylindrical R → Vector3 R
  pow : R → R → R

/-- Modelled from the spec: difference of two vectors (`Vector3 - Vector3`),
taken coordinate by coordinate, with the operations on `real_t`. -/
def Vector3.minus {R : Type} (ops : RealOps R) (a b : Vector3 R) : Vector3 R :=
  { x := ops.sub a.x b.x, y := ops.sub a.y b.y, z := ops.sub a.z b.z }

/-- Modelled from the spec: class `AsymmetricHull` is not part of the sources;
the values of its getters. -/
structure AsymmetricHull (R : Type) where
  negXRadius : R
  posXRadius : R
  negYRadius : R
  posYRadius : R
  negXHeight : R
  posXHeight : R
  negYHeight : R
  posYHeight : R
  bottom : Vector3 R
  top : Vector3 R
  bottomShape : R
  topShape : R
  slices : Nat
  nbStacks : Nat

/-- Local variables of `process(AsymmetricHull*)` that change in the loops
(`rIter` is `_rIterBot` or `_rIterTop`), and the two arrays. -/
structure AsymmetricHullState (R : Type) where
  cur : Nat
  next : Nat
  pointCount : Nat
  indexCount : Nat
  azIter : R
  rIter : R
  pointList : Buffer (Vector3 R)
  indexList : Buffer Index3

/-- Body of the loop over `_j` of `process(AsymmetricHull*)`: a point between
the bottom and the peripheral point, and two triangles. -/
def asymmetricLowerBody {R : Type} (ops : RealOps R) (C : CylindricalExtern R)
    (botPoint : Vector3 R) (piBot : Cylindrical R) (rStepBot shapeBot : R) (j : Nat)
    (s : AsymmetricHullState R) : Option (AsymmetricHullState R) :=
  let rIter := ops.add s.rIter rStepBot
  let pij := Vector3.minus ops botPoint
    (C.toVector
      { radius := rIter, theta := piBot.theta,
        z := ops.mul piBot.z (C.pow (ops.div rIter piBot.radius) shapeBot) })
  let indexList1 := s.indexList.setAt s.indexCount
    { i0 := u32 (s.cur + j), i1 := u32 (s.next + j), i2 := u32 (u32 (s.next + j) + 1) }
  let indexCount1 := u32 (s.indexCount + 1)
  let indexList2 := indexList1.setAt indexCount1
    { i0 := u32 (s.cur + j), i1 := u32 (u32 (s.next + j) + 1),
      i2 := u32 (u32 (s.cur + j) + 1) }
  some { s with
    rIter := rIter,
    pointList := s.pointList.setAt s.pointCount pij,
    pointCount := u32 (s.pointCount + 1),
    indexList := indexList2, indexCount := u32 (indexCount1 + 1) }

/-- Body of the loop over `_j2` of `process(AsymmetricHull*)`: a point between
the peripheral point and the top, and two triangles. -/
def asymmetricUpperBody {R : Type} (ops : RealOps R) (C : CylindricalExtern R)
    (topPoint : Vector3 R) (piTop : Cylindrical R) (rStepTop shapeTop : R) (nbStacks : Nat)
    (j2 : Nat) (s : AsymmetricHullState R) : Option (AsymmetricHullState R) :=
  let rIter := ops.sub s.rIter rStepTop
  let pij := Vector3.minus ops topPoint
    (C.toVector
      { radius := rIter, theta := piTop.theta,
        z := ops.mul piTop.z (C.pow (ops.div rIter piTop.radius) shapeTop) })
  let indexList1 := s.indexList.setAt s.indexCount
    { i0 := u32 (sub32 (u32 (s.cur + nbStacks)) 1 + j2),
      i1 := u32 (sub32 (u32 (s.next + nbStacks)) 1 + j2),
      i2 := u32 (u32 (s.next + nbStacks) + j2) }
  let indexCount1 := u32 (s.indexCount + 1)
  let indexList2 := indexList1.setAt indexCount1
    { i0 := u32 (sub32 (u32 (s.cur + nbStacks)) 1 + j2),
      i1 := u32 (u32 (s.next + nbStacks) + j2),
      i2 := u32 (u32 (s.cur + nbStacks) + j2) }
  some { s with
    rIter := rIter,
    pointList := s.pointList.setAt s.pointCount pij,
    pointCount := u32 (s.pointCount + 1),
    indexList := indexList2, indexCount := u32 (indexCount1 + 1) }

/-- The peripheral point `_Pi` of `process(AsymmetricHull*)` at the azimuth
`azIter`, in a quadrant of radii `radius1`, `radius2` and heights `z1`, `z2`. -/
def asymmetricPeripheral {R : Type} (ops : RealOps R) (radius1 radius2 z1 z2 azIter : R) :
    Vector3 R :=
  { x := ops.mul (ops.cos azIter) radius1, y := ops.mul (ops.sin azIter) radius2,
    z := ops.add (ops.mul (ops.mul z1 (ops.cos azIter)) (ops.cos azIter))
      (ops.mul (ops.mul z2 (ops.sin azIter)) (ops.sin azIter)) }

/-- The lower part of a peripheral direction of `process(AsymmetricHull*)`: the
triangle of the bottom apex, then the loop over `_j` towards the peripheral
point `pI`; `halfCount` is the value of `_stacks - 1`, the bound of the loop. -/
def asymmetricLowerHalf {R : Type} (ops : RealOps R) (C : CylindricalExtern R)
    (hull : AsymmetricHull R) (pI : Vector3 R) (nbStacks halfCount bot : Nat)
    (s : AsymmetricHullState R) : Option (AsymmetricHullState R) :=
  forLoop
    (asymmetricLowerBody ops C hull.bottom (C.ofVector (Vector3.minus ops hull.bottom pI))
      (ops.div (C.ofVector (Vector3.minus ops hull.bottom pI)).radius (ops.ofNat nbStacks))
      hull.bottomShape)
    0 halfCount
    { s with rIter := ops.ofNat 0,
             indexList := s.indexList.setAt s.indexCount
               { i0 := s.cur, i1 := bot, i2 := s.next },
             indexCount := u32 (s.indexCount + 1) }

/-- The upper part of a peripheral direction of `process(AsymmetricHull*)`: the
peripheral point `pI`, then the loop over `_j2` towards the top; `halfCount` is
the value of `_stacks - 1`, the bound of the loop. -/
def asymmetricUpperHalf {R : Type} (ops : RealOps R) (C : CylindricalExtern R)
    (hull : AsymmetricHull R) (pI : Vector3 R) (nbStacks halfCount : Nat)
    (s1 : AsymmetricHullState R) : Option (AsymmetricHullState R) :=
  forLoop
    (asymmetricUpperBody ops C hull.top (C.ofVector (Vector3.minus ops hull.top pI))
      (ops.div (C.ofVector (Vector3.minus ops hull.top pI)).radius (ops.ofNat nbStacks))
      hull.topShape nbStacks)
    0 halfCount
    { s1 with rIter := (C.ofVector (Vector3.minus ops hull.top pI)).radius,
              pointList := s1.pointList.setAt s1.pointCount pI,
              pointCount := u32 (s1.pointCount + 1) }

/-- The end of a peripheral direction of `process(AsymmetricHull*)`: the
triangle of the top apex and the move to the next direction. The remainder by
`_bot` is undefined when `_bot` is zero. -/
def asymmetricDirectionEnd {R : Type} (ops : RealOps R) (azStep : R)
    (ringCount bot top : Nat) (s2 : AsymmetricHullState R) :
    Option (AsymmetricHullState R) :=
  if bot = 0 then none
  else
    some { s2 with
      indexList := s2.indexList.setAt s2.indexCount
        { i0 := sub32 (u32 (s2.cur + ringCount)) 1,
          i1 := sub32 (u32 (s2.next + ringCount)) 1, i2 := top },
      indexCount := u32 (s2.indexCount + 1),
      cur := s2.next,
      next := u32 (s2.next + ringCount) % bot,
      azIter := ops.add s2.azIter azStep }

/-- Body of the loop over `_i` of `process(AsymmetricHull*)`: the peripheral
direction of azimuth `_azIter` in a quadrant of radii `radius1`, `radius2` and
heights `z1`, `z2`; `halfCount` is the value of `_stacks - 1`. -/
def asymmetricDirectionBody {R : Type} (ops : RealOps R) (C : CylindricalExtern R)
    (hull : AsymmetricHull R) (radius1 radius2 z1 z2 azStep : R)
    (nbStacks halfCount ringCount bot top : Nat) (_i : Nat) (s : AsymmetricHullState R) :
    Option (AsymmetricHullState R) :=
  match asymmetricLowerHalf ops C hull
      (asymmetricPeripheral ops radius1 radius2 z1 z2 s.azIter) nbStacks halfCount bot s with
  | none => none
  | some s1 =>
    match asymmetricUpperHalf ops C hull
        (asymmetricPeripheral ops radius1 radius2 z1 z2 s.azIter) nbStacks halfCount s1 with
    | none => none
    | some s2 => asymmetricDirectionEnd ops azStep ringCount bot top s2

/-- Body of the loop over the quadrants `_q` of `process(AsymmetricHull*)`: the
`switch` on `_q`, then the loop over `_i`. -/
def asymmetricQuadrantBody {R : Type} (ops : RealOps R) (C : CylindricalExtern R)
    (hull : AsymmetricHull R) (azStep : R)
    (slices nbStacks halfCount ringCount bot top : Nat) (q : Nat)
    (s : AsymmetricHullState R) : Option (AsymmetricHullState R) :=
  let radius1 :=
    if q = 0 then hull.posXRadius else if q = 1 then hull.negXRadius
    else if q = 2 then hull.negXRadius else hull.posXRadius
  let radius2 :=
    if q = 0 then hull.posYRadius else if q = 1 then hull.posYRadius
    else if q = 2 then hull.negYRadius else hull.negYRadius
  let z1 :=
    if q = 0 then hull.posXHeight else if q = 1 then hull.negXHeight
    else if q = 2 then hull.negXHeight else hull.posXHeight
  let z2 :=
    if q = 0 then hull.posYHeight else if q = 1 then hull.posYHeight
    else if q = 2 then hull.negYHeight else hull.negYHeight
  forLoop
    (asymmetricDirectionBody ops C hull radius1 radius2 z1 z2 azStep nbStacks halfCount
      ringCount bot top)
    0 slices s

/-- The point and index arrays built by `process(AsymmetricHull*)` (up to its
two `GEOM_ASSERT`); `_slices` and `_stacks` are two `uint32_t`. -/
def asymmetricHullKernel {R : Type} (ops : RealOps R) (C : CylindricalExtern R)
    (hull : AsymmetricHull R) : Option (AsymmetricHullState R) :=
  let slices := u32 hull.slices
  let nbStacks := u32 hull.nbStacks
  let totalSlices := u32 (slices * 4)
  let totalStacks := u32 (nbStacks * 2)
  let ringCount := sub32 totalStacks 1
  let bot := u32 (totalSlices * ringCount)
  let top := u32 (bot + 1)
  let azStep := ops.div ops.twoPi (ops.ofNat totalSlices)
  match forLoop
      (asymmetricQuadrantBody ops C hull azStep slices nbStacks (sub32 nbStacks 1) ringCount
        bot top) 0 4
      { cur := 0, next := ringCount, pointCount := 0, indexCount := 0,
        azIter := ops.ofNat 0, rIter := ops.ofNat 0,
        pointList := Buffer.new (u32 (top + 1)),
        indexList := Buffer.new (u32 (u32 (ringCount * totalSlices) * 2)) } with
  | none => none
  | some s =>
    let pointList1 := s.pointList.setAt s.pointCount hull.bottom
    let pointCount1 := u32 (s.pointCount + 1)
    some { s with
      pointList := pointList1.setAt pointCount1 hull.top,
      pointCount := u32 (pointCount1 + 1) }

/-- Whether a triangle has the index `i` among its three indices. -/
def Index3.has (t : Index3) (i : Nat) : Bool := t.i0 == i || t.i1 == i || t.i2 == i

/-- The triangles of a peripheral direction of an asymmetric hull with
`nbStacks` stacks per half whose points start at the index `c`, the points of
the next direction starting at `nx`: the triangle of the bottom apex `bot`, two
triangles per stack of the lower half but the first, two per stack of the upper
half but the last, and the triangle of the top apex `top`. -/
def asymmetricHullFaces (nbStacks bot top c nx : Nat) : List Index3 :=
  [{ i0 := c, i1 := bot, i2 := nx }] ++
  (List.range (nbStacks - 1)).flatMap (fun j =>
    [({ i0 := c + j, i1 := nx + j, i2 := nx + j + 1 } : Index3),
     { i0 := c + j, i1 := nx + j + 1, i2 := c + j + 1 }]) ++
  (List.range (nbStacks - 1)).flatMap (fun j =>
    [({ i0 := c + nbStacks - 1 + j, i1 := nx + nbStacks - 1 + j, i2 := nx + nbStacks + j } :
        Index3),
     { i0 := c + nbStacks - 1 + j, i1 := nx + nbStacks + j, i2 := c + nbStacks + j }]) ++
  [{ i0 := c + (2 * nbStacks - 1) - 1, i1 := nx + (2 * nbStacks - 1) - 1, i2 := top }]

/-- For the examples: cylindrical coordinates that keep the three coordinates
of a vector as they are, and a `pow` that returns its first argument. -/
def sampleCylindrical : CylindricalExtern RealTerm :=
  { ofVector := fun v => { radius := v.x, theta := v.y, z := v.z },
    toVector := fun c => { x := c.radius, y := c.theta, z := c.z },
    pow := fun a _ => a }

/-- For the examples: an asymmetric hull with symbolic sizes, 2 slices per
quadrant and 2 stacks per half. -/
def sampleHull : AsymmetricHull RealTerm :=
  { negXRadius := .var "negXRadius", posXRadius := .var "posXRadius",
    negYRadius := .var "negYRadius", posYRadius := .var "posYRadius",
    negXHeight := .var "negXHeight", posXHeight := .var "posXHeight",
    negYHeight := .var "negYHeight", posYHeight := .var "posYHeight",
    bottom := { x := .ofNat 0, y := .ofNat 0, z := .neg (.ofNat 1) },
    top := { x := .ofNat 0, y := .ofNat 0, z := .ofNat 1 },
    bottomShape := .ofNat 2, topShape := .ofNat 2, slices := 2, nbStacks := 2 }

/-- The state of `process(AsymmetricHull*)` once `d` peripheral directions out
of `total` are written, for `nbStacks` stacks per half and `rc` points per
direction: `_cur` and `_next` are the first indices of direction `d` and of the
next one, cyclically; the points and the triangles are written at consecutive
positions, `rc` points and twice as many triangles per direction, the
triangles being those of `asymmetricHullFaces`. -/
def AsymmetricHullState.upTo {R : Type} (s : AsymmetricHullState R)
    (nbStacks rc total bot top psize isize d : Nat) : Prop :=
  s.cur = d % total * rc ∧
  s.next = (d + 1) % total * rc ∧
  s.pointCount = d * rc ∧
  s.indexCount = 2 * (d * rc) ∧
  s.pointList.size = psize ∧ s.indexList.size = isize ∧
  s.pointList.positions = List.range (d * rc) ∧
  s.indexList.positions = List.range (2 * (d * rc)) ∧
  s.indexList.values = (List.range d).flatMap (fun e =>
    asymmetricHullFaces nbStacks bot top (e * rc) ((e + 1) % total * rc))

/-! ## Merges of an IFS and of a group -/

/-- The name `GEOM_DISCRETIZER_UPDATE_CACHE` gives to the model of a node: that
of the node when it is named, the one it has otherwise. -/
def namedAs {α : Type} (info : NodeInfo) (m : ExplicitModel α) : ExplicitModel α :=
  if info.isNamed then { m with name := info.name } else m

/-- Every object of the free store `h` is still in `h2`, at the same address
and with the same fields apart from its name. -/
def heapKeeps {α : Type} (h h2 : List (ExplicitModel α)) : Prop :=
  ∀ (a : Nat) (m : ExplicitModel α), h[a]? = some m →
    ∃ m2, h2[a]? = some m2 ∧ m2 = { m with name := m2.name }

/-- Modelled from the spec: the arrays of a mesh, held by the container classes,
which are not part of the sources: the point array and the index array, one
index list per face. -/
structure MeshArrays (P : Type) where
  points : List P
  faces : List Index
deriving DecidableEq, Repr

/-- The indices of a face shifted by an offset. -/
def shiftFace (offset : Nat) (f : Index) : Index := f.map (fun i => i + offset)

/-- Modelled from the spec: the merge of the Composer; class `Merge` (merge.h) is
not part of the sources. Given two explicit models A and B, it produces a single
model whose point array is A followed by B and whose index array is the indices
of A followed by the indices of B shifted by the number of points of A; when
the arities differ the result has polygon-index arity (a face set); texcoords
are kept when both models carry them. -/
def composerMerge {P : Type} (a b : ExplicitModel (MeshArrays P)) :
    Option (ExplicitModel (MeshArrays P)) :=
  some { cls := if a.cls = b.cls then a.cls else .faceSet,
         hasPointList := true,
         hasTexCoordList := a.hasTexCoordList && b.hasTexCoordList,
         name := a.name,
         arrays := { points := a.arrays.points ++ b.arrays.points,
                     faces := a.arrays.faces
                       ++ b.arrays.faces.map (shiftFace a.arrays.points.length) } }

/-- The external operations on meshes: the kernels, the nodes on which they run
to completion and `ExplicitModel::transform` are parameters, the merge is that
of the Composer. -/
def meshExtern {P τ : Type} (tessellate : Nat → Bool → List (MeshArrays P) → MeshArrays P)
    (kernelDefined : Nat → Bool → List (MeshArrays P) → Bool)
    (transform : τ → ExplicitModel (MeshArrays P) → ExplicitModel (MeshArrays P)) :
    Extern (MeshArrays P) τ :=
  { tessellate := tessellate, kernelDefined := kernelDefined, transform := transform,
    merge := composerMerge }

/-- The mesh arrays the kernel of the sphere builds: the points and the
triangles in the order of their slots (empty when the kernel is undefined). -/
def sphereArrays {R : Type} (ops : RealOps R) (radius : R) (slices nbStacks : Nat) :
    MeshArrays (Vector3 R) :=
  match sphereKernel ops radius slices nbStacks with
  | some s => { points := s.pointList.values, faces := s.indexList.values.map Index3.toList }
  | none => { points := [], faces := [] }

/-- Whether `process(Sphere*)` runs to completion: the loops that build the
points and the triangles are defined and write inside their arrays, and so does
the texture part when texcoords are requested. -/
def sphereDefined {R : Type} (ops : RealOps R) (radius : R) (slices nbStacks : Nat)
    (tex : Bool) : Bool :=
  (match sphereKernel ops radius slices nbStacks with
    | some s => s.pointList.inBounds && s.indexList.inBounds
    | none => false) &&
  (!tex ||
    match sphereTexKernel ops slices nbStacks with
    | some s => s.texList.inBounds && s.texIndexList.inBounds
    | none => false)

/-- The external operations of a scene of spheres: the node `id` is a sphere of
radius `radius id` with `slices id` slices and `nbStacks id` stacks, its kernel
is that of the sphere, and a transformation moves every point. -/
def sphereExtern {R τ : Type} (ops : RealOps R) (radius : Nat → R) (slices nbStacks : Nat → Nat)
    (move : τ → Vector3 R → Vector3 R) : Extern (MeshArrays (Vector3 R)) τ :=
  meshExtern (fun id _ _ => sphereArrays ops (radius id) (slices id) (nbStacks id))
    (fun id tex _ => sphereDefined ops (radius id) (slices id) (nbStacks id) tex)
    (fun t m => { m with arrays := { m.arrays with points := m.arrays.points.map (move t) } })

/-- The mesh arrays the kernel of the cone builds: the points and the triangles
in the order of their slots (empty when the kernel is undefined). -/
def coneArrays {R : Type} (ops : RealOps R) (radius height : R) (solid : Bool)
    (slices : Nat) : MeshArrays (Vector3 R) :=
  match coneKernel ops radius height solid slices with
  | some s => { points := s.pointList.values, faces := s.indexList.values.map Index3.toList }
  | none => { points := [], faces := [] }

/-- Whether `process(Cone*)` runs to completion: the loop over the slices is
defined and every point and every triangle is written inside its array. -/
def coneDefined {R : Type} (ops : RealOps R) (radius height : R) (solid : Bool)
    (slices : Nat) : Bool :=
  match coneKernel ops radius height solid slices with
  | some s => s.pointList.inBounds && s.indexList.inBounds
  | none => false

/-- The external operations of a scene of cones: the node `id` is a cone of
radius `radius id` and height `height id` with `slices id` slices, solid when
`solid id`; its kernel is that of the cone, and a transformation moves every
point. -/
def coneExtern {R τ : Type} (ops : RealOps R) (radius height : Nat → R) (solid : Nat → Bool)
    (slices : Nat → Nat) (move : τ → Vector3 R → Vector3 R) :
    Extern (MeshArrays (Vector3 R)) τ :=
  meshExtern (fun id _ _ => coneArrays ops (radius id) (height id) (solid id) (slices id))
    (fun id _ _ => coneDefined ops (radius id) (height id) (solid id) (slices id))
    (fun t m => { m with arrays := { m.arrays with points := m.arrays.points.map (move t) } })

/-- Translation of a point by a vector, over the symbolic reals. -/
def symbolicMove (t p : Vector3 RealTerm) : Vector3 RealTerm :=
  { x := symbolicReal.add p.x t.x, y := symbolicReal.add p.y t.y,
    z := symbolicReal.add p.z t.z }

/-- A scene over the symbolic reals in which every sphere has radius 1, 4
slices and 3 stacks: a concrete instance of the operations on meshes. -/
def sampleSpheres : Extern (MeshArrays (Vector3 RealTerm)) (Vector3 RealTerm) :=
  sphereExtern symbolicReal (fun _ => .ofNat 1) (fun _ => 4) (fun _ => 3) symbolicMove

/-- The mesh of a sphere of the scene `sampleSpheres`. -/
def sampleSphereMesh : ExplicitModel (MeshArrays (Vector3 RealTerm)) :=
  { cls := .triangleSet, hasPointList := true, hasTexCoordList := false, name := "",
    arrays := sphereArrays symbolicReal (.ofNat 1) 4 3 }

/-! ## Predicates on kernels, pointers and caches -/

/-- Whether the kernel of a parametric primitive without children runs to
completion on its node under a texcoord flag; the kernels of the NURBS patch
and of the 2D curves are taken to (the other primitives have no such kernel or
run it on their profiles). -/
def Primitive.kernelRuns {α τ : Type} (E : Extern α τ) (tex : Bool) : Primitive α → Bool
  | .leaf _ info => E.kernelDefined info.id false []
  | .texLeaf _ info => E.kernelDefined info.id tex []
  | _ => true

/-- A pointer that designates an object of the free store allocated at an
address from `lo` on and below `hi`; a pointer to a scene node does not. -/
def Ref.allocIn {α : Type} (lo hi : Nat) : Ref α → Prop
  | .node _ _ => False
  | .alloc a => lo ≤ a ∧ a < hi

/-- The free store holds at least `n` objects and every non-null entry of the
cache designates an object of the free store allocated after the first `n`. -/
def Discretizer.storesIn {α : Type} (d : Discretizer α) (n : Nat) : Prop :=
  n ≤ d.heap.length ∧
  ∀ (k : Nat) (r : Ref α), d.cache.find k = some (some r) → r.allocIn n d.heap.length

/-- The current result, when it is not null, designates an object of the free
store allocated after the first `n`. -/
def Discretizer.resultIn {α : Type} (d : Discretizer α) (n : Nat) : Prop :=
  ∀ r : Ref α, d.discretization = some r → r.allocIn n d.heap.length

/-- Whether a geometry is a `NurbsPatch`. -/
def Geometry.isNurbsPatch {α τ : Type} : Geometry α τ → Bool
  | .primitive (.nurbsPatch _) => true
  | _ => false

/-- The entry of a curve designates points: when the curve is named and the
cache holds a non-null pointer for it, that pointer designates an object with a
point list (as does every entry `process` stores for a curve). -/
def Curve2D.storedWithPoints {α : Type} (c : Curve2D) (heap : List (ExplicitModel α))
    (cache : Cache α) : Prop :=
  c.info.isNamed = true → ∀ r, cache.find c.info.id = some (some r) →
    ∃ m, deref heap r = some m ∧ m.hasPointList = true

/-! ## Basic facts about the free store and the cache -/

theorem isNamed_empty (id : Nat) : NodeInfo.isNamed ⟨id, ""⟩ = false := by
  simp [NodeInfo.isNamed]

theorem deref_alloc_append {α : Type} (heap : List (ExplicitModel α)) (m : ExplicitModel α) :
    deref (heap ++ [m]) (.alloc heap.length) = some m := by
  simp [deref]

theorem modify_append_last {α : Type} (f : α → α) (l : List α) (a : α) :
    (l ++ [a]).modify f l.length = l ++ [f a] := by
  induction l with
  | nil => rfl
  | cons x xs ih => simp [List.modify_succ_cons, ih]

theorem find_insert_self {α : Type} (c : Cache α) (id : Nat) (p : Option (Ref α)) :
    (c.insert id p).find id = some p := by
  simp [Cache.insert, Cache.find]

theorem find_filter_ne {α : Type} (c : Cache α) (id k : Nat) (h : id ≠ k) :
    Cache.find (c.filter (fun e => e.1 != id)) k = Cache.find c k := by
  induction c with
  | nil => rfl
  | cons e rest ih =>
    obtain ⟨k1, v⟩ := e
    by_cases h1 : k1 = id
    · subst h1
      simp [List.filter_cons, Cache.find, h, ih]
    · simp [List.filter_cons, Cache.find, h1, ih]

theorem find_insert_ne {α : Type} (c : Cache α) (id k : Nat) (p : Option (Ref α))
    (h : id ≠ k) : (c.insert id p).find k = c.find k := by
  simp [Cache.insert, Cache.find, h, find_filter_ne]

/-! ## Dispatch on nodes without geometry and on explicit models -/

/-- C1 (code at the failing input): on an unnamed `NurbsPatch`, in every state,
`process` returns `true` although the current result is the null pointer. -/
theorem nurbsPatch_returns_true_with_empty_result {α τ : Type} (E : Extern α τ)
    (id : Nat) (d : Discretizer α) :
    ∃ d1, process E (.primitive (.nurbsPatch ⟨id, ""⟩)) d = some (true, d1) ∧
      d1.getDiscretization = none := by
  simp [process, processPrimitive, processNurbsPatch, checkCacheWithTex, updateCache,
    isNamed_empty, Discretizer.getDiscretization]

/-- C8: on an explicit model of any class (`TriangleSet`, `QuadSet`, `FaceSet`,
`PointSet`, `Polyline`, `AmapSymbol`), named or not, `process` returns `true`,
the current result is a pointer to the node itself, no object is allocated and
the cache is unchanged. -/
theorem explicit_returns_node_itself {α τ : Type} (E : Extern α τ) (id : Nat)
    (self : ExplicitModel α) (d : Discretizer α) :
    ∃ d1, process E (.primitive (.explicit id self)) d = some (true, d1) ∧
      d1.getDiscretization = some (.node id self) ∧
      deref d1.heap (.node id self) = some self ∧
      d1.heap = d.heap ∧ d1.cache = d.cache ∧ d1.computeTexCoord = d.computeTexCoord := by
  simp [process, processPrimitive, processExplicit, Discretizer.getDiscretization, deref]

/-- C9: on a `Material`, `ImageTexture`, `MonoSpectral`, `MultiSpectral` or
`Font` node and on a `Text` node, `process` returns `false`, the current result
is the null pointer whatever it was, and the cache is unchanged. -/
theorem nonGeometric_returns_false_empty {α τ : Type} (E : Extern α τ)
    (k : NonGeometricKind) (info : NodeInfo) (d : Discretizer α) :
    (∃ d1, processSceneObject E (.nonGeometric k info) d = some (false, d1) ∧
      d1.getDiscretization = none ∧ d1.cache = d.cache ∧ d1.heap = d.heap) ∧
    (∃ d1, processSceneObject E (.geometry (.text info)) d = some (false, d1) ∧
      d1.getDiscretization = none ∧ d1.cache = d.cache ∧ d1.heap = d.heap) := by
  simp [processSceneObject, process, processNothing, Discretizer.getDiscretization]

/-! ## Lookups that ignore or require texcoords -/

/-- The state after a named leaf looked up with `GEOM_DISCRETIZER_CHECK_CACHE`
has been computed from a state without an entry for it, its kernel being
defined. -/
theorem processLeaf_miss {α τ : Type} (E : Extern α τ) (k : LeafKind) (info : NodeInfo)
    (d : Discretizer α) (hn : info.isNamed = true) (hc : d.cache.find info.id = none)
    (hk : E.kernelDefined info.id false [] = true) :
    processLeaf E k info d = some (true,
      { heap := d.heap ++ [{ cls := k.cls, hasPointList := true, hasTexCoordList := false,
                             name := info.name, arrays := E.tessellate info.id false [] }],
        cache := d.cache.insert info.id (some (.alloc d.heap.length)),
        discretization := some (.alloc d.heap.length),
        computeTexCoord := d.computeTexCoord }) := by
  simp [processLeaf, checkCache, hn, hc, hk, updateCache, newModel, setName,
    modify_append_last]

/-- The state after a named `BezierPatch`, `ElevationGrid`, `Sphere` or `Disc`
has been computed from a state without an entry for it, its kernel being
defined. -/
theorem processTexLeaf_miss {α τ : Type} (E : Extern α τ) (k : TexLeafKind)
    (info : NodeInfo) (d : Discretizer α) (hn : info.isNamed = true)
    (hc : d.cache.find info.id = none)
    (hk : E.kernelDefined info.id d.computeTexCoord [] = true) :
    processTexLeaf E k info d = some (true,
      { heap := d.heap ++ [{ cls := k.cls, hasPointList := true,
                             hasTexCoordList := d.computeTexCoord, name := info.name,
                             arrays := E.tessellate info.id d.computeTexCoord [] }],
        cache := d.cache.insert info.id (some (.alloc d.heap.length)),
        discretization := some (.alloc d.heap.length),
        computeTexCoord := d.computeTexCoord }) := by
  simp [processTexLeaf, checkCacheWithTex, hn, hc, hk, updateCache, newModel, setName,
    modify_append_last]

/-- A stored mesh without texcoords is not returned by
`GEOM_DISCRETIZER_CHECK_CACHE_WITH_TEX`, whatever the texcoord flag: the kernel
runs again and its mesh replaces the entry. -/
theorem processTexLeaf_texless {α τ : Type} (E : Extern α τ) (k : TexLeafKind)
    (info : NodeInfo) (d : Discretizer α) (r : Ref α) (m : ExplicitModel α)
    (hn : info.isNamed = true) (hc : d.cache.find info.id = some (some r))
    (hm : deref d.heap r = some m) (hk : m.cls.isMesh = true)
    (ht : m.hasTexCoordList = false)
    (hd : E.kernelDefined info.id d.computeTexCoord [] = true) :
    processTexLeaf E k info d = some (true,
      { heap := d.heap ++ [{ cls := k.cls, hasPointList := true,
                             hasTexCoordList := d.computeTexCoord, name := info.name,
                             arrays := E.tessellate info.id d.computeTexCoord [] }],
        cache := d.cache.insert info.id (some (.alloc d.heap.length)),
        discretization := some (.alloc d.heap.length),
        computeTexCoord := d.computeTexCoord }) := by
  simp [processTexLeaf, checkCacheWithTex, castHasTexCoordList, hn, hc, hm, hk, ht, hd,
    updateCache, newModel, setName, modify_append_last]

/-- C2 (code at the failing input): a named `Sphere` on which the kernel is
defined, processed twice by a new Discretizer (texcoord flag off, no `clear` in
between), is tessellated twice: both calls return `true`, each allocates a
mesh, and the result of the second call is the second mesh, not the one the
first call produced and stored. -/
theorem named_sphere_recomputed_with_flag_off {α τ : Type} (E : Extern α τ) (id : Nat)
    (heap : List (ExplicitModel α)) (hk : E.kernelDefined id false [] = true) :
    ∃ d1 d2,
      process E (.primitive (.texLeaf .sphere ⟨id, "sphere"⟩)) (Discretizer.new heap)
        = some (true, d1) ∧
      process E (.primitive (.texLeaf .sphere ⟨id, "sphere"⟩)) d1 = some (true, d2) ∧
      d1.computeTexCoord = false ∧
      d1.getDiscretization = some (.alloc heap.length) ∧
      d1.cache.find id = some (some (.alloc heap.length)) ∧
      d2.getDiscretization = some (.alloc (heap.length + 1)) ∧
      d2.getDiscretization ≠ d1.getDiscretization ∧
      d1.heap.length = heap.length + 1 ∧ d2.heap.length = heap.length + 2 := by
  have hn : NodeInfo.isNamed ⟨id, "sphere"⟩ = true := by simp [NodeInfo.isNamed]
  have h1 := processTexLeaf_miss E .sphere ⟨id, "sphere"⟩ (Discretizer.new heap) hn rfl hk
  have h2 := processTexLeaf_texless E .sphere ⟨id, "sphere"⟩
    { heap := heap ++ [{ cls := .triangleSet, hasPointList := true, hasTexCoordList := false,
                         name := "sphere", arrays := E.tessellate id false [] }],
      cache := Cache.insert [] id (some (.alloc heap.length)),
      discretization := some (.alloc heap.length), computeTexCoord := false }
    (.alloc heap.length)
    { cls := .triangleSet, hasPointList := true, hasTexCoordList := false,
      name := "sphere", arrays := E.tessellate id false [] }
    hn (find_insert_self [] id _) (deref_alloc_append heap _) rfl rfl hk
  refine ⟨_, _, h1, h2, ?_⟩
  simp [Discretizer.new, Discretizer.getDiscretization, find_insert_self]

/-- C2, at the named sphere of id 1 and a new Discretizer with an empty free
store: the two calls build the two meshes at the addresses 0 and 1. -/
theorem named_sphere_recomputed_with_flag_off_witness :
    sampleExtern.kernelDefined 1 false [] = true ∧
    ∃ d1 d2 : Discretizer (List Nat),
      process sampleExtern (.primitive (.texLeaf .sphere ⟨1, "sphere"⟩)) (Discretizer.new [])
        = some (true, d1) ∧
      process sampleExtern (.primitive (.texLeaf .sphere ⟨1, "sphere"⟩)) d1 = some (true, d2) ∧
      d1.computeTexCoord = false ∧
      d1.getDiscretization = some (.alloc 0) ∧
      d1.cache.find 1 = some (some (.alloc 0)) ∧
      d2.getDiscretization = some (.alloc 1) ∧
      d2.getDiscretization ≠ d1.getDiscretization ∧
      d1.heap.length = 1 ∧ d2.heap.length = 2 :=
  ⟨rfl, named_sphere_recomputed_with_flag_off sampleExtern 1 [] rfl⟩

/-- A curve that is unnamed, or named and without a valid entry, is
tessellated: a polyline is appended to the free store and becomes the current
result. -/
theorem processCurve2D_fresh {α τ : Type} (E : Extern α τ) (c : Curve2D)
    (d : Discretizer α)
    (h : c.info.isNamed = true → ∀ r, d.cache.find c.info.id ≠ some (some r)) :
    ∃ m : ExplicitModel α, m.hasPointList = true ∧
      processCurve2D E c d = some (true,
        { heap := d.heap ++ [m],
          cache := if c.info.isNamed then d.cache.insert c.info.id (some (.alloc d.heap.length))
                   else d.cache,
          discretization := some (.alloc d.heap.length),
          computeTexCoord := d.computeTexCoord }) := by
  by_cases hn : c.info.isNamed = true
  · refine ⟨ExplicitModel.mk .polyline true false c.info.name (E.tessellate c.info.id false []),
      rfl, ?_⟩
    have h2 := h hn
    cases hf : d.cache.find c.info.id with
    | none =>
      simp [processCurve2D, checkCache, hn, hf, updateCache, newModel, setName,
        modify_append_last]
    | some p =>
      cases p with
      | none =>
        simp [processCurve2D, checkCache, hn, hf, updateCache, newModel, setName,
          modify_append_last]
      | some r => exact absurd hf (h2 r)
  · refine ⟨ExplicitModel.mk .polyline true false "" (E.tessellate c.info.id false []),
      rfl, ?_⟩
    simp [processCurve2D, checkCache, hn, updateCache, newModel]

/-- A named curve with a valid entry is served from the cache. -/
theorem processCurve2D_hit {α τ : Type} (E : Extern α τ) (c : Curve2D)
    (d : Discretizer α) (r : Ref α) (hn : c.info.isNamed = true)
    (hc : d.cache.find c.info.id = some (some r)) :
    processCurve2D E c d = some (true, { d with discretization := some r }) := by
  simp [processCurve2D, checkCache, hn, hc]

/-- The two ways the dispatch of a 2D curve ends: a valid entry is returned, or
a polyline is appended to the free store and becomes the current result. -/
theorem processCurve2D_cases {α τ : Type} (E : Extern α τ) (c : Curve2D)
    (d : Discretizer α) :
    (∃ r, c.info.isNamed = true ∧ d.cache.find c.info.id = some (some r) ∧
      processCurve2D E c d = some (true, { d with discretization := some r })) ∨
    ((c.info.isNamed = true → ∀ r, d.cache.find c.info.id ≠ some (some r)) ∧
      ∃ m : ExplicitModel α, m.hasPointList = true ∧
        processCurve2D E c d = some (true,
          { heap := d.heap ++ [m],
            cache := if c.info.isNamed then
                       d.cache.insert c.info.id (some (.alloc d.heap.length))
                     else d.cache,
            discretization := some (.alloc d.heap.length),
            computeTexCoord := d.computeTexCoord })) := by
  by_cases hv : ∃ r, c.info.isNamed = true ∧ d.cache.find c.info.id = some (some r)
  · obtain ⟨r, hn, hc⟩ := hv
    exact Or.inl ⟨r, hn, hc, processCurve2D_hit E c d r hn hc⟩
  · have h : c.info.isNamed = true → ∀ r, d.cache.find c.info.id ≠ some (some r) :=
      fun hn r hc => hv ⟨r, hn, hc⟩
    exact Or.inr ⟨h, processCurve2D_fresh E c d h⟩

/-- The kernel of a named `Extrusion` once the lookup has fallen through and the
cross-section has been discretized to a model with a point list, on which the
kernel is defined: a mesh is
appended to the free store, with texcoords exactly when the flag is set, and
stored under the id of the node. -/
theorem processExtrusion_run {α τ : Type} (E : Extern α τ) (info : NodeInfo)
    (solid : Bool) (c : Curve2D) (d d2 : Discretizer α) (r : Ref α) (m : ExplicitModel α)
    (hn : info.isNamed = true) (h0 : checkCacheWithTex info d = .go d)
    (h1 : processCurve2D E c d = some (true, d2)) (h2 : d2.discretization = some r)
    (h3 : deref d2.heap r = some m) (h4 : m.hasPointList = true)
    (hk : E.kernelDefined info.id d2.computeTexCoord [m.arrays] = true) :
    ∃ M : ExplicitModel α, M.hasTexCoordList = d2.computeTexCoord ∧ M.cls.isMesh = true ∧
      M.hasPointList = true ∧
      processExtrusion E info solid c d = some (true,
        { heap := d2.heap ++ [M],
          cache := d2.cache.insert info.id (some (.alloc d2.heap.length)),
          discretization := some (.alloc d2.heap.length),
          computeTexCoord := d2.computeTexCoord }) := by
  refine ⟨ExplicitModel.mk (if solid then .faceSet else .quadSet) true d2.computeTexCoord
    info.name (E.tessellate info.id d2.computeTexCoord [m.arrays]), rfl, ?_, rfl, ?_⟩
  · cases solid <;> rfl
  · simp [processExtrusion, h0, h1, h2, getPointList, h3, h4, hk, updateCache, newModel, hn,
      setName, modify_append_last]

/-- C6 (code at the failing input): an unnamed `NurbsPatch` leaves the current
result null and returns `true`; with such a child, `process` on a `Tapered` and
on an `IFS` does not return `false`: it calls `transform` through the null
pointer (undefined behaviour), whereas a node handled by
`GEOM_DISCRETIZER_TRANSFORM` and a `Group` return `false` with a null result. -/
theorem tapered_and_ifs_transform_null_result {α τ : Type} (E : Extern α τ) (t : τ)
    (id id2 : Nat) (d : Discretizer α) :
    process E (.tapered ⟨id2, ""⟩ t (.nurbsPatch ⟨id, ""⟩)) d = none ∧
    process E (.ifs ⟨id2, ""⟩ [t] (.primitive (.nurbsPatch ⟨id, ""⟩))) d = none ∧
    (∀ k, ∃ d1, process E (.transformed k ⟨id2, ""⟩ t (.primitive (.nurbsPatch ⟨id, ""⟩))) d
      = some (false, d1) ∧ d1.getDiscretization = none) ∧
    (∃ d1, process E (.group ⟨id2, ""⟩ [.primitive (.nurbsPatch ⟨id, ""⟩)]) d
      = some (false, d1) ∧ d1.getDiscretization = none) := by
  simp [process, processPrimitive, processNurbsPatch, checkCache, checkCacheWithTex,
    updateCache, isNamed_empty, Discretizer.getDiscretization]

/-! ## Null entries of the cache -/

theorem checkCache_go_cache {α : Type} {info : NodeInfo} {d d1 : Discretizer α}
    (h : checkCache info d = .go d1) : d1.cache = d.cache ∧ d1.heap = d.heap := by
  unfold checkCache at h
  split at h
  · split at h
    · split at h
      · cases h
      · cases h; exact ⟨rfl, rfl⟩
    · cases h; exact ⟨rfl, rfl⟩
  · cases h; exact ⟨rfl, rfl⟩

theorem checkCache_ret_cache {α : Type} {info : NodeInfo} {d d1 : Discretizer α} {b : Bool}
    (h : checkCache info d = .ret b d1) : d1.cache = d.cache ∧ d1.heap = d.heap := by
  unfold checkCache at h
  split at h
  · split at h
    · split at h
      · cases h; exact ⟨rfl, rfl⟩
      · cases h
    · cases h
  · cases h

theorem checkCacheWithTex_go_cache {α : Type} {info : NodeInfo} {d d1 : Discretizer α}
    (h : checkCacheWithTex info d = .go d1) : d1.cache = d.cache ∧ d1.heap = d.heap := by
  unfold checkCacheWithTex at h
  split at h
  · split at h
    · split at h
      · cases h
      · split at h
        · cases h
        · cases h; exact ⟨rfl, rfl⟩
      · cases h; exact ⟨rfl, rfl⟩
    · cases h; exact ⟨rfl, rfl⟩
  · cases h; exact ⟨rfl, rfl⟩

theorem checkCacheWithTex_ret_cache {α : Type} {info : NodeInfo} {d d1 : Discretizer α}
    {b : Bool} (h : checkCacheWithTex info d = .ret b d1) :
    d1.cache = d.cache ∧ d1.heap = d.heap := by
  unfold checkCacheWithTex at h
  split at h
  · split at h
    · split at h
      · cases h
      · split at h
        · cases h; exact ⟨rfl, rfl⟩
        · cases h
      · cases h
    · cases h
  · cases h

theorem find_insert {α : Type} (c : Cache α) (id k : Nat) (p : Option (Ref α)) :
    (c.insert id p).find k = if id = k then some p else c.find k := by
  by_cases h : id = k
  · subst h
    rw [if_pos rfl]
    exact find_insert_self c id p
  · rw [if_neg h]
    exact find_insert_ne c id k p h

theorem nullsFrom_insert_some {α : Type} {c0 c : Cache α} {ids : List Nat} (id : Nat)
    (r : Ref α) (h : c.nullsFrom c0 ids) : (c.insert id (some r)).nullsFrom c0 ids := by
  intro k hk
  rw [find_insert] at hk
  split at hk
  · cases hk
  · exact h k hk

theorem nullsFrom_insert_none {α : Type} {c0 c : Cache α} {ids : List Nat} (id : Nat)
    (hid : id ∈ ids) (h : c.nullsFrom c0 ids) : (c.insert id none).nullsFrom c0 ids := by
  intro k hk
  rw [find_insert] at hk
  split at hk
  · rename_i e
    subst e
    exact Or.inr hid
  · exact h k hk

/-- Macro `GEOM_DISCRETIZER_UPDATE_CACHE` adds a null entry only for a named
node whose result is null. -/
theorem updateCache_nulls {α : Type} (info : NodeInfo) (d : Discretizer α)
    {c0 : Cache α} {ids : List Nat}
    (hd : d.discretization = none → info.isNamed = true → info.id ∈ ids)
    (h : d.cache.nullsFrom c0 ids) : (updateCache info d).cache.nullsFrom c0 ids := by
  unfold updateCache
  split
  · rename_i hn
    split
    · exact nullsFrom_insert_some _ _ h
    · rename_i hnone
      exact nullsFrom_insert_none _ (hd hnone hn) h
  · exact h

theorem newModel_updateCache_nulls {α : Type} (info : NodeInfo) (d : Discretizer α)
    (m : ExplicitModel α) {c0 : Cache α} {ids : List Nat} (h : d.cache.nullsFrom c0 ids) :
    (updateCache info (newModel d m)).cache.nullsFrom c0 ids :=
  updateCache_nulls info (newModel d m) (fun hd => by simp [newModel] at hd) h

theorem processLeaf_nulls {α τ : Type} (E : Extern α τ) (k : LeafKind) (info : NodeInfo)
    {d d1 : Discretizer α} {b : Bool} {c0 : Cache α} {ids : List Nat}
    (h : processLeaf E k info d = some (b, d1))
    (hc : d.cache.nullsFrom c0 ids) : d1.cache.nullsFrom c0 ids := by
  unfold processLeaf at h
  split at h
  · cases h
  · rename_i heq
    cases h
    rw [(checkCache_ret_cache heq).1]
    exact hc
  · rename_i d0 heq
    split at h
    · cases h
      apply newModel_updateCache_nulls
      rw [(checkCache_go_cache heq).1]
      exact hc
    · cases h

theorem processTexLeaf_nulls {α τ : Type} (E : Extern α τ) (k : TexLeafKind)
    (info : NodeInfo) {d d1 : Discretizer α} {b : Bool} {c0 : Cache α} {ids : List Nat}
    (h : processTexLeaf E k info d = some (b, d1)) (hc : d.cache.nullsFrom c0 ids) :
    d1.cache.nullsFrom c0 ids := by
  unfold processTexLeaf at h
  split at h
  · cases h
  · rename_i heq
    cases h
    rw [(checkCacheWithTex_ret_cache heq).1]
    exact hc
  · rename_i d0 heq
    split at h
    · cases h
      apply newModel_updateCache_nulls
      rw [(checkCacheWithTex_go_cache heq).1]
      exact hc
    · cases h

theorem processNurbsPatch_nulls {α τ : Type} (E : Extern α τ) (info : NodeInfo)
    {d d1 : Discretizer α} {b : Bool} {c0 : Cache α} {ids : List Nat}
    (hn : info.isNamed = true → info.id ∈ ids)
    (h : processNurbsPatch E info d = some (b, d1)) (hc : d.cache.nullsFrom c0 ids) :
    d1.cache.nullsFrom c0 ids := by
  unfold processNurbsPatch at h
  split at h
  · cases h
  · rename_i heq
    cases h
    rw [(checkCacheWithTex_ret_cache heq).1]
    exact hc
  · rename_i d0 heq
    cases h
    apply updateCache_nulls _ _ (fun _ => hn)
    show d0.cache.nullsFrom c0 ids
    rw [(checkCacheWithTex_go_cache heq).1]
    exact hc

theorem processCurve2D_nulls {α τ : Type} (E : Extern α τ) (c : Curve2D)
    {d d1 : Discretizer α} {b : Bool} {c0 : Cache α} {ids : List Nat}
    (h : processCurve2D E c d = some (b, d1))
    (hc : d.cache.nullsFrom c0 ids) : d1.cache.nullsFrom c0 ids := by
  unfold processCurve2D at h
  split at h
  · cases h
  · rename_i heq
    cases h
    rw [(checkCache_ret_cache heq).1]
    exact hc
  · rename_i d0 heq
    cases h
    apply newModel_updateCache_nulls
    rw [(checkCache_go_cache heq).1]
    exact hc

theorem applyProfile_go_nulls {α τ : Type} (E : Extern α τ) (c : Curve2D)
    {d d1 : Discretizer α} {c0 : Cache α} {ids : List Nat}
    (h : applyProfile E c d = .go d1) (hc : d.cache.nullsFrom c0 ids) :
    d1.cache.nullsFrom c0 ids := by
  unfold applyProfile at h
  split at h
  · cases h
  · rename_i d0 heq
    cases h
    exact processCurve2D_nulls E c heq hc
  · rename_i d0 heq
    split at h
    · cases h
    · cases h
    · cases h
      have h0 := processCurve2D_nulls E c heq hc
      exact h0

theorem applyProfile_ret_nulls {α τ : Type} (E : Extern α τ) (c : Curve2D)
    {d d1 : Discretizer α} {b : Bool} {c0 : Cache α} {ids : List Nat}
    (h : applyProfile E c d = .ret b d1)
    (hc : d.cache.nullsFrom c0 ids) : d1.cache.nullsFrom c0 ids := by
  unfold applyProfile at h
  split at h
  · cases h
  · cases h
  · rename_i d0 heq
    split at h
    · cases h
    · cases h
      have h0 := processCurve2D_nulls E c heq hc
      exact h0
    · cases h

theorem processExtrudedHull_nulls {α τ : Type} (E : Extern α τ) (info : NodeInfo)
    (hor ver : Curve2D) {d d1 : Discretizer α} {b : Bool} {c0 : Cache α} {ids : List Nat}
    (h : processExtrudedHull E info hor ver d = some (b, d1))
    (hc : d.cache.nullsFrom c0 ids) : d1.cache.nullsFrom c0 ids := by
  unfold processExtrudedHull at h
  split at h
  · cases h
  · rename_i heq
    cases h
    rw [(checkCache_ret_cache heq).1]
    exact hc
  · rename_i d0 heq
    have h0 : d0.cache.nullsFrom c0 ids := by rw [(checkCache_go_cache heq).1]; exact hc
    split at h
    · cases h
    · rename_i heq2
      cases h
      exact applyProfile_ret_nulls E hor heq2 h0
    · rename_i d2 heq2
      have h2 := applyProfile_go_nulls E hor heq2 h0
      split at h
      · cases h
      · cases h
        exact h2
      · split at h
        · cases h
        · rename_i heq3
          cases h
          exact applyProfile_ret_nulls E ver heq3 h2
        · rename_i d3 heq3
          have h3 := applyProfile_go_nulls E ver heq3 h2
          split at h
          · cases h
          · cases h
            exact h3
          · split at h
            · cases h
              exact newModel_updateCache_nulls _ _ _ h3
            · cases h

theorem processRevolution_nulls {α τ : Type} (E : Extern α τ) (info : NodeInfo)
    (profile : Curve2D) {d d1 : Discretizer α} {b : Bool} {c0 : Cache α} {ids : List Nat}
    (h : processRevolution E info profile d = some (b, d1))
    (hc : d.cache.nullsFrom c0 ids) : d1.cache.nullsFrom c0 ids := by
  unfold processRevolution at h
  split at h
  · cases h
  · rename_i heq
    cases h
    rw [(checkCache_ret_cache heq).1]
    exact hc
  · rename_i d0 heq
    have h0 : d0.cache.nullsFrom c0 ids := by rw [(checkCache_go_cache heq).1]; exact hc
    split at h
    · cases h
    · rename_i heq2
      cases h
      exact applyProfile_ret_nulls E profile heq2 h0
    · rename_i d2 heq2
      have h2 := applyProfile_go_nulls E profile heq2 h0
      split at h
      · split at h
        · cases h
          exact newModel_updateCache_nulls _ _ _ h2
        · cases h
      · cases h

theorem processExtrusion_nulls {α τ : Type} (E : Extern α τ) (info : NodeInfo)
    (solid : Bool) (c : Curve2D) {d d1 : Discretizer α} {b : Bool} {c0 : Cache α}
    {ids : List Nat} (h : processExtrusion E info solid c d = some (b, d1))
    (hc : d.cache.nullsFrom c0 ids) : d1.cache.nullsFrom c0 ids := by
  unfold processExtrusion at h
  split at h
  · cases h
  · rename_i heq
    cases h
    rw [(checkCacheWithTex_ret_cache heq).1]
    exact hc
  · rename_i d0 heq
    have h0 : d0.cache.nullsFrom c0 ids := by
      rw [(checkCacheWithTex_go_cache heq).1]; exact hc
    split at h
    · cases h
    · rename_i d2 heq2
      cases h
      have h2 := processCurve2D_nulls E c heq2 h0
      exact h2
    · rename_i d2 heq2
      have h2 := processCurve2D_nulls E c heq2 h0
      split at h
      · cases h
        exact h2
      · split at h
        · split at h
          · cases h
            exact newModel_updateCache_nulls _ _ _ h2
          · cases h
        · cases h

/-- Dispatching a primitive adds a null entry to the cache only under the id of
a named `NurbsPatch`. -/
theorem processPrimitive_nulls {α τ : Type} (E : Extern α τ) (p : Primitive α)
    {d d1 : Discretizer α} {b : Bool} {c0 : Cache α} {ids : List Nat}
    (hp : ∀ k ∈ p.nullStoreIds, k ∈ ids)
    (h : processPrimitive E p d = some (b, d1)) (hc : d.cache.nullsFrom c0 ids) :
    d1.cache.nullsFrom c0 ids := by
  cases p with
  | explicit id self =>
    simp only [processPrimitive, processExplicit, Option.some.injEq, Prod.mk.injEq] at h
    obtain ⟨-, rfl⟩ := h
    exact hc
  | leaf k info => exact processLeaf_nulls E k info h hc
  | texLeaf k info => exact processTexLeaf_nulls E k info h hc
  | nurbsPatch info =>
    refine processNurbsPatch_nulls E info (fun hn => hp _ ?_) h hc
    simp [Primitive.nullStoreIds, hn]
  | curve2D c => exact processCurve2D_nulls E c h hc
  | extrudedHull info hor ver => exact processExtrudedHull_nulls E info hor ver h hc
  | extrusion info solid c => exact processExtrusion_nulls E info solid c h hc
  | revolution info profile => exact processRevolution_nulls E info profile h hc

mutual
/-- Dispatching a geometry adds a null entry to the cache only under the id of
one of its named `Group` or named `NurbsPatch` nodes. -/
theorem process_nulls {α τ : Type} (E : Extern α τ) :
    ∀ (g : Geometry α τ) (d d1 : Discretizer α) (b : Bool) (c0 : Cache α) (ids : List Nat),
      (∀ k ∈ g.nullStoreIds, k ∈ ids) → process E g d = some (b, d1) →
      d.cache.nullsFrom c0 ids → d1.cache.nullsFrom c0 ids
  | .primitive p, d, d1, b, c0, ids, hg, h, hc => by
    simp only [Geometry.nullStoreIds] at hg
    simp only [process] at h
    exact processPrimitive_nulls E p hg h hc
  | .text _, d, d1, b, c0, ids, _, h, hc => by
    simp only [process, processNothing, Option.some.injEq, Prod.mk.injEq] at h
    obtain ⟨-, rfl⟩ := h
    exact hc
  | .transformed _ info t geometry, d, d1, b, c0, ids, hg, h, hc => by
    simp only [Geometry.nullStoreIds] at hg
    simp only [process] at h
    split at h
    · cases h
    · rename_i heq
      cases h
      rw [(checkCache_ret_cache heq).1]
      exact hc
    · rename_i d0 heq
      have h0 : d0.cache.nullsFrom c0 ids := by rw [(checkCache_go_cache heq).1]; exact hc
      split at h
      · cases h
      · rename_i b2 d2 heq2
        have h2 := process_nulls E geometry d0 d2 b2 c0 ids hg heq2 h0
        split at h
        · split at h
          · cases h
          · cases h
            exact newModel_updateCache_nulls _ _ _ h2
        · cases h
          exact h2
  | .tapered info t primitive, d, d1, b, c0, ids, hg, h, hc => by
    simp only [Geometry.nullStoreIds] at hg
    simp only [process] at h
    split at h
    · cases h
    · rename_i heq
      cases h
      rw [(checkCache_ret_cache heq).1]
      exact hc
    · rename_i d0 heq
      have h0 : d0.cache.nullsFrom c0 ids := by rw [(checkCache_go_cache heq).1]; exact hc
      split at h
      · cases h
      · rename_i d2 heq2
        cases h
        have h2 := processPrimitive_nulls E primitive hg heq2 h0
        exact h2
      · rename_i d2 heq2
        have h2 := processPrimitive_nulls E primitive hg heq2 h0
        split at h
        · cases h
        · split at h
          · cases h
          · cases h
            exact newModel_updateCache_nulls _ _ _ h2
  | .group info geometryList, d, d1, b, c0, ids, hg, h, hc => by
    simp only [Geometry.nullStoreIds, List.mem_append] at hg
    have hn : info.isNamed = true → info.id ∈ ids := fun hn =>
      hg _ (Or.inl (by simp [hn]))
    have hl : ∀ k ∈ listNullStoreIds geometryList, k ∈ ids := fun k hk => hg k (Or.inr hk)
    simp only [process] at h
    split at h
    · cases h
    · rename_i heq
      cases h
      rw [(checkCache_ret_cache heq).1]
      exact hc
    · rename_i d0 heq
      have h0 : d0.cache.nullsFrom c0 ids := by rw [(checkCache_go_cache heq).1]; exact hc
      split at h
      · cases h
      · rename_i first rest
        simp only [listNullStoreIds, List.mem_append] at hl
        split at h
        · cases h
        · rename_i b2 d2 heq2
          have h2 := process_nulls E first d0 d2 b2 c0 ids (fun k hk => hl k (Or.inl hk))
            heq2 h0
          split at h
          · cases h
            exact updateCache_nulls info _ (fun _ => hn) h2
          · split at h
            · cases h
            · rename_i d3 heq3
              cases h
              have h3 := mergeList_nulls E rest _ _ _ d3 c0 ids
                (fun k hk => hl k (Or.inr hk)) heq3 h2
              exact updateCache_nulls info { d3 with discretization := none }
                (fun _ => hn) h3
            · rename_i fusion d3 heq3
              cases h
              have h3 := mergeList_nulls E rest _ _ _ d3 c0 ids
                (fun k hk => hl k (Or.inr hk)) heq3 h2
              exact updateCache_nulls info { d3 with discretization := some fusion.model }
                (fun _ => hn) h3
  | .ifs info matrices geometry, d, d1, b, c0, ids, hg, h, hc => by
    simp only [Geometry.nullStoreIds] at hg
    simp only [process] at h
    split at h
    · cases h
    · rename_i heq
      cases h
      rw [(checkCache_ret_cache heq).1]
      exact hc
    · rename_i d0 heq
      have h0 : d0.cache.nullsFrom c0 ids := by rw [(checkCache_go_cache heq).1]; exact hc
      split at h
      · cases h
      · rename_i d2 heq2
        cases h
        have h2 := process_nulls E geometry d0 d2 false c0 ids hg heq2 h0
        exact h2
      · rename_i d2 heq2
        have h2 := process_nulls E geometry d0 d2 true c0 ids hg heq2 h0
        split at h
        · cases h
        · split at h
          · cases h
          · split at h
            · cases h
            · split at h
              · cases h
              · cases h
                exact h2
              · rename_i fusion heap3 heq3
                cases h
                exact updateCache_nulls info
                  { d2 with heap := heap3, discretization := some fusion.model }
                  (fun hd => by simp at hd) h2
/-- Merging the remaining children of a group adds a null entry to the cache
only under the id of one of their named `Group` or named `NurbsPatch` nodes. -/
theorem mergeList_nulls {α τ : Type} (E : Extern α τ) :
    ∀ (gs : List (Geometry α τ)) (fusion : Merge α) (d : Discretizer α)
      (r : Option (Merge α)) (d1 : Discretizer α) (c0 : Cache α) (ids : List Nat),
      (∀ k ∈ listNullStoreIds gs, k ∈ ids) → mergeList E gs fusion d = some (r, d1) →
      d.cache.nullsFrom c0 ids → d1.cache.nullsFrom c0 ids
  | [], fusion, d, r, d1, c0, ids, _, h, hc => by
    simp only [mergeList, Option.some.injEq, Prod.mk.injEq] at h
    obtain ⟨-, rfl⟩ := h
    exact hc
  | geom2 :: rest, fusion, d, r, d1, c0, ids, hg, h, hc => by
    simp only [listNullStoreIds, List.mem_append] at hg
    simp only [mergeList] at h
    split at h
    · cases h
    · rename_i d2 heq2
      cases h
      exact process_nulls E geom2 d _ false c0 ids (fun k hk => hg k (Or.inl hk)) heq2 hc
    · rename_i d2 heq2
      have h2 := process_nulls E geom2 d d2 true c0 ids (fun k hk => hg k (Or.inl hk)) heq2 hc
      split at h
      · cases h
      · cases h
        exact h2
      · rename_i heap2 fusion2 heq3
        exact mergeList_nulls E rest fusion2 _ r d1 c0 ids (fun k hk => hg k (Or.inr hk)) h h2
end

/-- In every state reached from a new Discretizer, a null entry of the cache is
stored under the id of a named `Group` or of a named `NurbsPatch` that was
processed: no other node stores a null pointer. -/
theorem reachable_nulls {α τ : Type} (E : Extern α τ) (ids : List Nat)
    (d : Discretizer α) (h : ReachableWith E ids d) :
    ∀ k : Nat, d.cache.find k = some none → k ∈ ids := by
  induction h with
  | init heap =>
    intro k hk
    simp [Discretizer.new, Cache.find] at hk
  | step g ids d d1 b _ hp ih =>
    intro k hk
    have h0 : d.cache.nullsFrom d.cache g.nullStoreIds := fun k hk => Or.inl hk
    rcases process_nulls E g d d1 b d.cache g.nullStoreIds (fun _ hk => hk) hp h0 k hk with
      h1 | h1
    · exact List.mem_append.mpr (Or.inr (ih k h1))
    · exact List.mem_append.mpr (Or.inl h1)
  | cleared ids d _ _ =>
    intro k hk
    simp [Discretizer.clear, Cache.find] at hk
  | toggled ids d b _ ih => exact ih

/-! ## Loops and arrays -/

/-- Invariant rule for `forLoop`: a property that holds at the start and is kept
by every iteration (which is then defined) holds at the end, and the loop is
defined. -/
theorem forLoop_inv {σ : Type} (body : Nat → σ → Option σ) (P : Nat → σ → Prop) :
    ∀ (count start : Nat) (s : σ), P start s →
      (∀ i s, start ≤ i → i < start + count → P i s →
        ∃ s1, body i s = some s1 ∧ P (i + 1) s1) →
      ∃ s1, forLoop body start count s = some s1 ∧ P (start + count) s1 := by
  intro count
  induction count with
  | zero =>
    intro start s h0 _
    exact ⟨s, rfl, h0⟩
  | succ n ih =>
    intro start s h0 hstep
    obtain ⟨s1, hb, h1⟩ := hstep start s (Nat.le_refl _) (by omega) h0
    obtain ⟨s2, hl, h2⟩ := ih (start + 1) s1 h1
      (fun i t hi hlt hP => hstep i t (by omega) (by omega) hP)
    refine ⟨s2, ?_, ?_⟩
    · simp only [forLoop, hb]
      exact hl
    · have : start + 1 + n = start + (n + 1) := by omega
      rw [← this]
      exact h2

theorem u32_of_lt {n : Nat} (h : n < 4294967296) : u32 n = n := Nat.mod_eq_of_lt h

theorem Buffer.positions_setAt {β : Type} (b : Buffer β) (i : Nat) (v : β) :
    (b.setAt i v).positions = b.positions ++ [i] := by
  simp [Buffer.setAt, Buffer.positions]

theorem Buffer.values_setAt {β : Type} (b : Buffer β) (i : Nat) (v : β) :
    (b.setAt i v).values = b.values ++ [v] := by
  simp [Buffer.setAt, Buffer.values]

theorem Buffer.size_setAt {β : Type} (b : Buffer β) (i : Nat) (v : β) :
    (b.setAt i v).size = b.size := rfl

/-- Writing the next free slot extends a run of sequential writes. -/
theorem Buffer.positions_setAt_range {β : Type} (b : Buffer β) (n : Nat) (v : β)
    (h : b.positions = List.range n) : (b.setAt n v).positions = List.range (n + 1) := by
  rw [Buffer.positions_setAt, h, List.range_succ]

/-! ## The cone (C14, C20) -/

/-- The arrays of a cone: sizes, positions written and triangles. The point
array has `slices + 1` slots, one more when solid; the apex is written first,
at position `slices + 1`, then the ring at 0, 1, ...; the triangles are written
at 0, 1, ... and are those of `coneFaces`, slice after slice. -/
theorem coneKernel_arrays {R : Type} (ops : RealOps R) (radius height : R) (solid : Bool)
    (slices : Nat) (h1 : 1 ≤ slices) (h2 : 2 * slices + 2 < 4294967296) :
    ∃ s, coneKernel ops radius height solid slices = some s ∧
      s.pointList.size = slices + 1 + (if solid then 1 else 0) ∧
      s.pointList.positions = (slices + 1) :: List.range slices ∧
      s.pointList.values.head? = some { x := ops.ofNat 0, y := ops.ofNat 0, z := height } ∧
      s.indexList.size = slices * (1 + (if solid then 1 else 0)) ∧
      s.indexList.positions = List.range (slices * (1 + (if solid then 1 else 0))) ∧
      s.indexList.values = (List.range slices).flatMap (coneFaces solid slices) ∧
      s.pointsCount = slices ∧
      s.facesCount = slices * (1 + (if solid then 1 else 0)) := by
  have key := forLoop_inv
    (coneBody ops radius (ops.div ops.twoPi (ops.ofNat slices)) solid slices slices
      (u32 (slices + 1)))
    (fun i s =>
      s.pointList.size = slices + 1 + (if solid then 1 else 0) ∧
      s.pointList.positions = (slices + 1) :: List.range i ∧
      s.pointList.values.head? = some { x := ops.ofNat 0, y := ops.ofNat 0, z := height } ∧
      s.indexList.size = slices * (1 + (if solid then 1 else 0)) ∧
      s.indexList.positions = List.range (i * (1 + (if solid then 1 else 0))) ∧
      s.indexList.values = (List.range i).flatMap (coneFaces solid slices) ∧
      s.pointsCount = i ∧
      s.facesCount = i * (1 + (if solid then 1 else 0)) ∧
      (i < slices → s.cur = i ∧ s.next = coneNext slices i))
    slices 0
    { cur := 0, next := 1, pointsCount := 0, facesCount := 0,
      pointList := (Buffer.new (u32 (u32 (slices + 1) + (if solid then 1 else 0)))).setAt
        (u32 (slices + 1)) { x := ops.ofNat 0, y := ops.ofNat 0, z := height },
      indexList := Buffer.new (u32 (slices * u32 (1 + (if solid then 1 else 0)))) }
    (by
      cases solid <;>
        simp [Buffer.new, Buffer.setAt, Buffer.positions, Buffer.values, u32, coneNext] <;>
        omega)
    (by
      intro i s _ hi ⟨hps, hpp, hpv, his, hip, hiv, hpc, hfc, hcn⟩
      have hne : slices ≠ 0 := by omega
      have hi' : i < slices := by omega
      obtain ⟨hcur, hnext⟩ := hcn hi'
      have htop : u32 (slices + 1) = slices + 1 := u32_of_lt (by omega)
      have hnx : coneNext slices i < slices + 1 := by
        unfold coneNext
        split
        · omega
        · exact Nat.lt_succ_of_lt (Nat.mod_lt _ (by omega))
      have hcn' : i + 1 < slices →
          s.next = i + 1 ∧ u32 (s.next + 1) % slices = coneNext slices (i + 1) := by
        intro hlt
        have e : s.next = i + 1 := by
          rw [hnext]
          unfold coneNext
          split
          · omega
          · exact Nat.mod_eq_of_lt hlt
        refine ⟨e, ?_⟩
        rw [e, u32_of_lt (by omega)]
        simp [coneNext]
      cases solid
      · simp only [coneBody, hne, if_false, Bool.false_eq_true] at *
        refine ⟨_, rfl, hps, ?_, ?_, his, ?_, ?_, ?_, ?_, hcn'⟩
        · rw [Buffer.positions_setAt, hpp, hpc, List.range_succ]
          simp
        · rw [Buffer.values_setAt]
          cases hv : s.pointList.values with
          | nil => rw [hv] at hpv; simp at hpv
          | cons a l => rw [hv] at hpv; simpa using hpv
        · rw [hfc]
          simp only [Nat.add_zero, Nat.mul_one] at *
          exact Buffer.positions_setAt_range _ _ _ hip
        · rw [Buffer.values_setAt, hiv, List.range_succ, List.flatMap_append,
            List.flatMap_singleton, hcur, hnext, htop]
          simp [coneFaces]
        · rw [hpc]; exact u32_of_lt (by omega)
        · rw [hfc]; simp only [Nat.add_zero, Nat.mul_one]; exact u32_of_lt (by omega)
      · simp only [coneBody, hne, if_false, if_true] at *
        have e1 : u32 (s.facesCount + 1) = i * 2 + 1 := by
          rw [hfc]; exact u32_of_lt (by omega)
        have e2 : (i + 1) * (1 + 1) = i * 2 + 1 + 1 := by omega
        refine ⟨_, rfl, hps, ?_, ?_, his, ?_, ?_, ?_, ?_, hcn'⟩
        · rw [Buffer.positions_setAt, hpp, hpc, List.range_succ]
          simp
        · rw [Buffer.values_setAt]
          cases hv : s.pointList.values with
          | nil => rw [hv] at hpv; simp at hpv
          | cons a l => rw [hv] at hpv; simpa using hpv
        · rw [e1]
          have h3 := Buffer.positions_setAt_range s.indexList (i * 2)
            { i0 := s.cur, i1 := s.next, i2 := u32 (slices + 1) } (by rw [hip])
          have h4 := Buffer.positions_setAt_range _ (i * 2 + 1)
            { i0 := s.cur, i1 := slices, i2 := s.next } h3
          rw [hfc, e2]
          exact h4
        · rw [Buffer.values_setAt, Buffer.values_setAt, hiv, List.range_succ,
            List.flatMap_append, List.flatMap_singleton, hcur, hnext, htop]
          simp [coneFaces]
        · rw [hpc]; exact u32_of_lt (by omega)
        · rw [e1, e2]
          exact u32_of_lt (by omega))
  obtain ⟨s, hs, hP⟩ := key
  refine ⟨s, ?_, ?_⟩
  · simpa [coneKernel] using hs
  · obtain ⟨a, b, c, d, e, f, g, h, -⟩ := hP
    simp only [Nat.zero_add] at *
    exact ⟨a, b, c, d, e, f, g, h⟩

/-- C14: a cone that is not solid, of `slices ≥ 1` slices, gets a point array of
`slices + 1` slots, and its apex `(0, 0, height)` is written first, at position
`_top = slices + 1`, which is outside the array; every triangle ends with this
index, which is not smaller than the number of points. -/
theorem open_cone_apex_outside_array {R : Type} (ops : RealOps R) (radius height : R)
    (dflt : Vector3 R) (slices : Nat) (h1 : 1 ≤ slices) (h2 : 2 * slices + 2 < 4294967296) :
    ∃ s, coneKernel ops radius height false slices = some s ∧
      s.pointList.size = slices + 1 ∧
      s.pointList.positions.head? = some (slices + 1) ∧
      s.pointList.values.head? = some { x := ops.ofNat 0, y := ops.ofNat 0, z := height } ∧
      s.pointList.inBounds = false ∧ s.pointList.toList dflt = none ∧
      s.indexList.values.length = slices ∧
      ∀ t ∈ s.indexList.values, t.i2 = slices + 1 ∧ t.below s.pointList.size = false := by
  obtain ⟨s, hs, a1, a2, a3, a4, a5, a6, -, -⟩ :=
    coneKernel_arrays ops radius height false slices h1 h2
  have hsz : s.pointList.size = slices + 1 := by simpa using a1
  have hin : s.pointList.inBounds = false := by
    simp [Buffer.inBounds, a2, hsz]
  refine ⟨s, hs, hsz, by rw [a2]; rfl, a3, hin, by simp [Buffer.toList, hin], ?_, ?_⟩
  · have := congrArg List.length a5
    simpa [Buffer.positions, Buffer.values] using this
  · intro t ht
    rw [a6, List.mem_flatMap] at ht
    obtain ⟨i, -, hi⟩ := ht
    simp only [coneFaces, Bool.false_eq_true, if_false, List.mem_singleton] at hi
    subst hi
    refine ⟨rfl, ?_⟩
    rw [hsz]
    simp [Index3.below, Index3.toList]

/-- C14, at the cone of 3 slices that is not solid. -/
theorem open_cone_apex_outside_array_witness :
    (1 ≤ 3 ∧ 2 * 3 + 2 < 4294967296) ∧
    ∃ s, coneKernel symbolicReal (.var "radius") (.var "height") false 3 = some s ∧
      s.pointList.size = 3 + 1 ∧
      s.pointList.positions.head? = some (3 + 1) ∧
      s.pointList.values.head? = some { x := .ofNat 0, y := .ofNat 0, z := .var "height" } ∧
      s.pointList.inBounds = false ∧
      s.pointList.toList { x := .ofNat 0, y := .ofNat 0, z := .ofNat 0 } = none ∧
      s.indexList.values.length = 3 ∧
      ∀ t ∈ s.indexList.values, t.i2 = 3 + 1 ∧ t.below s.pointList.size = false :=
  ⟨by decide,
    open_cone_apex_outside_array symbolicReal (.var "radius") (.var "height")
      { x := .ofNat 0, y := .ofNat 0, z := .ofNat 0 } 3 (by decide) (by decide)⟩

/-- C20: a cone of `slices ≥ 1` slices gets `slices` triangles and `slices + 1`
point slots when it is not solid, `2 * slices` triangles and `slices + 2` point
slots when it is solid; slice `i` contributes the side triangle
`(i, next, slices + 1)` and, only when solid, the base triangle
`(i, slices, next)`. The slots written are those of the ring, 0, ...,
`slices - 1`, and `slices + 1` for the apex: slot `slices` is never written,
and when the cone is not solid the write of the apex falls outside the array,
which then holds the ring and an unwritten slot, not the apex. -/
theorem cone_arrays_and_apex_slot {R : Type} (ops : RealOps R) (radius height : R)
    (slices : Nat) (h1 : 1 ≤ slices) (h2 : 2 * slices + 2 < 4294967296) :
    (∃ s, coneKernel ops radius height false slices = some s ∧
      s.pointList.size = slices + 1 ∧ s.indexList.size = slices ∧
      s.indexList.positions = List.range slices ∧
      s.indexList.values = (List.range slices).map
        (fun i => { i0 := i, i1 := coneNext slices i, i2 := slices + 1 }) ∧
      s.pointList.positions = (slices + 1) :: List.range slices ∧
      slices ∉ s.pointList.positions ∧
      ¬ (slices + 1 < s.pointList.size)) ∧
    (∃ s, coneKernel ops radius height true slices = some s ∧
      s.pointList.size = slices + 2 ∧ s.indexList.size = 2 * slices ∧
      s.indexList.positions = List.range (2 * slices) ∧
      s.indexList.values = (List.range slices).flatMap
        (fun i => [{ i0 := i, i1 := coneNext slices i, i2 := slices + 1 },
                   { i0 := i, i1 := slices, i2 := coneNext slices i }]) ∧
      s.pointList.positions = (slices + 1) :: List.range slices ∧
      slices ∉ s.pointList.positions ∧
      s.pointList.inBounds = true) := by
  constructor
  · obtain ⟨s, hs, a1, a2, -, a4, a5, a6, -, -⟩ :=
      coneKernel_arrays ops radius height false slices h1 h2
    have hsz : s.pointList.size = slices + 1 := by simpa using a1
    refine ⟨s, hs, hsz, by simpa using a4, by simpa using a5, ?_, a2, ?_, by omega⟩
    · have hf : coneFaces false slices
          = fun i => [{ i0 := i, i1 := coneNext slices i, i2 := slices + 1 }] := by
        funext i; simp [coneFaces]
      rw [a6, hf]
      generalize List.range slices = l
      induction l with
      | nil => rfl
      | cons a l ih => simp [List.flatMap_cons, ih]
    · rw [a2]; simp
  · obtain ⟨s, hs, a1, a2, -, a4, a5, a6, -, -⟩ :=
      coneKernel_arrays ops radius height true slices h1 h2
    have hsz : s.pointList.size = slices + 2 := by simpa using a1
    have h4 : s.indexList.size = 2 * slices := by rw [a4]; simp; omega
    refine ⟨s, hs, hsz, h4, ?_, ?_, a2, ?_, ?_⟩
    · rw [a5]; simp; congr 1; omega
    · have hf : coneFaces true slices
          = fun i => [{ i0 := i, i1 := coneNext slices i, i2 := slices + 1 },
                      { i0 := i, i1 := slices, i2 := coneNext slices i }] := by
        funext i; simp [coneFaces]
      rw [a6, hf]
    · rw [a2]; simp
    · simp only [Buffer.inBounds, a2, hsz, List.all_cons, List.all_eq_true, List.mem_range,
        Bool.and_eq_true, decide_eq_true_eq]
      exact ⟨by omega, fun i hi => by omega⟩

/-- C20, at the cones of 3 slices. -/
theorem cone_arrays_and_apex_slot_witness :
    (1 ≤ 3 ∧ 2 * 3 + 2 < 4294967296) ∧
    (∃ s, coneKernel symbolicReal (.var "radius") (.var "height") false 3 = some s ∧
      s.pointList.size = 3 + 1 ∧ s.indexList.size = 3 ∧
      s.indexList.positions = List.range 3 ∧
      s.indexList.values = (List.range 3).map
        (fun i => { i0 := i, i1 := coneNext 3 i, i2 := 3 + 1 }) ∧
      s.pointList.positions = (3 + 1) :: List.range 3 ∧
      3 ∉ s.pointList.positions ∧
      ¬ (3 + 1 < s.pointList.size)) ∧
    (∃ s, coneKernel symbolicReal (.var "radius") (.var "height") true 3 = some s ∧
      s.pointList.size = 3 + 2 ∧ s.indexList.size = 2 * 3 ∧
      s.indexList.positions = List.range (2 * 3) ∧
      s.indexList.values = (List.range 3).flatMap
        (fun i => [{ i0 := i, i1 := coneNext 3 i, i2 := 3 + 1 },
                   { i0 := i, i1 := 3, i2 := coneNext 3 i }]) ∧
      s.pointList.positions = (3 + 1) :: List.range 3 ∧
      3 ∉ s.pointList.positions ∧
      s.pointList.inBounds = true) :=
  ⟨by decide,
    cone_arrays_and_apex_slot symbolicReal (.var "radius") (.var "height") 3 (by decide)
      (by decide)⟩

/-! ## The cylinder and the frustum (C18, C19) -/

theorem cylinderNext_step (slices i : Nat) (h : i + 1 < slices) (hb : 2 * slices + 2 < 4294967296) :
    cylinderNext slices i = 2 * (i + 1) ∧
    u32 (cylinderNext slices i + 2) % u32 (2 * slices) = cylinderNext slices (i + 1) := by
  have e : cylinderNext slices i = 2 * (i + 1) := by
    unfold cylinderNext
    split
    · omega
    · rw [Nat.mod_eq_of_lt h]
  refine ⟨e, ?_⟩
  rw [e, u32_of_lt (by omega), u32_of_lt (by omega)]
  have : 2 * (i + 1) + 2 = 2 * (i + 1 + 1) := by omega
  rw [this, Nat.mul_mod_mul_left]
  simp [cylinderNext]

/-- The arrays of a solid cylinder or frustum: `2 * slices + 2` point slots, the
top centre written first at `2 * slices + 1`, then the two rings at 0, 1, ...;
`3 * slices` faces written at 0, 1, ..., those of `cylinderFaces`. -/
theorem ringsKernel_solid {R : Type} (ops : RealOps R) (radius height : R)
    (upper : R → R → Vector3 R) (slices : Nat) (h1 : 1 ≤ slices)
    (h2 : 3 * slices + 2 < 4294967296) :
    ∃ s l, ringsKernel ops radius height upper true slices = some s ∧
      s.pointList.size = 2 * slices + 2 ∧
      s.pointList.positions = (2 * slices + 1) :: List.range (2 * slices) ∧
      s.indexList = some l ∧ s.index4List = none ∧
      l.size = 3 * slices ∧ l.positions = List.range (3 * slices) ∧
      l.values = (List.range slices).flatMap (cylinderFaces slices) ∧
      s.pointsCount = 2 * slices ∧ s.facesCount = 3 * slices := by
  have key := forLoop_inv
    (cylinderBody ops radius (ops.div ops.twoPi (ops.ofNat slices)) upper true slices
      (u32 (2 * slices)) (u32 (u32 (2 * slices) + 1)))
    (fun i s =>
      s.pointList.size = 2 * slices + 2 ∧
      s.pointList.positions = (2 * slices + 1) :: List.range (2 * i) ∧
      (∃ l, s.indexList = some l ∧ l.size = 3 * slices ∧ l.positions = List.range (3 * i) ∧
        l.values = (List.range i).flatMap (cylinderFaces slices)) ∧
      s.index4List = none ∧
      s.pointsCount = 2 * i ∧ s.facesCount = 3 * i ∧
      (i < slices → s.cur = 2 * i ∧ s.next = cylinderNext slices i))
    slices 0
    { cur := 0, next := 2, pointsCount := 0, facesCount := 0,
      pointList := (Buffer.new (u32 (u32 (slices * 2) + 2))).setAt (u32 (u32 (2 * slices) + 1))
        { x := ops.ofNat 0, y := ops.ofNat 0, z := height },
      indexList := some (Buffer.new (u32 (slices * 3))),
      index4List := none }
    (by
      simp [Buffer.new, Buffer.setAt, Buffer.positions, Buffer.values, u32, cylinderNext]
      omega)
    (by
      intro i s _ hi ⟨hps, hpp, ⟨l, hl, hls, hlp, hlv⟩, h4, hpc, hfc, hcn⟩
      have hi' : i < slices := by omega
      obtain ⟨hcur, hnext⟩ := hcn hi'
      have hbase : u32 (2 * slices) = 2 * slices := u32_of_lt (by omega)
      have htop : u32 (2 * slices + 1) = 2 * slices + 1 := u32_of_lt (by omega)
      have hne : ¬ (2 * slices = 0) := by omega
      have hnb : cylinderNext slices i ≤ 2 * slices := by
        unfold cylinderNext
        split
        · omega
        · have := Nat.mod_lt (i + 1) (show slices > 0 by omega)
          omega
      have e1 : u32 (2 * i + 1) = 2 * i + 1 := u32_of_lt (by omega)
      have e2 : u32 (2 * i + 1 + 1) = 2 * (i + 1) := by
        rw [u32_of_lt (by omega)]; omega
      have e3 : u32 (cylinderNext slices i + 1) = cylinderNext slices i + 1 :=
        u32_of_lt (by omega)
      have f1 : u32 (3 * i + 1) = 3 * i + 1 := u32_of_lt (by omega)
      have f2 : u32 (3 * i + 1 + 1) = 3 * i + 2 := u32_of_lt (by omega)
      have f3 : u32 (3 * i + 2 + 1) = 3 * (i + 1) := by
        rw [u32_of_lt (by omega)]; omega
      simp only [cylinderBody, hl, hbase, htop, hne, if_true, if_false, hcur, hnext, hpc, hfc,
        e1, e2, e3, f1, f2, f3]
      refine ⟨_, rfl, hps, ?_, ⟨_, rfl, hls, ?_, ?_⟩, h4, rfl, rfl, ?_⟩
      · rw [Buffer.positions_setAt, Buffer.positions_setAt, hpp]
        have : 2 * (i + 1) = 2 * i + 1 + 1 := by omega
        rw [this, List.range_succ, List.range_succ]
        simp
      · have p1 := Buffer.positions_setAt_range l (3 * i)
          [2 * i, cylinderNext slices i, cylinderNext slices i + 1, 2 * i + 1] hlp
        have p2 := Buffer.positions_setAt_range _ (3 * i + 1)
          [2 * i + 1, cylinderNext slices i + 1, 2 * slices + 1] p1
        have p3 := Buffer.positions_setAt_range _ (3 * i + 2)
          [2 * i, 2 * slices, cylinderNext slices i] p2
        have : 3 * (i + 1) = 3 * i + 2 + 1 := by omega
        rw [this]
        exact p3
      · rw [Buffer.values_setAt, Buffer.values_setAt, Buffer.values_setAt, hlv,
          List.range_succ, List.flatMap_append, List.flatMap_singleton]
        simp [cylinderFaces]
      · intro hlt
        obtain ⟨a, b⟩ := cylinderNext_step slices i hlt (by omega)
        rw [hbase] at b
        exact ⟨a, b⟩)
  obtain ⟨s, hs, hP⟩ := key
  obtain ⟨a, b, ⟨l, c1, c2, c3, c4⟩, d, e, f, -⟩ := hP
  refine ⟨s, l, ?_, a, ?_, c1, d, c2, ?_, ?_, ?_, ?_⟩
  · simpa [ringsKernel] using hs
  · simpa using b
  · simpa using c3
  · simpa using c4
  · simpa using e
  · simpa using f

/-- The arrays of a cylinder or frustum that is not solid: `2 * slices` point
slots, the two rings written at 0, 1, ...; `slices` quads written at
0, 1, ..., those of `cylinderQuad`. -/
theorem ringsKernel_open {R : Type} (ops : RealOps R) (radius height : R)
    (upper : R → R → Vector3 R) (slices : Nat) (h1 : 1 ≤ slices)
    (h2 : 3 * slices + 2 < 4294967296) :
    ∃ s l, ringsKernel ops radius height upper false slices = some s ∧
      s.pointList.size = 2 * slices ∧
      s.pointList.positions = List.range (2 * slices) ∧
      s.indexList = none ∧ s.index4List = some l ∧
      l.size = slices ∧ l.positions = List.range slices ∧
      l.values = (List.range slices).map (cylinderQuad slices) ∧
      s.pointsCount = 2 * slices ∧ s.facesCount = slices := by
  have key := forLoop_inv
    (cylinderBody ops radius (ops.div ops.twoPi (ops.ofNat slices)) upper false slices
      (u32 (2 * slices)) (u32 (u32 (2 * slices) + 1)))
    (fun i s =>
      s.pointList.size = 2 * slices ∧
      s.pointList.positions = List.range (2 * i) ∧
      (∃ l, s.index4List = some l ∧ l.size = slices ∧ l.positions = List.range i ∧
        l.values = (List.range i).map (cylinderQuad slices)) ∧
      s.indexList = none ∧
      s.pointsCount = 2 * i ∧ s.facesCount = i ∧
      (i < slices → s.cur = 2 * i ∧ s.next = cylinderNext slices i))
    slices 0
    { cur := 0, next := 2, pointsCount := 0, facesCount := 0,
      pointList := Buffer.new (u32 (u32 (slices * 2) + 0)),
      indexList := none,
      index4List := some (Buffer.new slices) }
    (by
      simp [Buffer.new, Buffer.positions, Buffer.values, u32, cylinderNext]
      omega)
    (by
      intro i s _ hi ⟨hps, hpp, ⟨l, hl, hls, hlp, hlv⟩, h4, hpc, hfc, hcn⟩
      have hi' : i < slices := by omega
      obtain ⟨hcur, hnext⟩ := hcn hi'
      have hbase : u32 (2 * slices) = 2 * slices := u32_of_lt (by omega)
      have hne : ¬ (2 * slices = 0) := by omega
      have hnb : cylinderNext slices i ≤ 2 * slices := by
        unfold cylinderNext
        split
        · omega
        · have := Nat.mod_lt (i + 1) (show slices > 0 by omega)
          omega
      have e1 : u32 (2 * i + 1) = 2 * i + 1 := u32_of_lt (by omega)
      have e2 : u32 (2 * i + 1 + 1) = 2 * (i + 1) := by
        rw [u32_of_lt (by omega)]; omega
      have e3 : u32 (cylinderNext slices i + 1) = cylinderNext slices i + 1 :=
        u32_of_lt (by omega)
      have f1 : u32 (i + 1) = i + 1 := u32_of_lt (by omega)
      simp only [cylinderBody, hl, hbase, hne, if_false, Bool.false_eq_true, hcur, hnext, hpc,
        hfc, e1, e2, e3, f1]
      refine ⟨_, rfl, hps, ?_, ⟨_, rfl, hls, ?_, ?_⟩, h4, rfl, rfl, ?_⟩
      · rw [Buffer.positions_setAt, Buffer.positions_setAt, hpp]
        have : 2 * (i + 1) = 2 * i + 1 + 1 := by omega
        rw [this, List.range_succ, List.range_succ, List.append_assoc]
      · exact Buffer.positions_setAt_range l i _ hlp
      · rw [Buffer.values_setAt, hlv, List.range_succ, List.map_append]
        simp [cylinderQuad]
      · intro hlt
        obtain ⟨a, b⟩ := cylinderNext_step slices i hlt (by omega)
        rw [hbase] at b
        exact ⟨a, b⟩)
  obtain ⟨s, hs, hP⟩ := key
  obtain ⟨a, b, ⟨l, c1, c2, c3, c4⟩, d, e, f, -⟩ := hP
  refine ⟨s, l, ?_, a, ?_, d, c1, c2, ?_, ?_, ?_, ?_⟩
  · simpa [ringsKernel] using hs
  · simpa using b
  · simpa using c3
  · simpa using c4
  · simpa using e
  · simpa using f

/-- When every block of a concatenation holds exactly one element with a
property, the concatenation holds as many as there are blocks. -/
theorem countP_flatMap_one {β γ : Type} (p : γ → Bool) (f : β → List γ) (l : List β)
    (h : ∀ i ∈ l, (f i).countP p = 1) : (l.flatMap f).countP p = l.length := by
  induction l with
  | nil => rfl
  | cons a l ih =>
    rw [List.flatMap_cons, List.countP_append, h a (List.mem_cons_self a l),
      ih (fun i hi => h i (List.mem_cons_of_mem a hi)), List.length_cons]
    omega

/-- The index `_next` of a cylinder or frustum is even. -/
theorem cylinderNext_even (slices i : Nat) : ∃ m, cylinderNext slices i = 2 * m := by
  unfold cylinderNext
  split
  · exact ⟨1, rfl⟩
  · exact ⟨_, rfl⟩

/-- With at least two slices `_next` is the lower ring point of the following
slice, the last slice closing on the first one. -/
theorem cylinderNext_eq (slices i : Nat) (h : 2 ≤ slices) :
    cylinderNext slices i = 2 * ((i + 1) % slices) := by
  unfold cylinderNext
  split
  · next h0 => subst h0; rw [Nat.zero_add, Nat.mod_eq_of_lt (by omega)]
  · rfl

/-- Counts of the arrays of the common part of the cylinder and the frustum. -/
theorem ringsKernel_counts {R : Type} (ops : RealOps R) (radius height : R)
    (upper : R → R → Vector3 R) (slices : Nat) (h1 : 1 ≤ slices)
    (h2 : 3 * slices + 2 < 4294967296) :
    (∃ s l, ringsKernel ops radius height upper true slices = some s ∧
      s.indexList = some l ∧ s.index4List = none ∧
      s.pointList.size = 2 * slices + 2 ∧ l.size = 3 * slices ∧
      l.values.length = 3 * slices ∧
      l.values.countP (fun f => decide (f.length = 4)) = slices ∧
      l.values.countP (fun f => decide (f.length = 3) && f.contains (2 * slices + 1))
        = slices ∧
      l.values.countP (fun f => decide (f.length = 3) && f.contains (2 * slices))
        = slices) ∧
    (∃ s l, ringsKernel ops radius height upper false slices = some s ∧
      s.indexList = none ∧ s.index4List = some l ∧
      s.pointList.size = 2 * slices ∧ l.size = slices ∧ l.values.length = slices) := by
  constructor
  · obtain ⟨s, l, hs, a1, -, a3, a4, a5, a6, a7, -, -⟩ :=
      ringsKernel_solid ops radius height upper slices h1 h2
    refine ⟨s, l, hs, a3, a4, a1, a5, ?_, ?_, ?_, ?_⟩
    · have := congrArg List.length a6
      simpa [Buffer.positions, Buffer.values] using this
    · rw [a7, countP_flatMap_one _ _ _ (fun i _ => by simp [cylinderFaces, List.countP_cons]),
        List.length_range]
    · rw [a7, countP_flatMap_one _ _ _ (fun i _ => by
          obtain ⟨m, hm⟩ := cylinderNext_even slices i
          simp only [cylinderFaces, hm, List.countP_cons, List.countP_nil, List.length_cons,
            List.length_nil, List.contains_cons, List.contains_nil]
          simp
          omega),
        List.length_range]
    · rw [a7, countP_flatMap_one _ _ _ (fun i _ => by
          obtain ⟨m, hm⟩ := cylinderNext_even slices i
          simp only [cylinderFaces, hm, List.countP_cons, List.countP_nil, List.length_cons,
            List.length_nil, List.contains_cons, List.contains_nil]
          simp
          omega),
        List.length_range]
  · obtain ⟨s, l, hs, a1, -, a3, a4, a5, a6, -, -, -⟩ :=
      ringsKernel_open ops radius height upper slices h1 h2
    refine ⟨s, l, hs, a3, a4, a1, a5, ?_⟩
    have := congrArg List.length a6
    simpa [Buffer.positions, Buffer.values] using this

/-- Indices of the arrays of the common part of the cylinder and the frustum,
for at least two slices. -/
theorem ringsKernel_indices {R : Type} (ops : RealOps R) (radius height : R)
    (upper : R → R → Vector3 R) (slices : Nat) (h1 : 2 ≤ slices)
    (h2 : 3 * slices + 2 < 4294967296) :
    (∃ s l, ringsKernel ops radius height upper true slices = some s ∧
      s.indexList = some l ∧ s.pointList.size = 2 * slices + 2 ∧
      (∀ f ∈ l.values, ∀ j ∈ f, j < s.pointList.size) ∧
      l.values = (List.range slices).flatMap (fun i =>
        [[2 * i, 2 * ((i + 1) % slices), 2 * ((i + 1) % slices) + 1, 2 * i + 1],
         [2 * i + 1, 2 * ((i + 1) % slices) + 1, 2 * slices + 1],
         [2 * i, 2 * slices, 2 * ((i + 1) % slices)]])) ∧
    (∃ s l, ringsKernel ops radius height upper false slices = some s ∧
      s.index4List = some l ∧ s.pointList.size = 2 * slices ∧
      (∀ q ∈ l.values, q.i0 < s.pointList.size ∧ q.i1 < s.pointList.size ∧
        q.i2 < s.pointList.size ∧ q.i3 < s.pointList.size) ∧
      l.values = (List.range slices).map (fun i =>
        { i0 := 2 * i, i1 := 2 * ((i + 1) % slices), i2 := 2 * ((i + 1) % slices) + 1,
          i3 := 2 * i + 1 })) := by
  have hf : cylinderFaces slices = fun i =>
      [[2 * i, 2 * ((i + 1) % slices), 2 * ((i + 1) % slices) + 1, 2 * i + 1],
       [2 * i + 1, 2 * ((i + 1) % slices) + 1, 2 * slices + 1],
       [2 * i, 2 * slices, 2 * ((i + 1) % slices)]] := by
    funext i; simp only [cylinderFaces, cylinderNext_eq slices i h1]
  have hq : cylinderQuad slices = fun i =>
      { i0 := 2 * i, i1 := 2 * ((i + 1) % slices), i2 := 2 * ((i + 1) % slices) + 1,
        i3 := 2 * i + 1 } := by
    funext i; simp only [cylinderQuad, cylinderNext_eq slices i h1]
  constructor
  · obtain ⟨s, l, hs, a1, -, a3, -, -, -, a7, -, -⟩ :=
      ringsKernel_solid ops radius height upper slices (by omega) h2
    rw [hf] at a7
    refine ⟨s, l, hs, a3, a1, ?_, a7⟩
    intro f hfm j hj
    rw [a7, List.mem_flatMap] at hfm
    obtain ⟨i, hi, hfi⟩ := hfm
    rw [List.mem_range] at hi
    have hmod : (i + 1) % slices < slices := Nat.mod_lt _ (by omega)
    rw [a1]
    simp only [List.mem_cons, List.mem_singleton, List.not_mem_nil, or_false] at hfi
    rcases hfi with h | h | h <;> subst h <;>
      simp only [List.mem_cons, List.mem_singleton, List.not_mem_nil, or_false] at hj <;>
      omega
  · obtain ⟨s, l, hs, a1, -, -, a4, -, -, a7, -, -⟩ :=
      ringsKernel_open ops radius height upper slices (by omega) h2
    rw [hq] at a7
    refine ⟨s, l, hs, a4, a1, ?_, a7⟩
    intro q hqm
    rw [a7, List.mem_map] at hqm
    obtain ⟨i, hi, hqi⟩ := hqm
    rw [List.mem_range] at hi
    have hmod : (i + 1) % slices < slices := Nat.mod_lt _ (by omega)
    rw [a1]
    subst hqi
    dsimp only
    omega

/-- C18: for a cylinder and for a frustum of `slices ≥ 1` slices, the class of
the result is the mixed-arity face set when solid and the quad set otherwise;
when solid the kernel is defined and builds `2 * slices + 2` point slots and
`3 * slices` faces in the array of faces of any arity (the array of quads is
not allocated), of which `slices` have four indices, `slices` have three
indices among which the top centre `2 * slices + 1`, and `slices` have three
indices among which the base centre `2 * slices`; when not solid it builds
`2 * slices` point slots and `slices` quads in the array of quads. -/
theorem cylinder_and_frustum_counts {R : Type} (ops : RealOps R) (radius height taper : R)
    (slices : Nat) (h1 : 1 ≤ slices) (h2 : 3 * slices + 2 < 4294967296) :
    (LeafKind.cls (.cylinder true) = .faceSet ∧ LeafKind.cls (.frustum true) = .faceSet ∧
      LeafKind.cls (.cylinder false) = .quadSet ∧ LeafKind.cls (.frustum false) = .quadSet) ∧
    ∀ k ∈ [cylinderKernel ops radius height, frustumKernel ops radius height taper],
      (∃ s l, k true slices = some s ∧
        s.indexList = some l ∧ s.index4List = none ∧
        s.pointList.size = 2 * slices + 2 ∧ l.size = 3 * slices ∧
        l.values.length = 3 * slices ∧
        l.values.countP (fun f => decide (f.length = 4)) = slices ∧
        l.values.countP (fun f => decide (f.length = 3) && f.contains (2 * slices + 1))
          = slices ∧
        l.values.countP (fun f => decide (f.length = 3) && f.contains (2 * slices))
          = slices) ∧
      (∃ s l, k false slices = some s ∧
        s.indexList = none ∧ s.index4List = some l ∧
        s.pointList.size = 2 * slices ∧ l.size = slices ∧ l.values.length = slices) := by
  refine ⟨⟨rfl, rfl, rfl, rfl⟩, ?_⟩
  intro k hk
  simp only [List.mem_cons, List.mem_singleton, List.not_mem_nil, or_false] at hk
  rcases hk with rfl | rfl
  · exact ringsKernel_counts ops radius height _ slices h1 h2
  · exact ringsKernel_counts ops radius height _ slices h1 h2

/-- C18, at the cylinder and the frustum of 4 slices: 10 points and 12 faces
when solid, 8 points and 4 quads otherwise. -/
theorem cylinder_and_frustum_counts_witness :
    (1 ≤ 4 ∧ 3 * 4 + 2 < 4294967296) ∧
    ∀ k ∈ [cylinderKernel symbolicReal (.var "radius") (.var "height"),
           frustumKernel symbolicReal (.var "radius") (.var "height") (.var "taper")],
      (∃ s l, k true 4 = some s ∧
        s.indexList = some l ∧ s.index4List = none ∧
        s.pointList.size = 10 ∧ l.size = 12 ∧ l.values.length = 12 ∧
        l.values.countP (fun f => decide (f.length = 4)) = 4 ∧
        l.values.countP (fun f => decide (f.length = 3) && f.contains 9) = 4 ∧
        l.values.countP (fun f => decide (f.length = 3) && f.contains 8) = 4) ∧
      (∃ s l, k false 4 = some s ∧
        s.indexList = none ∧ s.index4List = some l ∧
        s.pointList.size = 8 ∧ l.size = 4 ∧ l.values.length = 4) :=
  ⟨by decide,
    (cylinder_and_frustum_counts symbolicReal (.var "radius") (.var "height") (.var "taper") 4
      (by decide) (by decide)).2⟩

/-- C19: for a cylinder and for a frustum of `slices ≥ 2` slices, solid or not,
every index of every face is smaller than the number of point slots
(`2 * slices + 2` when solid, `2 * slices` otherwise), and slice `i`
contributes the side quad that joins the points `2 * i`,
`2 * ((i + 1) % slices)`, `2 * ((i + 1) % slices) + 1` and `2 * i + 1` (followed,
when solid, by the top and the bottom triangle), so that the quad of the last
slice comes back to the points 0 and 1 of the first one. -/
theorem cylinder_and_frustum_indices_in_range {R : Type} (ops : RealOps R)
    (radius height taper : R) (slices : Nat) (h1 : 2 ≤ slices)
    (h2 : 3 * slices + 2 < 4294967296) :
    2 * ((slices - 1 + 1) % slices) = 0 ∧
    ∀ k ∈ [cylinderKernel ops radius height, frustumKernel ops radius height taper],
      (∃ s l, k true slices = some s ∧
        s.indexList = some l ∧ s.pointList.size = 2 * slices + 2 ∧
        (∀ f ∈ l.values, ∀ j ∈ f, j < s.pointList.size) ∧
        l.values = (List.range slices).flatMap (fun i =>
          [[2 * i, 2 * ((i + 1) % slices), 2 * ((i + 1) % slices) + 1, 2 * i + 1],
           [2 * i + 1, 2 * ((i + 1) % slices) + 1, 2 * slices + 1],
           [2 * i, 2 * slices, 2 * ((i + 1) % slices)]])) ∧
      (∃ s l, k false slices = some s ∧
        s.index4List = some l ∧ s.pointList.size = 2 * slices ∧
        (∀ q ∈ l.values, q.i0 < s.pointList.size ∧ q.i1 < s.pointList.size ∧
          q.i2 < s.pointList.size ∧ q.i3 < s.pointList.size) ∧
        l.values = (List.range slices).map (fun i =>
          { i0 := 2 * i, i1 := 2 * ((i + 1) % slices), i2 := 2 * ((i + 1) % slices) + 1,
            i3 := 2 * i + 1 })) := by
  refine ⟨?_, ?_⟩
  · have : slices - 1 + 1 = slices := by omega
    rw [this, Nat.mod_self]
  · intro k hk
    simp only [List.mem_cons, List.mem_singleton, List.not_mem_nil, or_false] at hk
    rcases hk with rfl | rfl
    · exact ringsKernel_indices ops radius height _ slices h1 h2
    · exact ringsKernel_indices ops radius height _ slices h1 h2

/-- C19, at the cylinder and the frustum of 2 slices. -/
theorem cylinder_and_frustum_indices_in_range_witness :
    (2 ≤ 2 ∧ 3 * 2 + 2 < 4294967296) ∧
    2 * ((2 - 1 + 1) % 2) = 0 ∧
    ∀ k ∈ [cylinderKernel symbolicReal (.var "radius") (.var "height"),
           frustumKernel symbolicReal (.var "radius") (.var "height") (.var "taper")],
      (∃ s l, k true 2 = some s ∧
        s.indexList = some l ∧ s.pointList.size = 2 * 2 + 2 ∧
        (∀ f ∈ l.values, ∀ j ∈ f, j < s.pointList.size) ∧
        l.values = (List.range 2).flatMap (fun i =>
          [[2 * i, 2 * ((i + 1) % 2), 2 * ((i + 1) % 2) + 1, 2 * i + 1],
           [2 * i + 1, 2 * ((i + 1) % 2) + 1, 2 * 2 + 1],
           [2 * i, 2 * 2, 2 * ((i + 1) % 2)]])) ∧
      (∃ s l, k false 2 = some s ∧
        s.index4List = some l ∧ s.pointList.size = 2 * 2 ∧
        (∀ q ∈ l.values, q.i0 < s.pointList.size ∧ q.i1 < s.pointList.size ∧
          q.i2 < s.pointList.size ∧ q.i3 < s.pointList.size) ∧
        l.values = (List.range 2).map (fun i =>
          { i0 := 2 * i, i1 := 2 * ((i + 1) % 2), i2 := 2 * ((i + 1) % 2) + 1,
            i3 := 2 * i + 1 })) :=
  ⟨by decide,
    cylinder_and_frustum_indices_in_range symbolicReal (.var "radius") (.var "height")
      (.var "taper") 2 (by decide) (by decide)⟩

/-! ## The sphere (C12, C13) -/

theorem Index3.below_iff (n : Nat) (t : Index3) :
    t.below n = true ↔ t.i0 < n ∧ t.i1 < n ∧ t.i2 < n := by
  simp [Index3.below, Index3.toList]

/-- The inner loop of the sphere over the rings of a slice: it leaves `_cur` and
`_next` unchanged, writes `ringCount - 1` points and twice as many triangles
at consecutive positions, with indices below `bound` when `_cur + ringCount`
and `_next + ringCount` do not exceed it. -/
theorem sphereRing_loop {R : Type} (ops : RealOps R) (radius elStep cosAz sinAz : R)
    (rc pc ic : Nat) (s0 : SphereState R) (hrc : 1 ≤ rc)
    (hpc : s0.pointCount = pc + 1) (hic : s0.indexCount = ic + 2)
    (hpp : s0.pointList.positions = List.range (pc + 1))
    (hip : s0.indexList.positions = List.range (ic + 2))
    (b1 : pc + rc < 4294967296) (b2 : ic + 2 * rc < 4294967296)
    (b3 : s0.cur + rc < 4294967296) (b4 : s0.next + rc < 4294967296) :
    ∃ s1, forLoop (sphereRingBody ops radius elStep cosAz sinAz) 1 (rc - 1) s0 = some s1 ∧
      s1.cur = s0.cur ∧ s1.next = s0.next ∧
      s1.pointCount = pc + rc ∧ s1.indexCount = ic + 2 * rc ∧
      s1.pointList.size = s0.pointList.size ∧ s1.indexList.size = s0.indexList.size ∧
      s1.pointList.positions = List.range (pc + rc) ∧
      s1.indexList.positions = List.range (ic + 2 * rc) ∧
      (∀ bound, s0.cur + rc ≤ bound → s0.next + rc ≤ bound →
        (∀ t ∈ s0.indexList.values, t.below bound = true) →
        ∀ t ∈ s1.indexList.values, t.below bound = true) := by
  have key := forLoop_inv (sphereRingBody ops radius elStep cosAz sinAz)
    (fun j s =>
      s.cur = s0.cur ∧ s.next = s0.next ∧
      s.pointCount = pc + j ∧ s.indexCount = ic + 2 * j ∧
      s.pointList.size = s0.pointList.size ∧ s.indexList.size = s0.indexList.size ∧
      s.pointList.positions = List.range (pc + j) ∧
      s.indexList.positions = List.range (ic + 2 * j) ∧
      (∀ bound, s0.cur + rc ≤ bound → s0.next + rc ≤ bound →
        (∀ t ∈ s0.indexList.values, t.below bound = true) →
        ∀ t ∈ s.indexList.values, t.below bound = true))
    (rc - 1) 1 s0
    ⟨rfl, rfl, hpc, hic, rfl, rfl, hpp, hip, fun _ _ _ h => h⟩
    (by
      intro j s hj1 hj2 ⟨hc, hn, hp, hi, hps, his, hpos, hipos, hb⟩
      have hj : j < rc := by omega
      refine ⟨_, rfl, hc, hn, ?_, ?_, hps, his, ?_, ?_, ?_⟩
      · show u32 (s.pointCount + 1) = pc + (j + 1)
        rw [hp]; exact u32_of_lt (by omega)
      · show u32 (u32 (s.indexCount + 1) + 1) = ic + 2 * (j + 1)
        have a1 : u32 (ic + 2 * j + 1) = ic + 2 * j + 1 := u32_of_lt (by omega)
        have a2 : u32 (ic + 2 * j + 1 + 1) = ic + 2 * j + 1 + 1 := u32_of_lt (by omega)
        rw [hi, a1, a2]; omega
      · show (s.pointList.setAt s.pointCount _).positions = List.range (pc + (j + 1))
        rw [hp]
        exact Buffer.positions_setAt_range _ _ _ hpos
      · show ((s.indexList.setAt s.indexCount _).setAt (u32 (s.indexCount + 1)) _).positions
            = List.range (ic + 2 * (j + 1))
        have a1 : u32 (ic + 2 * j + 1) = ic + 2 * j + 1 := u32_of_lt (by omega)
        rw [hi, a1]
        have p1 := Buffer.positions_setAt_range s.indexList (ic + 2 * j)
          { i0 := u32 (s.cur + j), i1 := sub32 (u32 (s.cur + j)) 1,
            i2 := sub32 (u32 (s.next + j)) 1 } hipos
        have p2 := Buffer.positions_setAt_range _ (ic + 2 * j + 1)
          { i0 := u32 (s.cur + j), i1 := sub32 (u32 (s.next + j)) 1,
            i2 := u32 (s.next + j) } p1
        have : ic + 2 * (j + 1) = ic + 2 * j + 1 + 1 := by omega
        rw [this]
        exact p2
      · intro bound hb1 hb2 hb0 t ht
        have hold := hb bound hb1 hb2 hb0
        have ht' : t ∈ ((s.indexList.setAt s.indexCount
            { i0 := u32 (s.cur + j), i1 := sub32 (u32 (s.cur + j)) 1,
              i2 := sub32 (u32 (s.next + j)) 1 }).setAt (u32 (s.indexCount + 1))
            { i0 := u32 (s.cur + j), i1 := sub32 (u32 (s.next + j)) 1,
              i2 := u32 (s.next + j) }).values := ht
        rw [Buffer.values_setAt, Buffer.values_setAt, List.append_assoc] at ht'
        rcases List.mem_append.mp ht' with h | h
        · exact hold t h
        · have e1 : u32 (s.cur + j) = s.cur + j := u32_of_lt (by omega)
          have e2 : u32 (s.next + j) = s.next + j := u32_of_lt (by omega)
          have e3 : sub32 (s.cur + j) 1 = s.cur + j - 1 := by
            unfold sub32; omega
          have e4 : sub32 (s.next + j) 1 = s.next + j - 1 := by
            unfold sub32; omega
          rw [e1, e2, e3, e4] at h
          simp only [List.singleton_append, List.mem_cons, List.mem_singleton,
            List.not_mem_nil, or_false] at h
          rcases h with h | h <;> subst h <;> rw [Index3.below_iff] <;>
            refine ⟨?_, ?_, ?_⟩ <;> dsimp only <;> omega)
  obtain ⟨s1, hs, h1, h2, h3, h4, h5, h6, h7, h8, h9⟩ := key
  have e : 1 + (rc - 1) = rc := by omega
  rw [e] at h3 h4 h7 h8
  exact ⟨s1, hs, h1, h2, h3, h4, h5, h6, h7, h8, h9⟩

/-- The outer loop of the sphere over the slices, for `ringCount` rings per
slice: `slices * ringCount` points and twice as many triangles are written at
consecutive positions; with at least two slices every index written is below
`slices * ringCount + 2`. -/
theorem sphereSlice_loop {R : Type} (ops : RealOps R) (radius azStep elStep el0 : R)
    (slices rc : Nat) (h1 : 1 ≤ slices) (hrc : 1 ≤ rc)
    (hB : 2 * (slices * rc) + rc + 2 < 4294967296) :
    ∃ s, forLoop (sphereSliceBody ops radius azStep elStep slices rc (slices * rc)
          (slices * rc + 1)) 0 slices
        { cur := 0, next := rc, pointCount := 0, indexCount := 0, el := el0,
          pointList := Buffer.new (slices * rc + 2),
          indexList := Buffer.new (2 * (slices * rc)) } = some s ∧
      s.pointCount = slices * rc ∧ s.indexCount = 2 * (slices * rc) ∧
      s.pointList.size = slices * rc + 2 ∧ s.indexList.size = 2 * (slices * rc) ∧
      s.pointList.positions = List.range (slices * rc) ∧
      s.indexList.positions = List.range (2 * (slices * rc)) ∧
      (2 ≤ slices → ∀ t ∈ s.indexList.values, t.below (slices * rc + 2) = true) := by
  have hrcS : 1 ≤ slices * rc := Nat.mul_pos h1 hrc
  have key := forLoop_inv
    (sphereSliceBody ops radius azStep elStep slices rc (slices * rc) (slices * rc + 1))
    (fun i s =>
      s.pointCount = i * rc ∧ s.indexCount = 2 * (i * rc) ∧
      s.pointList.size = slices * rc + 2 ∧ s.indexList.size = 2 * (slices * rc) ∧
      s.pointList.positions = List.range (i * rc) ∧
      s.indexList.positions = List.range (2 * (i * rc)) ∧
      s.cur ≤ slices * rc ∧ s.next ≤ slices * rc ∧
      (2 ≤ slices → s.cur + rc ≤ slices * rc ∧ (∃ m, m < slices ∧ s.next = m * rc) ∧
        ∀ t ∈ s.indexList.values, t.below (slices * rc + 2) = true))
    slices 0
    { cur := 0, next := rc, pointCount := 0, indexCount := 0, el := el0,
      pointList := Buffer.new (slices * rc + 2),
      indexList := Buffer.new (2 * (slices * rc)) }
    (by
      refine ⟨by simp, by simp, rfl, rfl, by simp [Buffer.new, Buffer.positions],
        by simp [Buffer.new, Buffer.positions], Nat.zero_le _, ?_, ?_⟩
      · calc rc = 1 * rc := (Nat.one_mul rc).symm
          _ ≤ slices * rc := Nat.mul_le_mul_right rc h1
      · intro h2
        refine ⟨?_, ⟨1, by omega, (Nat.one_mul rc).symm⟩, ?_⟩
        · have := Nat.mul_le_mul_right rc h1
          simpa using this
        · intro t ht
          simp [Buffer.new, Buffer.values] at ht)
    (by
      intro i s _ hi ⟨hpc, hic, hps, his, hpp, hip, hcle, hnle, hcond⟩
      have hi' : i + 1 ≤ slices := by omega
      have hA : i * rc + rc ≤ slices * rc := by
        have := Nat.mul_le_mul_right rc hi'
        rwa [Nat.succ_mul] at this
      have hsucc : (i + 1) * rc = i * rc + rc := Nat.succ_mul i rc
      -- the state the inner loop starts from
      obtain ⟨s1, hloop, c1, c2, c3, c4, c5, c6, c7, c8, c9⟩ :=
        sphereRing_loop ops radius elStep (ops.cos (ops.mul (ops.ofNat i) azStep))
          (ops.sin (ops.mul (ops.ofNat i) azStep)) rc (i * rc) (2 * (i * rc))
          { s with
              el := ops.add (ops.neg ops.halfPi) elStep,
              pointList := s.pointList.setAt s.pointCount
                (Vector3.scale ops
                  { x := ops.mul (ops.cos (ops.mul (ops.ofNat i) azStep))
                      (ops.cos (ops.add (ops.neg ops.halfPi) elStep)),
                    y := ops.mul (ops.sin (ops.mul (ops.ofNat i) azStep))
                      (ops.cos (ops.add (ops.neg ops.halfPi) elStep)),
                    z := ops.sin (ops.add (ops.neg ops.halfPi) elStep) } radius),
              pointCount := u32 (s.pointCount + 1),
              indexList := (s.indexList.setAt s.indexCount
                  { i0 := s.cur, i1 := slices * rc, i2 := s.next }).setAt
                (u32 (s.indexCount + 1))
                { i0 := sub32 (u32 (s.cur + rc)) 1, i1 := sub32 (u32 (s.next + rc)) 1,
                  i2 := slices * rc + 1 },
              indexCount := u32 (u32 (s.indexCount + 1) + 1) }
          hrc
          (by show u32 (s.pointCount + 1) = i * rc + 1
              rw [hpc]; exact u32_of_lt (by omega))
          (by show u32 (u32 (s.indexCount + 1) + 1) = 2 * (i * rc) + 2
              have a1 : u32 (2 * (i * rc) + 1) = 2 * (i * rc) + 1 := u32_of_lt (by omega)
              have a2 : u32 (2 * (i * rc) + 1 + 1) = 2 * (i * rc) + 2 := u32_of_lt (by omega)
              rw [hic, a1, a2])
          (by show (s.pointList.setAt s.pointCount _).positions = List.range (i * rc + 1)
              rw [hpc]; exact Buffer.positions_setAt_range _ _ _ hpp)
          (by show ((s.indexList.setAt s.indexCount _).setAt (u32 (s.indexCount + 1)) _).positions
                = List.range (2 * (i * rc) + 2)
              have a1 : u32 (2 * (i * rc) + 1) = 2 * (i * rc) + 1 := u32_of_lt (by omega)
              rw [hic, a1]
              exact Buffer.positions_setAt_range _ _ _
                (Buffer.positions_setAt_range _ _ _ hip))
          (by omega) (by omega) (by show s.cur + rc < 4294967296; omega)
          (by show s.next + rc < 4294967296; omega)
      have hmod : u32 (rc * slices) = slices * rc := by
        rw [Nat.mul_comm]; exact u32_of_lt (by omega)
      have hne : ¬ (u32 (rc * slices) = 0) := by rw [hmod]; omega
      have hbody : sphereSliceBody ops radius azStep elStep slices rc (slices * rc)
          (slices * rc + 1) i s
          = some { s1 with cur := s1.next,
                           next := u32 (s1.next + rc) % u32 (rc * slices) } := by
        simp only [sphereSliceBody, hloop, hne, if_false]
      refine ⟨_, hbody, ?_, ?_, ?_, ?_, ?_, ?_, ?_, ?_, ?_⟩
      · show s1.pointCount = (i + 1) * rc
        rw [c3, hsucc]
      · show s1.indexCount = 2 * ((i + 1) * rc)
        rw [c4, hsucc]; omega
      · show s1.pointList.size = slices * rc + 2
        rw [c5]; exact hps
      · show s1.indexList.size = 2 * (slices * rc)
        rw [c6]; exact his
      · show s1.pointList.positions = List.range ((i + 1) * rc)
        rw [c7, hsucc]
      · show s1.indexList.positions = List.range (2 * ((i + 1) * rc))
        rw [c8, hsucc]
        have : 2 * (i * rc) + 2 * rc = 2 * (i * rc + rc) := by omega
        rw [this]
      · show s1.next ≤ slices * rc
        rw [c2]; exact hnle
      · show u32 (s1.next + rc) % u32 (rc * slices) ≤ slices * rc
        rw [hmod]
        exact Nat.le_of_lt (Nat.mod_lt _ (by omega))
      · intro h2
        obtain ⟨hcr, ⟨m, hm, hnm⟩, hval⟩ := hcond h2
        have hm' : m + 1 ≤ slices := hm
        have hM : m * rc + rc ≤ slices * rc := by
          have := Nat.mul_le_mul_right rc hm'
          rwa [Nat.succ_mul] at this
        refine ⟨?_, ?_, ?_⟩
        · show s1.next + rc ≤ slices * rc
          rw [c2]; show s.next + rc ≤ slices * rc
          rw [hnm]; exact hM
        · show ∃ m', m' < slices ∧ u32 (s1.next + rc) % u32 (rc * slices) = m' * rc
          rw [c2, hmod]
          show ∃ m', m' < slices ∧ u32 (s.next + rc) % (slices * rc) = m' * rc
          rw [hnm, u32_of_lt (by omega)]
          by_cases hlt : m + 1 < slices
          · refine ⟨m + 1, hlt, ?_⟩
            rw [Nat.succ_mul]
            apply Nat.mod_eq_of_lt
            have := Nat.mul_lt_mul_of_pos_right hlt (show 0 < rc by omega)
            rwa [Nat.succ_mul] at this
          · have hms : m + 1 = slices := by omega
            refine ⟨0, by omega, ?_⟩
            have hfull : m * rc + rc = slices * rc := by rw [← hms, Nat.succ_mul]
            rw [hfull, Nat.mod_self, Nat.zero_mul]
        · show ∀ t ∈ s1.indexList.values, t.below (slices * rc + 2) = true
          apply c9 (slices * rc + 2)
          · show s.cur + rc ≤ slices * rc + 2
            omega
          · show s.next + rc ≤ slices * rc + 2
            rw [hnm]; omega
          · intro t ht
            have ht' : t ∈ ((s.indexList.setAt s.indexCount
                { i0 := s.cur, i1 := slices * rc, i2 := s.next }).setAt
              (u32 (s.indexCount + 1))
              { i0 := sub32 (u32 (s.cur + rc)) 1, i1 := sub32 (u32 (s.next + rc)) 1,
                i2 := slices * rc + 1 }).values := ht
            rw [Buffer.values_setAt, Buffer.values_setAt, List.append_assoc] at ht'
            rcases List.mem_append.mp ht' with h | h
            · exact hval t h
            · have e1 : sub32 (u32 (s.cur + rc)) 1 = s.cur + rc - 1 := by
                rw [u32_of_lt (by omega)]; unfold sub32; omega
              have e2 : sub32 (u32 (s.next + rc)) 1 = s.next + rc - 1 := by
                rw [u32_of_lt (by omega)]; unfold sub32; omega
              rw [e1, e2] at h
              simp only [List.singleton_append, List.mem_cons, List.mem_singleton,
                List.not_mem_nil, or_false] at h
              have hn2 : s.next + rc ≤ slices * rc := by rw [hnm]; exact hM
              rcases h with h | h <;> subst h <;> rw [Index3.below_iff] <;>
                refine ⟨?_, ?_, ?_⟩ <;> dsimp only <;> omega)
  obtain ⟨s, hs, a1, a2, a3, a4, a5, a6, -, -, a9⟩ := key
  simp only [Nat.zero_add] at a1 a2 a5 a6 hs
  exact ⟨s, hs, a1, a2, a3, a4, a5, a6, fun h2 => (a9 h2).2.2⟩

/-- The arrays of a sphere with at least one slice and two stacks: the point
array has `slices * (stacks - 1) + 2` slots and the index array twice
`slices * (stacks - 1)`; both are written at 0, 1, ... up to their size, so
that the counters end at the sizes; with at least two slices every index of
every triangle is below the number of points. -/
theorem sphereKernel_arrays {R : Type} (ops : RealOps R) (radius : R) (slices nbStacks : Nat)
    (h1 : 1 ≤ slices) (h2 : slices < 256) (h3 : 2 ≤ nbStacks) (h4 : nbStacks < 256) :
    ∃ s, sphereKernel ops radius slices nbStacks = some s ∧
      s.pointList.size = slices * (nbStacks - 1) + 2 ∧
      s.indexList.size = 2 * slices * (nbStacks - 1) ∧
      s.pointList.positions = List.range (slices * (nbStacks - 1) + 2) ∧
      s.indexList.positions = List.range (2 * slices * (nbStacks - 1)) ∧
      s.pointCount = s.pointList.size ∧ s.indexCount = s.indexList.size ∧
      (2 ≤ slices → ∀ t ∈ s.indexList.values, t.below (slices * (nbStacks - 1) + 2) = true) := by
  have hrc : sub32 nbStacks 1 = nbStacks - 1 := by unfold sub32; omega
  have hprod : slices * (nbStacks - 1) ≤ 255 * 254 :=
    Nat.mul_le_mul (by omega) (by omega)
  have hbot : u32 (slices * (nbStacks - 1)) = slices * (nbStacks - 1) :=
    u32_of_lt (by omega)
  have htop : u32 (slices * (nbStacks - 1) + 1) = slices * (nbStacks - 1) + 1 :=
    u32_of_lt (by omega)
  have hsz : u32 (slices * (nbStacks - 1) + 1 + 1) = slices * (nbStacks - 1) + 2 :=
    u32_of_lt (by omega)
  have h2rc : u32 (2 * (nbStacks - 1)) = 2 * (nbStacks - 1) := u32_of_lt (by omega)
  have hisz : u32 (slices * (2 * (nbStacks - 1))) = 2 * (slices * (nbStacks - 1)) := by
    have : slices * (2 * (nbStacks - 1)) = 2 * (slices * (nbStacks - 1)) := by
      rw [Nat.mul_left_comm]
    rw [this]; exact u32_of_lt (by omega)
  obtain ⟨s, hs, a1, a2, a3, a4, a5, a6, a7⟩ :=
    sphereSlice_loop ops radius (ops.div ops.twoPi (ops.ofNat slices))
      (ops.div ops.pi (ops.ofNat nbStacks)) (ops.ofNat 0) slices (nbStacks - 1) h1 (by omega)
      (by omega)
  have e1 : u32 (slices * (nbStacks - 1) + 1) = slices * (nbStacks - 1) + 1 := htop
  have hk : sphereKernel ops radius slices nbStacks
      = some { s with
          pointList := (s.pointList.setAt s.pointCount
              { x := ops.ofNat 0, y := ops.ofNat 0, z := ops.neg radius }).setAt
            (u32 (s.pointCount + 1)) { x := ops.ofNat 0, y := ops.ofNat 0, z := radius },
          pointCount := u32 (u32 (s.pointCount + 1) + 1) } := by
    simp only [sphereKernel, hrc, hbot, htop, hsz, h2rc, hisz, hs]
  have hmul : 2 * slices * (nbStacks - 1) = 2 * (slices * (nbStacks - 1)) := Nat.mul_assoc _ _ _
  refine ⟨_, hk, a3, ?_, ?_, ?_, ?_, ?_, a7⟩
  · show s.indexList.size = 2 * slices * (nbStacks - 1)
    rw [hmul]; exact a4
  · show ((s.pointList.setAt s.pointCount _).setAt (u32 (s.pointCount + 1)) _).positions
        = List.range (slices * (nbStacks - 1) + 2)
    rw [a1, e1]
    exact Buffer.positions_setAt_range _ _ _ (Buffer.positions_setAt_range _ _ _ a5)
  · show s.indexList.positions = List.range (2 * slices * (nbStacks - 1))
    rw [hmul]; exact a6
  · show u32 (u32 (s.pointCount + 1) + 1) = s.pointList.size
    rw [a1, e1, a3]; exact u32_of_lt (by omega)
  · show s.indexCount = s.indexList.size
    rw [a2, a4]

/-- C12: for a sphere of `slices ≥ 1` slices and `nbStacks ≥ 2` stacks (two
`uchar_t`, so below 256) the kernel is defined; its point array has
`slices * (nbStacks - 1) + 2` slots and its index array
`2 * slices * (nbStacks - 1)`; on each array the calls of `setAt` are made at
the positions 0, 1, 2, ... up to the size, so that each slot is written exactly
once, and the two counters end equal to the two sizes, which is what the two
final `GEOM_ASSERT` check. -/
theorem sphere_point_and_triangle_counts {R : Type} (ops : RealOps R) (radius : R)
    (slices nbStacks : Nat) (h1 : 1 ≤ slices) (h2 : slices < 256) (h3 : 2 ≤ nbStacks)
    (h4 : nbStacks < 256) :
    ∃ s, sphereKernel ops radius slices nbStacks = some s ∧
      s.pointList.size = slices * (nbStacks - 1) + 2 ∧
      s.indexList.size = 2 * slices * (nbStacks - 1) ∧
      s.pointList.positions = List.range s.pointList.size ∧
      s.indexList.positions = List.range s.indexList.size ∧
      s.pointList.values.length = slices * (nbStacks - 1) + 2 ∧
      s.indexList.values.length = 2 * slices * (nbStacks - 1) ∧
      s.pointCount = s.pointList.size ∧ s.indexCount = s.indexList.size := by
  obtain ⟨s, hs, a1, a2, a3, a4, a5, a6, -⟩ :=
    sphereKernel_arrays ops radius slices nbStacks h1 h2 h3 h4
  refine ⟨s, hs, a1, a2, by rw [a1]; exact a3, by rw [a2]; exact a4, ?_, ?_, a5, a6⟩
  · have := congrArg List.length a3
    simpa [Buffer.positions, Buffer.values] using this
  · have := congrArg List.length a4
    simpa [Buffer.positions, Buffer.values] using this

/-- C12, at the sphere of 8 slices and 6 stacks: 42 points and 80 triangles. -/
theorem sphere_point_and_triangle_counts_witness :
    (1 ≤ 8 ∧ 8 < 256 ∧ 2 ≤ 6 ∧ 6 < 256) ∧
    ∃ s, sphereKernel symbolicReal (.var "radius") 8 6 = some s ∧
      s.pointList.size = 42 ∧ s.indexList.size = 80 ∧
      s.pointList.positions = List.range s.pointList.size ∧
      s.indexList.positions = List.range s.indexList.size ∧
      s.pointList.values.length = 42 ∧ s.indexList.values.length = 80 ∧
      s.pointCount = s.pointList.size ∧ s.indexCount = s.indexList.size :=
  ⟨by decide,
    sphere_point_and_triangle_counts symbolicReal (.var "radius") 8 6 (by decide) (by decide)
      (by decide) (by decide)⟩

/-- C13: for a sphere of `slices ≥ 2` slices and `nbStacks ≥ 2` stacks (two
`uchar_t`, so below 256) the three indices of every triangle the kernel writes
are smaller than the number of points `slices * (nbStacks - 1) + 2`. -/
theorem sphere_indices_in_range {R : Type} (ops : RealOps R) (radius : R)
    (slices nbStacks : Nat) (h1 : 2 ≤ slices) (h2 : slices < 256) (h3 : 2 ≤ nbStacks)
    (h4 : nbStacks < 256) :
    ∃ s, sphereKernel ops radius slices nbStacks = some s ∧
      s.pointList.size = slices * (nbStacks - 1) + 2 ∧
      ∀ t ∈ s.indexList.values,
        t.i0 < s.pointList.size ∧ t.i1 < s.pointList.size ∧ t.i2 < s.pointList.size := by
  obtain ⟨s, hs, a1, -, -, -, -, -, a7⟩ :=
    sphereKernel_arrays ops radius slices nbStacks (by omega) h2 h3 h4
  refine ⟨s, hs, a1, ?_⟩
  intro t ht
  rw [a1]
  exact (Index3.below_iff _ t).mp (a7 h1 t ht)

/-- C13, at the sphere of 2 slices and 2 stacks: all the triangles
have their indices below 4, the number of points. -/
theorem sphere_indices_in_range_witness :
    (2 ≤ 2 ∧ 2 < 256) ∧
    ∃ s, sphereKernel symbolicReal (.var "radius") 2 2 = some s ∧
      s.pointList.size = 2 * (2 - 1) + 2 ∧
      ∀ t ∈ s.indexList.values,
        t.i0 < s.pointList.size ∧ t.i1 < s.pointList.size ∧ t.i2 < s.pointList.size :=
  ⟨by decide,
    sphere_indices_in_range symbolicReal (.var "radius") 2 2 (by decide) (by decide)
      (by decide) (by decide)⟩

/-! ## The Bezier and NURBS patches (C15, C16, C17) -/

/-- The inner loop of a patch kernel: `n` points and `n` quads written at
consecutive positions. -/
theorem patchCell_loop {R : Type} (point : Nat → Vector3 R) (uStride n pc ic c : Nat)
    (s0 : PatchState R) (hc : s0.cur = c) (hpc : s0.pointCount = pc)
    (hic : s0.indexCount = ic)
    (hpp : s0.pointList.positions = List.range pc)
    (hip : s0.indexList.positions = List.range ic)
    (b1 : pc + n < 4294967296) (b2 : ic + n < 4294967296) (b3 : c + n < 4294967296) :
    ∃ s1, forLoop (patchCellBody point uStride) 0 n s0 = some s1 ∧
      s1.cur = c + n ∧ s1.pointCount = pc + n ∧ s1.indexCount = ic + n ∧
      s1.pointList.size = s0.pointList.size ∧ s1.indexList.size = s0.indexList.size ∧
      s1.pointList.positions = List.range (pc + n) ∧
      s1.pointList.values = s0.pointList.values ++ (List.range n).map point ∧
      s1.indexList.positions = List.range (ic + n) := by
  have key := forLoop_inv (patchCellBody point uStride)
    (fun j s =>
      s.cur = c + j ∧ s.pointCount = pc + j ∧ s.indexCount = ic + j ∧
      s.pointList.size = s0.pointList.size ∧ s.indexList.size = s0.indexList.size ∧
      s.pointList.positions = List.range (pc + j) ∧
      s.pointList.values = s0.pointList.values ++ (List.range j).map point ∧
      s.indexList.positions = List.range (ic + j))
    n 0 s0
    (by simp [hc, hpc, hic, hpp, hip])
    (by
      intro j s _ hj ⟨i1, i2, i3, i4, i5, i6, i7, i8⟩
      refine ⟨_, rfl, ?_, ?_, ?_, ?_, ?_, ?_, ?_, ?_⟩
      · show u32 (s.cur + 1) = c + (j + 1)
        rw [i1]; exact u32_of_lt (by omega)
      · show u32 (s.pointCount + 1) = pc + (j + 1)
        rw [i2]; exact u32_of_lt (by omega)
      · show u32 (s.indexCount + 1) = ic + (j + 1)
        rw [i3]; exact u32_of_lt (by omega)
      · exact i4
      · exact i5
      · show (s.pointList.setAt s.pointCount _).positions = List.range (pc + (j + 1))
        rw [i2]; exact Buffer.positions_setAt_range _ _ _ i6
      · show (s.pointList.setAt s.pointCount _).values = _
        rw [Buffer.values_setAt, i7, List.range_succ, List.map_append, List.append_assoc]
        rfl
      · show (s.indexList.setAt s.indexCount _).positions = List.range (ic + (j + 1))
        rw [i3]; exact Buffer.positions_setAt_range _ _ _ i8)
  obtain ⟨s1, h, a⟩ := key
  simp only [Nat.zero_add] at a h
  exact ⟨s1, h, a⟩

/-- The last loop of a patch kernel: `n` points written at consecutive
positions. -/
theorem patchLastRow_loop {R : Type} (lastRow : Nat → Vector3 R) (n pc : Nat)
    (s0 : PatchState R) (hpc : s0.pointCount = pc)
    (hpp : s0.pointList.positions = List.range pc) (b1 : pc + n < 4294967296) :
    ∃ s1, forLoop (patchLastRowBody lastRow) 0 n s0 = some s1 ∧
      s1.pointCount = pc + n ∧ s1.indexCount = s0.indexCount ∧
      s1.pointList.size = s0.pointList.size ∧ s1.indexList = s0.indexList ∧
      s1.pointList.positions = List.range (pc + n) ∧
      s1.pointList.values = s0.pointList.values ++ (List.range n).map lastRow := by
  have key := forLoop_inv (patchLastRowBody lastRow)
    (fun j s =>
      s.pointCount = pc + j ∧ s.indexCount = s0.indexCount ∧
      s.pointList.size = s0.pointList.size ∧ s.indexList = s0.indexList ∧
      s.pointList.positions = List.range (pc + j) ∧
      s.pointList.values = s0.pointList.values ++ (List.range j).map lastRow)
    n 0 s0
    (by simp [hpc, hpp])
    (by
      intro j s _ hj ⟨i1, i2, i3, i4, i5, i6⟩
      refine ⟨_, rfl, ?_, i2, i3, i4, ?_, ?_⟩
      · show u32 (s.pointCount + 1) = pc + (j + 1)
        rw [i1]; exact u32_of_lt (by omega)
      · show (s.pointList.setAt s.pointCount _).positions = List.range (pc + (j + 1))
        rw [i1]; exact Buffer.positions_setAt_range _ _ _ i5
      · show (s.pointList.setAt s.pointCount _).values = _
        rw [Buffer.values_setAt, i6, List.range_succ, List.map_append, List.append_assoc]
        rfl)
  obtain ⟨s1, h, a⟩ := key
  simp only [Nat.zero_add] at a h
  exact ⟨s1, h, a⟩

/-- The arrays of a patch kernel whose loops run `uc` and `vc` times: the points
are written at 0, 1, ..., row after row (`uc + 1` rows of `vc + 1` points), the
quads at 0, 1, ... (`uc * vc` of them). -/
theorem patchGrid_arrays {R : Type} (point : Nat → Nat → Vector3 R)
    (rowEnd lastRow : Nat → Vector3 R) (corner : Vector3 R) (uStride vStride uc vc : Nat)
    (hB : (uc + 1) * (vc + 1) < 4294967296) :
    ∃ s, patchGrid point rowEnd lastRow corner uStride vStride uc vc = some s ∧
      s.pointList.size = u32 (uStride * vStride) ∧
      s.indexList.size = u32 (sub32 uStride 1 * sub32 vStride 1) ∧
      s.pointList.positions = List.range ((uc + 1) * (vc + 1)) ∧
      s.pointList.values =
        (List.range uc).flatMap (fun u => (List.range vc).map (point u) ++ [rowEnd u]) ++
          ((List.range vc).map lastRow ++ [corner]) ∧
      s.indexList.positions = List.range (uc * vc) ∧
      s.indexCount = uc * vc := by
  have hexp : (uc + 1) * (vc + 1) = uc * (vc + 1) + vc + 1 := by
    rw [Nat.succ_mul]; omega
  have key := forLoop_inv (patchRowBody point rowEnd uStride vc)
    (fun i s =>
      s.cur = i * (vc + 1) ∧ s.pointCount = i * (vc + 1) ∧ s.indexCount = i * vc ∧
      s.pointList.size = u32 (uStride * vStride) ∧
      s.indexList.size = u32 (sub32 uStride 1 * sub32 vStride 1) ∧
      s.pointList.positions = List.range (i * (vc + 1)) ∧
      s.pointList.values =
        (List.range i).flatMap (fun u => (List.range vc).map (point u) ++ [rowEnd u]) ∧
      s.indexList.positions = List.range (i * vc))
    uc 0
    { cur := 0, pointCount := 0, indexCount := 0,
      pointList := Buffer.new (u32 (uStride * vStride)),
      indexList := Buffer.new (u32 (sub32 uStride 1 * sub32 vStride 1)) }
    (by simp [Buffer.new, Buffer.positions, Buffer.values])
    (by
      intro i s _ hi ⟨i1, i2, i3, i4, i5, i6, i7, i8⟩
      have hi' : i + 1 ≤ uc := by omega
      have hA : i * (vc + 1) + (vc + 1) ≤ uc * (vc + 1) := by
        have := Nat.mul_le_mul_right (vc + 1) hi'
        rwa [Nat.succ_mul] at this
      have hC : i * vc ≤ i * (vc + 1) := Nat.mul_le_mul_left i (by omega)
      obtain ⟨s1, hloop, c1, c2, c3, c4, c5, c6, c7, c8⟩ :=
        patchCell_loop (point i) uStride vc (i * (vc + 1)) (i * vc) (i * (vc + 1)) s
          i1 i2 i3 i6 i8 (by omega) (by omega) (by omega)
      have hbody : patchRowBody point rowEnd uStride vc i s
          = some { s1 with
              pointList := s1.pointList.setAt s1.pointCount (rowEnd i),
              pointCount := u32 (s1.pointCount + 1),
              cur := u32 (s1.cur + 1) } := by
        simp only [patchRowBody, hloop]
      have hsucc : (i + 1) * (vc + 1) = i * (vc + 1) + vc + 1 := by
        rw [Nat.succ_mul]; omega
      have hsucc2 : (i + 1) * vc = i * vc + vc := Nat.succ_mul i vc
      refine ⟨_, hbody, ?_, ?_, ?_, ?_, ?_, ?_, ?_, ?_⟩
      · show u32 (s1.cur + 1) = (i + 1) * (vc + 1)
        rw [c1, hsucc]; exact u32_of_lt (by omega)
      · show u32 (s1.pointCount + 1) = (i + 1) * (vc + 1)
        rw [c2, hsucc]; exact u32_of_lt (by omega)
      · show s1.indexCount = (i + 1) * vc
        rw [c3, hsucc2]
      · show (s1.pointList.setAt s1.pointCount (rowEnd i)).size = _
        rw [Buffer.size_setAt, c4]; exact i4
      · show s1.indexList.size = _
        rw [c5]; exact i5
      · show (s1.pointList.setAt s1.pointCount (rowEnd i)).positions
            = List.range ((i + 1) * (vc + 1))
        rw [c2, hsucc]
        exact Buffer.positions_setAt_range _ _ _ c6
      · show (s1.pointList.setAt s1.pointCount (rowEnd i)).values = _
        rw [Buffer.values_setAt, c7, i7, List.range_succ, List.flatMap_append,
          List.append_assoc]
        simp
      · show s1.indexList.positions = List.range ((i + 1) * vc)
        rw [c8, hsucc2])
  obtain ⟨s1, hs1, a1, a2, a3, a4, a5, a6, a7, a8⟩ := key
  simp only [Nat.zero_add] at hs1 a1 a2 a3 a4 a5 a6 a7 a8
  obtain ⟨s2, hs2, e1, e2, e3, e4, e5, e6⟩ :=
    patchLastRow_loop lastRow vc (uc * (vc + 1)) s1 a2 a6 (by omega)
  have hk : patchGrid point rowEnd lastRow corner uStride vStride uc vc
      = some { s2 with pointList := s2.pointList.setAt s2.pointCount corner } := by
    simp only [patchGrid, hs1, hs2]
  refine ⟨_, hk, ?_, ?_, ?_, ?_, ?_, ?_⟩
  · show (s2.pointList.setAt s2.pointCount corner).size = _
    rw [Buffer.size_setAt, e3]; exact a4
  · show s2.indexList.size = _
    rw [e4]; exact a5
  · show (s2.pointList.setAt s2.pointCount corner).positions = _
    rw [e1, hexp]
    exact Buffer.positions_setAt_range _ _ _ e5
  · show (s2.pointList.setAt s2.pointCount corner).values = _
    rw [Buffer.values_setAt, e6, a7, List.append_assoc]
  · show s2.indexList.positions = _
    rw [e4]; exact a8
  · show s2.indexCount = _
    rw [e2]; exact a3

/-- The arrays of `process(BezierPatch*)` for strides `uStride ≥ 1` and
`vStride ≥ 1`. -/
theorem bezierPatchKernel_arrays {R : Type} (ops : RealOps R) (getPointAt : R → R → Vector3 R)
    (uStride vStride : Nat) (h1 : 1 ≤ uStride) (h2 : 1 ≤ vStride)
    (h3 : uStride * vStride < 4294967296) :
    ∃ s, bezierPatchKernel ops getPointAt uStride vStride = some s ∧
      s.pointList.size = uStride * vStride ∧
      s.indexList.size = (uStride - 1) * (vStride - 1) ∧
      s.pointList.positions = List.range (uStride * vStride) ∧
      s.pointList.values =
        (List.range (uStride - 1)).flatMap (fun u =>
          (List.range (vStride - 1)).map (fun v =>
            getPointAt
              (ops.div (ops.ofNat u) (ops.sub (ops.ofNat uStride) (ops.ofNat 1)))
              (ops.div (ops.ofNat v) (ops.sub (ops.ofNat vStride) (ops.ofNat 1)))) ++
          [getPointAt (ops.div (ops.ofNat u) (ops.sub (ops.ofNat uStride) (ops.ofNat 1)))
            (ops.ofNat 1)]) ++
        ((List.range (vStride - 1)).map (fun v =>
            getPointAt (ops.ofNat 1)
              (ops.div (ops.ofNat v) (ops.sub (ops.ofNat vStride) (ops.ofNat 1)))) ++
          [getPointAt (ops.ofNat 1) (ops.ofNat 1)]) ∧
      s.indexList.positions = List.range ((uStride - 1) * (vStride - 1)) ∧
      s.indexCount = (uStride - 1) * (vStride - 1) := by
  have hu : uStride - 1 + 1 = uStride := by omega
  have hv : vStride - 1 + 1 = vStride := by omega
  have hle : (uStride - 1) * (vStride - 1) ≤ uStride * vStride :=
    Nat.mul_le_mul (by omega) (by omega)
  have hlt : uStride < 4294967296 :=
    Nat.lt_of_le_of_lt (Nat.le_mul_of_pos_right uStride (by omega)) h3
  have hlt2 : vStride < 4294967296 :=
    Nat.lt_of_le_of_lt (Nat.le_mul_of_pos_left vStride (by omega)) h3
  have hsu : sub32 uStride 1 = uStride - 1 := by unfold sub32; omega
  have hsv : sub32 vStride 1 = vStride - 1 := by unfold sub32; omega
  obtain ⟨s, hs, a1, a2, a3, a4, a5, a6⟩ :=
    patchGrid_arrays
      (fun u v => getPointAt
        (ops.div (ops.ofNat u) (ops.sub (ops.ofNat uStride) (ops.ofNat 1)))
        (ops.div (ops.ofNat v) (ops.sub (ops.ofNat vStride) (ops.ofNat 1))))
      (fun u => getPointAt
        (ops.div (ops.ofNat u) (ops.sub (ops.ofNat uStride) (ops.ofNat 1))) (ops.ofNat 1))
      (fun v => getPointAt (ops.ofNat 1)
        (ops.div (ops.ofNat v) (ops.sub (ops.ofNat vStride) (ops.ofNat 1))))
      (getPointAt (ops.ofNat 1) (ops.ofNat 1))
      uStride vStride (uStride - 1) (vStride - 1) (by rw [hu, hv]; exact h3)
  rw [hu, hv] at a3
  rw [u32_of_lt h3] at a1
  rw [hsu, hsv, u32_of_lt (by omega)] at a2
  exact ⟨s, hs, a1, a2, a3, a4, a5, a6⟩

/-- The arrays of `process(NurbsPatch*)` for strides `uStride ≥ 1` and
`vStride ≥ 1`. -/
theorem nurbsPatchKernel_arrays {R : Type} (ops : RealOps R) (getPointAt : R → R → Vector3 R)
    (ufirst ulast vfirst vlast : R) (uStride vStride : Nat) (h1 : 1 ≤ uStride)
    (h2 : 1 ≤ vStride) (h3 : uStride * vStride < 4294967296) :
    ∃ s, nurbsPatchKernel ops getPointAt ufirst ulast vfirst vlast uStride vStride = some s ∧
      s.pointList.size = uStride * vStride ∧
      s.indexList.size = (uStride - 1) * (vStride - 1) ∧
      s.pointList.positions = List.range (uStride * vStride) ∧
      s.indexList.positions = List.range ((uStride - 1) * (vStride - 1)) ∧
      s.indexCount = (uStride - 1) * (vStride - 1) := by
  have hu : uStride - 1 + 1 = uStride := by omega
  have hv : vStride - 1 + 1 = vStride := by omega
  have hle : (uStride - 1) * (vStride - 1) ≤ uStride * vStride :=
    Nat.mul_le_mul (by omega) (by omega)
  have hlt : uStride < 4294967296 :=
    Nat.lt_of_le_of_lt (Nat.le_mul_of_pos_right uStride (by omega)) h3
  have hlt2 : vStride < 4294967296 :=
    Nat.lt_of_le_of_lt (Nat.le_mul_of_pos_left vStride (by omega)) h3
  have hsu : sub32 uStride 1 = uStride - 1 := by unfold sub32; omega
  have hsv : sub32 vStride 1 = vStride - 1 := by unfold sub32; omega
  unfold nurbsPatchKernel
  simp only [hsu, hsv]
  obtain ⟨s, hs, a1, a2, a3, -, a5, a6⟩ :=
    patchGrid_arrays
      (fun u v =>
        getPointAt
          (ops.add ufirst (ops.div (ops.mul (ops.ofNat u) (ops.sub ulast ufirst))
            (ops.ofNat (uStride - 1))))
          (ops.add vfirst (ops.div (ops.mul (ops.ofNat v) (ops.sub vlast vfirst))
            (ops.ofNat (vStride - 1)))))
      (fun u => getPointAt (ops.div (ops.ofNat u) (ops.ofNat (uStride - 1))) (ops.ofNat 1))
      (fun v => getPointAt ulast
        (ops.add vfirst (ops.div (ops.mul (ops.ofNat v) (ops.sub vlast vfirst))
          (ops.ofNat (vStride - 1)))))
      (getPointAt ulast vlast)
      uStride vStride (uStride - 1) (vStride - 1) (by rw [hu, hv]; exact h3)
  rw [hu, hv] at a3
  rw [u32_of_lt h3] at a1
  rw [hsu, hsv, u32_of_lt (by omega)] at a2
  exact ⟨s, hs, a1, a2, a3, a5, a6⟩

/-- C17: for a Bezier patch of strides `uStride ≥ 1` and `vStride ≥ 1` (their
product fitting a `uint32_t`) the kernel is defined; its point array has
`uStride * vStride` slots, written at the positions 0, 1, 2, ... up to the size,
each slot exactly once; its index array has `(uStride - 1) * (vStride - 1)`
quads, written at 0, 1, 2, ... as well. -/
theorem bezier_patch_point_and_quad_counts {R : Type} (ops : RealOps R)
    (getPointAt : R → R → Vector3 R) (uStride vStride : Nat) (h1 : 1 ≤ uStride)
    (h2 : 1 ≤ vStride) (h3 : uStride * vStride < 4294967296) :
    ∃ s, bezierPatchKernel ops getPointAt uStride vStride = some s ∧
      s.pointList.size = uStride * vStride ∧
      s.pointList.positions = List.range s.pointList.size ∧
      s.pointList.values.length = uStride * vStride ∧
      s.indexList.size = (uStride - 1) * (vStride - 1) ∧
      s.indexList.positions = List.range s.indexList.size ∧
      s.indexList.values.length = (uStride - 1) * (vStride - 1) ∧
      s.indexCount = s.indexList.size := by
  obtain ⟨s, hs, a1, a2, a3, -, a5, a6⟩ :=
    bezierPatchKernel_arrays ops getPointAt uStride vStride h1 h2 h3
  refine ⟨s, hs, a1, by rw [a1]; exact a3, ?_, a2, by rw [a2]; exact a5, ?_, by rw [a2]; exact a6⟩
  · have := congrArg List.length a3
    simpa [Buffer.positions, Buffer.values] using this
  · have := congrArg List.length a5
    simpa [Buffer.positions, Buffer.values] using this

/-- C17, at the Bezier patch of strides 3 and 3: 9 points and 4 quads. -/
theorem bezier_patch_point_and_quad_counts_witness :
    (1 ≤ 3 ∧ 3 * 3 < 4294967296) ∧
    ∃ s, bezierPatchKernel symbolicReal flatPatch 3 3 = some s ∧
      s.pointList.size = 9 ∧
      s.pointList.positions = List.range s.pointList.size ∧
      s.pointList.values.length = 9 ∧
      s.indexList.size = 4 ∧
      s.indexList.positions = List.range s.indexList.size ∧
      s.indexList.values.length = 4 ∧
      s.indexCount = s.indexList.size :=
  ⟨by decide,
    bezier_patch_point_and_quad_counts symbolicReal flatPatch 3 3 (by decide) (by decide)
      (by decide)⟩

/-- C16, refuting the sizes of the claim: for strides 3 and 3 the Bezier and the
NURBS kernel build 9 points and 4 quads, not the 16 points and 9 quads of a
grid of `(3 + 1) x (3 + 1)` points. -/
theorem patch_grid_of_strides_three :
    ∃ sb sn,
      bezierPatchKernel symbolicReal flatPatch 3 3 = some sb ∧
      nurbsPatchKernel symbolicReal flatPatch (.ofNat 0) (.ofNat 1) (.ofNat 0) (.ofNat 1) 3 3
        = some sn ∧
      sb.pointList.size = 9 ∧ sb.pointList.values.length = 9 ∧
      sb.indexList.size = 4 ∧ sb.indexList.values.length = 4 ∧
      sn.pointList.size = 9 ∧ sn.pointList.values.length = 9 ∧
      sn.indexList.size = 4 ∧ sn.indexList.values.length = 4 ∧
      sb.pointList.size ≠ (3 + 1) * (3 + 1) ∧ sb.indexList.size ≠ 3 * 3 ∧
      sn.pointList.size ≠ (3 + 1) * (3 + 1) ∧ sn.indexList.size ≠ 3 * 3 :=
  ⟨_, _, rfl, rfl, rfl, rfl, rfl, rfl, rfl, rfl, rfl, rfl, by decide, by decide, by decide,
    by decide⟩

/-- C16, amended: for a Bezier and for a NURBS patch of strides `uStride ≥ 1`
and `vStride ≥ 1` (their product fitting a `uint32_t`) the kernel is defined,
the class of the result is the quad set, the point array has
`uStride * vStride` slots, each written once, and the index array
`(uStride - 1) * (vStride - 1)` quads; the points of the Bezier patch are those
of a uniform grid of `uStride` rows of `vStride` points: row `u`, point `v` is
the point of the patch at the parameters `u / (uStride - 1)` and
`v / (vStride - 1)`, the last row and the last point of each row being taken at
the parameter 1. -/
theorem patch_samples_stride_grid {R : Type} (ops : RealOps R)
    (getPointAt : R → R → Vector3 R) (ufirst ulast vfirst vlast : R) (uStride vStride : Nat)
    (h1 : 1 ≤ uStride) (h2 : 1 ≤ vStride) (h3 : uStride * vStride < 4294967296) :
    TexLeafKind.cls .bezierPatch = .quadSet ∧
    ∃ sb sn,
      bezierPatchKernel ops getPointAt uStride vStride = some sb ∧
      nurbsPatchKernel ops getPointAt ufirst ulast vfirst vlast uStride vStride = some sn ∧
      (∀ s ∈ [sb, sn],
        s.pointList.size = uStride * vStride ∧
        s.pointList.positions = List.range (uStride * vStride) ∧
        s.indexList.size = (uStride - 1) * (vStride - 1) ∧
        s.indexList.positions = List.range ((uStride - 1) * (vStride - 1))) ∧
      sb.pointList.values =
        (List.range (uStride - 1)).flatMap (fun u =>
          (List.range (vStride - 1)).map (fun v =>
            getPointAt
              (ops.div (ops.ofNat u) (ops.sub (ops.ofNat uStride) (ops.ofNat 1)))
              (ops.div (ops.ofNat v) (ops.sub (ops.ofNat vStride) (ops.ofNat 1)))) ++
          [getPointAt (ops.div (ops.ofNat u) (ops.sub (ops.ofNat uStride) (ops.ofNat 1)))
            (ops.ofNat 1)]) ++
        ((List.range (vStride - 1)).map (fun v =>
            getPointAt (ops.ofNat 1)
              (ops.div (ops.ofNat v) (ops.sub (ops.ofNat vStride) (ops.ofNat 1)))) ++
          [getPointAt (ops.ofNat 1) (ops.ofNat 1)]) := by
  obtain ⟨sb, hb, a1, a2, a3, a4, a5, -⟩ :=
    bezierPatchKernel_arrays ops getPointAt uStride vStride h1 h2 h3
  obtain ⟨sn, hn, b1, b2, b3, b5, -⟩ :=
    nurbsPatchKernel_arrays ops getPointAt ufirst ulast vfirst vlast uStride vStride h1 h2 h3
  refine ⟨rfl, sb, sn, hb, hn, ?_, a4⟩
  intro s hs
  simp only [List.mem_cons, List.mem_singleton, List.not_mem_nil, or_false] at hs
  rcases hs with rfl | rfl
  · exact ⟨a1, a3, a2, a5⟩
  · exact ⟨b1, b3, b2, b5⟩

/-- C16, amended, at the patches of strides 3 and 2. -/
theorem patch_samples_stride_grid_witness :
    (1 ≤ 3 ∧ 1 ≤ 2 ∧ 3 * 2 < 4294967296) ∧
    ∃ sb sn,
      bezierPatchKernel symbolicReal flatPatch 3 2 = some sb ∧
      nurbsPatchKernel symbolicReal flatPatch (.ofNat 0) (.ofNat 1) (.ofNat 0) (.ofNat 1) 3 2
        = some sn ∧
      (∀ s ∈ [sb, sn],
        s.pointList.size = 3 * 2 ∧
        s.pointList.positions = List.range (3 * 2) ∧
        s.indexList.size = (3 - 1) * (2 - 1) ∧
        s.indexList.positions = List.range ((3 - 1) * (2 - 1))) ∧
      sb.pointList.values =
        (List.range (3 - 1)).flatMap (fun u =>
          (List.range (2 - 1)).map (fun v =>
            flatPatch
              (symbolicReal.div (symbolicReal.ofNat u)
                (symbolicReal.sub (symbolicReal.ofNat 3) (symbolicReal.ofNat 1)))
              (symbolicReal.div (symbolicReal.ofNat v)
                (symbolicReal.sub (symbolicReal.ofNat 2) (symbolicReal.ofNat 1)))) ++
          [flatPatch
            (symbolicReal.div (symbolicReal.ofNat u)
              (symbolicReal.sub (symbolicReal.ofNat 3) (symbolicReal.ofNat 1)))
            (symbolicReal.ofNat 1)]) ++
        ((List.range (2 - 1)).map (fun v =>
            flatPatch (symbolicReal.ofNat 1)
              (symbolicReal.div (symbolicReal.ofNat v)
                (symbolicReal.sub (symbolicReal.ofNat 2) (symbolicReal.ofNat 1)))) ++
          [flatPatch (symbolicReal.ofNat 1) (symbolicReal.ofNat 1)]) :=
  ⟨by decide,
    (patch_samples_stride_grid symbolicReal flatPatch (.ofNat 0) (.ofNat 1) (.ofNat 0)
      (.ofNat 1) 3 2 (by decide) (by decide) (by decide)).2⟩

/-- C15: for strides 3 and 2 the Bezier and the NURBS kernel build 6 points and
the two quads `(0, 1, 4, 3)` and `(2, 3, 6, 5)`: the second one holds the index
6, which is not smaller than the number of points. The kernels add `_uStride` to
`_cur` to reach the next row, whereas a row holds `_vStride` points. -/
theorem patch_quad_index_out_of_range {R : Type} (ops : RealOps R)
    (getPointAt : R → R → Vector3 R) (ufirst ulast vfirst vlast : R) :
    ∃ sb sn,
      bezierPatchKernel ops getPointAt 3 2 = some sb ∧
      nurbsPatchKernel ops getPointAt ufirst ulast vfirst vlast 3 2 = some sn ∧
      sb.pointList.size = 6 ∧ sn.pointList.size = 6 ∧
      sb.pointList.positions = List.range 6 ∧ sn.pointList.positions = List.range 6 ∧
      sb.indexList.values
        = [{ i0 := 0, i1 := 1, i2 := 4, i3 := 3 }, { i0 := 2, i1 := 3, i2 := 6, i3 := 5 }] ∧
      sn.indexList.values = sb.indexList.values ∧
      sb.indexList.values.all (Index4.below sb.pointList.size) = false ∧
      sn.indexList.values.all (Index4.below sn.pointList.size) = false :=
  ⟨_, _, rfl, rfl, rfl, rfl, rfl, rfl, rfl, rfl, rfl, rfl⟩

/-! ## The box (C21, C22) -/

/-- C21: the kernel of the box writes the 8 slots of its point array once each,
with the 8 corners `(±sx, ±sy, ±sz)`, one for each of the 8 combinations of
signs, and the 6 slots of its quad array once each; the class of the result is
the quad set; the four vertices of quad number `k` have the same coordinate
along one axis, equal to plus or minus the size along this axis, and the six
quads lie so in the six different planes `z = -sz`, `x = sx`, `y = -sy`,
`x = -sx`, `y = sy`, `z = sz`. -/
theorem box_corners_and_faces {R : Type} (ops : RealOps R) (size : Vector3 R) :
    LeafKind.cls .box = .quadSet ∧
    (boxKernel ops size).pointList.size = 8 ∧
    (boxKernel ops size).pointList.positions = List.range 8 ∧
    (boxKernel ops size).indexList.size = 6 ∧
    (boxKernel ops size).indexList.positions = List.range 6 ∧
    (∃ signs : List (Bool × Bool × Bool),
      signs.Nodup ∧ signs.length = 8 ∧ (∀ sg, sg ∈ signs) ∧
      (boxKernel ops size).pointList.values = signs.map (boxCorner ops size)) ∧
    (∃ planes : List (Coord × Bool),
      planes.Nodup ∧ planes.length = 6 ∧ (∀ pl, pl ∈ planes) ∧
      (boxKernel ops size).indexList.values.length = 6 ∧
      ∀ k, k < 6 → ∀ q pl, (boxKernel ops size).indexList.values[k]? = some q →
        planes[k]? = some pl →
        ∀ i ∈ q.toList, ∀ p, (boxKernel ops size).pointList.values[i]? = some p →
          p.coord pl.1 = if pl.2 then size.coord pl.1 else ops.neg (size.coord pl.1)) := by
  refine ⟨rfl, rfl, rfl, rfl, rfl, ?_, ?_⟩
  · refine ⟨[(true, false, false), (false, false, false), (false, true, false),
      (true, true, false), (true, false, true), (false, false, true), (false, true, true),
      (true, true, true)], by decide, rfl, by decide, rfl⟩
  · refine ⟨[(.z, false), (.x, true), (.y, false), (.x, false), (.y, true), (.z, true)],
      by decide, rfl, ?_, rfl, ?_⟩
    · rintro ⟨c, b⟩
      cases c <;> cases b <;> simp
    intro k hk q pl hq hpl i hi p hp
    have hv : (boxKernel ops size).indexList.values
        = [{ i0 := 0, i1 := 1, i2 := 2, i3 := 3 }, { i0 := 0, i1 := 3, i2 := 7, i3 := 4 },
           { i0 := 1, i1 := 0, i2 := 4, i3 := 5 }, { i0 := 2, i1 := 1, i2 := 5, i3 := 6 },
           { i0 := 3, i1 := 2, i2 := 6, i3 := 7 }, { i0 := 4, i1 := 7, i2 := 6, i3 := 5 }] := rfl
    have hpv : (boxKernel ops size).pointList.values
        = [{ x := size.x, y := ops.neg size.y, z := ops.neg size.z },
           { x := ops.neg size.x, y := ops.neg size.y, z := ops.neg size.z },
           { x := ops.neg size.x, y := size.y, z := ops.neg size.z },
           { x := size.x, y := size.y, z := ops.neg size.z },
           { x := size.x, y := ops.neg size.y, z := size.z },
           { x := ops.neg size.x, y := ops.neg size.y, z := size.z },
           { x := ops.neg size.x, y := size.y, z := size.z },
           { x := size.x, y := size.y, z := size.z }] := rfl
    rw [hv] at hq
    rw [hpv] at hp
    have hk' : k = 0 ∨ k = 1 ∨ k = 2 ∨ k = 3 ∨ k = 4 ∨ k = 5 := by omega
    rcases hk' with rfl | rfl | rfl | rfl | rfl | rfl <;>
      simp only [List.getElem?_cons_zero, List.getElem?_cons_succ, Option.some.injEq] at hq hpl <;>
      subst hq <;> subst hpl <;>
      simp only [Index4.toList, List.mem_cons, List.mem_singleton, List.not_mem_nil,
        or_false] at hi <;>
      rcases hi with rfl | rfl | rfl | rfl <;>
      simp only [List.getElem?_cons_zero, List.getElem?_cons_succ, Option.some.injEq] at hp <;>
      subst hp <;> rfl

/-- C22: for a box whose three sizes are strictly positive (exact arithmetic in
an ordered field), the kernel writes eight points at the slots 0 to 7 of an
array of eight and six quads at the slots 0 to 5 of an array of six; the six
quads are pairwise distinct, every index of a quad designates one of the eight
points, and the normal of each quad, computed as the cross product of its first
two edges, has a strictly positive dot product with the vector from the centre
of the box, the origin, to the centroid of the quad. -/
theorem box_faces_counter_clockwise {K : Type} [LinearOrderedField K] (cos sin : K → K)
    (pi : K) (size : Vector3 K) (hx : 0 < size.x) (hy : 0 < size.y) (hz : 0 < size.z) :
    (boxKernel (exactReal K cos sin pi) size).pointList.size = 8 ∧
    (boxKernel (exactReal K cos sin pi) size).pointList.positions = List.range 8 ∧
    (boxKernel (exactReal K cos sin pi) size).indexList.size = 6 ∧
    (boxKernel (exactReal K cos sin pi) size).indexList.positions = List.range 6 ∧
    (boxKernel (exactReal K cos sin pi) size).indexList.values.length = 6 ∧
    (boxKernel (exactReal K cos sin pi) size).indexList.values.Nodup ∧
    ∀ q ∈ (boxKernel (exactReal K cos sin pi) size).indexList.values,
      (∀ i ∈ q.toList, i < 8) ∧
      0 < (quadNormal (boxKernel (exactReal K cos sin pi) size).pointList.values q).dot
        ((quadCentroid (boxKernel (exactReal K cos sin pi) size).pointList.values q).sub
          Vector3.ORIGIN) := by
  have hxyz : 0 < size.x * size.y * size.z := mul_pos (mul_pos hx hy) hz
  have hv : (boxKernel (exactReal K cos sin pi) size).indexList.values
      = [{ i0 := 0, i1 := 1, i2 := 2, i3 := 3 }, { i0 := 0, i1 := 3, i2 := 7, i3 := 4 },
         { i0 := 1, i1 := 0, i2 := 4, i3 := 5 }, { i0 := 2, i1 := 1, i2 := 5, i3 := 6 },
         { i0 := 3, i1 := 2, i2 := 6, i3 := 7 }, { i0 := 4, i1 := 7, i2 := 6, i3 := 5 }] := rfl
  have hpv : (boxKernel (exactReal K cos sin pi) size).pointList.values
      = [{ x := size.x, y := -size.y, z := -size.z },
         { x := -size.x, y := -size.y, z := -size.z },
         { x := -size.x, y := size.y, z := -size.z },
         { x := size.x, y := size.y, z := -size.z },
         { x := size.x, y := -size.y, z := size.z },
         { x := -size.x, y := -size.y, z := size.z },
         { x := -size.x, y := size.y, z := size.z },
         { x := size.x, y := size.y, z := size.z }] := rfl
  refine ⟨rfl, rfl, rfl, rfl, rfl, ?_, ?_⟩
  · rw [hv]
    decide
  · intro q hq
    rw [hv] at hq
    rw [hpv]
    simp only [List.mem_cons, List.mem_singleton, List.not_mem_nil, or_false] at hq
    constructor
    · rcases hq with rfl | rfl | rfl | rfl | rfl | rfl <;> decide
    · rcases hq with rfl | rfl | rfl | rfl | rfl | rfl <;>
        simp only [quadNormal, quadCentroid, pointAt, Vector3.sub, Vector3.cross, Vector3.dot,
          Vector3.ORIGIN, List.getD_cons_zero, List.getD_cons_succ] <;>
        ring_nf <;> nlinarith [hxyz]

/-- C22, at the box of size (1, 2, 3) over the rationals. -/
theorem box_faces_counter_clockwise_witness :
    ((0 : ℚ) < 1 ∧ (0 : ℚ) < 2 ∧ (0 : ℚ) < 3) ∧
    (boxKernel (exactReal ℚ (fun _ => 0) (fun _ => 0) 3) ⟨1, 2, 3⟩).pointList.size = 8 ∧
    (boxKernel (exactReal ℚ (fun _ => 0) (fun _ => 0) 3) ⟨1, 2, 3⟩).pointList.positions
      = List.range 8 ∧
    (boxKernel (exactReal ℚ (fun _ => 0) (fun _ => 0) 3) ⟨1, 2, 3⟩).indexList.size = 6 ∧
    (boxKernel (exactReal ℚ (fun _ => 0) (fun _ => 0) 3) ⟨1, 2, 3⟩).indexList.positions
      = List.range 6 ∧
    (boxKernel (exactReal ℚ (fun _ => 0) (fun _ => 0) 3) ⟨1, 2, 3⟩).indexList.values.length
      = 6 ∧
    (boxKernel (exactReal ℚ (fun _ => 0) (fun _ => 0) 3) ⟨1, 2, 3⟩).indexList.values.Nodup ∧
    ∀ q ∈ (boxKernel (exactReal ℚ (fun _ => 0) (fun _ => 0) 3) ⟨1, 2, 3⟩).indexList.values,
      (∀ i ∈ q.toList, i < 8) ∧
      0 < (quadNormal
          (boxKernel (exactReal ℚ (fun _ => 0) (fun _ => 0) 3) ⟨1, 2, 3⟩).pointList.values q).dot
        ((quadCentroid
          (boxKernel (exactReal ℚ (fun _ => 0) (fun _ => 0) 3) ⟨1, 2, 3⟩).pointList.values q).sub
          Vector3.ORIGIN) :=
  ⟨by norm_num,
    box_faces_counter_clockwise (fun _ => 0) (fun _ => 0) 3 ⟨1, 2, 3⟩ (by norm_num) (by norm_num)
      (by norm_num)⟩

/-! ## The revolution (C23, C24) -/

/-- The inner loop of the revolution over the points of the profile: it writes
`n - 1` points and twice as many triangles at consecutive positions. -/
theorem revolutionRing_loop {R : Type} (ops : RealOps R) (curve : List (Vector3 R)) (x y : R)
    (pc ic c nx : Nat) (s0 : RevolutionState R) (hn : 1 ≤ curve.length)
    (hc : s0.cur = c) (hnx : s0.next = nx)
    (hpc : s0.pointsCount = pc + 1) (hic : s0.facesCount = ic)
    (hpp : s0.pointList.positions = List.range (pc + 1))
    (hip : s0.indexList.positions = List.range ic)
    (b1 : pc + curve.length < 4294967296) (b2 : ic + 2 * curve.length < 4294967296)
    (b3 : c + curve.length < 4294967296) (b4 : nx + curve.length < 4294967296) :
    ∃ s1, forLoop (revolutionRingBody ops curve x y) 1 (curve.length - 1) s0 = some s1 ∧
      s1.cur = c ∧ s1.next = nx ∧
      s1.pointsCount = pc + curve.length ∧ s1.facesCount = ic + 2 * (curve.length - 1) ∧
      s1.pointList.size = s0.pointList.size ∧ s1.indexList.size = s0.indexList.size ∧
      s1.pointList.positions = List.range (pc + curve.length) ∧
      s1.indexList.positions = List.range (ic + 2 * (curve.length - 1)) ∧
      s1.indexList.values = s0.indexList.values ++
        (List.range (curve.length - 1)).flatMap (revolutionTriangles c nx) := by
  have key := forLoop_inv (revolutionRingBody ops curve x y)
    (fun j s =>
      s.cur = c ∧ s.next = nx ∧
      s.pointsCount = pc + j ∧ s.facesCount = ic + 2 * (j - 1) ∧
      s.pointList.size = s0.pointList.size ∧ s.indexList.size = s0.indexList.size ∧
      s.pointList.positions = List.range (pc + j) ∧
      s.indexList.positions = List.range (ic + 2 * (j - 1)) ∧
      s.indexList.values = s0.indexList.values ++
        (List.range (j - 1)).flatMap (revolutionTriangles c nx))
    (curve.length - 1) 1 s0
    ⟨hc, hnx, hpc, by simpa using hic, rfl, rfl, hpp, by simpa using hip, by simp⟩
    (by
      intro j s hj1 hj2 ⟨i1, i2, i3, i4, i5, i6, i7, i8, i9⟩
      have hj : j < curve.length := by omega
      obtain ⟨p, hp⟩ : ∃ p, curve[j]? = some p := ⟨curve[j], List.getElem?_eq_getElem hj⟩
      have a1 : u32 (ic + 2 * (j - 1) + 1) = ic + 2 * (j - 1) + 1 := u32_of_lt (by omega)
      have a2 : u32 (ic + 2 * (j - 1) + 1 + 1) = ic + 2 * (j - 1) + 1 + 1 :=
        u32_of_lt (by omega)
      have e1 : u32 (c + j) = c + j := u32_of_lt (by omega)
      have e2 : u32 (nx + j) = nx + j := u32_of_lt (by omega)
      have e3 : sub32 (c + j) 1 = c + (j - 1) := by unfold sub32; omega
      have e4 : sub32 (nx + j) 1 = nx + (j - 1) := by unfold sub32; omega
      have hbody : revolutionRingBody ops curve x y j s = some
          { s with
            pointList := s.pointList.setAt s.pointsCount
              { x := ops.mul x p.x, y := ops.mul y p.x, z := p.y },
            pointsCount := u32 (s.pointsCount + 1),
            indexList := (s.indexList.setAt s.facesCount
                { i0 := c + j, i1 := c + (j - 1), i2 := nx + (j - 1) }).setAt
              (ic + 2 * (j - 1) + 1)
              { i0 := c + j, i1 := nx + (j - 1), i2 := nx + j },
            facesCount := ic + 2 * (j - 1) + 1 + 1 } := by
        simp only [revolutionRingBody, hp, i1, i2, i4, a1, a2, e1, e2, e3, e4]
      have hjj : j + 1 - 1 = j - 1 + 1 := by omega
      refine ⟨_, hbody, i1, i2, ?_, ?_, i5, i6, ?_, ?_, ?_⟩
      · show u32 (s.pointsCount + 1) = pc + (j + 1)
        rw [i3]; exact u32_of_lt (by omega)
      · show ic + 2 * (j - 1) + 1 + 1 = ic + 2 * (j + 1 - 1)
        omega
      · show (s.pointList.setAt s.pointsCount _).positions = List.range (pc + (j + 1))
        rw [i3]; exact Buffer.positions_setAt_range _ _ _ i7
      · show ((s.indexList.setAt s.facesCount _).setAt (ic + 2 * (j - 1) + 1) _).positions
            = List.range (ic + 2 * (j + 1 - 1))
        have : ic + 2 * (j + 1 - 1) = ic + 2 * (j - 1) + 1 + 1 := by omega
        rw [this, i4]
        exact Buffer.positions_setAt_range _ _ _ (Buffer.positions_setAt_range _ _ _ i8)
      · show ((s.indexList.setAt s.facesCount _).setAt (ic + 2 * (j - 1) + 1) _).values = _
        rw [Buffer.values_setAt, Buffer.values_setAt, i9, hjj, List.range_succ,
          List.flatMap_append, List.append_assoc, List.append_assoc]
        have hj1' : j - 1 + 1 = j := by omega
        simp [revolutionTriangles, hj1'])
  obtain ⟨s1, hs, h1, h2, h3, h4, h5, h6, h7, h8, h9⟩ := key
  have e : 1 + (curve.length - 1) = curve.length := by omega
  have e' : 1 + (curve.length - 1) - 1 = curve.length - 1 := by omega
  rw [e] at h3 h7
  rw [e'] at h4 h8 h9
  exact ⟨s1, hs, h1, h2, h3, h4, h5, h6, h7, h8, h9⟩

/-- The value of `_next` after a slice that is not the last one. -/
theorem revolutionNext_step (n slices i : Nat) (h : i + 1 < slices) (h0 : 1 ≤ n)
    (hb : slices * n + n < 4294967296) :
    revolutionNext n slices i = (i + 1) * n ∧
    u32 (revolutionNext n slices i + n) % u32 (n * slices) = revolutionNext n slices (i + 1) := by
  have h1 : revolutionNext n slices i = (i + 1) * n := by
    unfold revolutionNext
    split
    · next hi => subst hi; simp
    · rw [Nat.mod_eq_of_lt h]
  have hle : (i + 1) * n + n ≤ slices * n := by
    have := Nat.mul_le_mul_right n (show i + 2 ≤ slices by omega)
    have e : (i + 2) * n = (i + 1) * n + n := by rw [← Nat.succ_mul]
    omega
  refine ⟨h1, ?_⟩
  rw [h1, u32_of_lt (by omega), Nat.mul_comm n slices, u32_of_lt (by omega)]
  have e : (i + 1) * n + n = (i + 1 + 1) * n := by rw [Nat.succ_mul (i + 1) n]
  rw [e, Nat.mul_mod_mul_right]
  simp [revolutionNext]

/-- The arrays of a revolution of `slices ≥ 1` slices whose profile has at
least one point: sizes, positions written and triangles. -/
theorem revolutionKernel_arrays {R : Type} (ops : RealOps R) (curve : List (Vector3 R))
    (slices : Nat) (h1 : 1 ≤ slices) (hn : 1 ≤ curve.length)
    (hB : 2 * (slices * curve.length) + 2 * curve.length < 4294967296) :
    ∃ s, revolutionKernel ops curve slices = some s ∧
      s.pointList.size = slices * curve.length ∧
      s.indexList.size = 2 * slices * (curve.length - 1) ∧
      s.pointList.positions = List.range (slices * curve.length) ∧
      s.indexList.positions = List.range (2 * slices * (curve.length - 1)) ∧
      s.pointsCount = slices * curve.length ∧
      s.facesCount = 2 * slices * (curve.length - 1) ∧
      s.indexList.values = (List.range slices).flatMap (fun i =>
        (List.range (curve.length - 1)).flatMap
          (revolutionTriangles (i * curve.length) (revolutionNext curve.length slices i))) := by
  have hSn : 1 ≤ slices * curve.length := Nat.mul_pos h1 hn
  have hlen : curve.length < 4294967296 := by omega
  have hcs : u32 curve.length = curve.length := u32_of_lt hlen
  have hle1 : slices * (curve.length - 1) ≤ slices * curve.length :=
    Nat.mul_le_mul_left _ (by omega)
  have hsl : slices ≤ slices * curve.length := Nat.le_mul_of_pos_right _ hn
  have hsz1 : u32 (slices * curve.length) = slices * curve.length := u32_of_lt (by omega)
  have hsz2 : u32 (u32 (slices * 2) * sub32 curve.length 1)
      = 2 * slices * (curve.length - 1) := by
    have a : u32 (slices * 2) = slices * 2 := u32_of_lt (by omega)
    have b : sub32 curve.length 1 = curve.length - 1 := by unfold sub32; omega
    have c : slices * 2 * (curve.length - 1) = 2 * (slices * (curve.length - 1)) := by ring
    have d : 2 * slices * (curve.length - 1) = 2 * (slices * (curve.length - 1)) := by ring
    rw [a, b, c, d]; exact u32_of_lt (by omega)
  have key := forLoop_inv
    (revolutionSliceBody ops curve curve.length slices (ops.div ops.twoPi (ops.ofNat slices)))
    (fun i s =>
      s.pointsCount = i * curve.length ∧ s.facesCount = 2 * (i * (curve.length - 1)) ∧
      s.pointList.size = slices * curve.length ∧
      s.indexList.size = 2 * slices * (curve.length - 1) ∧
      s.pointList.positions = List.range (i * curve.length) ∧
      s.indexList.positions = List.range (2 * (i * (curve.length - 1))) ∧
      s.indexList.values = (List.range i).flatMap (fun i =>
        (List.range (curve.length - 1)).flatMap
          (revolutionTriangles (i * curve.length) (revolutionNext curve.length slices i))) ∧
      (i < slices → s.cur = i * curve.length ∧ s.next = revolutionNext curve.length slices i))
    slices 0
    { cur := 0, next := curve.length, pointsCount := 0, facesCount := 0,
      pointList := Buffer.new (slices * curve.length),
      indexList := Buffer.new (2 * slices * (curve.length - 1)) }
    (by simp [Buffer.new, Buffer.positions, Buffer.values, revolutionNext])
    (by
      intro i s _ hi ⟨i1, i2, i3, i4, i5, i6, i7, i8⟩
      have hi' : i + 1 ≤ slices := by omega
      obtain ⟨hcur, hnext⟩ := i8 (by omega)
      have hA : i * curve.length + curve.length ≤ slices * curve.length := by
        have := Nat.mul_le_mul_right curve.length hi'
        rwa [Nat.succ_mul] at this
      have hF : i * (curve.length - 1) + (curve.length - 1) ≤ slices * (curve.length - 1) := by
        have := Nat.mul_le_mul_right (curve.length - 1) hi'
        rwa [Nat.succ_mul] at this
      have hnb : revolutionNext curve.length slices i ≤ slices * curve.length := by
        unfold revolutionNext
        split
        · exact Nat.le_mul_of_pos_left _ h1
        · exact Nat.mul_le_mul_right _ (Nat.le_of_lt (Nat.mod_lt _ (by omega)))
      obtain ⟨p0, hp0⟩ : ∃ p, curve[0]? = some p :=
        ⟨curve[0], List.getElem?_eq_getElem (by omega)⟩
      obtain ⟨s2, hloop, c1, c2, c3, c4, c5, c6, c7, c8, c9⟩ :=
        revolutionRing_loop ops curve (ops.cos (ops.mul (ops.ofNat i)
            (ops.div ops.twoPi (ops.ofNat slices))))
          (ops.sin (ops.mul (ops.ofNat i) (ops.div ops.twoPi (ops.ofNat slices))))
          (i * curve.length) (2 * (i * (curve.length - 1))) (i * curve.length)
          (revolutionNext curve.length slices i)
          { s with
            pointList := s.pointList.setAt s.pointsCount
              { x := ops.mul (ops.cos (ops.mul (ops.ofNat i)
                    (ops.div ops.twoPi (ops.ofNat slices)))) p0.x,
                y := ops.mul (ops.sin (ops.mul (ops.ofNat i)
                    (ops.div ops.twoPi (ops.ofNat slices)))) p0.x,
                z := p0.y },
            pointsCount := u32 (s.pointsCount + 1) }
          hn hcur hnext
          (by show u32 (s.pointsCount + 1) = i * curve.length + 1
              rw [i1]; exact u32_of_lt (by omega))
          i2
          (by show (s.pointList.setAt s.pointsCount _).positions = _
              rw [i1]; exact Buffer.positions_setAt_range _ _ _ i5)
          i6 (by omega) (by omega) (by omega) (by omega)
      have hmod : u32 (curve.length * slices) = slices * curve.length := by
        rw [Nat.mul_comm]; exact hsz1
      have hne : ¬ (u32 (curve.length * slices) = 0) := by rw [hmod]; omega
      have hbody : revolutionSliceBody ops curve curve.length slices
          (ops.div ops.twoPi (ops.ofNat slices)) i s
          = some { s2 with cur := s2.next,
                           next := u32 (s2.next + curve.length) % u32 (curve.length * slices) } := by
        simp only [revolutionSliceBody, hp0, hloop, hne, if_false]
      have hsucc : (i + 1) * curve.length = i * curve.length + curve.length :=
        Nat.succ_mul _ _
      have hsucc2 : (i + 1) * (curve.length - 1)
          = i * (curve.length - 1) + (curve.length - 1) := Nat.succ_mul _ _
      refine ⟨_, hbody, ?_, ?_, ?_, ?_, ?_, ?_, ?_, ?_⟩
      · show s2.pointsCount = _
        rw [c3, hsucc]
      · show s2.facesCount = _
        rw [c4, hsucc2]; omega
      · show s2.pointList.size = _
        rw [c5]; exact i3
      · show s2.indexList.size = _
        rw [c6]; exact i4
      · show s2.pointList.positions = _
        rw [c7, hsucc]
      · show s2.indexList.positions = _
        rw [c8, hsucc2]
        have : 2 * (i * (curve.length - 1)) + 2 * (curve.length - 1)
            = 2 * (i * (curve.length - 1) + (curve.length - 1)) := by omega
        rw [this]
      · show s2.indexList.values = _
        rw [c9]
        show s.indexList.values ++ _ = _
        rw [i7, List.range_succ, List.flatMap_append]
        simp
      · intro hlt
        obtain ⟨e1, e2⟩ := revolutionNext_step curve.length slices i hlt hn (by omega)
        refine ⟨?_, ?_⟩
        · show s2.next = _
          rw [c2, e1]
        · show u32 (s2.next + curve.length) % u32 (curve.length * slices) = _
          rw [c2]; exact e2)
  obtain ⟨s, hs, a1, a2, a3, a4, a5, a6, a7, -⟩ := key
  simp only [Nat.zero_add] at hs a1 a2 a5 a6 a7
  have hk : revolutionKernel ops curve slices = some s := by
    simp only [revolutionKernel, hcs, hsz1, hsz2]
    exact hs
  have hmul : 2 * (slices * (curve.length - 1)) = 2 * slices * (curve.length - 1) := by ring
  refine ⟨s, hk, a3, a4, a5, ?_, a1, ?_, a7⟩
  · rw [a6, hmul]
  · rw [a2, hmul]

/-- C23: for a revolution of `slices ≥ 1` slices whose profile discretizes to
`n ≥ 1` points (sizes that fit a `uint32_t`), the kernel is defined; its point
array has `slices * n` slots and its index array `2 * slices * (n - 1)`, both
written at the positions 0, 1, 2, ... up to their size, each slot once, so that
the kernel produces `slices * n` points and `2 * slices * (n - 1)` triangles. -/
theorem revolution_point_and_triangle_counts {R : Type} (ops : RealOps R)
    (curve : List (Vector3 R)) (slices : Nat) (h1 : 1 ≤ slices) (hn : 1 ≤ curve.length)
    (hB : 2 * (slices * curve.length) + 2 * curve.length < 4294967296) :
    ∃ s, revolutionKernel ops curve slices = some s ∧
      s.pointList.size = slices * curve.length ∧
      s.pointList.positions = List.range s.pointList.size ∧
      s.pointList.values.length = slices * curve.length ∧
      s.indexList.size = 2 * slices * (curve.length - 1) ∧
      s.indexList.positions = List.range s.indexList.size ∧
      s.indexList.values.length = 2 * slices * (curve.length - 1) ∧
      s.pointsCount = s.pointList.size ∧ s.facesCount = s.indexList.size := by
  obtain ⟨s, hs, a1, a2, a3, a4, a5, a6, -⟩ :=
    revolutionKernel_arrays ops curve slices h1 hn hB
  refine ⟨s, hs, a1, by rw [a1]; exact a3, ?_, a2, by rw [a2]; exact a4, ?_,
    by rw [a1]; exact a5, by rw [a2]; exact a6⟩
  · have := congrArg List.length a3
    simpa [Buffer.positions, Buffer.values] using this
  · have := congrArg List.length a4
    simpa [Buffer.positions, Buffer.values] using this

/-- C23, at the profile (1,0), (1,1), (0,1) and 4 slices: 12 points and 16
triangles. -/
theorem revolution_point_and_triangle_counts_witness :
    (1 ≤ 4 ∧ 1 ≤ 3 ∧ 2 * (4 * 3) + 2 * 3 < 4294967296) ∧
    ∃ s, revolutionKernel symbolicReal
        [⟨.ofNat 1, .ofNat 0, .ofNat 0⟩, ⟨.ofNat 1, .ofNat 1, .ofNat 0⟩,
         ⟨.ofNat 0, .ofNat 1, .ofNat 0⟩] 4 = some s ∧
      s.pointList.size = 12 ∧
      s.pointList.positions = List.range s.pointList.size ∧
      s.pointList.values.length = 12 ∧
      s.indexList.size = 16 ∧
      s.indexList.positions = List.range s.indexList.size ∧
      s.indexList.values.length = 16 ∧
      s.pointsCount = s.pointList.size ∧ s.facesCount = s.indexList.size :=
  ⟨by decide,
    revolution_point_and_triangle_counts symbolicReal
      [⟨.ofNat 1, .ofNat 0, .ofNat 0⟩, ⟨.ofNat 1, .ofNat 1, .ofNat 0⟩,
       ⟨.ofNat 0, .ofNat 1, .ofNat 0⟩] 4 (by decide) (by decide) (by decide)⟩

/-- C24: for a revolution of `slices ≥ 2` slices whose profile has `n ≥ 2`
points (sizes that fit a `uint32_t`), point `j` of slice `i` having the index
`i * n + j`, the triangles written are, slice after slice and segment after
segment, the two triangles
`(i * n + (m + 1), i * n + m, i' * n + m)` and
`(i * n + (m + 1), i' * n + m, i' * n + (m + 1))` of the segment that joins the
points `m` and `m + 1` of the profile, with `i' = (i + 1) % slices`, so that the
last slice is joined to slice 0; every index is smaller than the number of
points `slices * n`. -/
theorem revolution_triangles_and_index_range {R : Type} (ops : RealOps R)
    (curve : List (Vector3 R)) (slices : Nat) (h1 : 2 ≤ slices) (hn : 2 ≤ curve.length)
    (hB : 2 * (slices * curve.length) + 2 * curve.length < 4294967296) :
    (slices - 1 + 1) % slices = 0 ∧
    ∃ s, revolutionKernel ops curve slices = some s ∧
      s.pointList.size = slices * curve.length ∧
      s.indexList.values = (List.range slices).flatMap (fun i =>
        (List.range (curve.length - 1)).flatMap (fun m =>
          [{ i0 := i * curve.length + (m + 1), i1 := i * curve.length + m,
             i2 := (i + 1) % slices * curve.length + m },
           { i0 := i * curve.length + (m + 1),
             i1 := (i + 1) % slices * curve.length + m,
             i2 := (i + 1) % slices * curve.length + (m + 1) }])) ∧
      ∀ t ∈ s.indexList.values,
        t.i0 < s.pointList.size ∧ t.i1 < s.pointList.size ∧ t.i2 < s.pointList.size := by
  obtain ⟨s, hs, a1, -, -, -, -, -, a7⟩ :=
    revolutionKernel_arrays ops curve slices (by omega) (by omega) hB
  have hnext : ∀ i, revolutionNext curve.length slices i = (i + 1) % slices * curve.length := by
    intro i
    unfold revolutionNext
    split
    · next h0 => subst h0; rw [Nat.zero_add, Nat.mod_eq_of_lt (by omega), Nat.one_mul]
    · rfl
  have hf : (fun i => (List.range (curve.length - 1)).flatMap
        (revolutionTriangles (i * curve.length) (revolutionNext curve.length slices i)))
      = (fun i => (List.range (curve.length - 1)).flatMap (fun m =>
          [{ i0 := i * curve.length + (m + 1), i1 := i * curve.length + m,
             i2 := (i + 1) % slices * curve.length + m },
           { i0 := i * curve.length + (m + 1),
             i1 := (i + 1) % slices * curve.length + m,
             i2 := (i + 1) % slices * curve.length + (m + 1) }])) := by
    funext i
    rw [hnext i]
    rfl
  rw [hf] at a7
  refine ⟨?_, s, hs, a1, a7, ?_⟩
  · have : slices - 1 + 1 = slices := by omega
    rw [this, Nat.mod_self]
  · intro t ht
    rw [a7, List.mem_flatMap] at ht
    obtain ⟨i, hi, ht⟩ := ht
    rw [List.mem_flatMap] at ht
    obtain ⟨m, hm, ht⟩ := ht
    rw [List.mem_range] at hi hm
    have hmod : (i + 1) % slices + 1 ≤ slices := Nat.mod_lt _ (by omega)
    have hA : i * curve.length + curve.length ≤ slices * curve.length := by
      have := Nat.mul_le_mul_right curve.length (show i + 1 ≤ slices from hi)
      rwa [Nat.succ_mul] at this
    have hA2 : (i + 1) % slices * curve.length + curve.length ≤ slices * curve.length := by
      have := Nat.mul_le_mul_right curve.length hmod
      rwa [Nat.succ_mul] at this
    rw [a1]
    simp only [List.mem_cons, List.mem_singleton, List.not_mem_nil, or_false] at ht
    rcases ht with rfl | rfl <;> refine ⟨?_, ?_, ?_⟩ <;> dsimp only <;> omega

/-- C24, at the profile (1,0), (1,1), (0,1) and 4 slices. -/
theorem revolution_triangles_and_index_range_witness :
    (2 ≤ 4 ∧ 2 ≤ 3 ∧ 2 * (4 * 3) + 2 * 3 < 4294967296) ∧
    (4 - 1 + 1) % 4 = 0 ∧
    ∃ s, revolutionKernel symbolicReal
        [⟨.ofNat 1, .ofNat 0, .ofNat 0⟩, ⟨.ofNat 1, .ofNat 1, .ofNat 0⟩,
         ⟨.ofNat 0, .ofNat 1, .ofNat 0⟩] 4 = some s ∧
      s.pointList.size = 4 * 3 ∧
      s.indexList.values = (List.range 4).flatMap (fun i =>
        (List.range (3 - 1)).flatMap (fun m =>
          [{ i0 := i * 3 + (m + 1), i1 := i * 3 + m, i2 := (i + 1) % 4 * 3 + m },
           { i0 := i * 3 + (m + 1), i1 := (i + 1) % 4 * 3 + m,
             i2 := (i + 1) % 4 * 3 + (m + 1) }])) ∧
      ∀ t ∈ s.indexList.values,
        t.i0 < s.pointList.size ∧ t.i1 < s.pointList.size ∧ t.i2 < s.pointList.size :=
  ⟨by decide,
    revolution_triangles_and_index_range symbolicReal
      [⟨.ofNat 1, .ofNat 0, .ofNat 0⟩, ⟨.ofNat 1, .ofNat 1, .ofNat 0⟩,
       ⟨.ofNat 0, .ofNat 1, .ofNat 0⟩] 4 (by decide) (by decide) (by decide)⟩

/-! ## The elevation grid (C25) -/

/-- A row of the elevation grid: `xDim` points written at consecutive
positions and, unless the row is the last one, the two triangles of each of its
`xDim - 1` cells. -/
theorem elevationRow_loop {R : Type} (getPointAt : Nat → Nat → Vector3 R)
    (xDim cc j base ic : Nat) (s0 : GridState R) (hx : 1 ≤ xDim)
    (hc : s0.cur = base) (hnx : s0.next = base + 1) (hpc : s0.pointCount = base)
    (hic : s0.indexCount = ic)
    (hpp : s0.pointList.positions = List.range base)
    (hip : s0.indexList.positions = List.range ic)
    (b1 : base + 2 * xDim + 1 < 4294967296) (b2 : ic + 2 * xDim < 4294967296) :
    ∃ s1, forLoop (elevationCellBody getPointAt xDim (xDim - 1) cc j) 0 xDim s0 = some s1 ∧
      s1.cur = base + xDim ∧ s1.next = base + xDim + 1 ∧ s1.pointCount = base + xDim ∧
      s1.pointList.size = s0.pointList.size ∧ s1.indexList.size = s0.indexList.size ∧
      s1.pointList.positions = List.range (base + xDim) ∧
      s1.pointList.writes = s0.pointList.writes ++
        (List.range xDim).map (fun i => (base + i, getPointAt i j)) ∧
      s1.indexCount = ic + 2 * (if j < cc then xDim - 1 else 0) ∧
      s1.indexList.positions = List.range (ic + 2 * (if j < cc then xDim - 1 else 0)) ∧
      s1.indexList.values = s0.indexList.values ++
        (if j < cc then (List.range (xDim - 1)).flatMap (fun i => cellTriangles xDim (base + i))
         else []) := by
  have key := forLoop_inv (elevationCellBody getPointAt xDim (xDim - 1) cc j)
    (fun i s =>
      s.cur = base + i ∧ s.next = base + i + 1 ∧ s.pointCount = base + i ∧
      s.pointList.size = s0.pointList.size ∧ s.indexList.size = s0.indexList.size ∧
      s.pointList.positions = List.range (base + i) ∧
      s.pointList.writes = s0.pointList.writes ++
        (List.range i).map (fun i => (base + i, getPointAt i j)) ∧
      s.indexCount = ic + 2 * (if j < cc then min i (xDim - 1) else 0) ∧
      s.indexList.positions = List.range (ic + 2 * (if j < cc then min i (xDim - 1) else 0)) ∧
      s.indexList.values = s0.indexList.values ++
        (if j < cc then
          (List.range (min i (xDim - 1))).flatMap (fun i => cellTriangles xDim (base + i))
         else []))
    xDim 0 s0
    (by
      refine ⟨hc, hnx, hpc, rfl, rfl, hpp, ?_, ?_, ?_, ?_⟩
      · simp
      · simp [hic]
      · simp [hip]
      · simp)
    (by
      intro i s _ hi ⟨i1, i2, i3, i4, i5, i6, iw, i7, i8, i9⟩
      have hi' : i < xDim := by omega
      have hw : (s.pointList.setAt (base + i) (getPointAt i j)).writes
          = s0.pointList.writes ++
            (List.range (i + 1)).map (fun i => (base + i, getPointAt i j)) := by
        show s.pointList.writes ++ [(base + i, getPointAt i j)] = _
        rw [iw, List.range_succ, List.map_append, List.append_assoc]
        rfl
      by_cases hj : j < cc
      · by_cases hir : i < xDim - 1
        · -- a cell: two triangles
          have hmin : min i (xDim - 1) = i := Nat.min_eq_left (by omega)
          have hmin' : min (i + 1) (xDim - 1) = i + 1 := Nat.min_eq_left (by omega)
          simp only [hj, if_true, hmin] at i7 i8 i9
          have a1 : u32 (ic + 2 * i + 1) = ic + 2 * i + 1 := u32_of_lt (by omega)
          have a2 : u32 (ic + 2 * i + 1 + 1) = ic + 2 * i + 1 + 1 := u32_of_lt (by omega)
          have e1 : u32 (base + i + xDim) = base + i + xDim := u32_of_lt (by omega)
          have e2 : u32 (base + i + 1 + xDim) = base + i + 1 + xDim := u32_of_lt (by omega)
          have e3 : u32 (base + i + 1 + 1) = base + i + 1 + 1 := u32_of_lt (by omega)
          have e4 : u32 (base + i + 1) = base + i + 1 := u32_of_lt (by omega)
          have hbody : elevationCellBody getPointAt xDim (xDim - 1) cc j i s = some
              { cur := base + i + 1, next := base + i + 1 + 1, pointCount := base + i + 1,
                indexCount := ic + 2 * i + 1 + 1,
                pointList := s.pointList.setAt (base + i) (getPointAt i j),
                indexList := (s.indexList.setAt (ic + 2 * i)
                    { i0 := base + i, i1 := base + i + 1, i2 := base + i + xDim }).setAt
                  (ic + 2 * i + 1)
                  { i0 := base + i + 1, i1 := base + i + 1 + xDim, i2 := base + i + xDim } } := by
            simp only [elevationCellBody, hir, hj, and_self, if_true, i1, i2, i3, i7, a1, a2,
              e1, e2, e3, e4]
          refine ⟨_, hbody, rfl, rfl, rfl, ?_, ?_, ?_, hw, ?_, ?_, ?_⟩
          · exact i4
          · exact i5
          · exact Buffer.positions_setAt_range _ _ _ i6
          · simp only [hj, if_true, hmin']; omega
          · simp only [hj, if_true, hmin']
            show ((s.indexList.setAt (ic + 2 * i) _).setAt (ic + 2 * i + 1) _).positions = _
            have : ic + 2 * (i + 1) = ic + 2 * i + 1 + 1 := by omega
            rw [this]
            exact Buffer.positions_setAt_range _ _ _ (Buffer.positions_setAt_range _ _ _ i8)
          · simp only [hj, if_true, hmin']
            show ((s.indexList.setAt (ic + 2 * i) _).setAt (ic + 2 * i + 1) _).values = _
            rw [Buffer.values_setAt, Buffer.values_setAt, i9, List.range_succ,
              List.flatMap_append, List.append_assoc, List.append_assoc]
            simp [cellTriangles]
        · -- the last point of the row
          have hmin : min i (xDim - 1) = xDim - 1 := Nat.min_eq_right (by omega)
          have hmin' : min (i + 1) (xDim - 1) = xDim - 1 := Nat.min_eq_right (by omega)
          have e3 : u32 (base + i + 1 + 1) = base + i + 1 + 1 := u32_of_lt (by omega)
          have e4 : u32 (base + i + 1) = base + i + 1 := u32_of_lt (by omega)
          have hbody : elevationCellBody getPointAt xDim (xDim - 1) cc j i s = some
              { cur := base + i + 1, next := base + i + 1 + 1, pointCount := base + i + 1,
                indexCount := s.indexCount,
                pointList := s.pointList.setAt (base + i) (getPointAt i j),
                indexList := s.indexList } := by
            simp only [elevationCellBody, hir, false_and, if_false, i1, i2, i3, e3, e4]
          refine ⟨_, hbody, rfl, rfl, rfl, i4, i5, Buffer.positions_setAt_range _ _ _ i6, hw,
            ?_, ?_, ?_⟩
          · rw [hmin']; rw [hmin] at i7; exact i7
          · rw [hmin']; rw [hmin] at i8; exact i8
          · rw [hmin']; rw [hmin] at i9; exact i9
      · -- the last row
        have e3 : u32 (base + i + 1 + 1) = base + i + 1 + 1 := u32_of_lt (by omega)
        have e4 : u32 (base + i + 1) = base + i + 1 := u32_of_lt (by omega)
        have hbody : elevationCellBody getPointAt xDim (xDim - 1) cc j i s = some
            { cur := base + i + 1, next := base + i + 1 + 1, pointCount := base + i + 1,
              indexCount := s.indexCount,
              pointList := s.pointList.setAt (base + i) (getPointAt i j),
              indexList := s.indexList } := by
          simp only [elevationCellBody, hj, and_false, if_false, i1, i2, i3, e3, e4]
        simp only [hj, if_false] at i7 i8 i9 ⊢
        exact ⟨_, hbody, rfl, rfl, rfl, i4, i5, Buffer.positions_setAt_range _ _ _ i6, hw,
          i7, i8, i9⟩)
  obtain ⟨s1, hs, h1, h2, h3, h4, h5, h6, hw, h7, h8, h9⟩ := key
  have hmin : min xDim (xDim - 1) = xDim - 1 := Nat.min_eq_right (by omega)
  simp only [Nat.zero_add, hmin] at hs h1 h2 h3 h6 hw h7 h8 h9
  exact ⟨s1, hs, h1, h2, h3, h4, h5, h6, hw, h7, h8, h9⟩

/-- The arrays of an elevation grid of dimensions `xDim ≥ 1` and `yDim ≥ 1`:
sizes, positions written, points and triangles. -/
theorem elevationGridKernel_arrays {R : Type} (getPointAt : Nat → Nat → Vector3 R)
    (xDim yDim : Nat) (hx : 1 ≤ xDim) (hy : 1 ≤ yDim)
    (hB : 2 * (xDim * yDim) + 2 * xDim + 1 < 4294967296) :
    ∃ s, elevationGridKernel getPointAt xDim yDim = some s ∧
      s.pointList.size = xDim * yDim ∧
      s.indexList.size = 2 * (xDim - 1) * (yDim - 1) ∧
      s.pointList.positions = List.range (xDim * yDim) ∧
      s.pointList.writes = (List.range yDim).flatMap (fun j =>
        (List.range xDim).map (fun i => (j * xDim + i, getPointAt i j))) ∧
      s.indexList.positions = List.range (2 * (xDim - 1) * (yDim - 1)) ∧
      s.indexList.values = (List.range (yDim - 1)).flatMap (fun j =>
        (List.range (xDim - 1)).flatMap (fun i => cellTriangles xDim (j * xDim + i))) := by
  have hxy : xDim ≤ xDim * yDim := Nat.le_mul_of_pos_right _ hy
  have hrc : sub32 xDim 1 = xDim - 1 := by unfold sub32; omega
  have hyx : yDim ≤ xDim * yDim := Nat.le_mul_of_pos_left _ hx
  have hcc : sub32 yDim 1 = yDim - 1 := by unfold sub32; omega
  have hcells : (xDim - 1) * (yDim - 1) ≤ xDim * yDim := Nat.mul_le_mul (by omega) (by omega)
  have hsz1 : u32 (xDim * yDim) = xDim * yDim := u32_of_lt (by omega)
  have hsz2 : u32 (u32 ((xDim - 1) * (yDim - 1)) * 2) = 2 * (xDim - 1) * (yDim - 1) := by
    have a : u32 ((xDim - 1) * (yDim - 1)) = (xDim - 1) * (yDim - 1) := u32_of_lt (by omega)
    have c : 2 * (xDim - 1) * (yDim - 1) = (xDim - 1) * (yDim - 1) * 2 := by ring
    rw [a, c]; exact u32_of_lt (by omega)
  have key := forLoop_inv
    (fun j s => forLoop (elevationCellBody getPointAt xDim (xDim - 1) (yDim - 1) j) 0 xDim s)
    (fun j s =>
      s.cur = j * xDim ∧ s.next = j * xDim + 1 ∧ s.pointCount = j * xDim ∧
      s.pointList.size = xDim * yDim ∧
      s.indexList.size = 2 * (xDim - 1) * (yDim - 1) ∧
      s.pointList.positions = List.range (j * xDim) ∧
      s.pointList.writes = (List.range j).flatMap (fun j =>
        (List.range xDim).map (fun i => (j * xDim + i, getPointAt i j))) ∧
      s.indexCount = 2 * (min j (yDim - 1) * (xDim - 1)) ∧
      s.indexList.positions = List.range (2 * (min j (yDim - 1) * (xDim - 1))) ∧
      s.indexList.values = (List.range (min j (yDim - 1))).flatMap (fun j =>
        (List.range (xDim - 1)).flatMap (fun i => cellTriangles xDim (j * xDim + i))))
    yDim 0
    { cur := 0, next := 1, pointCount := 0, indexCount := 0,
      pointList := Buffer.new (xDim * yDim),
      indexList := Buffer.new (2 * (xDim - 1) * (yDim - 1)) }
    (by simp [Buffer.new, Buffer.positions, Buffer.values])
    (by
      intro j s _ hj ⟨i1, i2, i3, i4, i5, i6, iw, i7, i8, i9⟩
      have hj' : j + 1 ≤ yDim := by omega
      have hA : j * xDim + xDim ≤ xDim * yDim := by
        have := Nat.mul_le_mul_right xDim hj'
        rw [Nat.succ_mul, Nat.mul_comm yDim xDim] at this
        exact this
      have hM : min j (yDim - 1) * (xDim - 1) ≤ (xDim - 1) * (yDim - 1) := by
        rw [Nat.mul_comm (xDim - 1)]
        exact Nat.mul_le_mul_right _ (Nat.min_le_right _ _)
      obtain ⟨s1, hloop, c1, c2, c3, c4, c5, c6, cw, c7, c8, c9⟩ :=
        elevationRow_loop getPointAt xDim (yDim - 1) j (j * xDim)
          (2 * (min j (yDim - 1) * (xDim - 1))) s hx i1 i2 i3 i7 i6 i8 (by omega) (by omega)
      have hsucc : (j + 1) * xDim = j * xDim + xDim := Nat.succ_mul _ _
      refine ⟨s1, hloop, ?_, ?_, ?_, ?_, ?_, ?_, ?_, ?_, ?_, ?_⟩
      · rw [c1, hsucc]
      · rw [c2, hsucc]
      · rw [c3, hsucc]
      · rw [c4]; exact i4
      · rw [c5]; exact i5
      · rw [c6, hsucc]
      · rw [cw, iw, List.range_succ, List.flatMap_append]
        simp
      · rw [c7]
        by_cases hjc : j < yDim - 1
        · rw [if_pos hjc, Nat.min_eq_left (by omega : j ≤ yDim - 1),
            Nat.min_eq_left (by omega : j + 1 ≤ yDim - 1), Nat.succ_mul j (xDim - 1)]
          omega
        · rw [if_neg hjc, Nat.min_eq_right (by omega : yDim - 1 ≤ j),
            Nat.min_eq_right (by omega : yDim - 1 ≤ j + 1), Nat.mul_zero, Nat.add_zero]
      · rw [c8]
        by_cases hjc : j < yDim - 1
        · rw [if_pos hjc, Nat.min_eq_left (by omega : j ≤ yDim - 1),
            Nat.min_eq_left (by omega : j + 1 ≤ yDim - 1), Nat.succ_mul j (xDim - 1)]
          have : 2 * (j * (xDim - 1)) + 2 * (xDim - 1) = 2 * (j * (xDim - 1) + (xDim - 1)) := by
            omega
          rw [this]
        · rw [if_neg hjc, Nat.min_eq_right (by omega : yDim - 1 ≤ j),
            Nat.min_eq_right (by omega : yDim - 1 ≤ j + 1), Nat.mul_zero, Nat.add_zero]
      · rw [c9, i9]
        by_cases hjc : j < yDim - 1
        · rw [if_pos hjc, Nat.min_eq_left (by omega : j ≤ yDim - 1),
            Nat.min_eq_left (by omega : j + 1 ≤ yDim - 1), List.range_succ,
            List.flatMap_append]
          simp
        · rw [if_neg hjc, Nat.min_eq_right (by omega : yDim - 1 ≤ j),
            Nat.min_eq_right (by omega : yDim - 1 ≤ j + 1), List.append_nil])
  obtain ⟨s, hs, -, -, -, a4, a5, a6, aw, -, a8, a9⟩ := key
  have hmin : min yDim (yDim - 1) = yDim - 1 := Nat.min_eq_right (by omega)
  simp only [Nat.zero_add, hmin] at hs a6 aw a8 a9
  have hk : elevationGridKernel getPointAt xDim yDim = some s := by
    simp only [elevationGridKernel, hrc, hcc, hsz1, hsz2]
    exact hs
  have hmul : 2 * ((yDim - 1) * (xDim - 1)) = 2 * (xDim - 1) * (yDim - 1) := by ring
  have hmul2 : yDim * xDim = xDim * yDim := Nat.mul_comm _ _
  refine ⟨s, hk, a4, a5, ?_, aw, ?_, a9⟩
  · rw [a6, hmul2]
  · rw [a8, hmul]

/-- C25: for an elevation grid of dimensions `xDim ≥ 1` and `yDim ≥ 1` (sizes
that fit a `uint32_t`) the kernel is defined; it writes `xDim * yDim` points,
the point of column `i` and row `j` at position `j * xDim + i`, each slot once;
it writes, row after row and cell after cell, the two triangles
`(c, c + 1, c + xDim)` and `(c + 1, c + 1 + xDim, c + xDim)` of the cell
`c = j * xDim + i` for `i < xDim - 1` and `j < yDim - 1`, that is
`2 * (xDim - 1) * (yDim - 1)` triangles, which fill the index array; every
index is smaller than `xDim * yDim`. -/
theorem elevation_grid_points_and_triangles {R : Type} (getPointAt : Nat → Nat → Vector3 R)
    (xDim yDim : Nat) (hx : 1 ≤ xDim) (hy : 1 ≤ yDim)
    (hB : 2 * (xDim * yDim) + 2 * xDim + 1 < 4294967296) :
    TexLeafKind.cls .elevationGrid = .triangleSet ∧
    ∃ s, elevationGridKernel getPointAt xDim yDim = some s ∧
      s.pointList.size = xDim * yDim ∧
      s.pointList.positions = List.range (xDim * yDim) ∧
      s.pointList.writes = (List.range yDim).flatMap (fun j =>
        (List.range xDim).map (fun i => (j * xDim + i, getPointAt i j))) ∧
      s.indexList.size = 2 * (xDim - 1) * (yDim - 1) ∧
      s.indexList.positions = List.range (2 * (xDim - 1) * (yDim - 1)) ∧
      s.indexList.values.length = 2 * (xDim - 1) * (yDim - 1) ∧
      s.indexList.values = (List.range (yDim - 1)).flatMap (fun j =>
        (List.range (xDim - 1)).flatMap (fun i =>
          [{ i0 := j * xDim + i, i1 := j * xDim + i + 1, i2 := j * xDim + i + xDim },
           { i0 := j * xDim + i + 1, i1 := j * xDim + i + 1 + xDim,
             i2 := j * xDim + i + xDim }])) ∧
      ∀ t ∈ s.indexList.values, t.i0 < xDim * yDim ∧ t.i1 < xDim * yDim ∧ t.i2 < xDim * yDim := by
  obtain ⟨s, hs, a1, a2, a3, aw, a5, a6⟩ :=
    elevationGridKernel_arrays getPointAt xDim yDim hx hy hB
  refine ⟨rfl, s, hs, a1, a3, aw, a2, a5, ?_, a6, ?_⟩
  · have := congrArg List.length a5
    simpa [Buffer.positions, Buffer.values] using this
  · intro t ht
    rw [a6, List.mem_flatMap] at ht
    obtain ⟨j, hj, ht⟩ := ht
    rw [List.mem_flatMap] at ht
    obtain ⟨i, hi, ht⟩ := ht
    rw [List.mem_range] at hi hj
    have hA : j * xDim + xDim + xDim ≤ xDim * yDim := by
      have := Nat.mul_le_mul_right xDim (show j + 2 ≤ yDim by omega)
      have e : (j + 2) * xDim = j * xDim + xDim + xDim := by ring
      rw [e, Nat.mul_comm yDim xDim] at this
      exact this
    simp only [cellTriangles, List.mem_cons, List.mem_singleton, List.not_mem_nil,
      or_false] at ht
    rcases ht with rfl | rfl <;> refine ⟨?_, ?_, ?_⟩ <;> dsimp only <;> omega

/-- C25, at the grid of dimensions 3 and 2 whose point `(i, j)` is
`(i, j, 0)`: 6 points, 4 triangles. -/
theorem elevation_grid_points_and_triangles_witness :
    (1 ≤ 3 ∧ 1 ≤ 2 ∧ 2 * (3 * 2) + 2 * 3 + 1 < 4294967296) ∧
    ∃ s, elevationGridKernel
        (fun i j => ({ x := .ofNat i, y := .ofNat j, z := .ofNat 0 } : Vector3 RealTerm)) 3 2
        = some s ∧
      s.pointList.size = 3 * 2 ∧
      s.pointList.positions = List.range (3 * 2) ∧
      s.pointList.writes = (List.range 2).flatMap (fun j =>
        (List.range 3).map (fun i =>
          (j * 3 + i, ({ x := .ofNat i, y := .ofNat j, z := .ofNat 0 } : Vector3 RealTerm)))) ∧
      s.indexList.size = 2 * (3 - 1) * (2 - 1) ∧
      s.indexList.positions = List.range (2 * (3 - 1) * (2 - 1)) ∧
      s.indexList.values.length = 2 * (3 - 1) * (2 - 1) ∧
      s.indexList.values = (List.range (2 - 1)).flatMap (fun j =>
        (List.range (3 - 1)).flatMap (fun i =>
          [{ i0 := j * 3 + i, i1 := j * 3 + i + 1, i2 := j * 3 + i + 3 },
           { i0 := j * 3 + i + 1, i1 := j * 3 + i + 1 + 3, i2 := j * 3 + i + 3 }])) ∧
      ∀ t ∈ s.indexList.values, t.i0 < 3 * 2 ∧ t.i1 < 3 * 2 ∧ t.i2 < 3 * 2 :=
  ⟨by decide,
    (elevation_grid_points_and_triangles
      (fun i j => ({ x := .ofNat i, y := .ofNat j, z := .ofNat 0 } : Vector3 RealTerm)) 3 2
      (by decide) (by decide) (by decide)).2⟩

/-! ## The extrusion (C26, C27, C28) -/

theorem extrusionSetTex_some {K : Type} [LinearOrderedField K] (computeTexCoord : Bool)
    (nbPoints idPoint : Nat) (s : ExtrusionState K)
    (h : computeTexCoord = true → s.texList.isSome = true) :
    ∃ t, extrusionSetTex computeTexCoord nbPoints idPoint s = some t ∧
      (computeTexCoord = true → t.isSome = true) := by
  unfold extrusionSetTex
  cases hc : computeTexCoord with
  | false => exact ⟨s.texList, by simp, by simp⟩
  | true =>
    have h1 := h hc
    cases ht : s.texList with
    | none => rw [ht] at h1; simp at h1
    | some t =>
      exact ⟨some (t.setAt s.j { x := s.start, y := (idPoint : K) / ((sub32 nbPoints 1 : Nat) : K) }),
        by simp, by simp⟩

/-- The loop over the points of the section of a step of an extrusion: `n`
points written at consecutive positions, and the `n - 1` quads of the pairs of
consecutive points. -/
theorem extrusionPoint_loop {K : Type} [LinearOrderedField K] (computeTexCoord : Bool)
    (n i kb : Nat) (center : Vector3 K) (newPoint : List (Vector3 K))
    (s0 : ExtrusionState K) (hn : 1 ≤ n) (hlen : newPoint.length = n)
    (hj : s0.j = i * n) (hk : s0.k = kb)
    (htex : computeTexCoord = true → s0.texList.isSome = true)
    (hpp : s0.pointList.positions = List.range (i * n))
    (hip : s0.indexList.positions = List.range kb)
    (b1 : i * n + 2 * n < 4294967296) (b2 : kb + n < 4294967296) :
    ∃ s1, forLoop (extrusionPointBody computeTexCoord n center newPoint) 0 n s0 = some s1 ∧
      s1.j = i * n + n ∧ s1.k = kb + (n - 1) ∧
      s1.start = s0.start ∧ s1.starttransf = s0.starttransf ∧
      s1.oldBinormal = s0.oldBinormal ∧ s1.normal = s0.normal ∧
      (computeTexCoord = true → s1.texList.isSome = true) ∧
      s1.pointList.size = s0.pointList.size ∧ s1.indexList.size = s0.indexList.size ∧
      s1.pointList.positions = List.range (i * n + n) ∧
      s1.pointList.values = s0.pointList.values ++ newPoint.map (fun p => p.add center) ∧
      s1.indexList.positions = List.range (kb + (n - 1)) ∧
      s1.indexList.values = s0.indexList.values ++
        (List.range (n - 1)).map (fun m =>
          { i0 := i * n + m, i1 := i * n + m + 1, i2 := i * n + m + n + 1,
            i3 := i * n + m + n }) := by
  have key := forLoop_inv (extrusionPointBody computeTexCoord n center newPoint)
    (fun m s =>
      s.j = i * n + m ∧ s.k = kb + min m (n - 1) ∧
      s.start = s0.start ∧ s.starttransf = s0.starttransf ∧
      s.oldBinormal = s0.oldBinormal ∧ s.normal = s0.normal ∧
      (computeTexCoord = true → s.texList.isSome = true) ∧
      s.pointList.size = s0.pointList.size ∧ s.indexList.size = s0.indexList.size ∧
      s.pointList.positions = List.range (i * n + m) ∧
      s.pointList.values = s0.pointList.values ++
        (newPoint.take m).map (fun p => p.add center) ∧
      s.indexList.positions = List.range (kb + min m (n - 1)) ∧
      s.indexList.values = s0.indexList.values ++
        (List.range (min m (n - 1))).map (fun m =>
          { i0 := i * n + m, i1 := i * n + m + 1, i2 := i * n + m + n + 1,
            i3 := i * n + m + n }))
    n 0 s0
    (by
      refine ⟨hj, ?_, rfl, rfl, rfl, rfl, htex, rfl, rfl, hpp, ?_, ?_, ?_⟩
      · simp [hk]
      · simp
      · simp [hip]
      · simp)
    (by
      intro m s _ hm ⟨i1, i2, i3, i4, i5, i6, i7, i8, i9, i10, i11, i12, i13⟩
      have hm' : m < n := by omega
      obtain ⟨p, hp⟩ : ∃ p, newPoint[m]? = some p :=
        ⟨newPoint[m], List.getElem?_eq_getElem (by omega)⟩
      obtain ⟨t, ht, htt⟩ := extrusionSetTex_some computeTexCoord n m s i7
      have hn0 : ¬ (n = 0) := by omega
      have e1 : u32 (i * n + m + 1) = i * n + m + 1 := u32_of_lt (by omega)
      have hmod : (i * n + m + 1) % n = (m + 1) % n := by
        have : i * n + m + 1 = (m + 1) + i * n := by omega
        rw [this, Nat.add_mul_mod_self_right]
      have hvals : (s.pointList.setAt (i * n + m) (p.add center)).values
          = s0.pointList.values ++ (newPoint.take (m + 1)).map (fun p => p.add center) := by
        rw [Buffer.values_setAt, i11, List.take_succ, hp, List.map_append, List.append_assoc]
        rfl
      by_cases hlast : m < n - 1
      · have hne : (i * n + m + 1) % n ≠ 0 := by
          rw [hmod, Nat.mod_eq_of_lt (by omega)]; omega
        have hmin : min m (n - 1) = m := Nat.min_eq_left (by omega)
        have hmin' : min (m + 1) (n - 1) = m + 1 := Nat.min_eq_left (by omega)
        rw [hmin] at i2 i12 i13
        have e2 : u32 (i * n + m + n) = i * n + m + n := u32_of_lt (by omega)
        have e3 : u32 (i * n + m + n + 1) = i * n + m + n + 1 := u32_of_lt (by omega)
        have e4 : u32 (kb + m + 1) = kb + m + 1 := u32_of_lt (by omega)
        have hbody : extrusionPointBody computeTexCoord n center newPoint m s = some
            { s with
              pointList := s.pointList.setAt (i * n + m) (p.add center),
              texList := t,
              indexList := s.indexList.setAt (kb + m)
                { i0 := i * n + m, i1 := i * n + m + 1, i2 := i * n + m + n + 1,
                  i3 := i * n + m + n },
              k := kb + m + 1,
              j := i * n + m + 1 } := by
          simp only [extrusionPointBody, hp, ht, hn0, if_false, i1, i2, e1, e2, e3, e4, hne,
            ne_eq, not_false_eq_true, if_true]
        refine ⟨_, hbody, rfl, ?_, i3, i4, i5, i6, htt, i8, i9, ?_, hvals, ?_, ?_⟩
        · rw [hmin']; rfl
        · exact Buffer.positions_setAt_range _ _ _ i10
        · rw [hmin']
          exact Buffer.positions_setAt_range _ _ _ i12
        · rw [hmin']
          show (s.indexList.setAt (kb + m) _).values = _
          rw [Buffer.values_setAt, i13, List.range_succ, List.map_append, List.append_assoc]
          rfl
      · have hmn : m + 1 = n := by omega
        have heq : (i * n + m + 1) % n = 0 := by
          rw [hmod, hmn, Nat.mod_self]
        have hmin : min m (n - 1) = n - 1 := Nat.min_eq_right (by omega)
        have hmin' : min (m + 1) (n - 1) = n - 1 := Nat.min_eq_right (by omega)
        have hbody : extrusionPointBody computeTexCoord n center newPoint m s = some
            { s with
              pointList := s.pointList.setAt (i * n + m) (p.add center),
              texList := t,
              j := i * n + m + 1 } := by
          simp only [extrusionPointBody, hp, ht, hn0, if_false, i1, e1, heq, ne_eq,
            not_true_eq_false]
        refine ⟨_, hbody, rfl, ?_, i3, i4, i5, i6, htt, i8, i9, ?_, hvals, ?_, ?_⟩
        · rw [hmin']; rw [hmin] at i2; exact i2
        · exact Buffer.positions_setAt_range _ _ _ i10
        · rw [hmin']; rw [hmin] at i12; exact i12
        · rw [hmin']; rw [hmin] at i13; exact i13)
  obtain ⟨s1, hs, h1, h2, h3, h4, h5, h6, h7, h8, h9, h10, h11, h12, h13⟩ := key
  have hmin : min n (n - 1) = n - 1 := Nat.min_eq_right (by omega)
  have htake : newPoint.take n = newPoint := by rw [← hlen]; exact List.take_length newPoint
  simp only [Nat.zero_add, hmin, htake] at hs h1 h2 h10 h11 h12 h13
  exact ⟨s1, hs, h1, h2, h3, h4, h5, h6, h7, h8, h9, h10, h11, h12, h13⟩

/-- The loop over the points of the last section of an extrusion: `n` points
written at consecutive positions. -/
theorem extrusionLastPoint_loop {K : Type} [LinearOrderedField K] (computeTexCoord : Bool)
    (n base : Nat) (center : Vector3 K) (newPoint : List (Vector3 K))
    (s0 : ExtrusionState K) (hlen : newPoint.length = n)
    (hj : s0.j = base)
    (htex : computeTexCoord = true → s0.texList.isSome = true)
    (hpp : s0.pointList.positions = List.range base)
    (b1 : base + n < 4294967296) :
    ∃ s1, forLoop (extrusionLastPointBody computeTexCoord n center newPoint) 0 n s0 = some s1 ∧
      s1.j = base + n ∧
      s1.pointList.size = s0.pointList.size ∧ s1.indexList = s0.indexList ∧
      s1.pointList.positions = List.range (base + n) ∧
      s1.pointList.values = s0.pointList.values ++ newPoint.map (fun p => p.add center) := by
  have key := forLoop_inv (extrusionLastPointBody computeTexCoord n center newPoint)
    (fun m s =>
      s.j = base + m ∧
      (computeTexCoord = true → s.texList.isSome = true) ∧
      s.pointList.size = s0.pointList.size ∧ s.indexList = s0.indexList ∧
      s.pointList.positions = List.range (base + m) ∧
      s.pointList.values = s0.pointList.values ++
        (newPoint.take m).map (fun p => p.add center))
    n 0 s0
    (by
      refine ⟨hj, htex, rfl, rfl, hpp, ?_⟩
      simp)
    (by
      intro m s _ hm ⟨i1, i7, i8, i9, i10, i11⟩
      have hm' : m < n := by omega
      obtain ⟨p, hp⟩ : ∃ p, newPoint[m]? = some p :=
        ⟨newPoint[m], List.getElem?_eq_getElem (by omega)⟩
      obtain ⟨t, ht, htt⟩ := extrusionSetTex_some computeTexCoord n m s i7
      have e1 : u32 (base + m + 1) = base + m + 1 := u32_of_lt (by omega)
      have hbody : extrusionLastPointBody computeTexCoord n center newPoint m s = some
          { s with
            pointList := s.pointList.setAt (base + m) (p.add center),
            texList := t,
            j := base + m + 1 } := by
        simp only [extrusionLastPointBody, hp, ht, i1, e1]
      refine ⟨_, hbody, rfl, htt, i8, i9, Buffer.positions_setAt_range _ _ _ i10, ?_⟩
      show (s.pointList.setAt (base + m) (p.add center)).values = _
      rw [Buffer.values_setAt, i11, List.take_succ, hp, List.map_append, List.append_assoc]
      rfl)
  obtain ⟨s1, hs, h1, -, h8, h9, h10, h11⟩ := key
  have htake : newPoint.take n = newPoint := by rw [← hlen]; exact List.take_length newPoint
  simp only [Nat.zero_add, htake] at hs h1 h10 h11
  exact ⟨s1, hs, h1, h8, h9, h10, h11⟩

theorem extrusionNewPoint_length {K : Type} (V : VectorExtern K)
    (profileTransf : Option (ProfileTransformation K)) (crossPoints : List (Vector3 K))
    (u : K) (normal binormal velocity : Vector3 K) :
    (extrusionNewPoint V profileTransf crossPoints u normal binormal velocity).length
      = crossPoints.length := by
  unfold extrusionNewPoint
  cases profileTransf <;> simp

/-- An initial segment of a list is an initial segment of the list extended at
its end. -/
theorem initial_segment_append {β : Type} {l1 l2 : List β} (h : l1 <+: l2) (l3 : List β) :
    l1 <+: l2 ++ l3 := by
  obtain ⟨t, rfl⟩ := h
  exact ⟨t ++ l3, (List.append_assoc _ _ _).symm⟩

theorem extrusionWrapQuad_spec {K : Type} (closed : Bool) (n i kb : Nat)
    (normal binormal : Vector3 K) (s : ExtrusionState K) (hn : 1 ≤ n)
    (hj : s.j = i * n) (hk : s.k = kb) (hip : s.indexList.positions = List.range kb)
    (b1 : i * n + 2 * n < 4294967296) (b2 : kb + 1 < 4294967296) :
    (extrusionWrapQuad closed n normal binormal s).j = i * n ∧
    (extrusionWrapQuad closed n normal binormal s).k = kb + (if closed then 1 else 0) ∧
    (extrusionWrapQuad closed n normal binormal s).start = s.start ∧
    (extrusionWrapQuad closed n normal binormal s).starttransf = s.starttransf ∧
    (extrusionWrapQuad closed n normal binormal s).texList = s.texList ∧
    (extrusionWrapQuad closed n normal binormal s).pointList = s.pointList ∧
    (extrusionWrapQuad closed n normal binormal s).indexList.size = s.indexList.size ∧
    (extrusionWrapQuad closed n normal binormal s).indexList.positions
      = List.range (kb + (if closed then 1 else 0)) ∧
    (extrusionWrapQuad closed n normal binormal s).indexList.values
      = s.indexList.values ++
        (if closed then
          [{ i0 := i * n + n - 1, i1 := i * n, i2 := i * n + n, i3 := i * n + 2 * n - 1 }]
         else []) := by
  cases closed with
  | false =>
    refine ⟨hj, ?_, rfl, rfl, rfl, rfl, rfl, ?_, ?_⟩
    · simpa [extrusionWrapQuad] using hk
    · simpa [extrusionWrapQuad] using hip
    · simp [extrusionWrapQuad]
  | true =>
    have e1 : u32 (i * n + n) = i * n + n := u32_of_lt (by omega)
    have e2 : u32 (2 * n) = 2 * n := u32_of_lt (by omega)
    have e3 : u32 (i * n + 2 * n) = i * n + 2 * n := u32_of_lt (by omega)
    have e4 : sub32 (i * n + n) 1 = i * n + n - 1 := by unfold sub32; omega
    have e5 : sub32 (i * n + 2 * n) 1 = i * n + 2 * n - 1 := by unfold sub32; omega
    have e6 : u32 (kb + 1) = kb + 1 := u32_of_lt (by omega)
    refine ⟨hj, ?_, rfl, rfl, rfl, rfl, rfl, ?_, ?_⟩
    · show u32 (s.k + 1) = kb + 1
      rw [hk, e6]
    · show (s.indexList.setAt s.k _).positions = List.range (kb + 1)
      rw [hk]
      exact Buffer.positions_setAt_range _ _ _ hip
    · show (s.indexList.setAt s.k _).values = _
      rw [Buffer.values_setAt, hj, e1, e2, e3, e4, e5]
      rfl

/-- The arrays of an extrusion whose section has `n ≥ 1` points (after closure
handling) and whose axis has `N` steps, whatever the initial value `normal0` of
`_normal`: `(N + 1) * n` points written at consecutive positions, the quads of
`extrusionQuads`, step after step; when there is at least one step the first
points written are those of the section in the frame built from the normal of
the axis at the first knot. -/
theorem extrusionFrom_arrays {K : Type} [LinearOrderedField K] (V : VectorExtern K)
    (axis : Axis K) (profileTransf : Option (ProfileTransformation K))
    (computeTexCoord closed : Bool) (crossPoints : List (Vector3 K)) (normal0 : Vector3 K)
    (hn : 1 ≤ crossPoints.length)
    (hB : (axis.getStride + 2) * crossPoints.length < 4294967296) :
    ∃ s, extrusionFrom V axis profileTransf computeTexCoord closed crossPoints normal0
        = some s ∧
      s.pointList.size = (axis.getStride + 1) * crossPoints.length ∧
      s.pointList.positions = List.range ((axis.getStride + 1) * crossPoints.length) ∧
      s.indexList.size
        = axis.getStride * (crossPoints.length - (if closed then 0 else 1)) ∧
      s.indexList.positions
        = List.range (axis.getStride * (crossPoints.length - (if closed then 0 else 1))) ∧
      s.indexList.values
        = (List.range axis.getStride).flatMap (extrusionQuads closed crossPoints.length) ∧
      (1 ≤ axis.getStride →
        (extrusionNewPoint V profileTransf crossPoints
            (extrusionStartTransf profileTransf)
            (V.normalize (axis.getNormalAt axis.getFirstKnot))
            (V.normalize ((V.normalize (axis.getTangentAt axis.getFirstKnot)).cross
              (V.normalize (axis.getNormalAt axis.getFirstKnot))))
            (V.normalize (axis.getTangentAt axis.getFirstKnot))).map
          (fun p => p.add (axis.getPointAt axis.getFirstKnot))
        <+: s.pointList.values) := by
  generalize hN : axis.getStride = N at *
  generalize hP : crossPoints.length = n at *
  have hq : (if closed then 1 else 0) + (n - 1) = n - (if closed then 0 else 1) := by
    cases closed
    · simp
    · simp; omega
  have hqle : n - (if closed then 0 else 1) ≤ n := Nat.sub_le _ _
  have hc0 : (if closed then 0 else 1) ≤ 1 := by cases closed <;> simp
  have hexp : (N + 2) * n = N * n + 2 * n := by ring
  have hexp1 : (N + 1) * n = N * n + n := by ring
  have hNq : N * (n - (if closed then 0 else 1)) ≤ N * n := Nat.mul_le_mul_left _ hqle
  have hNn : N ≤ N * n := Nat.le_mul_of_pos_right _ hn
  have hnb : u32 n = n := u32_of_lt (by omega)
  have hsz1 : u32 (u32 (N + 1) * n) = (N + 1) * n := by
    rw [u32_of_lt (by omega : N + 1 < 4294967296)]
    exact u32_of_lt (by omega)
  have hsz2 : u32 (N * sub32 n (if closed then 0 else 1))
      = N * (n - (if closed then 0 else 1)) := by
    have : sub32 n (if closed then 0 else 1) = n - (if closed then 0 else 1) := by
      unfold sub32; omega
    rw [this]; exact u32_of_lt (by omega)
  have key := forLoop_inv
    (extrusionStepBody V axis profileTransf computeTexCoord closed crossPoints n
      ((axis.getLastKnot - axis.getFirstKnot) / (N : K))
      (extrusionStepTransf profileTransf N))
    (fun i s =>
      s.j = i * n ∧ s.k = i * (n - (if closed then 0 else 1)) ∧
      (computeTexCoord = true → s.texList.isSome = true) ∧
      s.pointList.size = (N + 1) * n ∧
      s.indexList.size = N * (n - (if closed then 0 else 1)) ∧
      s.pointList.positions = List.range (i * n) ∧
      s.indexList.positions = List.range (i * (n - (if closed then 0 else 1))) ∧
      s.indexList.values = (List.range i).flatMap (extrusionQuads closed n) ∧
      (i = 0 → s.start = axis.getFirstKnot ∧
        s.starttransf = extrusionStartTransf profileTransf ∧
        s.pointList.values = []) ∧
      (1 ≤ i →
        (extrusionNewPoint V profileTransf crossPoints
            (extrusionStartTransf profileTransf)
            (V.normalize (axis.getNormalAt axis.getFirstKnot))
            (V.normalize ((V.normalize (axis.getTangentAt axis.getFirstKnot)).cross
              (V.normalize (axis.getNormalAt axis.getFirstKnot))))
            (V.normalize (axis.getTangentAt axis.getFirstKnot))).map
          (fun p => p.add (axis.getPointAt axis.getFirstKnot))
        <+: s.pointList.values))
    N 0
    { j := 0, k := 0, start := axis.getFirstKnot,
      starttransf := extrusionStartTransf profileTransf,
      oldBinormal := V.dflt, normal := normal0,
      pointList := Buffer.new ((N + 1) * n),
      texList := if computeTexCoord then some (Buffer.new ((N + 1) * n)) else none,
      indexList := Buffer.new (N * (n - (if closed then 0 else 1))) }
    (by
      refine ⟨by simp, by simp, ?_, rfl, rfl, by simp [Buffer.new, Buffer.positions],
        by simp [Buffer.new, Buffer.positions], by simp [Buffer.new, Buffer.values],
        fun _ => ⟨rfl, rfl, rfl⟩, fun h => absurd h (by omega)⟩
      intro h; simp [h])
    (by
      intro i s _ hi ⟨i1, i2, i3, i4, i5, i6, i7, i8, i9, i10⟩
      have hi' : i + 1 ≤ N := by omega
      have hA : i * n + n ≤ N * n := by
        have := Nat.mul_le_mul_right n hi'
        rwa [Nat.succ_mul] at this
      have hQ : i * (n - (if closed then 0 else 1)) + (n - (if closed then 0 else 1))
          ≤ N * (n - (if closed then 0 else 1)) := by
        have := Nat.mul_le_mul_right (n - (if closed then 0 else 1)) hi'
        rwa [Nat.succ_mul] at this
      obtain ⟨w1, w2, w3, w4, w5, w6, w7, w8, w9⟩ :=
        extrusionWrapQuad_spec closed n i (i * (n - (if closed then 0 else 1)))
          (extrusionStepFrame V axis i s).1 (extrusionStepFrame V axis i s).2.1 s hn i1 i2 i7
          (by omega) (by omega)
      have hlen := extrusionNewPoint_length V profileTransf crossPoints s.starttransf
        (extrusionStepFrame V axis i s).1 (extrusionStepFrame V axis i s).2.1
        (extrusionStepFrame V axis i s).2.2
      rw [hP] at hlen
      obtain ⟨s2, hloop, c1, c2, c3, c4, -, -, c7, c8, c9, c10, c11, c12, c13⟩ :=
        extrusionPoint_loop computeTexCoord n i
          (i * (n - (if closed then 0 else 1)) + (if closed then 1 else 0))
          (axis.getPointAt s.start)
          (extrusionNewPoint V profileTransf crossPoints s.starttransf
            (extrusionStepFrame V axis i s).1 (extrusionStepFrame V axis i s).2.1
            (extrusionStepFrame V axis i s).2.2)
          (extrusionWrapQuad closed n (extrusionStepFrame V axis i s).1
            (extrusionStepFrame V axis i s).2.1 s)
          hn hlen w1 w2 (by rw [w5]; exact i3) (by rw [w6]; exact i6) w8 (by omega)
          (by omega)
      have hbody : extrusionStepBody V axis profileTransf computeTexCoord closed crossPoints n
          ((axis.getLastKnot - axis.getFirstKnot) / (N : K))
          (extrusionStepTransf profileTransf N) i s
          = some { s2 with
              start := s2.start + (axis.getLastKnot - axis.getFirstKnot) / (N : K),
              starttransf := s2.starttransf + extrusionStepTransf profileTransf N } := by
        simp only [extrusionStepBody, hlen, hloop]
      have hsucc : (i + 1) * n = i * n + n := Nat.succ_mul _ _
      have hsucc2 : (i + 1) * (n - (if closed then 0 else 1))
          = i * (n - (if closed then 0 else 1)) + (n - (if closed then 0 else 1)) :=
        Nat.succ_mul _ _
      have hk' : i * (n - (if closed then 0 else 1)) + (if closed then 1 else 0) + (n - 1)
          = (i + 1) * (n - (if closed then 0 else 1)) := by
        rw [hsucc2, ← hq]; omega
      refine ⟨_, hbody, ?_, ?_, c7, ?_, ?_, ?_, ?_, ?_, ?_, ?_⟩
      · show s2.j = _
        rw [c1, hsucc]
      · show s2.k = _
        rw [c2, hk']
      · show s2.pointList.size = _
        rw [c8, w6]; exact i4
      · show s2.indexList.size = _
        rw [c9, w7]; exact i5
      · show s2.pointList.positions = _
        rw [c10, hsucc]
      · show s2.indexList.positions = _
        rw [c12, hk']
      · show s2.indexList.values = _
        rw [c13, w9, i8, List.range_succ, List.flatMap_append, List.append_assoc]
        simp [extrusionQuads]
      · intro h; omega
      · intro _
        show _ <+: s2.pointList.values
        rw [c11, w6]
        by_cases h0 : i = 0
        · obtain ⟨hs0, hst0, hv0⟩ := i9 h0
          subst h0
          rw [hv0, List.nil_append, hs0, hst0]
          simp only [extrusionStepFrame, hs0, ne_eq, not_true_eq_false, if_false]
          exact ⟨[], List.append_nil _⟩
        · exact initial_segment_append (i10 (by omega)) _)
  obtain ⟨s, hs, a1, a2, a3, a4, a5, a6, a7, a8, -, a10⟩ := key
  simp only [Nat.zero_add] at hs a1 a6 a7 a8 a10
  have hlen := extrusionNewPoint_length V profileTransf crossPoints
    (extrusionLastTransf profileTransf s.starttransf)
    (V.normalize (s.oldBinormal.cross (axis.getTangentAt axis.getLastKnot)))
    ((V.normalize (axis.getTangentAt axis.getLastKnot)).cross
      (V.normalize (s.oldBinormal.cross (axis.getTangentAt axis.getLastKnot))))
    (V.normalize (axis.getTangentAt axis.getLastKnot))
  rw [hP] at hlen
  obtain ⟨s3, hlast, d1, d2, d3, d4, d5⟩ :=
    extrusionLastPoint_loop computeTexCoord n (N * n) (axis.getPointAt axis.getLastKnot)
      (extrusionNewPoint V profileTransf crossPoints
        (extrusionLastTransf profileTransf s.starttransf)
        (V.normalize (s.oldBinormal.cross (axis.getTangentAt axis.getLastKnot)))
        ((V.normalize (axis.getTangentAt axis.getLastKnot)).cross
          (V.normalize (s.oldBinormal.cross (axis.getTangentAt axis.getLastKnot))))
        (V.normalize (axis.getTangentAt axis.getLastKnot)))
      { s with
        start := axis.getLastKnot,
        starttransf := extrusionLastTransf profileTransf s.starttransf,
        normal := V.normalize (s.oldBinormal.cross (axis.getTangentAt axis.getLastKnot)) }
      hlen a1 a3 a6 (by omega)
  have hk : extrusionFrom V axis profileTransf computeTexCoord closed crossPoints normal0
      = some s3 := by
    simp only [extrusionFrom, hN, hP, hnb, hsz1, hsz2, hs, hlen]
    exact hlast
  refine ⟨s3, hk, ?_, ?_, ?_, ?_, ?_, ?_⟩
  · rw [d2]; exact a4
  · rw [d4, hexp1]
  · rw [d3]; exact a5
  · rw [d3]; exact a7
  · rw [d3]; exact a8
  · intro h1
    rw [d5]
    exact initial_segment_append (a10 h1) _

/-- The value of `_normal` before the loop of the extrusion is overwritten at
the first step: a step does not depend on it. -/
theorem extrusionStepBody_normal {K : Type} [LinearOrderedField K] (V : VectorExtern K)
    (axis : Axis K) (profileTransf : Option (ProfileTransformation K))
    (computeTexCoord closed : Bool) (crossPoints : List (Vector3 K)) (nbPoints : Nat)
    (step steptransf : K) (i : Nat) (s : ExtrusionState K) (a : Vector3 K) :
    extrusionStepBody V axis profileTransf computeTexCoord closed crossPoints nbPoints step
        steptransf i { s with normal := a }
      = extrusionStepBody V axis profileTransf computeTexCoord closed crossPoints nbPoints step
        steptransf i s := by
  cases closed <;> rfl

/-- The arrays of the extrusion do not depend on the value of `_normal` before
the loop. -/
theorem extrusionFrom_normal {K : Type} [LinearOrderedField K] (V : VectorExtern K)
    (axis : Axis K) (profileTransf : Option (ProfileTransformation K))
    (computeTexCoord closed : Bool) (crossPoints : List (Vector3 K)) (a b : Vector3 K) :
    extrusionFrom V axis profileTransf computeTexCoord closed crossPoints a
      = extrusionFrom V axis profileTransf computeTexCoord closed crossPoints b := by
  unfold extrusionFrom
  cases axis.getStride with
  | zero => rfl
  | succ N =>
    simp only [forLoop]
    have h := extrusionStepBody_normal V axis profileTransf computeTexCoord closed crossPoints
      (u32 crossPoints.length)
      ((axis.getLastKnot - axis.getFirstKnot) / ((N + 1 : Nat) : K))
      (extrusionStepTransf profileTransf (N + 1)) 0
    rw [← h _ b]

/-- Closure handling of the extrusion: a section with at least one point is
closed exactly when the norm of the difference of its first and last points is
not above `GEOM_EPSILON`; it then loses its last point. -/
theorem extrusionSection_spec {K : Type} [LinearOrderedField K] (V : VectorExtern K)
    (crossPoints sectionPoints : List (Vector3 K)) (closed : Bool)
    (h : extrusionSection V crossPoints = some (closed, sectionPoints))
    (hlen : crossPoints.length < 4294967296) :
    ∃ a b, crossPoints[0]? = some a ∧ crossPoints[crossPoints.length - 1]? = some b ∧
      (closed = true ↔ ¬ (V.epsilon < V.norm (a.sub b))) ∧
      sectionPoints = (if closed then crossPoints.dropLast else crossPoints) := by
  unfold extrusionSection at h
  have e : sub32 (u32 crossPoints.length) 1 = crossPoints.length - 1 ∨ crossPoints.length = 0 := by
    rw [u32_of_lt hlen]; unfold sub32; omega
  rcases e with e | e
  · rw [e] at h
    cases h0 : crossPoints[0]? with
    | none => rw [h0] at h; simp at h
    | some a =>
      cases h1 : crossPoints[crossPoints.length - 1]? with
      | none => rw [h0, h1] at h; simp at h
      | some b =>
        rw [h0, h1] at h
        refine ⟨a, b, rfl, rfl, ?_⟩
        by_cases hc : V.epsilon < V.norm (a.sub b)
        · simp only [hc, not_true_eq_false, if_false, Option.some.injEq, Prod.mk.injEq] at h
          obtain ⟨h2, h3⟩ := h
          subst h2; subst h3
          simp [hc]
        · simp only [hc, not_false_eq_true, if_true, Option.some.injEq, Prod.mk.injEq] at h
          obtain ⟨h2, h3⟩ := h
          subst h2; subst h3
          simp [hc]
  · have : crossPoints = [] := List.length_eq_zero.mp e
    subst this
    simp at h

/-- C26: for an extrusion whose cross-section has `n ≥ 2` points after closure
handling (the section is closed when the norm of the difference of its first
and last points is not above `GEOM_EPSILON`, and it then loses its last point)
and whose axis has `N ≥ 1` steps (sizes that fit a `uint32_t`), the kernel is
defined; it writes `(N + 1) * n` points, at the positions 0, 1, 2, ..., each
slot once; its quad array has `N * (n - 1)` slots when the section is open and
`N * n` when it is closed, written once each: step `i` contributes, when the
section is closed, the quad `(i*n + n - 1, i*n, i*n + n, i*n + 2*n - 1)` that
joins the last and the first point of the section, then the `n - 1` quads
`(i*n + m, i*n + m + 1, i*n + m + n + 1, i*n + m + n)`; every index is smaller
than `(N + 1) * n`. -/
theorem extrusion_point_and_quad_counts {K : Type} [LinearOrderedField K]
    (V : VectorExtern K) (axis : Axis K) (profileTransf : Option (ProfileTransformation K))
    (computeTexCoord : Bool) (crossPoints sectionPoints : List (Vector3 K)) (closed : Bool)
    (hsec : extrusionSection V crossPoints = some (closed, sectionPoints))
    (hn : 2 ≤ sectionPoints.length) (hN : 1 ≤ axis.getStride)
    (hB : (axis.getStride + 2) * sectionPoints.length < 4294967296) :
    (∃ a b, crossPoints[0]? = some a ∧ crossPoints[crossPoints.length - 1]? = some b ∧
      (closed = true ↔ ¬ (V.epsilon < V.norm (a.sub b))) ∧
      sectionPoints = (if closed then crossPoints.dropLast else crossPoints)) ∧
    ∃ s, extrusionKernel V axis profileTransf computeTexCoord crossPoints = some s ∧
      s.pointList.size = (axis.getStride + 1) * sectionPoints.length ∧
      s.pointList.positions = List.range ((axis.getStride + 1) * sectionPoints.length) ∧
      s.pointList.values.length = (axis.getStride + 1) * sectionPoints.length ∧
      s.indexList.size
        = axis.getStride * (if closed then sectionPoints.length else sectionPoints.length - 1) ∧
      s.indexList.positions = List.range s.indexList.size ∧
      s.indexList.values.length = s.indexList.size ∧
      s.indexList.values = (List.range axis.getStride).flatMap (fun i =>
        (if closed then
          [{ i0 := i * sectionPoints.length + sectionPoints.length - 1,
             i1 := i * sectionPoints.length,
             i2 := i * sectionPoints.length + sectionPoints.length,
             i3 := i * sectionPoints.length + 2 * sectionPoints.length - 1 }]
         else []) ++
        (List.range (sectionPoints.length - 1)).map (fun m =>
          { i0 := i * sectionPoints.length + m, i1 := i * sectionPoints.length + m + 1,
            i2 := i * sectionPoints.length + m + sectionPoints.length + 1,
            i3 := i * sectionPoints.length + m + sectionPoints.length })) ∧
      ∀ q ∈ s.indexList.values,
        q.i0 < s.pointList.size ∧ q.i1 < s.pointList.size ∧ q.i2 < s.pointList.size ∧
        q.i3 < s.pointList.size := by
  have hlen : crossPoints.length < 4294967296 := by
    by_contra hbig
    unfold extrusionSection at hsec
    cases h0 : crossPoints[0]? with
    | none => rw [h0] at hsec; simp at hsec
    | some a =>
      cases h1 : crossPoints[sub32 (u32 crossPoints.length) 1]? with
      | none => rw [h0, h1] at hsec; simp at hsec
      | some b =>
        rw [h0, h1] at hsec
        have hP : 3 * sectionPoints.length < 4294967296 := by
          have : 3 * sectionPoints.length ≤ (axis.getStride + 2) * sectionPoints.length :=
            Nat.mul_le_mul_right _ (by omega)
          omega
        have hd := List.length_dropLast crossPoints
        by_cases hc : V.epsilon < V.norm (a.sub b)
        · simp only [hc, not_true_eq_false, if_false, Option.some.injEq, Prod.mk.injEq] at hsec
          obtain ⟨-, h3⟩ := hsec
          subst h3; omega
        · simp only [hc, not_false_eq_true, if_true, Option.some.injEq, Prod.mk.injEq] at hsec
          obtain ⟨-, h3⟩ := hsec
          subst h3
          have hi := (List.getElem?_eq_some_iff.mp h1).1
          unfold sub32 u32 at hi
          omega
  refine ⟨extrusionSection_spec V crossPoints sectionPoints closed hsec hlen, ?_⟩
  obtain ⟨s, hs, a1, a2, a3, a4, a5, -⟩ :=
    extrusionFrom_arrays V axis profileTransf computeTexCoord closed sectionPoints
      (extrusionInitialNormal V axis) (by omega) hB
  have hq : axis.getStride * (sectionPoints.length - (if closed then 0 else 1))
      = axis.getStride * (if closed then sectionPoints.length else sectionPoints.length - 1) := by
    cases closed <;> simp
  rw [hq] at a3 a4
  have hk : extrusionKernel V axis profileTransf computeTexCoord crossPoints = some s := by
    simp only [extrusionKernel, hsec]
    exact hs
  refine ⟨s, hk, a1, a2, ?_, a3, by rw [a3]; exact a4, ?_, a5, ?_⟩
  · have := congrArg List.length a2
    simpa [Buffer.positions, Buffer.values] using this
  · have := congrArg List.length a4
    rw [a3]
    simpa [Buffer.positions, Buffer.values] using this
  · intro q hq
    rw [a5, List.mem_flatMap] at hq
    obtain ⟨i, hi, hq⟩ := hq
    rw [List.mem_range] at hi
    have hA : i * sectionPoints.length + 2 * sectionPoints.length
        ≤ (axis.getStride + 1) * sectionPoints.length := by
      have := Nat.mul_le_mul_right sectionPoints.length (show i + 2 ≤ axis.getStride + 1 by omega)
      have e : (i + 2) * sectionPoints.length
          = i * sectionPoints.length + 2 * sectionPoints.length := by ring
      omega
    rw [a1]
    unfold extrusionQuads at hq
    rcases List.mem_append.mp hq with h | h
    · cases closed with
      | false => simp at h
      | true =>
        simp only [if_true, List.mem_singleton] at h
        subst h
        refine ⟨?_, ?_, ?_, ?_⟩ <;> dsimp only <;> omega
    · rw [List.mem_map] at h
      obtain ⟨m, hm, rfl⟩ := h
      rw [List.mem_range] at hm
      refine ⟨?_, ?_, ?_, ?_⟩ <;> dsimp only <;> omega

/-- Closure handling at a section of the examples, the triangle of corners
`(1,0,0)`, `(0,1,0)` given with its first point repeated at the end: it is
closed and keeps two points. -/
theorem extrusionSection_sample :
    extrusionSection sampleVector [⟨1, 0, 0⟩, ⟨0, 1, 0⟩, ⟨1, 0, 0⟩]
      = some (true, [⟨1, 0, 0⟩, ⟨0, 1, 0⟩]) := by
  have h : sub32 (u32 3) 1 = 2 := by decide
  simp [extrusionSection, h, sampleVector, axisNorm, Vector3.sub]

/-- C26, at the closed section of the examples and the straight axis with one
step: 4 points and 2 quads. -/
theorem extrusion_point_and_quad_counts_witness :
    (extrusionSection sampleVector [⟨1, 0, 0⟩, ⟨0, 1, 0⟩, ⟨1, 0, 0⟩]
        = some (true, [⟨1, 0, 0⟩, ⟨0, 1, 0⟩]) ∧
      2 ≤ 2 ∧ 1 ≤ lineAxis.getStride ∧ (lineAxis.getStride + 2) * 2 < 4294967296) ∧
    ∃ s, extrusionKernel sampleVector lineAxis none false [⟨1, 0, 0⟩, ⟨0, 1, 0⟩, ⟨1, 0, 0⟩]
        = some s ∧
      s.pointList.size = (lineAxis.getStride + 1) * 2 ∧
      s.pointList.positions = List.range ((lineAxis.getStride + 1) * 2) ∧
      s.pointList.values.length = (lineAxis.getStride + 1) * 2 ∧
      s.indexList.size = lineAxis.getStride * 2 ∧
      s.indexList.positions = List.range s.indexList.size ∧
      s.indexList.values.length = s.indexList.size ∧
      s.indexList.values = (List.range lineAxis.getStride).flatMap (fun i =>
        [{ i0 := i * 2 + 2 - 1, i1 := i * 2, i2 := i * 2 + 2, i3 := i * 2 + 2 * 2 - 1 }] ++
        (List.range (2 - 1)).map (fun m =>
          { i0 := i * 2 + m, i1 := i * 2 + m + 1, i2 := i * 2 + m + 2 + 1,
            i3 := i * 2 + m + 2 })) ∧
      ∀ q ∈ s.indexList.values,
        q.i0 < s.pointList.size ∧ q.i1 < s.pointList.size ∧ q.i2 < s.pointList.size ∧
        q.i3 < s.pointList.size :=
  ⟨⟨extrusionSection_sample, by decide, by decide, by decide⟩,
    (extrusion_point_and_quad_counts sampleVector lineAxis none false
      [⟨1, 0, 0⟩, ⟨0, 1, 0⟩, ⟨1, 0, 0⟩] [⟨1, 0, 0⟩, ⟨0, 1, 0⟩] true extrusionSection_sample
      (by decide) (by decide) (by decide)).2⟩

/-- C27: in the kernel of the extrusion (section of `n ≥ 1` points after closure
handling, axis of `N ≥ 1` steps, sizes that fit a `uint32_t`), the points of
the first section are those of the section in the frame whose normal is the
normalized normal of the axis at the first knot, whatever this normal is: the
first step assigns the normal of the axis to `_normal` again, so that the value
computed before the loop, the cross product of the tangent and of the axis `U`
when the normal is near zero, is overwritten; the arrays are those obtained
from any other initial value of `_normal`. -/
theorem extrusion_first_frame_uses_axis_normal {K : Type} [LinearOrderedField K]
    (V : VectorExtern K) (axis : Axis K) (profileTransf : Option (ProfileTransformation K))
    (computeTexCoord : Bool) (crossPoints sectionPoints : List (Vector3 K)) (closed : Bool)
    (hsec : extrusionSection V crossPoints = some (closed, sectionPoints))
    (hn : 1 ≤ sectionPoints.length) (hN : 1 ≤ axis.getStride)
    (hB : (axis.getStride + 2) * sectionPoints.length < 4294967296) :
    ∃ s, extrusionKernel V axis profileTransf computeTexCoord crossPoints = some s ∧
      s.pointList.positions = List.range ((axis.getStride + 1) * sectionPoints.length) ∧
      (extrusionNewPoint V profileTransf sectionPoints (extrusionStartTransf profileTransf)
          (V.normalize (axis.getNormalAt axis.getFirstKnot))
          (V.normalize ((V.normalize (axis.getTangentAt axis.getFirstKnot)).cross
            (V.normalize (axis.getNormalAt axis.getFirstKnot))))
          (V.normalize (axis.getTangentAt axis.getFirstKnot))).map
        (fun p => p.add (axis.getPointAt axis.getFirstKnot))
      <+: s.pointList.values ∧
      ∀ normal0 : Vector3 K,
        extrusionFrom V axis profileTransf computeTexCoord closed sectionPoints normal0
          = some s := by
  obtain ⟨s, hs, -, a2, -, -, -, a6⟩ :=
    extrusionFrom_arrays V axis profileTransf computeTexCoord closed sectionPoints
      (extrusionInitialNormal V axis) hn hB
  have hk : extrusionKernel V axis profileTransf computeTexCoord crossPoints = some s := by
    simp only [extrusionKernel, hsec]
    exact hs
  refine ⟨s, hk, a2, a6 hN, ?_⟩
  intro normal0
  rw [extrusionFrom_normal V axis profileTransf computeTexCoord closed sectionPoints normal0
    (extrusionInitialNormal V axis)]
  exact hs

/-- C27, at the closed section of the examples and the straight axis, whose
normal is zero: the value computed before the loop is `(-1, 0, 0)`, the
normal of the first frame is the zero vector. -/
theorem extrusion_first_frame_uses_axis_normal_witness :
    (extrusionSection sampleVector [⟨1, 0, 0⟩, ⟨0, 1, 0⟩, ⟨1, 0, 0⟩]
        = some (true, [⟨1, 0, 0⟩, ⟨0, 1, 0⟩]) ∧
      1 ≤ 2 ∧ 1 ≤ lineAxis.getStride ∧ (lineAxis.getStride + 2) * 2 < 4294967296) ∧
    extrusionInitialNormal sampleVector lineAxis = ⟨-1, 0, 0⟩ ∧
    sampleVector.normalize (lineAxis.getNormalAt lineAxis.getFirstKnot) = ⟨0, 0, 0⟩ ∧
    ∃ s, extrusionKernel sampleVector lineAxis none false [⟨1, 0, 0⟩, ⟨0, 1, 0⟩, ⟨1, 0, 0⟩]
        = some s ∧
      s.pointList.positions = List.range ((lineAxis.getStride + 1) * 2) ∧
      (extrusionNewPoint sampleVector none [⟨1, 0, 0⟩, ⟨0, 1, 0⟩] (extrusionStartTransf none)
          (sampleVector.normalize (lineAxis.getNormalAt lineAxis.getFirstKnot))
          (sampleVector.normalize
            ((sampleVector.normalize (lineAxis.getTangentAt lineAxis.getFirstKnot)).cross
              (sampleVector.normalize (lineAxis.getNormalAt lineAxis.getFirstKnot))))
          (sampleVector.normalize (lineAxis.getTangentAt lineAxis.getFirstKnot))).map
        (fun p => p.add (lineAxis.getPointAt lineAxis.getFirstKnot))
      <+: s.pointList.values ∧
      ∀ normal0 : Vector3 ℚ,
        extrusionFrom sampleVector lineAxis none false true [⟨1, 0, 0⟩, ⟨0, 1, 0⟩] normal0
          = some s :=
  ⟨⟨extrusionSection_sample, by decide, by decide, by decide⟩,
    by
      norm_num [extrusionInitialNormal, sampleVector, lineAxis, Vector3.normSquared,
        Vector3.dot, extrusionFallbackAxis, Vector3.cross, Vector3.OY],
    rfl,
    extrusion_first_frame_uses_axis_normal sampleVector lineAxis none false
      [⟨1, 0, 0⟩, ⟨0, 1, 0⟩, ⟨1, 0, 0⟩] [⟨1, 0, 0⟩, ⟨0, 1, 0⟩] true extrusionSection_sample
      (by decide) (by decide) (by decide)⟩

/-- C28: the cross product of a tangent and of the axis `U` chosen for it by
the kernel of the extrusion is zero exactly when the tangent is the zero
vector or points along the negative direction of a coordinate axis: the choice
compares the signed coordinates of the tangent. For the tangent `(0, 0, -1)`,
which is not zero, the axis chosen is `OZ`, parallel to it, and the product is
the zero vector. -/
theorem extrusion_fallback_axis_parallel {K : Type} [LinearOrderedField K] :
    (∀ tg : Vector3 K,
      tg.cross (extrusionFallbackAxis tg) = Vector3.ORIGIN ↔
        (tg.y = 0 ∧ tg.z = 0 ∧ tg.x ≤ 0) ∨ (tg.x = 0 ∧ tg.z = 0 ∧ tg.y ≤ 0) ∨
        (tg.x = 0 ∧ tg.y = 0 ∧ tg.z ≤ 0)) ∧
    (({ x := 0, y := 0, z := -1 } : Vector3 K) ≠ Vector3.ORIGIN ∧
      extrusionFallbackAxis ({ x := 0, y := 0, z := -1 } : Vector3 K) = Vector3.OZ ∧
      ({ x := 0, y := 0, z := -1 } : Vector3 K).cross
        (extrusionFallbackAxis { x := 0, y := 0, z := -1 }) = Vector3.ORIGIN) := by
  have hchar : ∀ tg : Vector3 K,
      tg.cross (extrusionFallbackAxis tg) = Vector3.ORIGIN ↔
        (tg.y = 0 ∧ tg.z = 0 ∧ tg.x ≤ 0) ∨ (tg.x = 0 ∧ tg.z = 0 ∧ tg.y ≤ 0) ∨
        (tg.x = 0 ∧ tg.y = 0 ∧ tg.z ≤ 0) := by
    intro tg
    obtain ⟨x, y, z⟩ := tg
    unfold extrusionFallbackAxis
    dsimp only
    by_cases h1 : x < y
    · by_cases h2 : z < x
      · simp only [h1, h2, if_true, Vector3.cross, Vector3.OZ, Vector3.ORIGIN, Vector3.mk.injEq,
          mul_one, mul_zero, sub_zero, zero_sub, neg_eq_zero, sub_self]
        constructor
        · rintro ⟨hy, hx, -⟩
          linarith
        · rintro (⟨hy, hz, hx⟩ | ⟨hx, hz, hy⟩ | ⟨hx, hy, hz⟩) <;> linarith
      · simp only [h1, h2, if_true, if_false, Vector3.cross, Vector3.OX, Vector3.ORIGIN,
          Vector3.mk.injEq, mul_one, mul_zero, sub_zero, zero_sub, neg_eq_zero, sub_self]
        constructor
        · rintro ⟨-, hz, hy⟩
          exact Or.inl ⟨hy, hz, by linarith⟩
        · rintro (⟨hy, hz, hx⟩ | ⟨hx, hz, hy⟩ | ⟨hx, hy, hz⟩)
          · exact ⟨trivial, hz, hy⟩
          · linarith
          · linarith
    · by_cases h2 : z < y
      · simp only [h1, h2, if_true, if_false, Vector3.cross, Vector3.OZ, Vector3.ORIGIN,
          Vector3.mk.injEq, mul_one, mul_zero, sub_zero, zero_sub, neg_eq_zero, sub_self]
        constructor
        · rintro ⟨hy, hx, -⟩
          exact Or.inr (Or.inr ⟨hx, hy, by linarith⟩)
        · rintro (⟨hy, hz, hx⟩ | ⟨hx, hz, hy⟩ | ⟨hx, hy, hz⟩)
          · linarith
          · linarith
          · exact ⟨hy, hx, trivial⟩
      · simp only [h1, h2, if_false, Vector3.cross, Vector3.OY, Vector3.ORIGIN,
          Vector3.mk.injEq, mul_one, mul_zero, sub_zero, zero_sub, neg_eq_zero, sub_self]
        constructor
        · rintro ⟨hz, -, hx⟩
          exact Or.inr (Or.inl ⟨hx, hz, by linarith⟩)
        · rintro (⟨hy, hz, hx⟩ | ⟨hx, hz, hy⟩ | ⟨hx, hy, hz⟩)
          · exact ⟨hz, trivial, by linarith⟩
          · exact ⟨hz, trivial, hx⟩
          · exact ⟨by linarith, trivial, hx⟩
  refine ⟨hchar, ?_, ?_, ?_⟩
  · intro h
    have := congrArg Vector3.z h
    simp [Vector3.ORIGIN] at this
  · simp [extrusionFallbackAxis]
  · rw [hchar]
    exact Or.inr (Or.inr ⟨rfl, rfl, by simp⟩)

/-! ## The extruded hull (C29) -/

/-- C29: in the ring of an extruded hull built from `p1` and `p2`, the point of
the horizontal profile whose `x` is `xcenter` gets the `x` of the midpoint of
`p1` and `p2`, but its `z` is the `y` of the midpoint plus
`sinA * xcenter * sf`: the third coordinate is computed from `_p.x()`, not from
`_p.x() - _xcenter` as the first one. For the horizontal profile (0,0), (2,0),
(1,1), of centre `xcenter = 1` and width 2, and the points `p1 = (1,0)`,
`p2 = (1,2)` of midpoint (1,1), the point (1,1) of the profile is mapped to
(1, 1, 0), whose `z` is 0 and not 1. -/
theorem hull_ring_centre_not_at_midpoint :
    (∀ (K : Type) [LinearOrderedField K] (norm : Vector3 K → K)
        (epsilon width xcenter ycenter : K) (p1 p2 h : Vector3 K), h.x = xcenter →
      (hullRingPoint norm epsilon width xcenter ycenter p1 p2 h).x = (p1.x + p2.x) / 2 ∧
      (hullRingPoint norm epsilon width xcenter ycenter p1 p2 h).z
        = (hullDirection epsilon p1 p2).y / norm (hullDirection epsilon p1 p2) * xcenter
            * (norm (hullDirection epsilon p1 p2) / width) + (p1.y + p2.y) / 2) ∧
    hullXCenter (⟨0, 0, 0⟩ : Vector3 ℚ) ⟨2, 0, 0⟩ = 1 ∧
    hullWidth (⟨0, 0, 0⟩ : Vector3 ℚ) ⟨2, 0, 0⟩ = 2 ∧
    hullRing axisNorm (1 / 1000000) [⟨0, 0, 0⟩, ⟨2, 0, 0⟩, ⟨1, 1, 0⟩]
        ⟨0, 0, 0⟩ ⟨2, 0, 0⟩ ⟨0, 0, 0⟩ ⟨1, 1, 0⟩ ⟨1, 0, 0⟩ ⟨1, 2, 0⟩
      = [⟨1, 0, 1⟩, ⟨1, 0, -1⟩, ⟨1, 1, 0⟩] ∧
    (((1 : ℚ) + 1) / 2 = 1 ∧ ((0 : ℚ) + 2) / 2 = 1 ∧ (0 : ℚ) ≠ 1) := by
  refine ⟨?_, ?_, ?_, ?_, ?_⟩
  · intro K _ norm epsilon width xcenter ycenter p1 p2 h hx
    simp [hullRingPoint, hx]
  · norm_num [hullXCenter]
  · norm_num [hullWidth]
  · have hd : hullDirection (1 / 1000000 : ℚ) ⟨1, 0, 0⟩ ⟨1, 2, 0⟩ = ⟨0, -2, 0⟩ := by
      norm_num [hullDirection, Vector3.sub, Vector3.neg]
    have hn : axisNorm ⟨0, -2, 0⟩ = 2 := by norm_num [axisNorm]
    simp only [hullRing, hullRingPoint, hd, hn, List.map_cons, List.map_nil, hullWidth,
      hullXCenter, hullYCenter]
    norm_num
  · norm_num

/-! ## Texture coordinates of a grid (C30) -/

theorem getElem?_pointAt {K : Type} [Field K] (pts : List (Vector3 K)) (i : Nat)
    (h : i < pts.length) : pts[i]? = some (pointAt pts i) := by
  unfold pointAt
  rw [List.getD_eq_getElem?_getD, List.getElem?_eq_getElem h]
  rfl

/-- Two pairs (row, column) with the same index in a grid stored row by row are
the same pair. -/
theorem grid_index_inj (gh a b c d : Nat) (hb : b < gh) (hd : d < gh)
    (h : a * gh + b = c * gh + d) : a = c ∧ b = d := by
  have hpos : 0 < gh := by omega
  have e1 : (b + a * gh) / gh = a := by
    rw [Nat.add_mul_div_right _ _ hpos, Nat.div_eq_of_lt hb, Nat.zero_add]
  have e2 : (d + c * gh) / gh = c := by
    rw [Nat.add_mul_div_right _ _ hpos, Nat.div_eq_of_lt hd, Nat.zero_add]
  have h' : b + a * gh = d + c * gh := by omega
  have hac : a = c := by rw [← e1, ← e2, h']
  subst hac
  exact ⟨rfl, by omega⟩

theorem grid_index_lt (gw gh u v : Nat) (hu : u < gw) (hv : v < gh) : u * gh + v < gw * gh := by
  have := Nat.mul_le_mul_right gh (show u + 1 ≤ gw from hu)
  rw [Nat.succ_mul] at this
  omega

theorem chordLength_nonneg {K : Type} [LinearOrderedField K] (norm : Vector3 K → K)
    (hnorm : ∀ v, 0 ≤ norm v) (pts : List (Vector3 K)) (idx : Nat → Nat) (k : Nat) :
    0 ≤ chordLength norm pts idx k := by
  induction k with
  | zero => exact le_refl _
  | succ k ih => exact add_nonneg ih (hnorm _)

theorem chordLength_mono {K : Type} [LinearOrderedField K] (norm : Vector3 K → K)
    (hnorm : ∀ v, 0 ≤ norm v) (pts : List (Vector3 K)) (idx : Nat → Nat) (k n : Nat)
    (h : k ≤ n) : chordLength norm pts idx k ≤ chordLength norm pts idx n := by
  induction n with
  | zero =>
    have : k = 0 := by omega
    subst this; exact le_refl _
  | succ n ih =>
    by_cases hk : k = n + 1
    · subst hk; exact le_refl _
    · exact le_trans (ih (by omega)) (le_add_of_nonneg_right (hnorm _))

/-- The loops of `gridTexCoord` that add up a length: after `n` steps the
length is the chord length up to point `n`. -/
theorem texLength_loop {K : Type} [LinearOrderedField K] (norm : Vector3 K → K)
    (pts : List (Vector3 K)) (idx : Nat → Nat) (n : Nat) (tex : List (Vector2 K))
    (h : ∀ k, k ≤ n → idx k < pts.length) :
    forLoop (texLengthBody norm pts idx) 1 n
        { p1 := pointAt pts (idx 0), length := 0, texList := tex }
      = some { p1 := pointAt pts (idx n), length := chordLength norm pts idx n,
               texList := tex } := by
  have key := forLoop_inv (texLengthBody norm pts idx)
    (fun j s => s = { p1 := pointAt pts (idx (j - 1)),
                      length := chordLength norm pts idx (j - 1), texList := tex })
    n 1 { p1 := pointAt pts (idx 0), length := 0, texList := tex } rfl
    (by
      intro j s hj1 hj2 hs
      obtain ⟨j', rfl⟩ : ∃ j', j = j' + 1 := ⟨j - 1, by omega⟩
      subst hs
      refine ⟨{ p1 := pointAt pts (idx (j' + 1)),
                length := chordLength norm pts idx (j' + 1), texList := tex }, ?_, ?_⟩
      · simp only [texLengthBody, getElem?_pointAt pts (idx (j' + 1)) (h _ (by omega)),
          Nat.add_sub_cancel]
        rfl
      · simp only [Nat.add_sub_cancel])
  obtain ⟨s1, h1, h2⟩ := key
  rw [h1, h2]
  simp only [Nat.add_sub_cancel_left]

/-- The loop of `gridTexCoord` that writes the second coordinate along a
row. -/
theorem texRowWrite_loop {K : Type} [LinearOrderedField K] (norm : Vector3 K → K)
    (pts : List (Vector3 K)) (gh u : Nat) (total : K) (n : Nat) (tex0 : List (Vector2 K))
    (hidx : ∀ k, k ≤ n → u * gh + k < pts.length) (hlen : u * gh + n < tex0.length)
    (h0 : tex0[u * gh]? = some { x := 0, y := 0 }) :
    ∃ s, forLoop (texRowWriteBody norm pts gh u total) 1 n
        { p1 := pointAt pts (u * gh), length := 0, texList := tex0 } = some s ∧
      s.texList.length = tex0.length ∧
      (∀ i, i < u * gh → s.texList[i]? = tex0[i]?) ∧
      (∀ k, k ≤ n → s.texList[u * gh + k]?
        = some { x := 0, y := chordLength norm pts (fun v => u * gh + v) k / total }) := by
  have key := forLoop_inv (texRowWriteBody norm pts gh u total)
    (fun j s =>
      s.p1 = pointAt pts (u * gh + (j - 1)) ∧
      s.length = chordLength norm pts (fun v => u * gh + v) (j - 1) ∧
      s.texList.length = tex0.length ∧
      (∀ i, i < u * gh → s.texList[i]? = tex0[i]?) ∧
      (∀ k, k < j → s.texList[u * gh + k]?
        = some { x := 0, y := chordLength norm pts (fun v => u * gh + v) k / total }))
    n 1 { p1 := pointAt pts (u * gh), length := 0, texList := tex0 }
    (by
      refine ⟨rfl, rfl, rfl, fun _ _ => rfl, ?_⟩
      intro k hk
      have : k = 0 := by omega
      subst this
      show tex0[u * gh]? = _
      rw [h0]
      simp [chordLength])
    (by
      intro j s hj1 hj2 ⟨i1, i2, i3, i4, i5⟩
      obtain ⟨j', rfl⟩ : ∃ j', j = j' + 1 := ⟨j - 1, by omega⟩
      simp only [Nat.add_sub_cancel] at i1 i2
      have hp := getElem?_pointAt pts (u * gh + (j' + 1)) (hidx _ (by omega))
      have hlt : u * gh + (j' + 1) < s.texList.length := by rw [i3]; omega
      have hbody : texRowWriteBody norm pts gh u total (j' + 1) s = some
          { p1 := pointAt pts (u * gh + (j' + 1)),
            length := chordLength norm pts (fun v => u * gh + v) (j' + 1),
            texList := s.texList.set (u * gh + (j' + 1))
              { x := 0, y := chordLength norm pts (fun v => u * gh + v) (j' + 1) / total } } := by
        simp only [texRowWriteBody, hp, hlt, if_true, i1, i2]
        rfl
      refine ⟨_, hbody, ?_, ?_, ?_, ?_, ?_⟩
      · simp only [Nat.add_sub_cancel]
      · simp only [Nat.add_sub_cancel]
      · show (s.texList.set _ _).length = _
        rw [List.length_set]; exact i3
      · intro i hi
        show (s.texList.set _ _)[i]? = _
        rw [List.getElem?_set, if_neg (by omega)]
        exact i4 i hi
      · intro k hk
        show (s.texList.set _ _)[u * gh + k]? = _
        rw [List.getElem?_set]
        by_cases hkj : k = j' + 1
        · subst hkj
          rw [if_pos rfl, if_pos hlt]
        · rw [if_neg (by omega)]
          exact i5 k (by omega))
  obtain ⟨s, hs, -, -, h3, h4, h5⟩ := key
  exact ⟨s, hs, h3, h4, fun k hk => h5 k (by omega)⟩

/-- The first loop of `gridTexCoord`: every entry gets a first coordinate 0 and
the chord length along its row, divided by the length of the row, as second
coordinate. -/
theorem texRows_loop {K : Type} [LinearOrderedField K] (norm : Vector3 K → K)
    (pts : List (Vector3 K)) (gw gh : Nat) (tex0 : List (Vector2 K)) (hh : 1 ≤ gh)
    (hpts : pts.length = gw * gh) (htex : tex0.length = gw * gh) :
    ∃ tex, forLoop (texRowBody norm pts gh) 0 gw tex0 = some tex ∧
      tex.length = gw * gh ∧
      ∀ u, u < gw → ∀ v, v < gh → tex[u * gh + v]?
        = some { x := 0,
                 y := chordLength norm pts (fun v => u * gh + v) v
                      / chordLength norm pts (fun v => u * gh + v) (gh - 1) } := by
  have key := forLoop_inv (texRowBody norm pts gh)
    (fun u tex =>
      tex.length = gw * gh ∧
      ∀ u', u' < u → ∀ v, v < gh → tex[u' * gh + v]?
        = some { x := 0,
                 y := chordLength norm pts (fun v => u' * gh + v) v
                      / chordLength norm pts (fun v => u' * gh + v) (gh - 1) })
    gw 0 tex0 ⟨htex, fun u' hu' => absurd hu' (by omega)⟩
    (by
      intro u tex _ hu ⟨i1, i2⟩
      have hu' : u < gw := by omega
      have hrow : ∀ k, k ≤ gh - 1 → u * gh + k < gw * gh :=
        fun k hk => grid_index_lt gw gh u k hu' (by omega)
      have h0 := hrow 0 (by omega)
      have hp := getElem?_pointAt pts (u * gh) (by rw [hpts]; exact h0)
      have hlt : u * gh < tex.length := by rw [i1]; exact h0
      have hl1 := texLength_loop norm pts (fun v => u * gh + v) (gh - 1)
        (tex.set (u * gh) { x := 0, y := 0 }) (fun k hk => by rw [hpts]; exact hrow k hk)
      obtain ⟨s2, hl2, w1, w2, w3⟩ :=
        texRowWrite_loop norm pts gh u (chordLength norm pts (fun v => u * gh + v) (gh - 1))
          (gh - 1) (tex.set (u * gh) { x := 0, y := 0 })
          (fun k hk => by rw [hpts]; exact hrow k hk)
          (by rw [List.length_set, i1]; exact hrow _ (le_refl _))
          (by rw [List.getElem?_set, if_pos rfl, if_pos hlt])
      have hbody : texRowBody norm pts gh u tex = some s2.texList := by
        simp only [texRowBody, hp, hlt, if_true]
        have hl1' : forLoop (texLengthBody norm pts (fun v => u * gh + v)) 1 (gh - 1)
            { p1 := pointAt pts (u * gh), length := 0,
              texList := tex.set (u * gh) { x := 0, y := 0 } }
            = some { p1 := pointAt pts (u * gh + (gh - 1)),
                     length := chordLength norm pts (fun v => u * gh + v) (gh - 1),
                     texList := tex.set (u * gh) { x := 0, y := 0 } } := hl1
        rw [hl1']
        simp only [hl2]
      refine ⟨_, hbody, ?_, ?_⟩
      · rw [w1, List.length_set]; exact i1
      · intro u' hu1 v hv
        by_cases hlast : u' = u
        · subst hlast
          exact w3 v (by omega)
        · have hlt' : u' * gh + v < u * gh := by
            have := Nat.mul_le_mul_right gh (show u' + 1 ≤ u by omega)
            rw [Nat.succ_mul] at this
            omega
          rw [w2 _ hlt', List.getElem?_set, if_neg (by omega)]
          exact i2 u' (by omega) v hv)
  obtain ⟨tex, hs, h1, h2⟩ := key
  simp only [Nat.zero_add] at hs h2
  exact ⟨tex, hs, h1, h2⟩

/-- The loop of `gridTexCoord` that writes the first coordinate along column
`v`: the entries of the column get the chord length along the column divided
by `total`, the other coordinates are left as they are. -/
theorem texColWrite_loop {K : Type} [LinearOrderedField K] (norm : Vector3 K → K)
    (pts : List (Vector3 K)) (gw gh v : Nat) (total : K) (tex0 : List (Vector2 K))
    (X Y : Nat → Nat → K) (hw : 1 ≤ gw) (hv : v < gh)
    (hpts : pts.length = gw * gh) (htex : tex0.length = gw * gh)
    (h0 : ∀ u, u < gw → ∀ v', v' < gh → tex0[u * gh + v']?
      = some { x := if v' < v then X u v' else 0, y := Y u v' }) :
    ∃ s, forLoop (texColWriteBody norm pts gh v total) 1 (gw - 1)
        { p1 := pointAt pts v, length := 0, texList := tex0 } = some s ∧
      s.texList.length = gw * gh ∧
      ∀ u, u < gw → ∀ v', v' < gh → s.texList[u * gh + v']?
        = some { x := if v' < v then X u v'
                      else if v' = v then
                        chordLength norm pts (fun u => u * gh + v) u / total
                      else 0,
                 y := Y u v' } := by
  have key := forLoop_inv (texColWriteBody norm pts gh v total)
    (fun j s =>
      s.p1 = pointAt pts ((j - 1) * gh + v) ∧
      s.length = chordLength norm pts (fun u => u * gh + v) (j - 1) ∧
      s.texList.length = gw * gh ∧
      ∀ u, u < gw → ∀ v', v' < gh → s.texList[u * gh + v']?
        = some { x := if v' < v then X u v'
                      else if v' = v ∧ u < j then
                        chordLength norm pts (fun u => u * gh + v) u / total
                      else 0,
                 y := Y u v' })
    (gw - 1) 1 { p1 := pointAt pts v, length := 0, texList := tex0 }
    (by
      refine ⟨by simp, rfl, htex, ?_⟩
      intro u hu v' hv'
      rw [h0 u hu v' hv']
      by_cases h1 : v' < v
      · rw [if_pos h1, if_pos h1]
      · by_cases h2 : v' = v ∧ u < 1
        · have hu0 : u = 0 := by omega
          rw [if_neg h1, if_neg h1, if_pos h2, hu0]
          simp [chordLength]
        · rw [if_neg h1, if_neg h1, if_neg h2])
    (by
      intro j s hj1 hj2 ⟨i1, i2, i3, i4⟩
      obtain ⟨j', rfl⟩ : ∃ j', j = j' + 1 := ⟨j - 1, by omega⟩
      simp only [Nat.add_sub_cancel] at i1 i2
      have hjw : j' + 1 < gw := by omega
      have hidx := grid_index_lt gw gh (j' + 1) v hjw hv
      have hp := getElem?_pointAt pts ((j' + 1) * gh + v) (by rw [hpts]; exact hidx)
      have hcur := i4 (j' + 1) hjw v hv
      simp only [lt_irrefl, if_false, and_false] at hcur
      have hcomm : v + (j' + 1) * gh = (j' + 1) * gh + v := Nat.add_comm _ _
      have hlt : (j' + 1) * gh + v < s.texList.length := by rw [i3]; exact hidx
      have hbody : texColWriteBody norm pts gh v total (j' + 1) s = some
          { p1 := pointAt pts ((j' + 1) * gh + v),
            length := chordLength norm pts (fun u => u * gh + v) (j' + 1),
            texList := s.texList.set ((j' + 1) * gh + v)
              { x := chordLength norm pts (fun u => u * gh + v) (j' + 1) / total,
                y := Y (j' + 1) v } } := by
        simp only [texColWriteBody, hp, hcomm, hcur, i1, i2]
        rfl
      refine ⟨_, hbody, ?_, ?_, ?_, ?_⟩
      · simp only [Nat.add_sub_cancel]
      · simp only [Nat.add_sub_cancel]
      · show (s.texList.set _ _).length = _
        rw [List.length_set]; exact i3
      · intro u hu v' hv'
        show (s.texList.set _ _)[u * gh + v']? = _
        rw [List.getElem?_set]
        by_cases hsame : (j' + 1) * gh + v = u * gh + v'
        · obtain ⟨e1, e2⟩ := grid_index_inj gh (j' + 1) v u v' hv hv' hsame
          subst e1; subst e2
          rw [if_pos rfl, if_pos hlt]
          simp
        · rw [if_neg hsame, i4 u hu v' hv']
          by_cases h1 : v' < v
          · simp [h1]
          · by_cases h2 : v' = v
            · subst h2
              have hne : u ≠ j' + 1 := fun h => hsame (by rw [h])
              by_cases h3 : u < j' + 1
              · have h3' : u < j' + 1 + 1 := by omega
                simp [h3, h3']
              · have h3' : ¬ u < j' + 1 + 1 := by omega
                simp [h3, h3']
            · simp [h1, h2])
  obtain ⟨s, hs, -, -, h3, h4⟩ := key
  refine ⟨s, hs, h3, ?_⟩
  intro u hu v' hv'
  rw [h4 u hu v' hv']
  have e : 1 + (gw - 1) = gw := by omega
  rw [e]
  by_cases h1 : v' < v
  · simp [h1]
  · by_cases h2 : v' = v
    · simp [h1, h2, hu]
    · simp [h1, h2]

/-- The second loop of `gridTexCoord`: every entry gets, as first coordinate,
the chord length along its column divided by the length of the column. -/
theorem texCols_loop {K : Type} [LinearOrderedField K] (norm : Vector3 K → K)
    (pts : List (Vector3 K)) (gw gh : Nat) (tex0 : List (Vector2 K)) (Y : Nat → Nat → K)
    (hw : 1 ≤ gw) (hpts : pts.length = gw * gh) (htex : tex0.length = gw * gh)
    (h0 : ∀ u, u < gw → ∀ v, v < gh → tex0[u * gh + v]? = some { x := 0, y := Y u v }) :
    ∃ tex, forLoop (texColBody norm pts gw gh) 0 gh tex0 = some tex ∧
      tex.length = gw * gh ∧
      ∀ u, u < gw → ∀ v, v < gh → tex[u * gh + v]?
        = some { x := chordLength norm pts (fun u => u * gh + v) u
                      / chordLength norm pts (fun u => u * gh + v) (gw - 1),
                 y := Y u v } := by
  have key := forLoop_inv (texColBody norm pts gw gh)
    (fun v tex =>
      tex.length = gw * gh ∧
      ∀ u, u < gw → ∀ v', v' < gh → tex[u * gh + v']?
        = some { x := if v' < v then
                        chordLength norm pts (fun u => u * gh + v') u
                          / chordLength norm pts (fun u => u * gh + v') (gw - 1)
                      else 0,
                 y := Y u v' })
    gh 0 tex0
    (by
      refine ⟨htex, ?_⟩
      intro u hu v hv
      rw [h0 u hu v hv]
      simp)
    (by
      intro v tex _ hv ⟨i1, i2⟩
      have hv' : v < gh := by omega
      have hcol : ∀ k, k ≤ gw - 1 → k * gh + v < gw * gh :=
        fun k hk => grid_index_lt gw gh k v (by omega) hv'
      have h00 := hcol 0 (by omega)
      rw [Nat.zero_mul, Nat.zero_add] at h00
      have hp := getElem?_pointAt pts v (by rw [hpts]; exact h00)
      have hl1 := texLength_loop norm pts (fun u => u * gh + v) (gw - 1) tex
        (fun k hk => by rw [hpts]; exact hcol k hk)
      have e0 : pointAt pts ((fun u => u * gh + v) 0) = pointAt pts v := by
        show pointAt pts (0 * gh + v) = _
        rw [Nat.zero_mul, Nat.zero_add]
      rw [e0] at hl1
      obtain ⟨s2, hl2, w1, w2⟩ :=
        texColWrite_loop norm pts gw gh v
          (chordLength norm pts (fun u => u * gh + v) (gw - 1)) tex
          (fun u v' => chordLength norm pts (fun u => u * gh + v') u
            / chordLength norm pts (fun u => u * gh + v') (gw - 1))
          Y hw hv' hpts i1 i2
      have hbody : texColBody norm pts gw gh v tex = some s2.texList := by
        simp only [texColBody, hp, hl1, hl2]
      refine ⟨_, hbody, w1, ?_⟩
      intro u hu v' hv1
      rw [w2 u hu v' hv1]
      by_cases h1 : v' < v
      · have h1' : v' < v + 1 := by omega
        simp [h1, h1']
      · by_cases h2 : v' = v
        · subst h2
          simp
        · have h1' : ¬ v' < v + 1 := by omega
          simp [h1, h2, h1'])
  obtain ⟨tex, hs, h1, h2⟩ := key
  simp only [Nat.zero_add] at hs h2
  refine ⟨tex, hs, h1, ?_⟩
  intro u hu v hv
  rw [h2 u hu v hv, if_pos hv]

/-- The entries of the array returned by `gridTexCoord` for a grid of `gw` rows
of `gh` points. -/
theorem gridTexCoord_entries {K : Type} [LinearOrderedField K] (norm : Vector3 K → K)
    (dflt : Vector2 K) (pts : List (Vector3 K)) (gw gh : Nat) (hw : 1 ≤ gw) (hh : 1 ≤ gh)
    (hpts : pts.length = gw * gh) (hint : gw * gh < 2147483648) :
    ∃ tex, gridTexCoord norm dflt pts gw gh = some tex ∧
      tex.length = gw * gh ∧
      ∀ u, u < gw → ∀ v, v < gh → tex[u * gh + v]?
        = some { x := chordLength norm pts (fun u => u * gh + v) u
                      / chordLength norm pts (fun u => u * gh + v) (gw - 1),
                 y := chordLength norm pts (fun v => u * gh + v) v
                      / chordLength norm pts (fun v => u * gh + v) (gh - 1) } := by
  obtain ⟨tex1, h1, l1, e1⟩ :=
    texRows_loop norm pts gw gh (List.replicate (gw * gh) dflt) hh hpts (by simp)
  obtain ⟨tex2, h2, l2, e2⟩ :=
    texCols_loop norm pts gw gh tex1
      (fun u v => chordLength norm pts (fun v => u * gh + v) v
        / chordLength norm pts (fun v => u * gh + v) (gh - 1)) hw hpts l1 e1
  refine ⟨tex2, ?_, l2, e2⟩
  have hn : ¬ (2147483648 ≤ gw * gh) := by omega
  simp only [gridTexCoord, hn, if_false, h1]
  exact h2

/-- C30: for a grid of `gw` rows of `gh` points (`gw, gh ≥ 2`, `gw * gh` fitting
an `int`), point `(u, v)` at index `u * gh + v`, with a norm that is never
negative and rows and columns of positive total chord length (exact
arithmetic), `gridTexCoord` is defined and returns `gw * gh` texture
coordinates; the entry at index `u * gh + v` is
`(C_v(u) / C_v(gw - 1), L_u(v) / L_u(gh - 1))`, `L_u` being the cumulative chord
length along row `u` and `C_v` along column `v`, both 0 at index 0; so every
coordinate lies between 0 and 1, is 0 at index 0 and 1 at the last index of
its row or column. -/
theorem grid_tex_coord_arc_length {K : Type} [LinearOrderedField K] (norm : Vector3 K → K)
    (dflt : Vector2 K) (pts : List (Vector3 K)) (gw gh : Nat) (hw : 2 ≤ gw) (hh : 2 ≤ gh)
    (hpts : pts.length = gw * gh) (hint : gw * gh < 2147483648)
    (hnorm : ∀ v, 0 ≤ norm v)
    (hrow : ∀ u, u < gw → 0 < chordLength norm pts (fun v => u * gh + v) (gh - 1))
    (hcol : ∀ v, v < gh → 0 < chordLength norm pts (fun u => u * gh + v) (gw - 1)) :
    ∃ tex, gridTexCoord norm dflt pts gw gh = some tex ∧
      tex.length = gw * gh ∧
      ∀ u, u < gw → ∀ v, v < gh → ∃ t, tex[u * gh + v]? = some t ∧
        t.x = chordLength norm pts (fun u => u * gh + v) u
              / chordLength norm pts (fun u => u * gh + v) (gw - 1) ∧
        t.y = chordLength norm pts (fun v => u * gh + v) v
              / chordLength norm pts (fun v => u * gh + v) (gh - 1) ∧
        0 ≤ t.x ∧ t.x ≤ 1 ∧ 0 ≤ t.y ∧ t.y ≤ 1 ∧
        (u = 0 → t.x = 0) ∧ (u = gw - 1 → t.x = 1) ∧
        (v = 0 → t.y = 0) ∧ (v = gh - 1 → t.y = 1) := by
  obtain ⟨tex, h1, h2, h3⟩ :=
    gridTexCoord_entries norm dflt pts gw gh (by omega) (by omega) hpts hint
  refine ⟨tex, h1, h2, ?_⟩
  intro u hu v hv
  have hc := hcol v hv
  have hr := hrow u hu
  refine ⟨_, h3 u hu v hv, rfl, rfl, ?_, ?_, ?_, ?_, ?_, ?_, ?_, ?_⟩
  · exact div_nonneg (chordLength_nonneg norm hnorm pts _ _) (le_of_lt hc)
  · exact (div_le_one hc).mpr (chordLength_mono norm hnorm pts _ _ _ (by omega))
  · exact div_nonneg (chordLength_nonneg norm hnorm pts _ _) (le_of_lt hr)
  · exact (div_le_one hr).mpr (chordLength_mono norm hnorm pts _ _ _ (by omega))
  · intro h0
    subst h0
    show chordLength norm pts _ 0 / _ = 0
    simp [chordLength]
  · intro h0
    subst h0
    exact div_self (ne_of_gt hc)
  · intro h0
    subst h0
    show chordLength norm pts _ 0 / _ = 0
    simp [chordLength]
  · intro h0
    subst h0
    exact div_self (ne_of_gt hr)

/-- C30, at the grid of 2 rows of 2 points (0,0,0), (1,0,0), (0,1,0), (1,1,0)
over the rationals. -/
theorem grid_tex_coord_arc_length_witness :
    (2 ≤ 2 ∧ ([⟨0, 0, 0⟩, ⟨1, 0, 0⟩, ⟨0, 1, 0⟩, ⟨1, 1, 0⟩] : List (Vector3 ℚ)).length = 2 * 2 ∧
      2 * 2 < 2147483648 ∧ (∀ v, 0 ≤ axisNorm v) ∧
      (∀ u, u < 2 → 0 < chordLength axisNorm
        [⟨0, 0, 0⟩, ⟨1, 0, 0⟩, ⟨0, 1, 0⟩, ⟨1, 1, 0⟩] (fun v => u * 2 + v) (2 - 1)) ∧
      (∀ v, v < 2 → 0 < chordLength axisNorm
        [⟨0, 0, 0⟩, ⟨1, 0, 0⟩, ⟨0, 1, 0⟩, ⟨1, 1, 0⟩] (fun u => u * 2 + v) (2 - 1))) ∧
    ∃ tex, gridTexCoord axisNorm ⟨0, 0⟩ [⟨0, 0, 0⟩, ⟨1, 0, 0⟩, ⟨0, 1, 0⟩, ⟨1, 1, 0⟩] 2 2
        = some tex ∧
      tex.length = 2 * 2 ∧
      ∀ u, u < 2 → ∀ v, v < 2 → ∃ t, tex[u * 2 + v]? = some t ∧
        t.x = chordLength axisNorm [⟨0, 0, 0⟩, ⟨1, 0, 0⟩, ⟨0, 1, 0⟩, ⟨1, 1, 0⟩]
                (fun u => u * 2 + v) u
              / chordLength axisNorm [⟨0, 0, 0⟩, ⟨1, 0, 0⟩, ⟨0, 1, 0⟩, ⟨1, 1, 0⟩]
                (fun u => u * 2 + v) (2 - 1) ∧
        t.y = chordLength axisNorm [⟨0, 0, 0⟩, ⟨1, 0, 0⟩, ⟨0, 1, 0⟩, ⟨1, 1, 0⟩]
                (fun v => u * 2 + v) v
              / chordLength axisNorm [⟨0, 0, 0⟩, ⟨1, 0, 0⟩, ⟨0, 1, 0⟩, ⟨1, 1, 0⟩]
                (fun v => u * 2 + v) (2 - 1) ∧
        0 ≤ t.x ∧ t.x ≤ 1 ∧ 0 ≤ t.y ∧ t.y ≤ 1 ∧
        (u = 0 → t.x = 0) ∧ (u = 2 - 1 → t.x = 1) ∧
        (v = 0 → t.y = 0) ∧ (v = 2 - 1 → t.y = 1) :=
  have hnorm : ∀ v : Vector3 ℚ, 0 ≤ axisNorm v := fun v =>
    add_nonneg (add_nonneg (abs_nonneg _) (abs_nonneg _)) (abs_nonneg _)
  have hrow : ∀ u, u < 2 → 0 < chordLength axisNorm
      [⟨0, 0, 0⟩, ⟨1, 0, 0⟩, ⟨0, 1, 0⟩, ⟨1, 1, 0⟩] (fun v => u * 2 + v) (2 - 1) := by
    intro u hu
    interval_cases u <;> norm_num [chordLength, pointAt, axisNorm, Vector3.sub]
  have hcol : ∀ v, v < 2 → 0 < chordLength axisNorm
      [⟨0, 0, 0⟩, ⟨1, 0, 0⟩, ⟨0, 1, 0⟩, ⟨1, 1, 0⟩] (fun u => u * 2 + v) (2 - 1) := by
    intro v hv
    interval_cases v <;> norm_num [chordLength, pointAt, axisNorm, Vector3.sub]
  ⟨⟨by decide, rfl, by decide, hnorm, hrow, hcol⟩,
    grid_tex_coord_arc_length axisNorm ⟨0, 0⟩ [⟨0, 0, 0⟩, ⟨1, 0, 0⟩, ⟨0, 1, 0⟩, ⟨1, 1, 0⟩] 2 2
      (by decide) (by decide) rfl (by decide) hnorm hrow hcol⟩

/-! ## Corners of the quads and samples of the last column (C35, C36) -/

/-- C35: for the Bezier patch of strides 2 and 3 the kernel builds 6 points,
written at 0, ..., 5, row after row (3 points per row), and the two quads
`(0, 1, 3, 2)` and `(1, 2, 4, 3)`, whereas the cells `(0, 0)` and `(0, 1)` of the
grid have the corners `(0, 1, 4, 3)` and `(1, 2, 5, 4)`: the kernel adds
`_uStride` to `_cur` to reach the next row, and a row holds `_vStride` points. -/
theorem bezier_quad_corners_use_u_stride {R : Type} (ops : RealOps R)
    (getPointAt : R → R → Vector3 R) :
    ∃ s, bezierPatchKernel ops getPointAt 2 3 = some s ∧
      s.pointList.positions = List.range (2 * 3) ∧
      s.indexList.values
        = [{ i0 := 0, i1 := 1, i2 := 3, i3 := 2 }, { i0 := 1, i1 := 2, i2 := 4, i3 := 3 }] ∧
      [gridQuad 3 0 0, gridQuad 3 0 1]
        = [{ i0 := 0, i1 := 1, i2 := 4, i3 := 3 }, { i0 := 1, i1 := 2, i2 := 5, i3 := 4 }] ∧
      s.indexList.values ≠ [gridQuad 3 0 0, gridQuad 3 0 1] := by
  refine ⟨_, rfl, rfl, rfl, rfl, ?_⟩
  intro h
  have h2 : ([{ i0 := 0, i1 := 1, i2 := 3, i3 := 2 }, { i0 := 1, i1 := 2, i2 := 4, i3 := 3 }] :
      List Index4) = [gridQuad 3 0 0, gridQuad 3 0 1] := h
  exact absurd h2 (by decide)

/-- C36: for the NURBS patch of strides 2 and 2 and of knot ranges `[2, 3]` and
`[2, 3]` whose point at `(u, v)` is `(u, v, 0)`, in exact arithmetic, the four
points are written at 0, 1, 2, 3 and the point of the grid position `(0, 1)`
(index 1) is the patch at the parameters `(0, 1)`, not at `(2, 3)`: the kernel
samples the last point of a row at `(_u / _uStride1, 1.0)`, without the knot
ranges it uses for the other points. -/
theorem nurbs_row_end_ignores_knot_range (cos sin : ℚ → ℚ) (pi : ℚ) :
    ∃ s, nurbsPatchKernel (exactReal ℚ cos sin pi) planePatch 2 3 2 3 2 2 = some s ∧
      s.pointList.positions = List.range (2 * 2) ∧
      s.pointList.values
        = [{ x := 2, y := 2, z := 0 }, { x := 0, y := 1, z := 0 },
           { x := 3, y := 2, z := 0 }, { x := 3, y := 3, z := 0 }] ∧
      planePatch ((2 : ℚ) + 0 * (3 - 2) / (2 - 1)) (2 + 1 * (3 - 2) / (2 - 1))
        = { x := 2, y := 3, z := 0 } ∧
      s.pointList.values[0 * 2 + 1]?
        ≠ some (planePatch ((2 : ℚ) + 0 * (3 - 2) / (2 - 1)) (2 + 1 * (3 - 2) / (2 - 1))) := by
  refine ⟨_, rfl, rfl, ?_, ?_, ?_⟩
  · norm_num [Buffer.values, Buffer.setAt, Buffer.new, planePatch, exactReal, sub32]
  · norm_num [planePatch]
  · norm_num [Buffer.values, Buffer.setAt, Buffer.new, planePatch, exactReal, sub32]

/-! ## Texture coordinates of the sphere (C31, C37) -/

/-- The loop over the rings of a column of texture coordinates: `m` entries
written at consecutive positions, ring `j` (from 1) with `v = j / (stacks + 1)`. -/
theorem sphereTexRing_loop {R : Type} (ops : RealOps R) (nbStacks : Nat) (sCoord : R)
    (m pc : Nat) (s0 : SphereTexState R) (hpc : s0.pointCount = pc)
    (hpp : s0.texList.positions = List.range pc) (b1 : pc + m < 4294967296) :
    ∃ s1, forLoop (sphereTexRingBody ops nbStacks sCoord) 1 m s0 = some s1 ∧
      s1.pointCount = pc + m ∧ s1.texList.size = s0.texList.size ∧
      s1.texList.positions = List.range (pc + m) ∧
      s1.texList.values = s0.texList.values ++ (List.range m).map (fun j =>
        ({ x := sCoord, y := ops.div (ops.ofNat (j + 1)) (ops.ofNat (nbStacks + 1)) } :
          Vector2 R)) := by
  have key := forLoop_inv (sphereTexRingBody ops nbStacks sCoord)
    (fun j s =>
      s.pointCount = pc + (j - 1) ∧ s.texList.size = s0.texList.size ∧
      s.texList.positions = List.range (pc + (j - 1)) ∧
      s.texList.values = s0.texList.values ++ (List.range (j - 1)).map (fun j =>
        ({ x := sCoord, y := ops.div (ops.ofNat (j + 1)) (ops.ofNat (nbStacks + 1)) } :
          Vector2 R)))
    m 1 s0
    (by simp [hpc, hpp])
    (by
      intro j s hj1 hj2 ⟨i1, i2, i3, i4⟩
      have hj : j - 1 + 1 = j := by omega
      have hj' : j + 1 - 1 = j - 1 + 1 := by omega
      refine ⟨_, rfl, ?_, i2, ?_, ?_⟩
      · show u32 (s.pointCount + 1) = pc + (j + 1 - 1)
        rw [i1, hj']; exact u32_of_lt (by omega)
      · show (s.texList.setAt s.pointCount _).positions = List.range (pc + (j + 1 - 1))
        rw [i1, hj']; exact Buffer.positions_setAt_range _ _ _ i3
      · show (s.texList.setAt s.pointCount _).values = _
        rw [Buffer.values_setAt, i4, hj', List.range_succ, List.map_append, List.append_assoc,
          List.map_singleton, hj])
  obtain ⟨s1, h, a1, a2, a3, a4⟩ := key
  have e : 1 + m - 1 = m := by omega
  rw [e] at a1 a3 a4
  exact ⟨s1, h, a1, a2, a3, a4⟩

/-- The loop over the columns of texture coordinates: `n` columns of
`nbStacks - 1` entries. -/
theorem sphereTexColumn_loop {R : Type} (ops : RealOps R) (slices nbStacks n : Nat)
    (s0 : SphereTexState R) (hpc : s0.pointCount = 0)
    (hpp : s0.texList.writes = []) (b1 : n * (nbStacks - 1) < 4294967296) :
    ∃ s1, forLoop (sphereTexColumnBody ops slices nbStacks) 0 n s0 = some s1 ∧
      s1.pointCount = n * (nbStacks - 1) ∧ s1.texList.size = s0.texList.size ∧
      s1.texList.positions = List.range (n * (nbStacks - 1)) ∧
      s1.texList.values = (List.range n).flatMap (fun i =>
        (List.range (nbStacks - 1)).map (fun j =>
          ({ x := ops.div (ops.ofNat i) (ops.ofNat slices),
             y := ops.div (ops.ofNat (j + 1)) (ops.ofNat (nbStacks + 1)) } : Vector2 R))) := by
  have key := forLoop_inv (sphereTexColumnBody ops slices nbStacks)
    (fun i s =>
      s.pointCount = i * (nbStacks - 1) ∧ s.texList.size = s0.texList.size ∧
      s.texList.positions = List.range (i * (nbStacks - 1)) ∧
      s.texList.values = (List.range i).flatMap (fun i =>
        (List.range (nbStacks - 1)).map (fun j =>
          ({ x := ops.div (ops.ofNat i) (ops.ofNat slices),
             y := ops.div (ops.ofNat (j + 1)) (ops.ofNat (nbStacks + 1)) } : Vector2 R))))
    n 0 s0
    (by simp [hpc, hpp, Buffer.positions, Buffer.values])
    (by
      intro i s _ hi ⟨i1, i2, i3, i4⟩
      have hi' : i + 1 ≤ n := by omega
      have hA : i * (nbStacks - 1) + (nbStacks - 1) ≤ n * (nbStacks - 1) := by
        have := Nat.mul_le_mul_right (nbStacks - 1) hi'
        rwa [Nat.succ_mul] at this
      have hsucc : (i + 1) * (nbStacks - 1) = i * (nbStacks - 1) + (nbStacks - 1) :=
        Nat.succ_mul i (nbStacks - 1)
      obtain ⟨s1, hloop, c1, c2, c3, c4⟩ :=
        sphereTexRing_loop ops nbStacks (ops.div (ops.ofNat i) (ops.ofNat slices))
          (nbStacks - 1) (i * (nbStacks - 1)) s i1 i3 (by omega)
      refine ⟨s1, hloop, ?_, ?_, ?_, ?_⟩
      · rw [c1, hsucc]
      · rw [c2]; exact i2
      · rw [c3, hsucc]
      · rw [c4, i4, List.range_succ, List.flatMap_append]
        simp)
  obtain ⟨s1, h, a1, a2, a3, a4⟩ := key
  simp only [Nat.zero_add] at h a1 a3 a4
  exact ⟨s1, h, a1, a2, a3, a4⟩

/-- The loop that writes the row of a pole: `n` entries at consecutive
positions. -/
theorem sphereTexPole_loop {R : Type} (ops : RealOps R) (slices v n pc : Nat)
    (s0 : SphereTexState R) (hpc : s0.pointCount = pc)
    (hpp : s0.texList.positions = List.range pc) (b1 : pc + n < 4294967296) :
    ∃ s1, forLoop (sphereTexPoleBody ops slices v) 0 n s0 = some s1 ∧
      s1.pointCount = pc + n ∧ s1.texList.size = s0.texList.size ∧
      s1.texList.positions = List.range (pc + n) ∧
      s1.texList.values = s0.texList.values ++ (List.range n).map (fun i =>
        ({ x := ops.div (ops.ofNat i) (ops.ofNat slices), y := ops.ofNat v } : Vector2 R)) := by
  have key := forLoop_inv (sphereTexPoleBody ops slices v)
    (fun i s =>
      s.pointCount = pc + i ∧ s.texList.size = s0.texList.size ∧
      s.texList.positions = List.range (pc + i) ∧
      s.texList.values = s0.texList.values ++ (List.range i).map (fun i =>
        ({ x := ops.div (ops.ofNat i) (ops.ofNat slices), y := ops.ofNat v } : Vector2 R)))
    n 0 s0
    (by simp [hpc, hpp])
    (by
      intro i s _ hi ⟨i1, i2, i3, i4⟩
      refine ⟨_, rfl, ?_, i2, ?_, ?_⟩
      · show u32 (s.pointCount + 1) = pc + (i + 1)
        rw [i1]; exact u32_of_lt (by omega)
      · show (s.texList.setAt s.pointCount _).positions = List.range (pc + (i + 1))
        rw [i1]; exact Buffer.positions_setAt_range _ _ _ i3
      · show (s.texList.setAt s.pointCount _).values = _
        rw [Buffer.values_setAt, i4, List.range_succ, List.map_append, List.append_assoc,
          List.map_singleton])
  obtain ⟨s1, h, a1, a2, a3, a4⟩ := key
  simp only [Nat.zero_add] at h a1 a3 a4
  exact ⟨s1, h, a1, a2, a3, a4⟩

/-- The loop over the cells between two columns of texture coordinates: it
leaves `_cur`, `_next` and the texture coordinates unchanged and writes
`2 * (ringCount - 1)` triangles at consecutive positions, with indices below
`bound` when `_cur + ringCount` and `_next + ringCount` do not exceed it. -/
theorem sphereTexCell_loop {R : Type} (rc ic : Nat) (s0 : SphereTexState R) (hrc : 1 ≤ rc)
    (hic : s0.indexCount = ic + 2)
    (hip : s0.texIndexList.positions = List.range (ic + 2))
    (b2 : ic + 2 * rc < 4294967296)
    (b3 : s0.cur + rc < 4294967296) (b4 : s0.next + rc < 4294967296) :
    ∃ s1, forLoop sphereTexCellBody 1 (rc - 1) s0 = some s1 ∧
      s1.cur = s0.cur ∧ s1.next = s0.next ∧ s1.texList = s0.texList ∧
      s1.indexCount = ic + 2 * rc ∧
      s1.texIndexList.size = s0.texIndexList.size ∧
      s1.texIndexList.positions = List.range (ic + 2 * rc) ∧
      (∀ bound, s0.cur + rc ≤ bound → s0.next + rc ≤ bound →
        (∀ t ∈ s0.texIndexList.values, t.below bound = true) →
        ∀ t ∈ s1.texIndexList.values, t.below bound = true) := by
  have key := forLoop_inv (sphereTexCellBody : Nat → SphereTexState R → _)
    (fun j s =>
      s.cur = s0.cur ∧ s.next = s0.next ∧ s.texList = s0.texList ∧
      s.indexCount = ic + 2 * j ∧
      s.texIndexList.size = s0.texIndexList.size ∧
      s.texIndexList.positions = List.range (ic + 2 * j) ∧
      (∀ bound, s0.cur + rc ≤ bound → s0.next + rc ≤ bound →
        (∀ t ∈ s0.texIndexList.values, t.below bound = true) →
        ∀ t ∈ s.texIndexList.values, t.below bound = true))
    (rc - 1) 1 s0
    ⟨rfl, rfl, rfl, hic, rfl, hip, fun _ _ _ h => h⟩
    (by
      intro j s hj1 hj2 ⟨hc, hn, htl, hi, his, hipos, hb⟩
      have hj : j < rc := by omega
      refine ⟨_, rfl, hc, hn, htl, ?_, his, ?_, ?_⟩
      · show u32 (u32 (s.indexCount + 1) + 1) = ic + 2 * (j + 1)
        have a1 : u32 (ic + 2 * j + 1) = ic + 2 * j + 1 := u32_of_lt (by omega)
        have a2 : u32 (ic + 2 * j + 1 + 1) = ic + 2 * j + 1 + 1 := u32_of_lt (by omega)
        rw [hi, a1, a2]; omega
      · show ((s.texIndexList.setAt s.indexCount _).setAt (u32 (s.indexCount + 1)) _).positions
            = List.range (ic + 2 * (j + 1))
        have a1 : u32 (ic + 2 * j + 1) = ic + 2 * j + 1 := u32_of_lt (by omega)
        rw [hi, a1]
        have p1 := Buffer.positions_setAt_range s.texIndexList (ic + 2 * j)
          { i0 := u32 (s.cur + j), i1 := sub32 (u32 (s.cur + j)) 1,
            i2 := sub32 (u32 (s.next + j)) 1 } hipos
        have p2 := Buffer.positions_setAt_range _ (ic + 2 * j + 1)
          { i0 := u32 (s.cur + j), i1 := sub32 (u32 (s.next + j)) 1,
            i2 := u32 (s.next + j) } p1
        have : ic + 2 * (j + 1) = ic + 2 * j + 1 + 1 := by omega
        rw [this]
        exact p2
      · intro bound hb1 hb2 hb0 t ht
        have hold := hb bound hb1 hb2 hb0
        have ht' : t ∈ ((s.texIndexList.setAt s.indexCount
            { i0 := u32 (s.cur + j), i1 := sub32 (u32 (s.cur + j)) 1,
              i2 := sub32 (u32 (s.next + j)) 1 }).setAt (u32 (s.indexCount + 1))
            { i0 := u32 (s.cur + j), i1 := sub32 (u32 (s.next + j)) 1,
              i2 := u32 (s.next + j) }).values := ht
        rw [Buffer.values_setAt, Buffer.values_setAt, List.append_assoc] at ht'
        rcases List.mem_append.mp ht' with h | h
        · exact hold t h
        · have e1 : u32 (s.cur + j) = s.cur + j := u32_of_lt (by omega)
          have e2 : u32 (s.next + j) = s.next + j := u32_of_lt (by omega)
          have e3 : sub32 (s.cur + j) 1 = s.cur + j - 1 := by
            unfold sub32; omega
          have e4 : sub32 (s.next + j) 1 = s.next + j - 1 := by
            unfold sub32; omega
          rw [e1, e2, e3, e4] at h
          simp only [List.singleton_append, List.mem_cons, List.mem_singleton,
            List.not_mem_nil, or_false] at h
          rcases h with h | h <;> subst h <;> rw [Index3.below_iff] <;>
            refine ⟨?_, ?_, ?_⟩ <;> dsimp only <;> omega)
  obtain ⟨s1, hs, h1, h2, h3, h4, h5, h6, h7⟩ := key
  have e : 1 + (rc - 1) = rc := by omega
  rw [e] at h4 h6
  exact ⟨s1, hs, h1, h2, h3, h4, h5, h6, h7⟩

/-- The loop over the slices of the texture triangles, for `ringCount` rings per
slice: `2 * slices * ringCount` triangles written at consecutive positions, the
texture coordinates being left as they are; every index written is below any
number that bounds `(slices + 1) * ringCount`, `_bot + slices` and
`_top + slices`. -/
theorem sphereTexSlice_loop {R : Type} (slices rc bot top : Nat) (s0 : SphereTexState R)
    (hrc : 1 ≤ rc) (hB : 2 * (slices * rc) + 2 * rc + 2 < 4294967296)
    (hbt : bot + slices < 4294967296) (htp : top + slices < 4294967296)
    (h0 : s0.cur = 0) (h1 : s0.next = rc) (h2 : s0.indexCount = 0)
    (h3 : s0.texIndexList.writes = []) :
    ∃ s, forLoop (sphereTexSliceBody rc bot top) 0 slices s0 = some s ∧
      s.texList = s0.texList ∧ s.indexCount = 2 * (slices * rc) ∧
      s.texIndexList.size = s0.texIndexList.size ∧
      s.texIndexList.positions = List.range (2 * (slices * rc)) ∧
      (∀ bound, (slices + 1) * rc ≤ bound → bot + slices ≤ bound → top + slices ≤ bound →
        ∀ t ∈ s.texIndexList.values, t.below bound = true) := by
  have key := forLoop_inv (sphereTexSliceBody rc bot top : Nat → SphereTexState R → _)
    (fun i s =>
      s.cur = i * rc ∧ s.next = i * rc + rc ∧
      s.texList = s0.texList ∧ s.indexCount = 2 * (i * rc) ∧
      s.texIndexList.size = s0.texIndexList.size ∧
      s.texIndexList.positions = List.range (2 * (i * rc)) ∧
      (∀ bound, (slices + 1) * rc ≤ bound → bot + slices ≤ bound → top + slices ≤ bound →
        ∀ t ∈ s.texIndexList.values, t.below bound = true))
    slices 0 s0
    (by
      refine ⟨by simp [h0], by simp [h1], rfl, by simp [h2], rfl,
        by simp [Buffer.positions, h3], ?_⟩
      intro bound _ _ _ t ht
      simp [Buffer.values, h3] at ht)
    (by
      intro i s _ hi ⟨hc, hn, htl, hic, his, hip, hval⟩
      have hi' : i + 1 ≤ slices := by omega
      have hA : i * rc + rc ≤ slices * rc := by
        have := Nat.mul_le_mul_right rc hi'
        rwa [Nat.succ_mul] at this
      have hsucc : (i + 1) * rc = i * rc + rc := Nat.succ_mul i rc
      have hS1 : (slices + 1) * rc = slices * rc + rc := Nat.succ_mul slices rc
      obtain ⟨s1, hloop, c1, c2, c3, c4, c5, c6, c7⟩ :=
        sphereTexCell_loop rc (2 * (i * rc))
          { s with
              texIndexList := (s.texIndexList.setAt s.indexCount
                  { i0 := s.cur, i1 := u32 (bot + i), i2 := s.next }).setAt
                (u32 (s.indexCount + 1))
                { i0 := sub32 (u32 (s.cur + rc)) 1, i1 := sub32 (u32 (s.next + rc)) 1,
                  i2 := u32 (top + i) },
              indexCount := u32 (u32 (s.indexCount + 1) + 1) }
          hrc
          (by show u32 (u32 (s.indexCount + 1) + 1) = 2 * (i * rc) + 2
              have a1 : u32 (2 * (i * rc) + 1) = 2 * (i * rc) + 1 := u32_of_lt (by omega)
              have a2 : u32 (2 * (i * rc) + 1 + 1) = 2 * (i * rc) + 2 := u32_of_lt (by omega)
              rw [hic, a1, a2])
          (by show ((s.texIndexList.setAt s.indexCount _).setAt
                  (u32 (s.indexCount + 1)) _).positions = List.range (2 * (i * rc) + 2)
              have a1 : u32 (2 * (i * rc) + 1) = 2 * (i * rc) + 1 := u32_of_lt (by omega)
              rw [hic, a1]
              exact Buffer.positions_setAt_range _ _ _
                (Buffer.positions_setAt_range _ _ _ hip))
          (by omega) (by show s.cur + rc < 4294967296; omega)
          (by show s.next + rc < 4294967296; omega)
      have hbody : sphereTexSliceBody rc bot top i s
          = some { s1 with cur := s1.next, next := u32 (s1.next + rc) } := by
        simp only [sphereTexSliceBody, hloop]
      refine ⟨_, hbody, ?_, ?_, ?_, ?_, ?_, ?_, ?_⟩
      · show s1.next = (i + 1) * rc
        rw [c2, hsucc]; exact hn
      · show u32 (s1.next + rc) = (i + 1) * rc + rc
        rw [c2, hsucc]
        show u32 (s.next + rc) = i * rc + rc + rc
        rw [hn]; exact u32_of_lt (by omega)
      · show s1.texList = s0.texList
        rw [c3]; exact htl
      · show s1.indexCount = 2 * ((i + 1) * rc)
        rw [c4, hsucc]; omega
      · show s1.texIndexList.size = s0.texIndexList.size
        rw [c5]; exact his
      · show s1.texIndexList.positions = List.range (2 * ((i + 1) * rc))
        rw [c6, hsucc]
        have : 2 * (i * rc) + 2 * rc = 2 * (i * rc + rc) := by omega
        rw [this]
      · intro bound hb1 hb2 hb3
        show ∀ t ∈ s1.texIndexList.values, t.below bound = true
        apply c7 bound
        · show s.cur + rc ≤ bound
          omega
        · show s.next + rc ≤ bound
          omega
        · intro t ht
          have ht' : t ∈ ((s.texIndexList.setAt s.indexCount
              { i0 := s.cur, i1 := u32 (bot + i), i2 := s.next }).setAt
            (u32 (s.indexCount + 1))
            { i0 := sub32 (u32 (s.cur + rc)) 1, i1 := sub32 (u32 (s.next + rc)) 1,
              i2 := u32 (top + i) }).values := ht
          rw [Buffer.values_setAt, Buffer.values_setAt, List.append_assoc] at ht'
          rcases List.mem_append.mp ht' with h | h
          · exact hval bound hb1 hb2 hb3 t h
          · have e1 : sub32 (u32 (s.cur + rc)) 1 = s.cur + rc - 1 := by
              rw [u32_of_lt (by omega)]; unfold sub32; omega
            have e2 : sub32 (u32 (s.next + rc)) 1 = s.next + rc - 1 := by
              rw [u32_of_lt (by omega)]; unfold sub32; omega
            have e3 : u32 (bot + i) = bot + i := u32_of_lt (by omega)
            have e4 : u32 (top + i) = top + i := u32_of_lt (by omega)
            rw [e1, e2, e3, e4] at h
            simp only [List.singleton_append, List.mem_cons, List.mem_singleton,
              List.not_mem_nil, or_false] at h
            rcases h with h | h <;> subst h <;> rw [Index3.below_iff] <;>
              refine ⟨?_, ?_, ?_⟩ <;> dsimp only <;> omega)
  obtain ⟨s, hs, -, -, a3, a4, a5, a6, a7⟩ := key
  simp only [Nat.zero_add] at a4 a6 hs
  exact ⟨s, hs, a3, a4, a5, a6, a7⟩

/-- The arrays of the texture part of the sphere, `n` being the value of
`_slices1`: `n` columns of `nbStacks - 1` texture coordinates, then the rows of
the two poles, all written at consecutive positions of an array of
`n * (nbStacks + 1)` slots, and `2 * slices * (nbStacks - 1)` triangles written
at consecutive positions. -/
theorem sphereTexKernel_arrays {R : Type} (ops : RealOps R) (slices nbStacks : Nat)
    (h2 : slices < 256) (h3 : 2 ≤ nbStacks) (h4 : nbStacks < 256) :
    ∃ s, sphereTexKernel ops slices nbStacks = some s ∧
      s.texList.size = (slices + 1) % 256 * (nbStacks + 1) ∧
      s.texList.positions = List.range ((slices + 1) % 256 * (nbStacks + 1)) ∧
      s.texList.values =
        (List.range ((slices + 1) % 256)).flatMap (fun i =>
          (List.range (nbStacks - 1)).map (fun j =>
            ({ x := ops.div (ops.ofNat i) (ops.ofNat slices),
               y := ops.div (ops.ofNat (j + 1)) (ops.ofNat (nbStacks + 1)) } : Vector2 R))) ++
        (List.range ((slices + 1) % 256)).map (fun i =>
          ({ x := ops.div (ops.ofNat i) (ops.ofNat slices), y := ops.ofNat 0 } : Vector2 R)) ++
        (List.range ((slices + 1) % 256)).map (fun i =>
          ({ x := ops.div (ops.ofNat i) (ops.ofNat slices), y := ops.ofNat 1 } : Vector2 R)) ∧
      s.texIndexList.size = 2 * slices * (nbStacks - 1) ∧
      s.texIndexList.positions = List.range (2 * slices * (nbStacks - 1)) ∧
      (∀ bound, (slices + 1) * (nbStacks - 1) ≤ bound →
        (slices + 1) % 256 * (nbStacks - 1) + (slices + 1) % 256 + slices ≤ bound →
        ∀ t ∈ s.texIndexList.values, t.below bound = true) := by
  have hn : (slices + 1) % 256 ≤ 255 := by omega
  have hrc : sub32 nbStacks 1 = nbStacks - 1 := by unfold sub32; omega
  have hprod : slices * (nbStacks - 1) ≤ 255 * 254 :=
    Nat.mul_le_mul (by omega) (by omega)
  have hprod2 : (slices + 1) % 256 * (nbStacks - 1) ≤ 255 * 254 :=
    Nat.mul_le_mul hn (by omega)
  have h2rc : u32 (2 * (nbStacks - 1)) = 2 * (nbStacks - 1) := u32_of_lt (by omega)
  have hisz : u32 (slices * (2 * (nbStacks - 1))) = 2 * (slices * (nbStacks - 1)) := by
    have : slices * (2 * (nbStacks - 1)) = 2 * (slices * (nbStacks - 1)) := by
      rw [Nat.mul_left_comm]
    rw [this]; exact u32_of_lt (by omega)
  have hmul : 2 * slices * (nbStacks - 1) = 2 * (slices * (nbStacks - 1)) := Nat.mul_assoc _ _ _
  have hsize : (slices + 1) % 256 * (nbStacks + 1)
      = (slices + 1) % 256 * (nbStacks - 1) + (slices + 1) % 256 + (slices + 1) % 256 := by
    have e : nbStacks + 1 = (nbStacks - 1) + 2 := by omega
    rw [e, Nat.mul_add]; omega
  obtain ⟨s1, hs1, a1, a2, a3, a4⟩ :=
    sphereTexColumn_loop ops slices nbStacks ((slices + 1) % 256)
      { cur := 0, next := 0, pointCount := 0, indexCount := 0,
        texList := Buffer.new ((slices + 1) % 256 * (nbStacks + 1)),
        texIndexList := Buffer.new 0 } rfl rfl (by omega)
  obtain ⟨s2, hs2, b1, b2, b3, b4⟩ :=
    sphereTexPole_loop ops slices 0 ((slices + 1) % 256)
      ((slices + 1) % 256 * (nbStacks - 1)) s1 a1 a3 (by omega)
  obtain ⟨s3, hs3, c1, c2, c3, c4⟩ :=
    sphereTexPole_loop ops slices 1 ((slices + 1) % 256)
      ((slices + 1) % 256 * (nbStacks - 1) + (slices + 1) % 256) s2 b1 b3 (by omega)
  obtain ⟨s4, hs4, d1, d2, d3, d4, d5⟩ :=
    sphereTexSlice_loop slices (nbStacks - 1) s1.pointCount s2.pointCount
      { s3 with
        texIndexList := Buffer.new (2 * (slices * (nbStacks - 1))),
        indexCount := 0, cur := 0, next := nbStacks - 1 }
      (by omega) (by omega) (by rw [a1]; omega) (by rw [b1]; omega) rfl rfl rfl rfl
  have hk : sphereTexKernel ops slices nbStacks = some s4 := by
    simp only [sphereTexKernel, hrc, hs1, hs2, hs3, h2rc, hisz]
    exact hs4
  refine ⟨s4, hk, ?_, ?_, ?_, ?_, ?_, ?_⟩
  · rw [d1]
    show s3.texList.size = _
    rw [c2, b2, a2]; rfl
  · rw [d1]
    show s3.texList.positions = _
    rw [c3, hsize]
  · rw [d1]
    show s3.texList.values = _
    rw [c4, b4, a4]
  · rw [d3, hmul]; rfl
  · rw [d4, hmul]
  · intro bound hb1 hb2
    apply d5 bound hb1
    · rw [a1]; omega
    · rw [b1]; exact hb2

/-- C31: for a sphere of `slices` slices and `nbStacks ≥ 2` stacks (two
`uchar_t`) the texture part is defined and writes one triangle of texture
indices per triangle of the mesh, `2 * slices * (nbStacks - 1)` of them, at the
positions 0, 1, 2, ...; up to 254 slices the array of texture coordinates has
`(slices + 1) * (nbStacks + 1)` entries, each written once, and every texture
index is smaller than that; for 255 slices `_slices1`, a `uchar_t`, is
`255 + 1` reduced modulo 256: the array of texture coordinates is empty, nothing
is written to it, and no index of any of the triangles is smaller than its
length. -/
theorem sphere_texcoords_and_slices_wraparound {R : Type} (ops : RealOps R)
    (slices nbStacks : Nat) (h1 : 1 ≤ slices) (h2 : slices < 256) (h3 : 2 ≤ nbStacks)
    (h4 : nbStacks < 256) :
    ∃ s, sphereTexKernel ops slices nbStacks = some s ∧
      s.texIndexList.size = 2 * slices * (nbStacks - 1) ∧
      s.texIndexList.positions = List.range s.texIndexList.size ∧
      s.texIndexList.values.length = 2 * slices * (nbStacks - 1) ∧
      s.texList.positions = List.range s.texList.size ∧
      (slices < 255 →
        s.texList.size = (slices + 1) * (nbStacks + 1) ∧
        ∀ t ∈ s.texIndexList.values, t.below s.texList.size = true) ∧
      (slices = 255 →
        s.texList.size = 0 ∧ s.texList.values = [] ∧ s.texIndexList.values ≠ [] ∧
        s.texList.size ≠ (slices + 1) * (nbStacks + 1) ∧
        ∀ t ∈ s.texIndexList.values, t.below s.texList.size = false) := by
  obtain ⟨s, hs, a1, a2, a3, a4, a5, a6⟩ := sphereTexKernel_arrays ops slices nbStacks h2 h3 h4
  have hlen : s.texIndexList.values.length = 2 * slices * (nbStacks - 1) := by
    have := congrArg List.length a5
    simpa [Buffer.positions, Buffer.values] using this
  have hpos : 0 < 2 * slices * (nbStacks - 1) :=
    Nat.mul_pos (by omega) (by omega)
  refine ⟨s, hs, a4, by rw [a4]; exact a5, hlen, by rw [a1]; exact a2, ?_, ?_⟩
  · intro h
    have hn : (slices + 1) % 256 = slices + 1 := Nat.mod_eq_of_lt (by omega)
    rw [hn] at a1 a6
    refine ⟨a1, ?_⟩
    rw [a1]
    have e : nbStacks + 1 = (nbStacks - 1) + 2 := by omega
    apply a6
    · rw [e, Nat.mul_add]; omega
    · rw [e, Nat.mul_add]; omega
  · intro h
    have hn : (slices + 1) % 256 = 0 := by rw [h]
    rw [hn] at a1 a3
    rw [Nat.zero_mul] at a1
    refine ⟨a1, by simpa using a3, ?_, ?_, ?_⟩
    · intro h0
      rw [h0] at hlen
      simp at hlen
      omega
    · rw [a1]
      exact Nat.ne_of_lt (Nat.mul_pos (by omega) (by omega))
    · intro t _
      rw [a1]
      simp [Index3.below, Index3.toList]

/-- C31, at the sphere of 255 slices and 2 stacks: no texture coordinate and 510
triangles of texture indices. -/
theorem sphere_texcoords_and_slices_wraparound_witness :
    (1 ≤ 255 ∧ 255 < 256 ∧ 2 ≤ 2 ∧ 2 < 256) ∧
    ∃ s, sphereTexKernel symbolicReal 255 2 = some s ∧
      s.texIndexList.size = 2 * 255 * (2 - 1) ∧
      s.texIndexList.positions = List.range s.texIndexList.size ∧
      s.texIndexList.values.length = 2 * 255 * (2 - 1) ∧
      s.texList.positions = List.range s.texList.size ∧
      (255 < 255 →
        s.texList.size = (255 + 1) * (2 + 1) ∧
        ∀ t ∈ s.texIndexList.values, t.below s.texList.size = true) ∧
      (255 = 255 →
        s.texList.size = 0 ∧ s.texList.values = [] ∧ s.texIndexList.values ≠ [] ∧
        s.texList.size ≠ (255 + 1) * (2 + 1) ∧
        ∀ t ∈ s.texIndexList.values, t.below s.texList.size = false) :=
  ⟨by decide,
    sphere_texcoords_and_slices_wraparound symbolicReal 255 2 (by decide) (by decide)
      (by decide) (by decide)⟩

/-- C37: in exact arithmetic, for a sphere of 1 to 254 slices and of
`nbStacks ≥ 2` stacks, the texture coordinates are written at 0, 1, 2, ...,
column after column: the entry of ring `j + 1` of column `i` is
`(i / slices, (j + 1) / (nbStacks + 1))`, for `j` from 0 to `nbStacks - 2`; then
come the row of the bottom pole (`v = 0`) and the row of the top pole (`v = 1`).
The `v` of ring `j` is `j / (nbStacks + 1)`, which differs from `j / nbStacks`
for every ring: the rows are not evenly spaced between 0 and 1, the last ring
being twice as far from the top row as the rings are from each other. -/
theorem sphere_texcoord_v_divides_by_stacks_plus_one {K : Type} [LinearOrderedField K]
    (cos sin : K → K) (pi : K) (slices nbStacks : Nat) (h1 : 1 ≤ slices)
    (h2 : slices < 255) (h3 : 2 ≤ nbStacks) (h4 : nbStacks < 256) :
    ∃ s, sphereTexKernel (exactReal K cos sin pi) slices nbStacks = some s ∧
      s.texList.positions = List.range ((slices + 1) * (nbStacks + 1)) ∧
      s.texList.values =
        (List.range (slices + 1)).flatMap (fun (i : Nat) =>
          (List.range (nbStacks - 1)).map (fun (j : Nat) =>
            ({ x := (i : K) / (slices : K),
               y := ((j + 1 : Nat) : K) / ((nbStacks + 1 : Nat) : K) } : Vector2 K))) ++
        (List.range (slices + 1)).map (fun (i : Nat) =>
          ({ x := (i : K) / (slices : K), y := ((0 : Nat) : K) } : Vector2 K)) ++
        (List.range (slices + 1)).map (fun (i : Nat) =>
          ({ x := (i : K) / (slices : K), y := ((1 : Nat) : K) } : Vector2 K)) ∧
      (∀ j : Nat, 1 ≤ j → j ≤ nbStacks - 1 →
        (j : K) / ((nbStacks + 1 : Nat) : K) ≠ (j : K) / (nbStacks : K)) ∧
      (1 : K) - ((nbStacks - 1 : Nat) : K) / ((nbStacks + 1 : Nat) : K)
        = 2 * (1 / ((nbStacks + 1 : Nat) : K)) := by
  obtain ⟨s, hs, -, a2, a3, -, -, -⟩ :=
    sphereTexKernel_arrays (exactReal K cos sin pi) slices nbStacks (by omega) h3 h4
  have hn : (slices + 1) % 256 = slices + 1 := Nat.mod_eq_of_lt (by omega)
  rw [hn] at a2 a3
  have hK : (0 : K) < (nbStacks : K) := by exact_mod_cast (by omega : 0 < nbStacks)
  have hK1 : (0 : K) < ((nbStacks + 1 : Nat) : K) := by
    exact_mod_cast (by omega : 0 < nbStacks + 1)
  refine ⟨s, hs, a2, a3, ?_, ?_⟩
  · intro j hj1 _ h
    have hj : (0 : K) < (j : K) := by exact_mod_cast (by omega : 0 < j)
    rw [div_eq_div_iff (ne_of_gt hK1) (ne_of_gt hK)] at h
    have h5 : (nbStacks : K) = ((nbStacks + 1 : Nat) : K) :=
      mul_left_cancel₀ (ne_of_gt hj) h
    have h6 : nbStacks = nbStacks + 1 := by exact_mod_cast h5
    omega
  · have e : ((nbStacks - 1 : Nat) : K) = ((nbStacks + 1 : Nat) : K) - 2 := by
      have : nbStacks + 1 = (nbStacks - 1) + 2 := by omega
      rw [this]; push_cast; ring
    rw [e]
    field_simp

/-- C37, at the sphere of 1 slice and 2 stacks over the rationals: the ring has
`v = 1 / 3`. -/
theorem sphere_texcoord_v_divides_by_stacks_plus_one_witness :
    (1 ≤ 1 ∧ 1 < 255 ∧ 2 ≤ 2 ∧ 2 < 256) ∧
    ∃ s, sphereTexKernel (exactReal ℚ (fun _ => 1) (fun _ => 0) 3) 1 2 = some s ∧
      s.texList.positions = List.range ((1 + 1) * (2 + 1)) ∧
      s.texList.values =
        (List.range (1 + 1)).flatMap (fun (i : Nat) =>
          (List.range (2 - 1)).map (fun (j : Nat) =>
            ({ x := (i : ℚ) / ((1 : Nat) : ℚ),
               y := ((j + 1 : Nat) : ℚ) / ((2 + 1 : Nat) : ℚ) } : Vector2 ℚ))) ++
        (List.range (1 + 1)).map (fun (i : Nat) =>
          ({ x := (i : ℚ) / ((1 : Nat) : ℚ), y := ((0 : Nat) : ℚ) } : Vector2 ℚ)) ++
        (List.range (1 + 1)).map (fun (i : Nat) =>
          ({ x := (i : ℚ) / ((1 : Nat) : ℚ), y := ((1 : Nat) : ℚ) } : Vector2 ℚ)) ∧
      (∀ j : Nat, 1 ≤ j → j ≤ 2 - 1 →
        (j : ℚ) / ((2 + 1 : Nat) : ℚ) ≠ (j : ℚ) / ((2 : Nat) : ℚ)) ∧
      (1 : ℚ) - ((2 - 1 : Nat) : ℚ) / ((2 + 1 : Nat) : ℚ)
        = 2 * (1 / ((2 + 1 : Nat) : ℚ)) :=
  ⟨by decide,
    sphere_texcoord_v_divides_by_stacks_plus_one (fun _ => 1) (fun _ => 0) 3 1 2 (by decide)
      (by decide) (by decide) (by decide)⟩

/-! ## Points of the sphere (C32) -/

/-- Invariant rule for a `forLoop` known to be defined: a property that holds
at the start and is kept by every iteration that is defined holds at the end. -/
theorem forLoop_inv_of_some {σ : Type} (body : Nat → σ → Option σ) (P : Nat → σ → Prop) :
    ∀ (count start : Nat) (s s2 : σ), forLoop body start count s = some s2 → P start s →
      (∀ i s s1, start ≤ i → i < start + count → P i s → body i s = some s1 → P (i + 1) s1) →
      P (start + count) s2 := by
  intro count
  induction count with
  | zero =>
    intro start s s2 h h0 _
    simp only [forLoop, Option.some.injEq] at h
    rw [← h]; exact h0
  | succ n ih =>
    intro start s s2 h h0 hstep
    simp only [forLoop] at h
    cases hb : body start s with
    | none => rw [hb] at h; cases h
    | some s1 =>
      rw [hb] at h
      have h1 := hstep start s s1 (Nat.le_refl _) (by omega) h0 hb
      have h2 := ih (start + 1) s1 s2 h h1
        (fun i t t1 hi hlt hP hbt => hstep i t t1 (by omega) (by omega) hP hbt)
      have : start + 1 + n = start + (n + 1) := by omega
      rw [← this]
      exact h2

/-- The points written by the inner loop of the sphere, in exact arithmetic:
iteration `j` (from 1) writes the point of elevation `el + j * elStep`, `el`
being the elevation the loop starts from. -/
theorem sphereRing_values {K : Type} [Field K] (cos sin : K → K) (pi radius elStep : K)
    (cosAz sinAz : K) (m : Nat) (s0 : SphereState K) :
    ∃ s1, forLoop (sphereRingBody (exactReal K cos sin pi) radius elStep cosAz sinAz) 1 m s0
        = some s1 ∧
      s1.pointList.values = s0.pointList.values ++ (List.range m).map (fun (j : Nat) =>
        sphereRingPoint cos sin radius cosAz sinAz (s0.el + ((j : K) + 1) * elStep)) := by
  have key := forLoop_inv (sphereRingBody (exactReal K cos sin pi) radius elStep cosAz sinAz)
    (fun j s =>
      s.el = s0.el + ((j - 1 : Nat) : K) * elStep ∧
      s.pointList.values = s0.pointList.values ++ (List.range (j - 1)).map (fun (j : Nat) =>
        sphereRingPoint cos sin radius cosAz sinAz (s0.el + ((j : K) + 1) * elStep)))
    m 1 s0
    (by simp)
    (by
      intro j s hj1 _ ⟨i1, i2⟩
      have hj' : j + 1 - 1 = j - 1 + 1 := by omega
      have hel : s.el + elStep = s0.el + (((j - 1 : Nat) : K) + 1) * elStep := by
        rw [i1]; ring
      refine ⟨_, rfl, ?_, ?_⟩
      · show s.el + elStep = s0.el + ((j + 1 - 1 : Nat) : K) * elStep
        rw [hel, hj']; push_cast; ring
      · show (s.pointList.setAt s.pointCount _).values = _
        rw [Buffer.values_setAt, i2, hj', List.range_succ, List.map_append, List.append_assoc,
          List.map_singleton]
        congr 2
        show [sphereRingPoint cos sin radius cosAz sinAz (s.el + elStep)] = _
        rw [hel])
  obtain ⟨s1, h, -, a2⟩ := key
  have e : 1 + m - 1 = m := by omega
  rw [e] at a2
  exact ⟨s1, h, a2⟩

/-- An iteration of the outer loop of the sphere that is defined ran the inner
loop, and keeps the points the inner loop leaves. -/
theorem sphereSliceBody_some {R : Type} (ops : RealOps R) (radius azStep elStep : R)
    (slices rc bot top i : Nat) (s s1 : SphereState R)
    (h : sphereSliceBody ops radius azStep elStep slices rc bot top i s = some s1) :
    ∃ s2, forLoop (sphereRingBody ops radius elStep (ops.cos (ops.mul (ops.ofNat i) azStep))
          (ops.sin (ops.mul (ops.ofNat i) azStep))) 1 (rc - 1)
        { s with
            el := ops.add (ops.neg ops.halfPi) elStep,
            pointList := s.pointList.setAt s.pointCount
              (Vector3.scale ops
                { x := ops.mul (ops.cos (ops.mul (ops.ofNat i) azStep))
                    (ops.cos (ops.add (ops.neg ops.halfPi) elStep)),
                  y := ops.mul (ops.sin (ops.mul (ops.ofNat i) azStep))
                    (ops.cos (ops.add (ops.neg ops.halfPi) elStep)),
                  z := ops.sin (ops.add (ops.neg ops.halfPi) elStep) } radius),
            pointCount := u32 (s.pointCount + 1),
            indexList := (s.indexList.setAt s.indexCount
                { i0 := s.cur, i1 := bot, i2 := s.next }).setAt
              (u32 (s.indexCount + 1))
              { i0 := sub32 (u32 (s.cur + rc)) 1, i1 := sub32 (u32 (s.next + rc)) 1,
                i2 := top },
            indexCount := u32 (u32 (s.indexCount + 1) + 1) } = some s2 ∧
      s1.pointList = s2.pointList := by
  simp only [sphereSliceBody] at h
  split at h
  · cases h
  · rename_i s2 heq
    split at h
    · cases h
    · simp only [Option.some.injEq] at h
      exact ⟨s2, heq, by rw [← h]⟩

/-- The points written by the outer loop of the sphere, in exact arithmetic:
slice after slice, the points of the elevations `-π/2 + elStep + j * elStep`. -/
theorem sphereSlice_values {K : Type} [Field K] (cos sin : K → K) (pi radius azStep elStep : K)
    (slices rc bot top n : Nat) (s0 s : SphereState K) (hrc : 1 ≤ rc)
    (h : forLoop (sphereSliceBody (exactReal K cos sin pi) radius azStep elStep slices rc bot
      top) 0 n s0 = some s)
    (h0 : s0.pointList.values = []) :
    s.pointList.values = (List.range n).flatMap (fun (i : Nat) =>
      (List.range rc).map (fun (j : Nat) =>
        sphereRingPoint cos sin radius (cos ((i : K) * azStep)) (sin ((i : K) * azStep))
          (-(pi / 2) + elStep + (j : K) * elStep))) := by
  have key := forLoop_inv_of_some
    (sphereSliceBody (exactReal K cos sin pi) radius azStep elStep slices rc bot top)
    (fun i s =>
      s.pointList.values = (List.range i).flatMap (fun (i : Nat) =>
        (List.range rc).map (fun (j : Nat) =>
          sphereRingPoint cos sin radius (cos ((i : K) * azStep)) (sin ((i : K) * azStep))
            (-(pi / 2) + elStep + (j : K) * elStep))))
    n 0 s0 s h (by simp [h0])
    (by
      intro i t t1 _ _ hP hb
      obtain ⟨t2, hloop, hv⟩ := sphereRing_values cos sin pi radius elStep
        (cos ((i : K) * azStep)) (sin ((i : K) * azStep)) (rc - 1)
        { t with
            el := -(pi / 2) + elStep,
            pointList := t.pointList.setAt t.pointCount
              (sphereRingPoint cos sin radius (cos ((i : K) * azStep)) (sin ((i : K) * azStep))
                (-(pi / 2) + elStep)),
            pointCount := u32 (t.pointCount + 1),
            indexList := (t.indexList.setAt t.indexCount
                { i0 := t.cur, i1 := bot, i2 := t.next }).setAt
              (u32 (t.indexCount + 1))
              { i0 := sub32 (u32 (t.cur + rc)) 1, i1 := sub32 (u32 (t.next + rc)) 1,
                i2 := top },
            indexCount := u32 (u32 (t.indexCount + 1) + 1) }
      obtain ⟨t3, hl3, hpl⟩ := sphereSliceBody_some _ _ _ _ _ _ _ _ _ _ _ hb
      have e23 : t2 = t3 := Option.some.inj (hloop.symm.trans hl3)
      · rw [hpl, ← e23]
        show t2.pointList.values = _
        rw [hv]
        show (t.pointList.setAt t.pointCount _).values ++ _ = _
        rw [Buffer.values_setAt, hP, List.range_succ, List.flatMap_append, List.append_assoc]
        congr 1
        have hr : rc = (rc - 1) + 1 := by omega
        simp only [List.flatMap_singleton]
        conv_rhs => rw [hr, List.range_succ_eq_map, List.map_cons, List.map_map]
        simp only [List.singleton_append, Nat.cast_zero, zero_mul, add_zero]
        congr 1
        apply List.map_congr_left
        intro j _
        simp only [Function.comp, Nat.cast_succ])
  simpa using key

/-- The point the kernel computes for ring `j` of slice `i` is the point of the
description of the mesh. -/
theorem sphereRingPoint_eq_spherePoint {K : Type} [Field K] (cos sin : K → K) (pi r : K)
    (slices nbStacks i j : Nat) :
    sphereRingPoint cos sin r (cos ((i : K) * (2 * pi / (slices : K))))
        (sin ((i : K) * (2 * pi / (slices : K))))
        (-(pi / 2) + pi / (nbStacks : K) + (j : K) * (pi / (nbStacks : K)))
      = spherePoint cos sin pi r slices nbStacks i j := by
  have e1 : (i : K) * (2 * pi / (slices : K)) = (i : K) * (2 * pi) / (slices : K) := by ring
  have e2 : -(pi / 2) + pi / (nbStacks : K) + (j : K) * (pi / (nbStacks : K))
      = -(pi / 2) + ((j : K) + 1) * pi / (nbStacks : K) := by ring
  rw [e1, e2]
  simp only [sphereRingPoint, spherePoint, Vector3.mk.injEq]
  refine ⟨?_, ?_, ?_⟩ <;> ring

/-- A point of the description of the mesh lies at squared distance `r * r`
from the origin when `cos` and `sin` satisfy the Pythagorean identity. -/
theorem spherePoint_normSquared {K : Type} [Field K] (cos sin : K → K) (pi r : K)
    (hcs : ∀ x, cos x * cos x + sin x * sin x = 1) (slices nbStacks i j : Nat) :
    (spherePoint cos sin pi r slices nbStacks i j).normSquared = r * r := by
  have h1 := hcs ((i : K) * (2 * pi) / (slices : K))
  have h2 := hcs (-(pi / 2) + ((j : K) + 1) * pi / (nbStacks : K))
  simp only [Vector3.normSquared, Vector3.dot, spherePoint]
  linear_combination
    (r * r * cos (-(pi / 2) + ((j : K) + 1) * pi / (nbStacks : K)) *
      cos (-(pi / 2) + ((j : K) + 1) * pi / (nbStacks : K))) * h1 + (r * r) * h2

/-- The points of the sphere in exact arithmetic, in the order of the writes:
slice after slice the points of the rings, then the two poles. -/
theorem sphereKernel_values {K : Type} [Field K] (cos sin : K → K) (pi r : K)
    (slices nbStacks : Nat) (h3 : 2 ≤ nbStacks) (h4 : nbStacks < 256) (s : SphereState K)
    (h : sphereKernel (exactReal K cos sin pi) r slices nbStacks = some s) :
    s.pointList.values =
      (List.range slices).flatMap (fun (i : Nat) =>
        (List.range (nbStacks - 1)).map (fun (j : Nat) =>
          spherePoint cos sin pi r slices nbStacks i j)) ++
      [{ x := 0, y := 0, z := -r }, { x := 0, y := 0, z := r }] := by
  have hrc : sub32 nbStacks 1 = nbStacks - 1 := by unfold sub32; omega
  simp only [sphereKernel, hrc] at h
  split at h
  · cases h
  · rename_i s1 heq
    simp only [Option.some.injEq] at h
    have hv := sphereSlice_values cos sin pi r _ _ slices (nbStacks - 1) _ _ slices _ s1
      (by omega) heq rfl
    have hv2 : s1.pointList.values = (List.range slices).flatMap (fun (i : Nat) =>
        (List.range (nbStacks - 1)).map (fun (j : Nat) =>
          spherePoint cos sin pi r slices nbStacks i j)) := by
      rw [hv]
      apply List.flatMap_congr
      intro i _
      apply List.map_congr_left
      intro j _
      exact sphereRingPoint_eq_spherePoint cos sin pi r slices nbStacks i j
    rw [← h]
    show ((s1.pointList.setAt s1.pointCount _).setAt _ _).values = _
    rw [Buffer.values_setAt, Buffer.values_setAt, hv2, List.append_assoc]
    show _ ++ [({ x := ((0 : Nat) : K), y := ((0 : Nat) : K), z := -r } : Vector3 K),
        { x := ((0 : Nat) : K), y := ((0 : Nat) : K), z := r }] = _
    simp only [Nat.cast_zero]

/-- C32: in exact arithmetic, with functions `cos` and `sin` that satisfy
`cos x * cos x + sin x * sin x = 1`, for a sphere of radius `r` with
`slices ≥ 1` slices and `nbStacks ≥ 2` stacks (two `uchar_t`) the kernel is
defined and writes its points at 0, 1, 2, ...: slice after slice, the point of
ring `j` (`0 ≤ j < nbStacks - 1`) of slice `i` being
`r * (cos az * cos el, sin az * cos el, sin el)` with `az = i * 2π / slices` and
`el = -π/2 + (j + 1) * π / nbStacks`, then, as the last two points, the poles
`(0, 0, -r)` and `(0, 0, r)`; each of the `slices * (nbStacks - 1)` points
before the poles lies at squared distance `r * r` from the origin. -/
theorem sphere_points_on_the_sphere_and_poles_last {K : Type} [Field K] (cos sin : K → K)
    (pi r : K) (hcs : ∀ x, cos x * cos x + sin x * sin x = 1) (slices nbStacks : Nat)
    (h1 : 1 ≤ slices) (h2 : slices < 256) (h3 : 2 ≤ nbStacks) (h4 : nbStacks < 256) :
    ∃ s rings, sphereKernel (exactReal K cos sin pi) r slices nbStacks = some s ∧
      s.pointList.positions = List.range (slices * (nbStacks - 1) + 2) ∧
      s.pointList.values = rings ++ [{ x := 0, y := 0, z := -r }, { x := 0, y := 0, z := r }] ∧
      rings = (List.range slices).flatMap (fun (i : Nat) =>
        (List.range (nbStacks - 1)).map (fun (j : Nat) =>
          spherePoint cos sin pi r slices nbStacks i j)) ∧
      rings.length = slices * (nbStacks - 1) ∧
      (∀ p ∈ rings, p.normSquared = r * r) ∧
      (∀ i j : Nat, (spherePoint cos sin pi r slices nbStacks i j).normSquared = r * r) := by
  obtain ⟨s, hs, -, -, a3, -, -, -, -⟩ :=
    sphereKernel_arrays (exactReal K cos sin pi) r slices nbStacks h1 h2 h3 h4
  have hv := sphereKernel_values cos sin pi r slices nbStacks h3 h4 s hs
  refine ⟨s, _, hs, a3, hv, rfl, ?_, ?_, ?_⟩
  · have hl1 := congrArg List.length a3
    have hl2 := congrArg List.length hv
    simp only [Buffer.positions, Buffer.values, List.length_map, List.length_range,
      List.length_append, List.length_cons, List.length_nil] at hl1 hl2
    omega
  · intro p hp
    simp only [List.mem_flatMap, List.mem_map, List.mem_range] at hp
    obtain ⟨i, _, j, _, rfl⟩ := hp
    exact spherePoint_normSquared cos sin pi r hcs slices nbStacks i j
  · intro i j
    exact spherePoint_normSquared cos sin pi r hcs slices nbStacks i j

/-- The functions of the examples satisfy the Pythagorean identity. -/
theorem rationalCos_sq_add_rationalSin_sq (x : ℚ) :
    rationalCos x * rationalCos x + rationalSin x * rationalSin x = 1 := by
  have h : (1 + x * x) ≠ 0 := by nlinarith [mul_self_nonneg x]
  simp only [rationalCos, rationalSin]
  field_simp
  ring

/-- C32, at the sphere of radius 2 with 4 slices and 3 stacks over the
rationals. -/
theorem sphere_points_on_the_sphere_and_poles_last_witness :
    ((∀ x, rationalCos x * rationalCos x + rationalSin x * rationalSin x = 1) ∧
      1 ≤ 4 ∧ 4 < 256 ∧ 2 ≤ 3 ∧ 3 < 256) ∧
    ∃ s rings, sphereKernel (exactReal ℚ rationalCos rationalSin 3) 2 4 3 = some s ∧
      s.pointList.positions = List.range (4 * (3 - 1) + 2) ∧
      s.pointList.values = rings ++ [{ x := 0, y := 0, z := -2 }, { x := 0, y := 0, z := 2 }] ∧
      rings = (List.range 4).flatMap (fun (i : Nat) =>
        (List.range (3 - 1)).map (fun (j : Nat) =>
          spherePoint rationalCos rationalSin 3 2 4 3 i j)) ∧
      rings.length = 4 * (3 - 1) ∧
      (∀ p ∈ rings, p.normSquared = 2 * 2) ∧
      (∀ i j : Nat, (spherePoint rationalCos rationalSin 3 2 4 3 i j).normSquared = 2 * 2) :=
  ⟨⟨rationalCos_sq_add_rationalSin_sq, by decide⟩,
    sphere_points_on_the_sphere_and_poles_last rationalCos rationalSin 3 2
      rationalCos_sq_add_rationalSin_sq 4 3 (by decide) (by decide) (by decide) (by decide)⟩

/-! ## The two chains of the extruded hull (C38) -/

/-- The remainder of a number below `2 * n`. -/
theorem mod_of_lt_two_mul (a n : Nat) (h : a < 2 * n) :
    a % n = if a < n then a else a - n := by
  by_cases h1 : a < n
  · rw [if_pos h1]; exact Nat.mod_eq_of_lt h1
  · rw [if_neg h1, Nat.mod_eq_sub_mod (by omega)]
    exact Nat.mod_eq_of_lt (by omega)

/-- A step forward from an index of the profile is defined and leads to the
next index, cyclically. -/
theorem hullForwardBody_step {K : Type} [Field K] (norm : Vector3 K → K)
    (vertical : List (Vector3 K)) (hn : vertical.length < 4294967296) (s : ChainState K)
    (hi : s.iNdx < vertical.length) :
    ∃ s1, hullForwardBody norm vertical vertical.length s = some s1 ∧
      s1.iNdx = (s.iNdx + 1) % vertical.length ∧ s1.ndx = s.ndx ++ [s.iNdx] := by
  have hpos : 0 < vertical.length := by omega
  have hj : (s.iNdx + 1) % vertical.length < vertical.length := Nat.mod_lt _ hpos
  have hu : u32 (s.iNdx + 1) = s.iNdx + 1 := u32_of_lt (by omega)
  have h1 : vertical[s.iNdx]? = some (vertical[s.iNdx]) := List.getElem?_eq_getElem hi
  have h2 : vertical[(s.iNdx + 1) % vertical.length]?
      = some (vertical[(s.iNdx + 1) % vertical.length]) := List.getElem?_eq_getElem hj
  refine ⟨{ iNdx := (s.iNdx + 1) % vertical.length, ndx := s.ndx ++ [s.iNdx],
            len := s.len + norm ((vertical[s.iNdx]).sub
              (vertical[(s.iNdx + 1) % vertical.length])) }, ?_, rfl, rfl⟩
  simp only [hullForwardBody, hu, h1, h2, if_neg (Nat.ne_of_gt hpos)]

/-- A step backward from an index of the profile is defined and leads to the
previous index, cyclically. -/
theorem hullBackwardBody_step {K : Type} [Field K] (norm : Vector3 K → K)
    (vertical : List (Vector3 K)) (hn : vertical.length < 4294967296) (s : ChainState K)
    (hi : s.iNdx < vertical.length) :
    ∃ s1, hullBackwardBody norm vertical vertical.length s = some s1 ∧
      s1.iNdx = (if s.iNdx = 0 then vertical.length - 1 else s.iNdx - 1) ∧
      s1.ndx = s.ndx ++ [s.iNdx] := by
  have hpos : 0 < vertical.length := by omega
  have e1 : sub32 vertical.length 1 = vertical.length - 1 := by unfold sub32; omega
  have e2 : sub32 s.iNdx 1 = (if s.iNdx = 0 then 4294967295 else s.iNdx - 1) := by
    unfold sub32; split <;> omega
  have hjeq : (if s.iNdx = 0 then sub32 vertical.length 1 else sub32 s.iNdx 1)
      = (if s.iNdx = 0 then vertical.length - 1 else s.iNdx - 1) := by
    rw [e1, e2]; split <;> simp_all
  have hj : (if s.iNdx = 0 then vertical.length - 1 else s.iNdx - 1) < vertical.length := by
    split <;> omega
  have h1 : vertical[s.iNdx]? = some (vertical[s.iNdx]) := List.getElem?_eq_getElem hi
  have h2 : vertical[if s.iNdx = 0 then vertical.length - 1 else s.iNdx - 1]?
      = some (vertical[if s.iNdx = 0 then vertical.length - 1 else s.iNdx - 1]) :=
    List.getElem?_eq_getElem hj
  refine ⟨{ iNdx := if s.iNdx = 0 then vertical.length - 1 else s.iNdx - 1,
            ndx := s.ndx ++ [s.iNdx],
            len := s.len + norm ((vertical[s.iNdx]).sub
              (vertical[if s.iNdx = 0 then vertical.length - 1 else s.iNdx - 1])) },
    ?_, rfl, rfl⟩
  simp only [hullBackwardBody, hjeq, h1, h2]

/-- The loop of a chain whose body moves the index by `step` and records the
index it leaves: from an index from which `d` steps lead to `t`, and no fewer,
the loop ends after `d` iterations when it is given at least that fuel, having
recorded the `d` indices it went through. -/
theorem hullChain_walk {K : Type} [Field K] (body : ChainState K → Option (ChainState K))
    (step : Nat → Nat) (n t : Nat)
    (hbody : ∀ s : ChainState K, s.iNdx < n →
      ∃ s1, body s = some s1 ∧ s1.iNdx = step s.iNdx ∧ s1.ndx = s.ndx ++ [s.iNdx])
    (hstep : ∀ i, i < n → step i < n) :
    ∀ (d fuel : Nat) (s : ChainState K), d ≤ fuel → s.iNdx < n →
      (∀ k, k < d → step^[k] s.iNdx ≠ t) → step^[d] s.iNdx = t →
      ∃ s1, whileLoop (fun s => s.iNdx != t) body fuel s = some s1 ∧
        s1.ndx = s.ndx ++ (List.range d).map (fun k => step^[k] s.iNdx) := by
  intro d
  induction d with
  | zero =>
    intro fuel s _ _ _ hd
    have hc : (s.iNdx != t) = false := by
      simp only [Function.iterate_zero, id_eq] at hd
      simp [hd]
    refine ⟨s, ?_, by simp⟩
    cases fuel <;> simp [whileLoop, hc]
  | succ d ih =>
    intro fuel s hf hi hne hd
    obtain ⟨f, rfl⟩ : ∃ f, fuel = f + 1 := ⟨fuel - 1, by omega⟩
    have hc : (s.iNdx != t) = true := by
      have := hne 0 (by omega)
      simp only [Function.iterate_zero, id_eq] at this
      simp [this]
    obtain ⟨s1, hb, hs1, hn1⟩ := hbody s hi
    obtain ⟨s2, hl, hn2⟩ := ih f s1 (by omega) (by rw [hs1]; exact hstep _ hi)
      (by
        intro k hk
        rw [hs1, ← Function.iterate_succ_apply]
        exact hne (k + 1) (by omega))
      (by rw [hs1, ← Function.iterate_succ_apply]; exact hd)
    refine ⟨s2, ?_, ?_⟩
    · simp only [whileLoop, hc, if_true, hb]
      exact hl
    · rw [hn2, hn1, List.range_succ_eq_map, List.map_cons, List.map_map, List.append_assoc]
      simp only [Function.iterate_zero, id_eq, List.singleton_append, hs1]
      congr 2

/-- Going `k` steps forward from `b`, cyclically. -/
theorem iterate_forward (n : Nat) : ∀ (k b : Nat),
    (fun i => (i + 1) % n)^[k] b = (b + k) % n ∨ (k = 0 ∧ n ≤ b) := by
  intro k
  induction k with
  | zero =>
    intro b
    by_cases h : b < n
    · left; simp [Nat.mod_eq_of_lt h]
    · right; exact ⟨rfl, by omega⟩
  | succ k ih =>
    intro b
    left
    rw [Function.iterate_succ_apply]
    rcases ih ((b + 1) % n) with h | ⟨h0, h1⟩
    · rw [h, Nat.mod_add_mod]
      congr 1
      omega
    · subst h0
      by_cases hn : n = 0
      · subst hn; simp
      · have := Nat.mod_lt (b + 1) (Nat.pos_of_ne_zero hn)
        omega

/-- Going `k ≤ n` steps backward from `b < n`, cyclically. -/
theorem iterate_backward (n : Nat) : ∀ (k b : Nat), k ≤ n → b < n →
    (fun i => if i = 0 then n - 1 else i - 1)^[k] b = (b + n - k) % n := by
  intro k
  induction k with
  | zero =>
    intro b _ hb
    simp [Nat.mod_eq_of_lt hb]
  | succ k ih =>
    intro b hk hb
    rw [Function.iterate_succ_apply', ih b (by omega) hb,
      mod_of_lt_two_mul (b + n - k) n (by omega),
      mod_of_lt_two_mul (b + n - (k + 1)) n (by omega)]
    split_ifs <;> omega

/-- The two chains of the extruded hull between two different indices `b` and
`t` of a profile of `n` points: both loops end when given a fuel of at least
`n`; the forward chain has `(t + n - b) % n` segments, the backward chain
`(b + n - t) % n`; the numbers of segments add up to `n` and every index is in
one of the chains. -/
theorem hullChains_spec {K : Type} [Field K] (norm : Vector3 K → K)
    (vertical : List (Vector3 K)) (b t fuel : Nat) (hn : vertical.length < 4294967296)
    (hb : b < vertical.length) (ht : t < vertical.length) (hbt : b ≠ t)
    (hf : vertical.length ≤ fuel) :
    ∃ c1 c2,
      hullChain (hullForwardBody norm vertical (u32 vertical.length)) fuel b t = some c1 ∧
      hullChain (hullBackwardBody norm vertical (u32 vertical.length)) fuel b t = some c2 ∧
      c1.ndx = (List.range ((t + vertical.length - b) % vertical.length)).map
        (fun k => (b + k) % vertical.length) ++ [t] ∧
      c2.ndx = (List.range ((b + vertical.length - t) % vertical.length)).map
        (fun k => (b + vertical.length - k) % vertical.length) ++ [t] ∧
      (c1.ndx.length - 1) + (c2.ndx.length - 1) = vertical.length ∧
      (∀ i, i < vertical.length → i ∈ c1.ndx ∨ i ∈ c2.ndx) := by
  rw [u32_of_lt hn]
  generalize hnn : vertical.length = n at *
  have hd1 := mod_of_lt_two_mul (t + n - b) n (by omega)
  have hd2 := mod_of_lt_two_mul (b + n - t) n (by omega)
  have hfw : ∀ k, k ≤ n → (fun i => (i + 1) % n)^[k] b = (b + k) % n := by
    intro k _
    rcases iterate_forward n k b with h | ⟨_, h⟩
    · exact h
    · omega
  -- the forward chain
  obtain ⟨s1, hl1, hx1⟩ := hullChain_walk (hullForwardBody norm vertical n)
    (fun i => (i + 1) % n) n t
    (by
      intro s hs
      subst hnn
      exact hullForwardBody_step norm vertical hn s hs)
    (fun i _ => Nat.mod_lt _ (by omega))
    ((t + n - b) % n) fuel { iNdx := b, ndx := [], len := 0 }
    (by have := Nat.mod_lt (t + n - b) (show 0 < n by omega); omega) hb
    (by
      intro k hk
      show (fun i => (i + 1) % n)^[k] b ≠ t
      rw [hfw k (by have := Nat.mod_lt (t + n - b) (show 0 < n by omega); omega),
        mod_of_lt_two_mul (b + k) n (by
          have := Nat.mod_lt (t + n - b) (show 0 < n by omega); omega)]
      rw [hd1] at hk
      split_ifs at hk ⊢ <;> omega)
    (by
      show (fun i => (i + 1) % n)^[(t + n - b) % n] b = t
      rw [hfw _ (by have := Nat.mod_lt (t + n - b) (show 0 < n by omega); omega), hd1]
      split_ifs with h1
      · rw [mod_of_lt_two_mul _ n (by omega)]; split_ifs <;> omega
      · rw [mod_of_lt_two_mul _ n (by omega)]; split_ifs <;> omega)
  -- the backward chain
  obtain ⟨s2, hl2, hx2⟩ := hullChain_walk (hullBackwardBody norm vertical n)
    (fun i => if i = 0 then n - 1 else i - 1) n t
    (by
      intro s hs
      subst hnn
      exact hullBackwardBody_step norm vertical hn s hs)
    (fun i _ => by dsimp only; split <;> omega)
    ((b + n - t) % n) fuel { iNdx := b, ndx := [], len := 0 }
    (by have := Nat.mod_lt (b + n - t) (show 0 < n by omega); omega) hb
    (by
      intro k hk
      show (fun i => if i = 0 then n - 1 else i - 1)^[k] b ≠ t
      rw [iterate_backward n k b
          (by have := Nat.mod_lt (b + n - t) (show 0 < n by omega); omega) hb,
        mod_of_lt_two_mul (b + n - k) n (by omega)]
      rw [hd2] at hk
      split_ifs at hk ⊢ <;> omega)
    (by
      show (fun i => if i = 0 then n - 1 else i - 1)^[(b + n - t) % n] b = t
      rw [iterate_backward n _ b
          (by have := Nat.mod_lt (b + n - t) (show 0 < n by omega); omega) hb, hd2]
      split_ifs with h1
      · rw [mod_of_lt_two_mul _ n (by omega)]; split_ifs <;> omega
      · rw [mod_of_lt_two_mul _ n (by omega)]; split_ifs <;> omega)
  have hm1 : s1.ndx = (List.range ((t + n - b) % n)).map (fun k => (b + k) % n) := by
    rw [hx1]
    show [] ++ _ = _
    rw [List.nil_append]
    apply List.map_congr_left
    intro k hk
    have hk' := List.mem_range.mp hk
    exact hfw k (by have := Nat.mod_lt (t + n - b) (show 0 < n by omega); omega)
  have hm2 : s2.ndx = (List.range ((b + n - t) % n)).map (fun k => (b + n - k) % n) := by
    rw [hx2]
    show [] ++ _ = _
    rw [List.nil_append]
    apply List.map_congr_left
    intro k hk
    have hk' := List.mem_range.mp hk
    exact iterate_backward n k b
      (by have := Nat.mod_lt (b + n - t) (show 0 < n by omega); omega) hb
  refine ⟨{ s1 with ndx := s1.ndx ++ [t] }, { s2 with ndx := s2.ndx ++ [t] }, ?_, ?_, ?_, ?_,
    ?_, ?_⟩
  · simp only [hullChain, hl1]
  · simp only [hullChain, hl2]
  · show s1.ndx ++ [t] = _
    rw [hm1]
  · show s2.ndx ++ [t] = _
    rw [hm2]
  · show (s1.ndx ++ [t]).length - 1 + ((s2.ndx ++ [t]).length - 1) = n
    rw [hm1, hm2]
    simp only [List.length_append, List.length_map, List.length_range, List.length_singleton,
      Nat.add_sub_cancel]
    rw [hd1, hd2]
    split_ifs <;> omega
  · intro i hi
    show i ∈ s1.ndx ++ [t] ∨ i ∈ s2.ndx ++ [t]
    rw [hm1, hm2]
    simp only [List.mem_append, List.mem_map, List.mem_range, List.mem_singleton]
    have hk := mod_of_lt_two_mul (i + n - b) n (by omega)
    by_cases hc : (i + n - b) % n ≤ (t + n - b) % n
    · left
      by_cases he : (i + n - b) % n = (t + n - b) % n
      · right
        rw [hk, hd1] at he
        split_ifs at he <;> omega
      · left
        refine ⟨(i + n - b) % n, by omega, ?_⟩
        rw [hk]
        split_ifs with h1
        · rw [mod_of_lt_two_mul _ n (by omega)]; split_ifs <;> omega
        · rw [mod_of_lt_two_mul _ n (by omega)]; split_ifs <;> omega
    · right; left
      refine ⟨n - (i + n - b) % n, ?_, ?_⟩
      · rw [hk, hd1] at hc
        rw [hk, hd2]
        split_ifs at hc ⊢ <;> omega
      · rw [hk, hd1] at hc
        rw [hk]
        split_ifs at hc ⊢ with h1 h2 <;>
          (rw [mod_of_lt_two_mul _ n (by omega)]; split_ifs <;> omega)

/-- C38: for a vertical profile of `n` points (`n` fitting a `uint32_t`) and two
different indices `b` and `t` of the profile (those of its points of smallest
and of largest `y`), each of the two `while` loops of `process(ExtrudedHull*)`
that walk from `b` to `t` ends, after fewer than `n` iterations (it is defined
for any fuel of at least `n`): the forward chain is `b`, `b + 1`, ... modulo `n`
up to `t`, with `(t + n - b) % n` segments, the backward chain is `b`, `b - 1`,
... modulo `n` up to `t`, with `(b + n - t) % n` segments; the two numbers of
segments (the sizes of the chains minus one) add up to `n`, and every index
below `n` is in at least one of the two chains. -/
theorem hull_chains_terminate_and_cover {K : Type} [Field K] (norm : Vector3 K → K)
    (vertical : List (Vector3 K)) (b t fuel : Nat) (hn : vertical.length < 4294967296)
    (hb : b < vertical.length) (ht : t < vertical.length) (hbt : b ≠ t)
    (hf : vertical.length ≤ fuel) :
    ∃ c1 c2,
      hullChain (hullForwardBody norm vertical (u32 vertical.length)) fuel b t = some c1 ∧
      hullChain (hullBackwardBody norm vertical (u32 vertical.length)) fuel b t = some c2 ∧
      c1.ndx = (List.range ((t + vertical.length - b) % vertical.length)).map
        (fun k => (b + k) % vertical.length) ++ [t] ∧
      c2.ndx = (List.range ((b + vertical.length - t) % vertical.length)).map
        (fun k => (b + vertical.length - k) % vertical.length) ++ [t] ∧
      (c1.ndx.length - 1) + (c2.ndx.length - 1) = vertical.length ∧
      (∀ i, i < vertical.length → i ∈ c1.ndx ∨ i ∈ c2.ndx) :=
  hullChains_spec norm vertical b t fuel hn hb ht hbt hf

/-- C38, at the profile of the four corners of a square, from index 0 to
index 2: the chains `0, 1, 2` and `0, 3, 2`. -/
theorem hull_chains_terminate_and_cover_witness :
    ([({ x := 0, y := 0, z := 0 } : Vector3 ℚ), { x := 1, y := 1, z := 0 },
        { x := 0, y := 2, z := 0 }, { x := -1, y := 1, z := 0 }].length < 4294967296 ∧
      0 < 4 ∧ 2 < 4 ∧ 0 ≠ 2 ∧ 4 ≤ 4) ∧
    ∃ c1 c2,
      hullChain (hullForwardBody axisNorm
        [{ x := 0, y := 0, z := 0 }, { x := 1, y := 1, z := 0 }, { x := 0, y := 2, z := 0 },
          { x := -1, y := 1, z := 0 }] (u32 4)) 4 0 2 = some c1 ∧
      hullChain (hullBackwardBody axisNorm
        [{ x := 0, y := 0, z := 0 }, { x := 1, y := 1, z := 0 }, { x := 0, y := 2, z := 0 },
          { x := -1, y := 1, z := 0 }] (u32 4)) 4 0 2 = some c2 ∧
      c1.ndx = (List.range ((2 + 4 - 0) % 4)).map (fun k => (0 + k) % 4) ++ [2] ∧
      c2.ndx = (List.range ((0 + 4 - 2) % 4)).map (fun k => (0 + 4 - k) % 4) ++ [2] ∧
      (c1.ndx.length - 1) + (c2.ndx.length - 1) = 4 ∧
      (∀ i, i < 4 → i ∈ c1.ndx ∨ i ∈ c2.ndx) :=
  ⟨by decide,
    hull_chains_terminate_and_cover axisNorm
      [{ x := 0, y := 0, z := 0 }, { x := 1, y := 1, z := 0 }, { x := 0, y := 2, z := 0 },
        { x := -1, y := 1, z := 0 }] 0 2 4 (by decide) (by decide) (by decide) (by decide)
      (by decide)⟩

/-! ## The arrays of the extruded hull (C39) -/

/-- The loop of the bottom fan of the extruded hull: one triangle per point of
the horizontal profile, written at consecutive positions from 0, whatever the
size of the index array. -/
theorem hullBottom_loop {K : Type} (hSize bot : Nat) (s0 : HullState K)
    (hh : hSize < 4294967296) (h0 : s0.indexCount = 0) (h1 : s0.indexList.writes = []) :
    ∃ s, forLoop (hullBottomBody hSize bot) 0 hSize s0 = some s ∧
      s.pointList = s0.pointList ∧ s.pointCount = s0.pointCount ∧
      s.indexList.size = s0.indexList.size ∧
      s.indexList.positions = List.range hSize ∧ s.indexCount = hSize := by
  have key := forLoop_inv (hullBottomBody hSize bot : Nat → HullState K → _)
    (fun i s =>
      s.pointList = s0.pointList ∧ s.pointCount = s0.pointCount ∧
      s.indexList.size = s0.indexList.size ∧
      s.indexList.positions = List.range i ∧ s.indexCount = i)
    hSize 0 s0
    (by simp [h0, h1, Buffer.positions])
    (by
      intro i s _ hi ⟨i1, i2, i3, i4, i5⟩
      have hne : ¬ hSize = 0 := by omega
      have hbody : hullBottomBody hSize bot i s
          = some { s with
              indexList := s.indexList.setAt s.indexCount
                { i0 := u32 (s.cur + i), i1 := bot, i2 := u32 (s.cur + u32 (i + 1) % hSize) },
              indexCount := u32 (s.indexCount + 1) } := by
        simp only [hullBottomBody, if_neg hne]
      refine ⟨_, hbody, i1, i2, i3, ?_, ?_⟩
      · show (s.indexList.setAt s.indexCount _).positions = List.range (i + 1)
        rw [i5]; exact Buffer.positions_setAt_range _ _ _ i4
      · show u32 (s.indexCount + 1) = i + 1
        rw [i5]; exact u32_of_lt (by omega))
  obtain ⟨s, hs, a1, a2, a3, a4, a5⟩ := key
  simp only [Nat.zero_add] at hs a4 a5
  exact ⟨s, hs, a1, a2, a3, a4, a5⟩

/-- The arrays of the extruded hull when `_stacks` is 1: two points, an index
array of size 0, and the triangles of the bottom fan written all the same. -/
theorem hullFill_one_stack {K : Type} [LinearOrderedField K] (norm : Vector3 K → K)
    (tolerance epsilon : K) (horizontal vertical : List (Vector3 K))
    (width xcenter ycenter : K) (c1 c2 : ChainState K) (stacks1 stacks2 hSize : Nat)
    (dtSeg1 dtSeg2 : K) (b t fuel : Nat) (hh : hSize < 4294967296)
    (hb : b < vertical.length) (ht : t < vertical.length) :
    ∃ s, hullFill norm tolerance epsilon horizontal vertical width xcenter ycenter c1 c2
        stacks1 stacks2 1 hSize dtSeg1 dtSeg2 b t fuel = some s ∧
      s.pointList.size = 2 ∧ s.pointList.positions = [0, 1] ∧ s.pointCount = 2 ∧
      s.indexList.size = 0 ∧ s.indexList.positions = List.range hSize ∧
      s.indexCount = hSize := by
  have e0 : sub32 1 1 = 0 := by decide
  have e1 : u32 (0 * hSize) = 0 := by rw [Nat.zero_mul]; rfl
  have e2 : u32 (0 + 2) = 2 := by decide
  have e3 : u32 (0 * 2) = 0 := by decide
  have e4 : u32 (0 + 1) = 1 := by decide
  obtain ⟨s1, hs1, a1, a2, a3, a4, a5⟩ := hullBottom_loop hSize 0
    ({ cur := 0, pointCount := 0, indexCount := 0,
       walk1 := { i := 0, dt := dtSeg1, dtSeg := dtSeg1 },
       walk2 := { i := 0, dt := dtSeg2, dtSeg := dtSeg2 },
       pointList := Buffer.new 2, indexList := Buffer.new 0 } : HullState K) hh rfl rfl
  have hvb : vertical[b]? = some (vertical[b]) := List.getElem?_eq_getElem hb
  have hvt : vertical[t]? = some (vertical[t]) := List.getElem?_eq_getElem ht
  refine ⟨{ s1 with
      pointList := (s1.pointList.setAt s1.pointCount
          { x := (vertical[b]).x, y := ycenter, z := (vertical[b]).y }).setAt
        (u32 (s1.pointCount + 1)) { x := (vertical[t]).x, y := ycenter, z := (vertical[t]).y },
      pointCount := u32 (u32 (s1.pointCount + 1) + 1) }, ?_, ?_, ?_, ?_, a3, a4, a5⟩
  · simp only [hullFill, e0, e1, e2, e3, e4, hs1, Nat.sub_self, forLoop, hvb, hvt]
  · show ((s1.pointList.setAt _ _).setAt _ _).size = 2
    rw [Buffer.size_setAt, Buffer.size_setAt, a1]; rfl
  · show ((s1.pointList.setAt _ _).setAt _ _).positions = [0, 1]
    rw [Buffer.positions_setAt, Buffer.positions_setAt, a1, a2]
    rfl
  · show u32 (u32 (s1.pointCount + 1) + 1) = 2
    rw [a2]
    show u32 (u32 (0 + 1) + 1) = 2
    decide

/-- C39: for a vertical profile of two points (indices 0 and 1 for the smallest
and the largest `y`) and any horizontal profile of `h ≥ 1` points, the two
chains have one segment each, so `_stacks` is 1: the kernel is defined,
allocates `(1 - 1) * h + 2 = 2` points and `2 * (1 - 1) * h = 0` triangles,
writes the two points at 0 and 1, and writes the `h` triangles of the bottom
fan at the positions 0, ..., `h - 1` of the index array of size 0: these writes
fall outside the array, and the counter `_indexCount` ends at `h`, not at the
size of the array that the final `GEOM_ASSERT` compares it with. -/
theorem hull_two_point_profile_overflows_index_array {K : Type} [LinearOrderedField K]
    (norm : Vector3 K → K) (tolerance epsilon : K) (horizontal : List (Vector3 K))
    (v0 v1 xMin xMax yMin yMax : Vector3 K) (fuel : Nat) (h1 : 1 ≤ horizontal.length)
    (h2 : horizontal.length < 4294967296) (hf : 2 ≤ fuel) :
    ∃ s, extrudedHullKernel norm tolerance epsilon horizontal [v0, v1] xMin xMax yMin yMax
        0 1 fuel = some s ∧
      s.pointList.size = (1 - 1) * horizontal.length + 2 ∧ s.pointList.positions = [0, 1] ∧
      s.pointCount = s.pointList.size ∧
      s.indexList.size = 2 * (1 - 1) * horizontal.length ∧
      s.indexList.positions = List.range horizontal.length ∧
      s.indexList.inBounds = false ∧
      s.indexCount = horizontal.length ∧ s.indexCount ≠ s.indexList.size := by
  obtain ⟨c1, c2, hc1, hc2, x1, x2, -, -⟩ :=
    hullChains_spec norm [v0, v1] 0 1 fuel (by simp) (by simp) (by simp) (by decide) hf
  simp only [List.length_cons, List.length_nil] at x1 x2
  have x1' : c1.ndx = [0, 1] := by rw [x1]; decide
  have x2' : c2.ndx = [0, 1] := by rw [x2]; decide
  have hst1 : hullStacks c1 = 1 := by
    simp only [hullStacks, x1', List.length_cons, List.length_nil]
    decide
  have hst2 : hullStacks c2 = 1 := by
    simp only [hullStacks, x2', List.length_cons, List.length_nil]
    decide
  have hfs1 : hullFirstSegment norm [v0, v1] c1 = some (norm (v0.sub v1) / c1.len) := by
    simp [hullFirstSegment, x1']
  have hfs2 : hullFirstSegment norm [v0, v1] c2 = some (norm (v0.sub v1) / c2.len) := by
    simp [hullFirstSegment, x2']
  obtain ⟨s, hs, a1, a2, a3, a4, a5, a6⟩ :=
    hullFill_one_stack norm tolerance epsilon horizontal [v0, v1] (hullWidth xMin xMax)
      (hullXCenter xMin xMax) (hullYCenter yMin yMax) c1 c2 1 1 horizontal.length
      (norm (v0.sub v1) / c1.len) (norm (v0.sub v1) / c2.len) 0 1 fuel h2 (by simp)
      (by simp)
  have hk : extrudedHullKernel norm tolerance epsilon horizontal [v0, v1] xMin xMax yMin yMax
      0 1 fuel = some s := by
    simp only [extrudedHullKernel, hc1, hc2, hfs1, hfs2, hst1, hst2, max_self, u32_of_lt h2]
    exact hs
  refine ⟨s, hk, by rw [a1]; omega, a2, by rw [a3, a1], by rw [a4]; omega, a5, ?_, a6, ?_⟩
  · simp only [Buffer.inBounds, a5, a4, List.all_eq_false]
    exact ⟨0, List.mem_range.mpr (by omega), by simp⟩
  · rw [a6, a4]; omega

/-- C39, at a horizontal profile of three points and the vertical profile of
the two points `(0, 0)` and `(0, 1)`, over the rationals. -/
theorem hull_two_point_profile_overflows_index_array_witness :
    (1 ≤ [({ x := 1, y := 0, z := 0 } : Vector3 ℚ), { x := 0, y := 1, z := 0 },
        { x := -1, y := 0, z := 0 }].length ∧
      [({ x := 1, y := 0, z := 0 } : Vector3 ℚ), { x := 0, y := 1, z := 0 },
        { x := -1, y := 0, z := 0 }].length < 4294967296 ∧ 2 ≤ 2) ∧
    ∃ s, extrudedHullKernel axisNorm (1 / 1000000) (1 / 1000000)
        [{ x := 1, y := 0, z := 0 }, { x := 0, y := 1, z := 0 }, { x := -1, y := 0, z := 0 }]
        [{ x := 0, y := 0, z := 0 }, { x := 0, y := 1, z := 0 }]
        { x := -1, y := 0, z := 0 } { x := 1, y := 0, z := 0 } { x := 1, y := 0, z := 0 }
        { x := 0, y := 1, z := 0 } 0 1 2 = some s ∧
      s.pointList.size = (1 - 1) * 3 + 2 ∧ s.pointList.positions = [0, 1] ∧
      s.pointCount = s.pointList.size ∧
      s.indexList.size = 2 * (1 - 1) * 3 ∧
      s.indexList.positions = List.range 3 ∧
      s.indexList.inBounds = false ∧
      s.indexCount = 3 ∧ s.indexCount ≠ s.indexList.size :=
  ⟨by decide,
    hull_two_point_profile_overflows_index_array axisNorm (1 / 1000000) (1 / 1000000)
      [{ x := 1, y := 0, z := 0 }, { x := 0, y := 1, z := 0 }, { x := -1, y := 0, z := 0 }]
      { x := 0, y := 0, z := 0 } { x := 0, y := 1, z := 0 }
      { x := -1, y := 0, z := 0 } { x := 1, y := 0, z := 0 } { x := 1, y := 0, z := 0 }
      { x := 0, y := 1, z := 0 } 2 (by decide) (by decide) (by decide)⟩

/-! ## The asymmetric hull (C40) -/

/-- The loop over the stacks of the lower half of a direction: `m` points and
`2 * m` triangles written at consecutive positions. -/
theorem asymmetricLower_loop {R : Type} (ops : RealOps R) (C : CylindricalExtern R)
    (botPoint : Vector3 R) (piBot : Cylindrical R) (rStepBot shapeBot : R)
    (m c nx pc ic : Nat) (s0 : AsymmetricHullState R)
    (hc : s0.cur = c) (hnx : s0.next = nx) (hpc : s0.pointCount = pc)
    (hic : s0.indexCount = ic)
    (hpp : s0.pointList.positions = List.range pc)
    (hip : s0.indexList.positions = List.range ic)
    (b1 : pc + m < 4294967296) (b2 : ic + 2 * m < 4294967296)
    (b3 : c + m < 4294967296) (b4 : nx + m < 4294967296) :
    ∃ s1, forLoop (asymmetricLowerBody ops C botPoint piBot rStepBot shapeBot) 0 m s0
        = some s1 ∧
      s1.cur = c ∧ s1.next = nx ∧ s1.azIter = s0.azIter ∧
      s1.pointCount = pc + m ∧ s1.indexCount = ic + 2 * m ∧
      s1.pointList.size = s0.pointList.size ∧ s1.indexList.size = s0.indexList.size ∧
      s1.pointList.positions = List.range (pc + m) ∧
      s1.indexList.positions = List.range (ic + 2 * m) ∧
      s1.indexList.values = s0.indexList.values ++ (List.range m).flatMap (fun j =>
        [({ i0 := c + j, i1 := nx + j, i2 := nx + j + 1 } : Index3),
         { i0 := c + j, i1 := nx + j + 1, i2 := c + j + 1 }]) := by
  have key := forLoop_inv (asymmetricLowerBody ops C botPoint piBot rStepBot shapeBot)
    (fun j s =>
      s.cur = c ∧ s.next = nx ∧ s.azIter = s0.azIter ∧
      s.pointCount = pc + j ∧ s.indexCount = ic + 2 * j ∧
      s.pointList.size = s0.pointList.size ∧ s.indexList.size = s0.indexList.size ∧
      s.pointList.positions = List.range (pc + j) ∧
      s.indexList.positions = List.range (ic + 2 * j) ∧
      s.indexList.values = s0.indexList.values ++ (List.range j).flatMap (fun j =>
        [({ i0 := c + j, i1 := nx + j, i2 := nx + j + 1 } : Index3),
         { i0 := c + j, i1 := nx + j + 1, i2 := c + j + 1 }]))
    m 0 s0
    (by simp [hc, hnx, hpc, hic, hpp, hip])
    (by
      intro j s _ hj ⟨i1, i2, i3, i4, i5, i6, i7, i8, i9, i10⟩
      have a1 : u32 (ic + 2 * j + 1) = ic + 2 * j + 1 := u32_of_lt (by omega)
      have e1 : u32 (c + j) = c + j := u32_of_lt (by omega)
      have e2 : u32 (nx + j) = nx + j := u32_of_lt (by omega)
      have e3 : u32 (nx + j + 1) = nx + j + 1 := u32_of_lt (by omega)
      have e4 : u32 (c + j + 1) = c + j + 1 := u32_of_lt (by omega)
      refine ⟨_, rfl, i1, i2, i3, ?_, ?_, i6, i7, ?_, ?_, ?_⟩
      · show u32 (s.pointCount + 1) = pc + (j + 1)
        rw [i4]; exact u32_of_lt (by omega)
      · show u32 (u32 (s.indexCount + 1) + 1) = ic + 2 * (j + 1)
        rw [i5, a1]; exact u32_of_lt (by omega)
      · show (s.pointList.setAt s.pointCount _).positions = List.range (pc + (j + 1))
        rw [i4]; exact Buffer.positions_setAt_range _ _ _ i8
      · show ((s.indexList.setAt s.indexCount _).setAt (u32 (s.indexCount + 1)) _).positions
            = List.range (ic + 2 * (j + 1))
        rw [i5, a1]
        exact Buffer.positions_setAt_range _ _ _ (Buffer.positions_setAt_range _ _ _ i9)
      · show ((s.indexList.setAt s.indexCount
            { i0 := u32 (s.cur + j), i1 := u32 (s.next + j),
              i2 := u32 (u32 (s.next + j) + 1) }).setAt (u32 (s.indexCount + 1))
            { i0 := u32 (s.cur + j), i1 := u32 (u32 (s.next + j) + 1),
              i2 := u32 (u32 (s.cur + j) + 1) }).values = _
        rw [Buffer.values_setAt, Buffer.values_setAt, i10, i1, i2, e1, e2, e3, e4,
          List.range_succ, List.flatMap_append, List.append_assoc, List.append_assoc]
        simp)
  obtain ⟨s1, h, a⟩ := key
  simp only [Nat.zero_add] at a h
  exact ⟨s1, h, a⟩

/-- The loop over the stacks of the upper half of a direction: `m` points and
`2 * m` triangles written at consecutive positions. -/
theorem asymmetricUpper_loop {R : Type} (ops : RealOps R) (C : CylindricalExtern R)
    (topPoint : Vector3 R) (piTop : Cylindrical R) (rStepTop shapeTop : R)
    (nbStacks m c nx pc ic : Nat) (s0 : AsymmetricHullState R) (hK : 1 ≤ nbStacks)
    (hc : s0.cur = c) (hnx : s0.next = nx) (hpc : s0.pointCount = pc)
    (hic : s0.indexCount = ic)
    (hpp : s0.pointList.positions = List.range pc)
    (hip : s0.indexList.positions = List.range ic)
    (b1 : pc + m < 4294967296) (b2 : ic + 2 * m < 4294967296)
    (b3 : c + nbStacks + m < 4294967296) (b4 : nx + nbStacks + m < 4294967296) :
    ∃ s1, forLoop (asymmetricUpperBody ops C topPoint piTop rStepTop shapeTop nbStacks) 0 m s0
        = some s1 ∧
      s1.cur = c ∧ s1.next = nx ∧ s1.azIter = s0.azIter ∧
      s1.pointCount = pc + m ∧ s1.indexCount = ic + 2 * m ∧
      s1.pointList.size = s0.pointList.size ∧ s1.indexList.size = s0.indexList.size ∧
      s1.pointList.positions = List.range (pc + m) ∧
      s1.indexList.positions = List.range (ic + 2 * m) ∧
      s1.indexList.values = s0.indexList.values ++ (List.range m).flatMap (fun j =>
        [({ i0 := c + nbStacks - 1 + j, i1 := nx + nbStacks - 1 + j,
            i2 := nx + nbStacks + j } : Index3),
         { i0 := c + nbStacks - 1 + j, i1 := nx + nbStacks + j, i2 := c + nbStacks + j }]) := by
  have key := forLoop_inv (asymmetricUpperBody ops C topPoint piTop rStepTop shapeTop nbStacks)
    (fun j s =>
      s.cur = c ∧ s.next = nx ∧ s.azIter = s0.azIter ∧
      s.pointCount = pc + j ∧ s.indexCount = ic + 2 * j ∧
      s.pointList.size = s0.pointList.size ∧ s.indexList.size = s0.indexList.size ∧
      s.pointList.positions = List.range (pc + j) ∧
      s.indexList.positions = List.range (ic + 2 * j) ∧
      s.indexList.values = s0.indexList.values ++ (List.range j).flatMap (fun j =>
        [({ i0 := c + nbStacks - 1 + j, i1 := nx + nbStacks - 1 + j,
            i2 := nx + nbStacks + j } : Index3),
         { i0 := c + nbStacks - 1 + j, i1 := nx + nbStacks + j, i2 := c + nbStacks + j }]))
    m 0 s0
    (by simp [hc, hnx, hpc, hic, hpp, hip])
    (by
      intro j s _ hj ⟨i1, i2, i3, i4, i5, i6, i7, i8, i9, i10⟩
      have a1 : u32 (ic + 2 * j + 1) = ic + 2 * j + 1 := u32_of_lt (by omega)
      have e1 : u32 (c + nbStacks) = c + nbStacks := u32_of_lt (by omega)
      have e2 : u32 (nx + nbStacks) = nx + nbStacks := u32_of_lt (by omega)
      have e3 : sub32 (c + nbStacks) 1 = c + nbStacks - 1 := by unfold sub32; omega
      have e4 : sub32 (nx + nbStacks) 1 = nx + nbStacks - 1 := by unfold sub32; omega
      have e5 : u32 (c + nbStacks - 1 + j) = c + nbStacks - 1 + j := u32_of_lt (by omega)
      have e6 : u32 (nx + nbStacks - 1 + j) = nx + nbStacks - 1 + j := u32_of_lt (by omega)
      have e7 : u32 (c + nbStacks + j) = c + nbStacks + j := u32_of_lt (by omega)
      have e8 : u32 (nx + nbStacks + j) = nx + nbStacks + j := u32_of_lt (by omega)
      refine ⟨_, rfl, i1, i2, i3, ?_, ?_, i6, i7, ?_, ?_, ?_⟩
      · show u32 (s.pointCount + 1) = pc + (j + 1)
        rw [i4]; exact u32_of_lt (by omega)
      · show u32 (u32 (s.indexCount + 1) + 1) = ic + 2 * (j + 1)
        rw [i5, a1]; exact u32_of_lt (by omega)
      · show (s.pointList.setAt s.pointCount _).positions = List.range (pc + (j + 1))
        rw [i4]; exact Buffer.positions_setAt_range _ _ _ i8
      · show ((s.indexList.setAt s.indexCount _).setAt (u32 (s.indexCount + 1)) _).positions
            = List.range (ic + 2 * (j + 1))
        rw [i5, a1]
        exact Buffer.positions_setAt_range _ _ _ (Buffer.positions_setAt_range _ _ _ i9)
      · show ((s.indexList.setAt s.indexCount
            { i0 := u32 (sub32 (u32 (s.cur + nbStacks)) 1 + j),
              i1 := u32 (sub32 (u32 (s.next + nbStacks)) 1 + j),
              i2 := u32 (u32 (s.next + nbStacks) + j) }).setAt (u32 (s.indexCount + 1))
            { i0 := u32 (sub32 (u32 (s.cur + nbStacks)) 1 + j),
              i1 := u32 (u32 (s.next + nbStacks) + j),
              i2 := u32 (u32 (s.cur + nbStacks) + j) }).values = _
        rw [Buffer.values_setAt, Buffer.values_setAt, i10, i1, i2, e1, e2, e3, e4, e5, e6, e7,
          e8, List.range_succ, List.flatMap_append, List.append_assoc, List.append_assoc]
        simp)
  obtain ⟨s1, h, a⟩ := key
  simp only [Nat.zero_add] at a h
  exact ⟨s1, h, a⟩

/-- The first index of the direction after direction `m`, cyclically. -/
theorem next_direction_index (total rc m : Nat) (hm : m < total) (hrc : 1 ≤ rc) :
    (m * rc + rc) % (total * rc) = (m + 1) % total * rc := by
  by_cases h : m + 1 < total
  · rw [Nat.mod_eq_of_lt h, Nat.succ_mul]
    apply Nat.mod_eq_of_lt
    have := Nat.mul_lt_mul_of_pos_right h (show 0 < rc by omega)
    rwa [Nat.succ_mul] at this
  · have hms : m + 1 = total := by omega
    have hfull : m * rc + rc = total * rc := by rw [← hms, Nat.succ_mul]
    rw [hfull, Nat.mod_self, hms, Nat.mod_self, Nat.zero_mul]

/-- The lower part of a direction: the triangle of the bottom apex, then
`nbStacks - 1` points and twice as many triangles. -/
theorem asymmetricLowerHalf_spec {R : Type} (ops : RealOps R) (C : CylindricalExtern R)
    (hull : AsymmetricHull R) (pI : Vector3 R) (nbStacks bot c nx pc ic : Nat)
    (s : AsymmetricHullState R)
    (hc : s.cur = c) (hnx : s.next = nx) (hpc : s.pointCount = pc) (hic : s.indexCount = ic)
    (hpp : s.pointList.positions = List.range pc)
    (hip : s.indexList.positions = List.range ic)
    (b1 : pc + nbStacks < 4294967296) (b2 : ic + 1 + 2 * nbStacks < 4294967296)
    (b3 : c + nbStacks < 4294967296) (b4 : nx + nbStacks < 4294967296) :
    ∃ s1, asymmetricLowerHalf ops C hull pI nbStacks (nbStacks - 1) bot s = some s1 ∧
      s1.cur = c ∧ s1.next = nx ∧ s1.azIter = s.azIter ∧
      s1.pointCount = pc + (nbStacks - 1) ∧ s1.indexCount = ic + 1 + 2 * (nbStacks - 1) ∧
      s1.pointList.size = s.pointList.size ∧ s1.indexList.size = s.indexList.size ∧
      s1.pointList.positions = List.range (pc + (nbStacks - 1)) ∧
      s1.indexList.positions = List.range (ic + 1 + 2 * (nbStacks - 1)) ∧
      s1.indexList.values = s.indexList.values ++ [{ i0 := c, i1 := bot, i2 := nx }] ++
        (List.range (nbStacks - 1)).flatMap (fun j =>
          [({ i0 := c + j, i1 := nx + j, i2 := nx + j + 1 } : Index3),
           { i0 := c + j, i1 := nx + j + 1, i2 := c + j + 1 }]) := by
  obtain ⟨s1, hl1, c1, c2, c3, c4, c5, c6, c7, c8, c9, c10⟩ :=
    asymmetricLower_loop ops C hull.bottom (C.ofVector (Vector3.minus ops hull.bottom pI))
      (ops.div (C.ofVector (Vector3.minus ops hull.bottom pI)).radius (ops.ofNat nbStacks))
      hull.bottomShape (nbStacks - 1) c nx pc (ic + 1)
      { s with rIter := ops.ofNat 0,
               indexList := s.indexList.setAt s.indexCount
                 { i0 := s.cur, i1 := bot, i2 := s.next },
               indexCount := u32 (s.indexCount + 1) }
      hc hnx hpc
      (by show u32 (s.indexCount + 1) = ic + 1
          rw [hic]; exact u32_of_lt (by omega))
      hpp
      (by show (s.indexList.setAt s.indexCount _).positions = List.range (ic + 1)
          rw [hic]; exact Buffer.positions_setAt_range _ _ _ hip)
      (by omega) (by omega) (by omega) (by omega)
  refine ⟨s1, hl1, c1, c2, c3, c4, c5, c6, c7, c8, c9, ?_⟩
  rw [c10]
  show (s.indexList.setAt s.indexCount _).values ++ _ = _
  rw [Buffer.values_setAt, hc, hnx]

/-- The upper part of a direction: the peripheral point, then `nbStacks - 1`
points and twice as many triangles. -/
theorem asymmetricUpperHalf_spec {R : Type} (ops : RealOps R) (C : CylindricalExtern R)
    (hull : AsymmetricHull R) (pI : Vector3 R) (nbStacks c nx pc ic : Nat)
    (s1 : AsymmetricHullState R) (hK : 1 ≤ nbStacks)
    (hc : s1.cur = c) (hnx : s1.next = nx) (hpc : s1.pointCount = pc)
    (hic : s1.indexCount = ic)
    (hpp : s1.pointList.positions = List.range pc)
    (hip : s1.indexList.positions = List.range ic)
    (b1 : pc + nbStacks < 4294967296) (b2 : ic + 2 * nbStacks < 4294967296)
    (b3 : c + 2 * nbStacks < 4294967296) (b4 : nx + 2 * nbStacks < 4294967296) :
    ∃ s2, asymmetricUpperHalf ops C hull pI nbStacks (nbStacks - 1) s1 = some s2 ∧
      s2.cur = c ∧ s2.next = nx ∧ s2.azIter = s1.azIter ∧
      s2.pointCount = pc + 1 + (nbStacks - 1) ∧ s2.indexCount = ic + 2 * (nbStacks - 1) ∧
      s2.pointList.size = s1.pointList.size ∧ s2.indexList.size = s1.indexList.size ∧
      s2.pointList.positions = List.range (pc + 1 + (nbStacks - 1)) ∧
      s2.indexList.positions = List.range (ic + 2 * (nbStacks - 1)) ∧
      s2.indexList.values = s1.indexList.values ++
        (List.range (nbStacks - 1)).flatMap (fun j =>
          [({ i0 := c + nbStacks - 1 + j, i1 := nx + nbStacks - 1 + j,
              i2 := nx + nbStacks + j } : Index3),
           { i0 := c + nbStacks - 1 + j, i1 := nx + nbStacks + j,
             i2 := c + nbStacks + j }]) := by
  obtain ⟨s2, hl2, e1, e2, e3, e4, e5, e6, e7, e8, e9, e10⟩ :=
    asymmetricUpper_loop ops C hull.top (C.ofVector (Vector3.minus ops hull.top pI))
      (ops.div (C.ofVector (Vector3.minus ops hull.top pI)).radius (ops.ofNat nbStacks))
      hull.topShape nbStacks (nbStacks - 1) c nx (pc + 1) ic
      { s1 with
          rIter := (C.ofVector (Vector3.minus ops hull.top pI)).radius,
          pointList := s1.pointList.setAt s1.pointCount pI,
          pointCount := u32 (s1.pointCount + 1) }
      hK hc hnx
      (by show u32 (s1.pointCount + 1) = pc + 1
          rw [hpc]; exact u32_of_lt (by omega))
      hic
      (by show (s1.pointList.setAt s1.pointCount _).positions = List.range (pc + 1)
          rw [hpc]; exact Buffer.positions_setAt_range _ _ _ hpp)
      hip (by omega) (by omega) (by omega) (by omega)
  exact ⟨s2, hl2, e1, e2, e3, e4, e5, e6, e7, e8, e9, e10⟩

/-- The end of a direction: the triangle of the top apex, and the move to the
next direction. -/
theorem asymmetricDirectionEnd_spec {R : Type} (ops : RealOps R) (azStep : R)
    (ringCount bot top : Nat) (s2 : AsymmetricHullState R) (hbot : ¬ (bot = 0)) :
    ∃ s3, asymmetricDirectionEnd ops azStep ringCount bot top s2 = some s3 ∧
      s3.cur = s2.next ∧ s3.next = u32 (s2.next + ringCount) % bot ∧
      s3.pointCount = s2.pointCount ∧ s3.indexCount = u32 (s2.indexCount + 1) ∧
      s3.pointList = s2.pointList ∧
      s3.indexList = s2.indexList.setAt s2.indexCount
        { i0 := sub32 (u32 (s2.cur + ringCount)) 1,
          i1 := sub32 (u32 (s2.next + ringCount)) 1, i2 := top } := by
  have h : asymmetricDirectionEnd ops azStep ringCount bot top s2
      = some { s2 with
          indexList := s2.indexList.setAt s2.indexCount
            { i0 := sub32 (u32 (s2.cur + ringCount)) 1,
              i1 := sub32 (u32 (s2.next + ringCount)) 1, i2 := top },
          indexCount := u32 (s2.indexCount + 1),
          cur := s2.next,
          next := u32 (s2.next + ringCount) % bot,
          azIter := ops.add s2.azIter azStep } := by
    simp only [asymmetricDirectionEnd, if_neg hbot]
  exact ⟨_, h, rfl, rfl, rfl, rfl, rfl, rfl⟩

/-- A direction of an asymmetric hull whose points start at the index `a`, those
of the next direction starting at `e`: the iteration is defined, writes `rc`
points and `2 * rc` triangles at consecutive positions, and the triangles are
those of `asymmetricHullFaces`. -/
theorem asymmetricDirection_core {R : Type} (ops : RealOps R) (C : CylindricalExtern R)
    (hull : AsymmetricHull R) (radius1 radius2 z1 z2 azStep : R)
    (nbStacks rc a e bot top i : Nat) (s : AsymmetricHullState R)
    (hK : 1 ≤ nbStacks) (hrc : rc + 1 = 2 * nbStacks)
    (ha : a + rc ≤ bot) (he : e + rc ≤ bot) (hB : 2 * bot + 2 * rc + 2 < 4294967296)
    (hc : s.cur = a) (hnx : s.next = e) (hpc : s.pointCount = a)
    (hic : s.indexCount = 2 * a)
    (hpp : s.pointList.positions = List.range a)
    (hip : s.indexList.positions = List.range (2 * a)) :
    ∃ s3, asymmetricDirectionBody ops C hull radius1 radius2 z1 z2 azStep nbStacks
        (nbStacks - 1) rc bot top i s = some s3 ∧
      s3.cur = e ∧ s3.next = (e + rc) % bot ∧
      s3.pointCount = a + rc ∧ s3.indexCount = 2 * (a + rc) ∧
      s3.pointList.size = s.pointList.size ∧ s3.indexList.size = s.indexList.size ∧
      s3.pointList.positions = List.range (a + rc) ∧
      s3.indexList.positions = List.range (2 * (a + rc)) ∧
      s3.indexList.values = s.indexList.values ++ asymmetricHullFaces nbStacks bot top a e := by
  have hbot : ¬ (bot = 0) := by omega
  obtain ⟨s1, hl1, c1, c2, c3, c4, c5, c6, c7, c8, c9, c10⟩ :=
    asymmetricLowerHalf_spec ops C hull
      (asymmetricPeripheral ops radius1 radius2 z1 z2 s.azIter) nbStacks bot a e a (2 * a) s
      hc hnx hpc hic hpp hip (by omega) (by omega) (by omega) (by omega)
  obtain ⟨s2, hl2, e1, e2, e3, e4, e5, e6, e7, e8, e9, e10⟩ :=
    asymmetricUpperHalf_spec ops C hull
      (asymmetricPeripheral ops radius1 radius2 z1 z2 s.azIter) nbStacks a e
      (a + (nbStacks - 1)) (2 * a + 1 + 2 * (nbStacks - 1)) s1 hK c1 c2 c4 c5 c8 c9
      (by omega) (by omega) (by omega) (by omega)
  obtain ⟨s3, hl3, f1, f2, f3, f4, f5, f6⟩ :=
    asymmetricDirectionEnd_spec ops azStep rc bot top s2 hbot
  have hbody : asymmetricDirectionBody ops C hull radius1 radius2 z1 z2 azStep nbStacks
        (nbStacks - 1) rc bot top i s = some s3 := by
    simp only [asymmetricDirectionBody, hl1, hl2, hl3]
  have x1 : sub32 (u32 (a + rc)) 1 = a + (2 * nbStacks - 1) - 1 := by
    rw [u32_of_lt (by omega)]; unfold sub32; omega
  have x2 : sub32 (u32 (e + rc)) 1 = e + (2 * nbStacks - 1) - 1 := by
    rw [u32_of_lt (by omega)]; unfold sub32; omega
  have y1 : a + (nbStacks - 1) + 1 + (nbStacks - 1) = a + rc := by omega
  have y2 : 2 * a + 1 + 2 * (nbStacks - 1) + 2 * (nbStacks - 1) + 1 = 2 * (a + rc) := by omega
  have y3 : u32 (2 * a + 1 + 2 * (nbStacks - 1) + 2 * (nbStacks - 1) + 1) = 2 * (a + rc) := by
    rw [y2]; exact u32_of_lt (by omega)
  have y4 : u32 (e + rc) = e + rc := u32_of_lt (by omega)
  refine ⟨s3, hbody, ?_, ?_, ?_, ?_, ?_, ?_, ?_, ?_, ?_⟩
  · rw [f1]; exact e2
  · rw [f2, e2, y4]
  · rw [f3, e4, y1]
  · rw [f4, e5, y3]
  · rw [f5, e6, c6]
  · rw [f6, Buffer.size_setAt, e7, c7]
  · rw [f5, e8, y1]
  · rw [f6, e5]
    have := Buffer.positions_setAt_range s2.indexList _
      { i0 := sub32 (u32 (s2.cur + rc)) 1, i1 := sub32 (u32 (s2.next + rc)) 1, i2 := top } e9
    rw [this, y2]
  · rw [f6, Buffer.values_setAt, e10, c10, e1, e2, x1, x2]
    simp only [asymmetricHullFaces, List.append_assoc]

/-- An iteration of the loop over the directions of an asymmetric hull: it is
defined and writes the points and the triangles of the next direction. -/
theorem asymmetricDirection_step {R : Type} (ops : RealOps R) (C : CylindricalExtern R)
    (hull : AsymmetricHull R) (radius1 radius2 z1 z2 azStep : R)
    (nbStacks rc total top psize isize d i : Nat) (s : AsymmetricHullState R)
    (hK : 1 ≤ nbStacks) (hrc : rc + 1 = 2 * nbStacks) (hd : d < total)
    (hB : 2 * (total * rc) + 2 * rc + 2 < 4294967296)
    (hinv : s.upTo nbStacks rc total (total * rc) top psize isize d) :
    ∃ s1, asymmetricDirectionBody ops C hull radius1 radius2 z1 z2 azStep nbStacks
        (nbStacks - 1) rc (total * rc) top i s = some s1 ∧
      s1.upTo nbStacks rc total (total * rc) top psize isize (d + 1) := by
  obtain ⟨hc, hnx, hpc, hic, hps, his, hpp, hip, hval⟩ := hinv
  rw [Nat.mod_eq_of_lt hd] at hc
  have hrc1 : 1 ≤ rc := by omega
  have hd' : d + 1 ≤ total := hd
  have hA : d * rc + rc ≤ total * rc := by
    have := Nat.mul_le_mul_right rc hd'
    rwa [Nat.succ_mul] at this
  have hm : (d + 1) % total < total := Nat.mod_lt _ (by omega)
  have hN : (d + 1) % total * rc + rc ≤ total * rc := by
    have := Nat.mul_le_mul_right rc (show (d + 1) % total + 1 ≤ total from hm)
    rwa [Nat.succ_mul] at this
  have hsucc : (d + 1) * rc = d * rc + rc := Nat.succ_mul d rc
  obtain ⟨s3, hbody, g1, g2, g3, g4, g5, g6, g7, g8, g9⟩ :=
    asymmetricDirection_core ops C hull radius1 radius2 z1 z2 azStep nbStacks rc (d * rc)
      ((d + 1) % total * rc) (total * rc) top i s hK hrc hA hN hB hc hnx hpc hic hpp hip
  refine ⟨s3, hbody, g1, ?_, ?_, ?_, ?_, ?_, ?_, ?_, ?_⟩
  · rw [g2, next_direction_index total rc _ hm hrc1, Nat.mod_add_mod]
  · rw [g3, hsucc]
  · rw [g4, hsucc]
  · rw [g5]; exact hps
  · rw [g6]; exact his
  · rw [g7, hsucc]
  · rw [g8, hsucc]
  · rw [g9, hval, List.range_succ, List.flatMap_append, List.flatMap_singleton]

/-- The loop over the directions of a quadrant of an asymmetric hull of `slices`
slices per quadrant. -/
theorem asymmetricQuadrant_step {R : Type} (ops : RealOps R) (C : CylindricalExtern R)
    (hull : AsymmetricHull R) (azStep : R)
    (slices nbStacks rc top psize isize q : Nat) (s : AsymmetricHullState R)
    (hK : 1 ≤ nbStacks) (hrc : rc + 1 = 2 * nbStacks) (hq : q < 4)
    (hB : 2 * (slices * 4 * rc) + 2 * rc + 2 < 4294967296)
    (hinv : s.upTo nbStacks rc (slices * 4) (slices * 4 * rc) top psize isize (q * slices)) :
    ∃ s1, asymmetricQuadrantBody ops C hull azStep slices nbStacks (nbStacks - 1) rc
        (slices * 4 * rc) top q s = some s1 ∧
      s1.upTo nbStacks rc (slices * 4) (slices * 4 * rc) top psize isize
        ((q + 1) * slices) := by
  have hq3 : q * slices + slices ≤ slices * 4 := by
    have := Nat.mul_le_mul_right slices (show q + 1 ≤ 4 from hq)
    rw [Nat.succ_mul] at this
    omega
  have key := forLoop_inv
    (asymmetricDirectionBody ops C hull
      (if q = 0 then hull.posXRadius else if q = 1 then hull.negXRadius
        else if q = 2 then hull.negXRadius else hull.posXRadius)
      (if q = 0 then hull.posYRadius else if q = 1 then hull.posYRadius
        else if q = 2 then hull.negYRadius else hull.negYRadius)
      (if q = 0 then hull.posXHeight else if q = 1 then hull.negXHeight
        else if q = 2 then hull.negXHeight else hull.posXHeight)
      (if q = 0 then hull.posYHeight else if q = 1 then hull.posYHeight
        else if q = 2 then hull.negYHeight else hull.negYHeight)
      azStep nbStacks (nbStacks - 1) rc (slices * 4 * rc) top)
    (fun i s =>
      s.upTo nbStacks rc (slices * 4) (slices * 4 * rc) top psize isize (q * slices + i))
    slices 0 s hinv
    (by
      intro i t _ hi hP
      exact asymmetricDirection_step ops C hull _ _ _ _ azStep nbStacks rc (slices * 4) top
        psize isize (q * slices + i) i t hK hrc (by omega) hB hP)
  obtain ⟨s1, hs1, h1⟩ := key
  refine ⟨s1, ?_, ?_⟩
  · simp only [asymmetricQuadrantBody]
    exact hs1
  · have e : q * slices + (0 + slices) = (q + 1) * slices := by
      rw [Nat.succ_mul]; omega
    rw [e] at h1
    exact h1

/-- The length of a concatenation of blocks of two elements. -/
theorem length_flatMap_pairs {β γ : Type} (f : β → List γ) (l : List β)
    (h : ∀ x, (f x).length = 2) : (l.flatMap f).length = 2 * l.length := by
  induction l with
  | nil => rfl
  | cons a l ih =>
    rw [List.flatMap_cons, List.length_append, h a, ih, List.length_cons]
    omega

/-- The triangles of a direction of an asymmetric hull whose points, and those
of the next direction, are below the bottom apex `bot`: there are
`2 * (2 * nbStacks - 1)` of them, exactly one has the bottom apex, exactly one
has the top apex `bot + 1`, and every index is below `bot + 2`. -/
theorem asymmetricHullFaces_spec (nbStacks bot c nx : Nat) (hK : 1 ≤ nbStacks)
    (hc : c + (2 * nbStacks - 1) ≤ bot) (hnx : nx + (2 * nbStacks - 1) ≤ bot) :
    (asymmetricHullFaces nbStacks bot (bot + 1) c nx).length = 2 * (2 * nbStacks - 1) ∧
    (asymmetricHullFaces nbStacks bot (bot + 1) c nx).countP (fun t => t.has bot) = 1 ∧
    (asymmetricHullFaces nbStacks bot (bot + 1) c nx).countP (fun t => t.has (bot + 1)) = 1 ∧
    (∀ t ∈ asymmetricHullFaces nbStacks bot (bot + 1) c nx, t.below (bot + 2) = true) := by
  have hL : ∀ t ∈ (List.range (nbStacks - 1)).flatMap (fun j =>
      [({ i0 := c + j, i1 := nx + j, i2 := nx + j + 1 } : Index3),
       { i0 := c + j, i1 := nx + j + 1, i2 := c + j + 1 }]),
      t.i0 < bot ∧ t.i1 < bot ∧ t.i2 < bot := by
    intro t ht
    simp only [List.mem_flatMap, List.mem_range, List.mem_cons, List.mem_singleton,
      List.not_mem_nil, or_false] at ht
    obtain ⟨j, hj, h | h⟩ := ht <;> subst h <;> dsimp only <;> omega
  have hU : ∀ t ∈ (List.range (nbStacks - 1)).flatMap (fun j =>
      [({ i0 := c + nbStacks - 1 + j, i1 := nx + nbStacks - 1 + j,
          i2 := nx + nbStacks + j } : Index3),
       { i0 := c + nbStacks - 1 + j, i1 := nx + nbStacks + j, i2 := c + nbStacks + j }]),
      t.i0 < bot ∧ t.i1 < bot ∧ t.i2 < bot := by
    intro t ht
    simp only [List.mem_flatMap, List.mem_range, List.mem_cons, List.mem_singleton,
      List.not_mem_nil, or_false] at ht
    obtain ⟨j, hj, h | h⟩ := ht <;> subst h <;> dsimp only <;> omega
  have hno : ∀ (l : List Index3) (k : Nat), bot ≤ k →
      (∀ t ∈ l, t.i0 < bot ∧ t.i1 < bot ∧ t.i2 < bot) →
      l.countP (fun t => t.has k) = 0 := by
    intro l k hk hl
    rw [List.countP_eq_zero]
    intro t ht
    obtain ⟨h0, h1, h2⟩ := hl t ht
    simp only [Index3.has, Bool.or_eq_true, beq_iff_eq, not_or]
    omega
  refine ⟨?_, ?_, ?_, ?_⟩
  · simp only [asymmetricHullFaces, List.length_append, List.length_singleton]
    have l1 := length_flatMap_pairs (fun j =>
      [({ i0 := c + j, i1 := nx + j, i2 := nx + j + 1 } : Index3),
       { i0 := c + j, i1 := nx + j + 1, i2 := c + j + 1 }]) (List.range (nbStacks - 1))
      (fun _ => rfl)
    have l2 := length_flatMap_pairs (fun j =>
      [({ i0 := c + nbStacks - 1 + j, i1 := nx + nbStacks - 1 + j,
          i2 := nx + nbStacks + j } : Index3),
       { i0 := c + nbStacks - 1 + j, i1 := nx + nbStacks + j, i2 := c + nbStacks + j }])
      (List.range (nbStacks - 1)) (fun _ => rfl)
    rw [l1, l2, List.length_range]
    omega
  · simp only [asymmetricHullFaces, List.countP_append]
    rw [hno _ bot (Nat.le_refl _) hL, hno _ bot (Nat.le_refl _) hU]
    have h1 : List.countP (fun t => t.has bot) [({ i0 := c, i1 := bot, i2 := nx } : Index3)]
        = 1 := by
      simp [List.countP_cons, Index3.has]
    have h2 : List.countP (fun t => t.has bot)
        [({ i0 := c + (2 * nbStacks - 1) - 1, i1 := nx + (2 * nbStacks - 1) - 1,
            i2 := bot + 1 } : Index3)] = 0 := by
      rw [List.countP_eq_zero]
      intro t ht
      simp only [List.mem_singleton] at ht
      subst ht
      simp only [Index3.has, Bool.or_eq_true, beq_iff_eq, not_or]
      omega
    rw [h1, h2]
  · simp only [asymmetricHullFaces, List.countP_append]
    rw [hno _ (bot + 1) (by omega) hL, hno _ (bot + 1) (by omega) hU]
    have h1 : List.countP (fun t => t.has (bot + 1))
        [({ i0 := c, i1 := bot, i2 := nx } : Index3)] = 0 := by
      rw [List.countP_eq_zero]
      intro t ht
      simp only [List.mem_singleton] at ht
      subst ht
      simp only [Index3.has, Bool.or_eq_true, beq_iff_eq, not_or]
      omega
    have h2 : List.countP (fun t => t.has (bot + 1))
        [({ i0 := c + (2 * nbStacks - 1) - 1, i1 := nx + (2 * nbStacks - 1) - 1,
            i2 := bot + 1 } : Index3)] = 1 := by
      simp [List.countP_cons, Index3.has]
    rw [h1, h2]
  · intro t ht
    rw [Index3.below_iff]
    simp only [asymmetricHullFaces, List.mem_append, List.mem_singleton] at ht
    rcases ht with ((h | h) | h) | h
    · subst h; dsimp only; omega
    · have := hL t h; omega
    · have := hU t h; omega
    · subst h; dsimp only; omega

/-- The arrays of an asymmetric hull of `slices ≥ 1` slices per quadrant and
`nbStacks ≥ 1` stacks per half, `rc` being `2 * nbStacks - 1`: the points of the
`4 * slices` directions, `rc` per direction, then the two apexes; the triangles
of the directions, `2 * rc` per direction. -/
theorem asymmetricHullKernel_arrays {R : Type} (ops : RealOps R) (C : CylindricalExtern R)
    (hull : AsymmetricHull R) (rc : Nat) (hS : 1 ≤ hull.slices) (hK : 1 ≤ hull.nbStacks)
    (hrc : rc + 1 = 2 * hull.nbStacks)
    (hB : 2 * (hull.slices * 4 * rc) + 2 * rc + 2 < 4294967296) :
    ∃ s ring, asymmetricHullKernel ops C hull = some s ∧
      s.pointList.size = hull.slices * 4 * rc + 2 ∧
      s.pointList.positions = List.range (hull.slices * 4 * rc + 2) ∧
      s.pointCount = hull.slices * 4 * rc + 2 ∧
      s.pointList.values = ring ++ [hull.bottom, hull.top] ∧
      ring.length = hull.slices * 4 * rc ∧
      s.indexList.size = 2 * (hull.slices * 4 * rc) ∧
      s.indexList.positions = List.range (2 * (hull.slices * 4 * rc)) ∧
      s.indexCount = 2 * (hull.slices * 4 * rc) ∧
      s.indexList.values = (List.range (4 * hull.slices)).flatMap (fun e =>
        asymmetricHullFaces hull.nbStacks (hull.slices * 4 * rc) (hull.slices * 4 * rc + 1)
          (e * rc) ((e + 1) % (hull.slices * 4) * rc)) := by
  have hrc1 : 1 ≤ rc := by omega
  have hSle : hull.slices * 4 ≤ hull.slices * 4 * rc := Nat.le_mul_of_pos_right _ (by omega)
  have hsl : u32 hull.slices = hull.slices := u32_of_lt (by omega)
  have hst : u32 hull.nbStacks = hull.nbStacks := u32_of_lt (by omega)
  have hts : u32 (hull.slices * 4) = hull.slices * 4 := u32_of_lt (by omega)
  have htk : u32 (hull.nbStacks * 2) = hull.nbStacks * 2 := u32_of_lt (by omega)
  have hring : sub32 (hull.nbStacks * 2) 1 = rc := by unfold sub32; omega
  have hhalf : sub32 hull.nbStacks 1 = hull.nbStacks - 1 := by unfold sub32; omega
  have hbot : u32 (hull.slices * 4 * rc) = hull.slices * 4 * rc := u32_of_lt (by omega)
  have htop : u32 (hull.slices * 4 * rc + 1) = hull.slices * 4 * rc + 1 :=
    u32_of_lt (by omega)
  have hpsz : u32 (hull.slices * 4 * rc + 1 + 1) = hull.slices * 4 * rc + 2 :=
    u32_of_lt (by omega)
  have hcomm : rc * (hull.slices * 4) = hull.slices * 4 * rc := Nat.mul_comm _ _
  have hisz : u32 (u32 (rc * (hull.slices * 4)) * 2) = 2 * (hull.slices * 4 * rc) := by
    rw [hcomm, hbot]
    exact (u32_of_lt (by omega)).trans (by omega)
  have h1mod : (0 + 1) % (hull.slices * 4) = 1 := Nat.mod_eq_of_lt (by omega)
  have key := forLoop_inv
    (asymmetricQuadrantBody ops C hull (ops.div ops.twoPi (ops.ofNat (hull.slices * 4)))
      hull.slices hull.nbStacks (hull.nbStacks - 1) rc (hull.slices * 4 * rc)
      (hull.slices * 4 * rc + 1))
    (fun q s =>
      s.upTo hull.nbStacks rc (hull.slices * 4) (hull.slices * 4 * rc)
        (hull.slices * 4 * rc + 1) (hull.slices * 4 * rc + 2) (2 * (hull.slices * 4 * rc))
        (q * hull.slices))
    4 0
    { cur := 0, next := rc, pointCount := 0, indexCount := 0,
      azIter := ops.ofNat 0, rIter := ops.ofNat 0,
      pointList := Buffer.new (hull.slices * 4 * rc + 2),
      indexList := Buffer.new (2 * (hull.slices * 4 * rc)) }
    (by
      refine ⟨?_, ?_, ?_, ?_, rfl, rfl, ?_, ?_, ?_⟩
      · simp
      · show rc = (0 * hull.slices + 1) % (hull.slices * 4) * rc
        rw [Nat.zero_mul, h1mod, Nat.one_mul]
      · simp
      · simp
      · simp [Buffer.new, Buffer.positions]
      · simp [Buffer.new, Buffer.positions]
      · simp [Buffer.new, Buffer.values])
    (by
      intro q s _ hq hP
      exact asymmetricQuadrant_step ops C hull _ hull.slices hull.nbStacks rc _ _ _ q s hK hrc
        (by omega) hB hP)
  obtain ⟨s, hs, a1, a2, a3, a4, a5, a6, a7, a8, a9⟩ := key
  have e4 : (0 + 4) * hull.slices = hull.slices * 4 := by omega
  rw [e4] at a3 a4 a7 a8
  have e4' : (0 + 4) * hull.slices = 4 * hull.slices := by omega
  rw [e4'] at a9
  have hk : asymmetricHullKernel ops C hull
      = some { s with
          pointList := (s.pointList.setAt s.pointCount hull.bottom).setAt
            (u32 (s.pointCount + 1)) hull.top,
          pointCount := u32 (u32 (s.pointCount + 1) + 1) } := by
    simp only [asymmetricHullKernel, hsl, hst, hts, htk, hring, hhalf, hbot, htop, hpsz, hisz,
      hs]
  have hlen : s.pointList.values.length = hull.slices * 4 * rc := by
    have := congrArg List.length a7
    simpa [Buffer.positions, Buffer.values] using this
  have hu : u32 (hull.slices * 4 * rc + 1) = hull.slices * 4 * rc + 1 := htop
  refine ⟨_, s.pointList.values, hk, ?_, ?_, ?_, ?_, hlen, a6, a8, a4, a9⟩
  · show ((s.pointList.setAt _ _).setAt _ _).size = _
    rw [Buffer.size_setAt, Buffer.size_setAt]; exact a5
  · show ((s.pointList.setAt s.pointCount _).setAt (u32 (s.pointCount + 1)) _).positions = _
    rw [a3, hu]
    exact Buffer.positions_setAt_range _ _ _ (Buffer.positions_setAt_range _ _ _ a7)
  · show u32 (u32 (s.pointCount + 1) + 1) = _
    rw [a3, hu]; exact u32_of_lt (by omega)
  · show ((s.pointList.setAt _ _).setAt _ _).values = _
    rw [Buffer.values_setAt, Buffer.values_setAt, List.append_assoc]
    rfl

/-- C40: for an asymmetric hull of `S ≥ 1` slices per quadrant and `K ≥ 1`
stacks per half (the sizes fitting a `uint32_t`) the kernel is defined; its
point array has `4 * S * (2 * K - 1) + 2` slots, written at 0, 1, 2, ... up to
the size, each once: the `4 * S * (2 * K - 1)` points of the peripheral
directions, then the bottom apex at the index `4 * S * (2 * K - 1)` and the top
apex at the next index; its index array has `8 * S * (2 * K - 1)` triangles,
written at 0, 1, 2, ... as well; both counters end at the sizes, which is what
the two `GEOM_ASSERT` check; the triangles are those of the `4 * S` directions,
`2 * (2 * K - 1)` per direction, among which exactly one has the bottom apex and
exactly one has the top apex; every index of every triangle is smaller than the
number of points. -/
theorem asymmetric_hull_counts_apexes_and_indices {R : Type} (ops : RealOps R)
    (C : CylindricalExtern R) (hull : AsymmetricHull R) (hS : 1 ≤ hull.slices)
    (hK : 1 ≤ hull.nbStacks)
    (hB : 8 * hull.slices * (2 * hull.nbStacks - 1) + 4 * hull.nbStacks < 4294967296) :
    ∃ s ring, asymmetricHullKernel ops C hull = some s ∧
      s.pointList.size = 4 * hull.slices * (2 * hull.nbStacks - 1) + 2 ∧
      s.pointList.positions = List.range s.pointList.size ∧
      s.pointCount = s.pointList.size ∧
      s.pointList.values = ring ++ [hull.bottom, hull.top] ∧
      ring.length = 4 * hull.slices * (2 * hull.nbStacks - 1) ∧
      s.indexList.size = 8 * hull.slices * (2 * hull.nbStacks - 1) ∧
      s.indexList.positions = List.range s.indexList.size ∧
      s.indexCount = s.indexList.size ∧
      s.indexList.values = (List.range (4 * hull.slices)).flatMap (fun d =>
        asymmetricHullFaces hull.nbStacks (4 * hull.slices * (2 * hull.nbStacks - 1))
          (4 * hull.slices * (2 * hull.nbStacks - 1) + 1) (d * (2 * hull.nbStacks - 1))
          ((d + 1) % (4 * hull.slices) * (2 * hull.nbStacks - 1))) ∧
      (∀ d, d < 4 * hull.slices →
        (asymmetricHullFaces hull.nbStacks (4 * hull.slices * (2 * hull.nbStacks - 1))
          (4 * hull.slices * (2 * hull.nbStacks - 1) + 1) (d * (2 * hull.nbStacks - 1))
          ((d + 1) % (4 * hull.slices) * (2 * hull.nbStacks - 1))).length
            = 2 * (2 * hull.nbStacks - 1) ∧
        (asymmetricHullFaces hull.nbStacks (4 * hull.slices * (2 * hull.nbStacks - 1))
          (4 * hull.slices * (2 * hull.nbStacks - 1) + 1) (d * (2 * hull.nbStacks - 1))
          ((d + 1) % (4 * hull.slices) * (2 * hull.nbStacks - 1))).countP
            (fun t => t.has (4 * hull.slices * (2 * hull.nbStacks - 1))) = 1 ∧
        (asymmetricHullFaces hull.nbStacks (4 * hull.slices * (2 * hull.nbStacks - 1))
          (4 * hull.slices * (2 * hull.nbStacks - 1) + 1) (d * (2 * hull.nbStacks - 1))
          ((d + 1) % (4 * hull.slices) * (2 * hull.nbStacks - 1))).countP
            (fun t => t.has (4 * hull.slices * (2 * hull.nbStacks - 1) + 1)) = 1) ∧
      (∀ t ∈ s.indexList.values, t.below s.pointList.size = true) := by
  have hrc : 2 * hull.nbStacks - 1 + 1 = 2 * hull.nbStacks := by omega
  have e1 : hull.slices * 4 = 4 * hull.slices := Nat.mul_comm _ _
  have e2 : 2 * (4 * hull.slices * (2 * hull.nbStacks - 1))
      = 8 * hull.slices * (2 * hull.nbStacks - 1) := by
    rw [← Nat.mul_assoc, ← Nat.mul_assoc]
  obtain ⟨s, ring, hs, a1, a2, a3, a4, a5, a6, a7, a8, a9⟩ :=
    asymmetricHullKernel_arrays ops C hull (2 * hull.nbStacks - 1) hS hK hrc
      (by rw [e1, e2]; omega)
  rw [e1] at a1 a2 a3 a5 a6 a7 a8 a9
  rw [e2] at a6 a7 a8
  have hfaces : ∀ d, d < 4 * hull.slices →
      (d * (2 * hull.nbStacks - 1) + (2 * hull.nbStacks - 1)
          ≤ 4 * hull.slices * (2 * hull.nbStacks - 1)) ∧
      ((d + 1) % (4 * hull.slices) * (2 * hull.nbStacks - 1) + (2 * hull.nbStacks - 1)
          ≤ 4 * hull.slices * (2 * hull.nbStacks - 1)) := by
    intro d hd
    have hm : (d + 1) % (4 * hull.slices) < 4 * hull.slices := Nat.mod_lt _ (by omega)
    constructor
    · have := Nat.mul_le_mul_right (2 * hull.nbStacks - 1) (show d + 1 ≤ 4 * hull.slices from hd)
      rwa [Nat.succ_mul] at this
    · have := Nat.mul_le_mul_right (2 * hull.nbStacks - 1)
        (show (d + 1) % (4 * hull.slices) + 1 ≤ 4 * hull.slices from hm)
      rwa [Nat.succ_mul] at this
  refine ⟨s, ring, hs, a1, by rw [a1]; exact a2, by rw [a1]; exact a3, a4, a5, a6,
    by rw [a6]; exact a7, by rw [a6]; exact a8, a9, ?_, ?_⟩
  · intro d hd
    obtain ⟨h1, h2⟩ := hfaces d hd
    obtain ⟨f1, f2, f3, -⟩ := asymmetricHullFaces_spec hull.nbStacks
      (4 * hull.slices * (2 * hull.nbStacks - 1)) (d * (2 * hull.nbStacks - 1))
      ((d + 1) % (4 * hull.slices) * (2 * hull.nbStacks - 1)) hK h1 h2
    exact ⟨f1, f2, f3⟩
  · intro t ht
    rw [a9, List.mem_flatMap] at ht
    obtain ⟨d, hd, htd⟩ := ht
    rw [List.mem_range] at hd
    obtain ⟨h1, h2⟩ := hfaces d hd
    obtain ⟨-, -, -, f4⟩ := asymmetricHullFaces_spec hull.nbStacks
      (4 * hull.slices * (2 * hull.nbStacks - 1)) (d * (2 * hull.nbStacks - 1))
      ((d + 1) % (4 * hull.slices) * (2 * hull.nbStacks - 1)) hK h1 h2
    rw [a1]
    exact f4 t htd

/-- C40, at the hull of 2 slices per quadrant and 2 stacks per half: 26 points
and 48 triangles. -/
theorem asymmetric_hull_counts_apexes_and_indices_witness :
    (1 ≤ sampleHull.slices ∧ 1 ≤ sampleHull.nbStacks ∧
      8 * sampleHull.slices * (2 * sampleHull.nbStacks - 1) + 4 * sampleHull.nbStacks
        < 4294967296) ∧
    ∃ s ring, asymmetricHullKernel symbolicReal sampleCylindrical sampleHull = some s ∧
      s.pointList.size = 4 * sampleHull.slices * (2 * sampleHull.nbStacks - 1) + 2 ∧
      s.pointList.positions = List.range s.pointList.size ∧
      s.pointCount = s.pointList.size ∧
      s.pointList.values = ring ++ [sampleHull.bottom, sampleHull.top] ∧
      ring.length = 4 * sampleHull.slices * (2 * sampleHull.nbStacks - 1) ∧
      s.indexList.size = 8 * sampleHull.slices * (2 * sampleHull.nbStacks - 1) ∧
      s.indexList.positions = List.range s.indexList.size ∧
      s.indexCount = s.indexList.size ∧
      s.indexList.values = (List.range (4 * sampleHull.slices)).flatMap (fun d =>
        asymmetricHullFaces sampleHull.nbStacks
          (4 * sampleHull.slices * (2 * sampleHull.nbStacks - 1))
          (4 * sampleHull.slices * (2 * sampleHull.nbStacks - 1) + 1)
          (d * (2 * sampleHull.nbStacks - 1))
          ((d + 1) % (4 * sampleHull.slices) * (2 * sampleHull.nbStacks - 1))) ∧
      (∀ d, d < 4 * sampleHull.slices →
        (asymmetricHullFaces sampleHull.nbStacks
          (4 * sampleHull.slices * (2 * sampleHull.nbStacks - 1))
          (4 * sampleHull.slices * (2 * sampleHull.nbStacks - 1) + 1)
          (d * (2 * sampleHull.nbStacks - 1))
          ((d + 1) % (4 * sampleHull.slices) * (2 * sampleHull.nbStacks - 1))).length
            = 2 * (2 * sampleHull.nbStacks - 1) ∧
        (asymmetricHullFaces sampleHull.nbStacks
          (4 * sampleHull.slices * (2 * sampleHull.nbStacks - 1))
          (4 * sampleHull.slices * (2 * sampleHull.nbStacks - 1) + 1)
          (d * (2 * sampleHull.nbStacks - 1))
          ((d + 1) % (4 * sampleHull.slices) * (2 * sampleHull.nbStacks - 1))).countP
            (fun t => t.has (4 * sampleHull.slices * (2 * sampleHull.nbStacks - 1))) = 1 ∧
        (asymmetricHullFaces sampleHull.nbStacks
          (4 * sampleHull.slices * (2 * sampleHull.nbStacks - 1))
          (4 * sampleHull.slices * (2 * sampleHull.nbStacks - 1) + 1)
          (d * (2 * sampleHull.nbStacks - 1))
          ((d + 1) % (4 * sampleHull.slices) * (2 * sampleHull.nbStacks - 1))).countP
            (fun t => t.has (4 * sampleHull.slices * (2 * sampleHull.nbStacks - 1) + 1)) = 1) ∧
      (∀ t ∈ s.indexList.values, t.below s.pointList.size = true) :=
  ⟨by decide,
    asymmetric_hull_counts_apexes_and_indices symbolicReal sampleCylindrical sampleHull
      (by decide) (by decide) (by decide)⟩

/-! ## Objects of the free store are kept by the dispatch -/

theorem heapKeeps_refl {α : Type} (h : List (ExplicitModel α)) : heapKeeps h h := by
  intro a m hm
  exact ⟨m, hm, rfl⟩

theorem heapKeeps_trans {α : Type} {h1 h2 h3 : List (ExplicitModel α)}
    (h12 : heapKeeps h1 h2) (h23 : heapKeeps h2 h3) : heapKeeps h1 h3 := by
  intro a m hm
  obtain ⟨m2, e2, k2⟩ := h12 a m hm
  obtain ⟨m3, e3, k3⟩ := h23 a m2 e2
  refine ⟨m3, e3, ?_⟩
  rw [k3, k2]

theorem heapKeeps_append {α : Type} (h l : List (ExplicitModel α)) : heapKeeps h (h ++ l) := by
  intro a m hm
  have ha : a < h.length := by
    rcases Nat.lt_or_ge a h.length with hlt | hge
    · exact hlt
    · rw [List.getElem?_eq_none hge] at hm
      cases hm
  exact ⟨m, by rw [List.getElem?_append_left ha]; exact hm, rfl⟩

theorem heapKeeps_setName {α : Type} (h : List (ExplicitModel α)) (r : Ref α) (name : String) :
    heapKeeps h (setName h r name).1 := by
  cases r with
  | node id self => exact heapKeeps_refl h
  | alloc b =>
    intro a m hm
    simp only [setName]
    by_cases hab : b = a
    · subst hab
      refine ⟨{ m with name := name }, ?_, rfl⟩
      rw [List.getElem?_modify_eq, hm]
      rfl
    · exact ⟨m, by rw [List.getElem?_modify_ne _ _ hab]; exact hm, rfl⟩

/-- Macro `GEOM_DISCRETIZER_UPDATE_CACHE` keeps the objects of the free store. -/
theorem updateCache_keeps {α : Type} (info : NodeInfo) (d : Discretizer α)
    {h0 : List (ExplicitModel α)} (hc : heapKeeps h0 d.heap) :
    heapKeeps h0 (updateCache info d).heap := by
  unfold updateCache
  split
  · split
    · exact heapKeeps_trans hc (heapKeeps_setName _ _ _)
    · exact hc
  · exact hc

theorem newModel_updateCache_keeps {α : Type} (info : NodeInfo) (d : Discretizer α)
    (m : ExplicitModel α) {h0 : List (ExplicitModel α)} (hc : heapKeeps h0 d.heap) :
    heapKeeps h0 (updateCache info (newModel d m)).heap :=
  updateCache_keeps info (newModel d m) (heapKeeps_trans hc (heapKeeps_append _ _))

theorem processLeaf_keeps {α τ : Type} (E : Extern α τ) (k : LeafKind) (info : NodeInfo)
    {d d1 : Discretizer α} {b : Bool} {h0 : List (ExplicitModel α)}
    (h : processLeaf E k info d = some (b, d1))
    (hc : heapKeeps h0 d.heap) : heapKeeps h0 d1.heap := by
  unfold processLeaf at h
  split at h
  · cases h
  · rename_i heq
    cases h
    rw [(checkCache_ret_cache heq).2]
    exact hc
  · rename_i d0 heq
    split at h
    · cases h
      apply newModel_updateCache_keeps
      rw [(checkCache_go_cache heq).2]
      exact hc
    · cases h

theorem processTexLeaf_keeps {α τ : Type} (E : Extern α τ) (k : TexLeafKind)
    (info : NodeInfo) {d d1 : Discretizer α} {b : Bool} {h0 : List (ExplicitModel α)}
    (h : processTexLeaf E k info d = some (b, d1)) (hc : heapKeeps h0 d.heap) :
    heapKeeps h0 d1.heap := by
  unfold processTexLeaf at h
  split at h
  · cases h
  · rename_i heq
    cases h
    rw [(checkCacheWithTex_ret_cache heq).2]
    exact hc
  · rename_i d0 heq
    split at h
    · cases h
      apply newModel_updateCache_keeps
      rw [(checkCacheWithTex_go_cache heq).2]
      exact hc
    · cases h

theorem processNurbsPatch_keeps {α τ : Type} (E : Extern α τ) (info : NodeInfo)
    {d d1 : Discretizer α} {b : Bool} {h0 : List (ExplicitModel α)}
    (h : processNurbsPatch E info d = some (b, d1)) (hc : heapKeeps h0 d.heap) :
    heapKeeps h0 d1.heap := by
  unfold processNurbsPatch at h
  split at h
  · cases h
  · rename_i heq
    cases h
    rw [(checkCacheWithTex_ret_cache heq).2]
    exact hc
  · rename_i d0 heq
    cases h
    apply updateCache_keeps
    show heapKeeps h0 (d0.heap ++ [_])
    rw [(checkCacheWithTex_go_cache heq).2]
    exact heapKeeps_trans hc (heapKeeps_append _ _)

theorem processCurve2D_keeps {α τ : Type} (E : Extern α τ) (c : Curve2D)
    {d d1 : Discretizer α} {b : Bool} {h0 : List (ExplicitModel α)}
    (h : processCurve2D E c d = some (b, d1))
    (hc : heapKeeps h0 d.heap) : heapKeeps h0 d1.heap := by
  unfold processCurve2D at h
  split at h
  · cases h
  · rename_i heq
    cases h
    rw [(checkCache_ret_cache heq).2]
    exact hc
  · rename_i d0 heq
    cases h
    apply newModel_updateCache_keeps
    rw [(checkCache_go_cache heq).2]
    exact hc

theorem applyProfile_go_keeps {α τ : Type} (E : Extern α τ) (c : Curve2D)
    {d d1 : Discretizer α} {h0 : List (ExplicitModel α)}
    (h : applyProfile E c d = .go d1) (hc : heapKeeps h0 d.heap) :
    heapKeeps h0 d1.heap := by
  unfold applyProfile at h
  split at h
  · cases h
  · rename_i d0 heq
    cases h
    exact processCurve2D_keeps E c heq hc
  · rename_i d0 heq
    have h1 := processCurve2D_keeps E c heq hc
    split at h
    · cases h
    · cases h
    · rename_i second heq2
      cases h
      have h2 : heapKeeps h0 second.heap :=
        processCurve2D_keeps E c heq2 (show heapKeeps h0 (Discretizer.new d0.heap).heap from h1)
      exact h2

theorem applyProfile_ret_keeps {α τ : Type} (E : Extern α τ) (c : Curve2D)
    {d d1 : Discretizer α} {b : Bool} {h0 : List (ExplicitModel α)}
    (h : applyProfile E c d = .ret b d1)
    (hc : heapKeeps h0 d.heap) : heapKeeps h0 d1.heap := by
  unfold applyProfile at h
  split at h
  · cases h
  · cases h
  · rename_i d0 heq
    have h1 := processCurve2D_keeps E c heq hc
    split at h
    · cases h
    · rename_i second heq2
      cases h
      have h2 : heapKeeps h0 second.heap :=
        processCurve2D_keeps E c heq2 (show heapKeeps h0 (Discretizer.new d0.heap).heap from h1)
      exact h2
    · cases h

theorem processExtrudedHull_keeps {α τ : Type} (E : Extern α τ) (info : NodeInfo)
    (hor ver : Curve2D) {d d1 : Discretizer α} {b : Bool} {h0 : List (ExplicitModel α)}
    (h : processExtrudedHull E info hor ver d = some (b, d1)) (hc : heapKeeps h0 d.heap) :
    heapKeeps h0 d1.heap := by
  unfold processExtrudedHull at h
  split at h
  · cases h
  · rename_i heq
    cases h
    rw [(checkCache_ret_cache heq).2]
    exact hc
  · rename_i d0 heq
    have h1 : heapKeeps h0 d0.heap := by rw [(checkCache_go_cache heq).2]; exact hc
    split at h
    · cases h
    · rename_i heq2
      cases h
      exact applyProfile_ret_keeps E hor heq2 h1
    · rename_i d2 heq2
      have h2 := applyProfile_go_keeps E hor heq2 h1
      split at h
      · cases h
      · cases h
        exact h2
      · split at h
        · cases h
        · rename_i heq3
          cases h
          exact applyProfile_ret_keeps E ver heq3 h2
        · rename_i d3 heq3
          have h3 := applyProfile_go_keeps E ver heq3 h2
          split at h
          · cases h
          · cases h
            exact h3
          · split at h
            · cases h
              exact newModel_updateCache_keeps _ _ _ h3
            · cases h

theorem processRevolution_keeps {α τ : Type} (E : Extern α τ) (info : NodeInfo)
    (profile : Curve2D) {d d1 : Discretizer α} {b : Bool} {h0 : List (ExplicitModel α)}
    (h : processRevolution E info profile d = some (b, d1)) (hc : heapKeeps h0 d.heap) :
    heapKeeps h0 d1.heap := by
  unfold processRevolution at h
  split at h
  · cases h
  · rename_i heq
    cases h
    rw [(checkCache_ret_cache heq).2]
    exact hc
  · rename_i d0 heq
    have h1 : heapKeeps h0 d0.heap := by rw [(checkCache_go_cache heq).2]; exact hc
    split at h
    · cases h
    · rename_i heq2
      cases h
      exact applyProfile_ret_keeps E profile heq2 h1
    · rename_i d2 heq2
      have h2 := applyProfile_go_keeps E profile heq2 h1
      split at h
      · split at h
        · cases h
          exact newModel_updateCache_keeps _ _ _ h2
        · cases h
      · cases h

theorem processExtrusion_keeps {α τ : Type} (E : Extern α τ) (info : NodeInfo)
    (solid : Bool) (c : Curve2D) {d d1 : Discretizer α} {b : Bool}
    {h0 : List (ExplicitModel α)}
    (h : processExtrusion E info solid c d = some (b, d1)) (hc : heapKeeps h0 d.heap) :
    heapKeeps h0 d1.heap := by
  unfold processExtrusion at h
  split at h
  · cases h
  · rename_i heq
    cases h
    rw [(checkCacheWithTex_ret_cache heq).2]
    exact hc
  · rename_i d0 heq
    have h1 : heapKeeps h0 d0.heap := by rw [(checkCacheWithTex_go_cache heq).2]; exact hc
    split at h
    · cases h
    · rename_i d2 heq2
      cases h
      have h2 := processCurve2D_keeps E c heq2 h1
      exact h2
    · rename_i d2 heq2
      have h2 := processCurve2D_keeps E c heq2 h1
      split at h
      · cases h
        exact h2
      · split at h
        · split at h
          · cases h
            exact newModel_updateCache_keeps _ _ _ h2
          · cases h
        · cases h

/-- Dispatching a primitive keeps the objects of the free store. -/
theorem processPrimitive_keeps {α τ : Type} (E : Extern α τ) (p : Primitive α)
    {d d1 : Discretizer α} {b : Bool} {h0 : List (ExplicitModel α)}
    (h : processPrimitive E p d = some (b, d1)) (hc : heapKeeps h0 d.heap) :
    heapKeeps h0 d1.heap := by
  cases p with
  | explicit id self =>
    simp only [processPrimitive, processExplicit, Option.some.injEq, Prod.mk.injEq] at h
    obtain ⟨-, rfl⟩ := h
    exact hc
  | leaf k info => exact processLeaf_keeps E k info h hc
  | texLeaf k info => exact processTexLeaf_keeps E k info h hc
  | nurbsPatch info => exact processNurbsPatch_keeps E info h hc
  | curve2D c => exact processCurve2D_keeps E c h hc
  | extrudedHull info hor ver => exact processExtrudedHull_keeps E info hor ver h hc
  | extrusion info solid c => exact processExtrusion_keeps E info solid c h hc
  | revolution info profile => exact processRevolution_keeps E info profile h hc

theorem applyModel_keeps {α τ : Type} (E : Extern α τ) {heap heap2 : List (ExplicitModel α)}
    {fusion fusion2 : Merge α} {p : Option (Ref α)} {b : Bool} {h0 : List (ExplicitModel α)}
    (h : Merge.applyModel E heap fusion p = some (b, heap2, fusion2))
    (hc : heapKeeps h0 heap) : heapKeeps h0 heap2 := by
  unfold Merge.applyModel at h
  split at h
  · cases h
    exact hc
  · split at h
    · split at h
      · cases h
        exact hc
      · cases h
        exact heapKeeps_trans hc (heapKeeps_append _ _)
    · cases h

theorem baseGeom_keeps {α τ : Type} (first : Geometry α τ) (heap : List (ExplicitModel α))
    (r : Ref α) {h0 : List (ExplicitModel α)} (hc : heapKeeps h0 heap) :
    heapKeeps h0 (baseGeom first heap r).1 := by
  unfold baseGeom
  split
  · split
    · exact heapKeeps_trans hc (heapKeeps_append _ _)
    · exact hc
  · exact hc

theorem ifsLoop_keeps {α τ : Type} (E : Extern α τ) (r : Ref α) :
    ∀ (ms : List τ) (fusion : Merge α) (heap : List (ExplicitModel α))
      (x : Option (Merge α)) (heap3 : List (ExplicitModel α)) (h0 : List (ExplicitModel α)),
      ifsLoop E r ms fusion heap = some (x, heap3) → heapKeeps h0 heap → heapKeeps h0 heap3
  | [], fusion, heap, x, heap3, h0, h, hc => by
    simp only [ifsLoop, Option.some.injEq, Prod.mk.injEq] at h
    obtain ⟨-, rfl⟩ := h
    exact hc
  | m :: rest, fusion, heap, x, heap3, h0, h, hc => by
    simp only [ifsLoop] at h
    split at h
    · cases h
    · rename_i base hbase
      have h1 : heapKeeps h0 (alloc heap (E.transform m base)).1 :=
        heapKeeps_trans hc (heapKeeps_append _ _)
      split at h
      · cases h
      · rename_i heap2 f2 heq
        cases h
        exact applyModel_keeps E heq h1
      · rename_i heap2 f2 heq
        exact ifsLoop_keeps E r rest f2 heap2 x heap3 h0 h (applyModel_keeps E heq h1)

mutual
/-- Dispatching a geometry keeps the objects of the free store: each one stays
at its address, with the same fields apart from its name. -/
theorem process_keeps {α τ : Type} (E : Extern α τ) :
    ∀ (g : Geometry α τ) (d d1 : Discretizer α) (b : Bool) (h0 : List (ExplicitModel α)),
      process E g d = some (b, d1) → heapKeeps h0 d.heap → heapKeeps h0 d1.heap
  | .primitive p, d, d1, b, h0, h, hc => by
    simp only [process] at h
    exact processPrimitive_keeps E p h hc
  | .text _, d, d1, b, h0, h, hc => by
    simp only [process, processNothing, Option.some.injEq, Prod.mk.injEq] at h
    obtain ⟨-, rfl⟩ := h
    exact hc
  | .transformed _ info t geometry, d, d1, b, h0, h, hc => by
    simp only [process] at h
    split at h
    · cases h
    · rename_i heq
      cases h
      rw [(checkCache_ret_cache heq).2]
      exact hc
    · rename_i d0 heq
      have h1 : heapKeeps h0 d0.heap := by rw [(checkCache_go_cache heq).2]; exact hc
      split at h
      · cases h
      · rename_i b2 d2 heq2
        have h2 := process_keeps E geometry d0 d2 b2 h0 heq2 h1
        split at h
        · split at h
          · cases h
          · cases h
            exact newModel_updateCache_keeps _ _ _ h2
        · cases h
          exact h2
  | .tapered info t primitive, d, d1, b, h0, h, hc => by
    simp only [process] at h
    split at h
    · cases h
    · rename_i heq
      cases h
      rw [(checkCache_ret_cache heq).2]
      exact hc
    · rename_i d0 heq
      have h1 : heapKeeps h0 d0.heap := by rw [(checkCache_go_cache heq).2]; exact hc
      split at h
      · cases h
      · rename_i d2 heq2
        cases h
        have h2 := processPrimitive_keeps E primitive heq2 h1
        exact h2
      · rename_i d2 heq2
        have h2 := processPrimitive_keeps E primitive heq2 h1
        split at h
        · cases h
        · split at h
          · cases h
          · cases h
            exact newModel_updateCache_keeps _ _ _ h2
  | .group info geometryList, d, d1, b, h0, h, hc => by
    simp only [process] at h
    split at h
    · cases h
    · rename_i heq
      cases h
      rw [(checkCache_ret_cache heq).2]
      exact hc
    · rename_i d0 heq
      have h1 : heapKeeps h0 d0.heap := by rw [(checkCache_go_cache heq).2]; exact hc
      split at h
      · cases h
      · rename_i first rest
        split at h
        · cases h
        · rename_i b2 d2 heq2
          have h2 := process_keeps E first d0 d2 b2 h0 heq2 h1
          split at h
          · cases h
            exact updateCache_keeps _ _ h2
          · rename_i r hr
            have hb : heapKeeps h0 (baseGeom first d2.heap r).1 := baseGeom_keeps _ _ _ h2
            split at h
            · cases h
            · rename_i d3 heq3
              cases h
              have h3 := mergeList_keeps E rest _ _ _ d3 h0 heq3 hb
              exact updateCache_keeps info { d3 with discretization := none } h3
            · rename_i fusion d3 heq3
              cases h
              have h3 := mergeList_keeps E rest _ _ _ d3 h0 heq3 hb
              exact updateCache_keeps info { d3 with discretization := some fusion.model } h3
  | .ifs info matrices geometry, d, d1, b, h0, h, hc => by
    simp only [process] at h
    split at h
    · cases h
    · rename_i heq
      cases h
      rw [(checkCache_ret_cache heq).2]
      exact hc
    · rename_i d0 heq
      have h1 : heapKeeps h0 d0.heap := by rw [(checkCache_go_cache heq).2]; exact hc
      split at h
      · cases h
      · rename_i d2 heq2
        cases h
        have h2 := process_keeps E geometry d0 d2 false h0 heq2 h1
        exact h2
      · rename_i d2 heq2
        have h2 := process_keeps E geometry d0 d2 true h0 heq2 h1
        split at h
        · cases h
        · split at h
          · cases h
          · split at h
            · cases h
            · rename_i base hbase
              have hb : ∀ x, heapKeeps h0 (d2.heap ++ [x]) :=
                fun x => heapKeeps_trans h2 (heapKeeps_append _ _)
              split at h
              · cases h
              · rename_i heap3 heq3
                cases h
                exact ifsLoop_keeps E _ _ _ _ _ heap3 h0 heq3 (hb _)
              · rename_i fusion heap3 heq3
                cases h
                have h3 := ifsLoop_keeps E _ _ _ _ _ heap3 h0 heq3 (hb _)
                exact updateCache_keeps info
                  { d2 with heap := heap3, discretization := some fusion.model } h3
/-- Merging the remaining children of a group keeps the objects of the free
store. -/
theorem mergeList_keeps {α τ : Type} (E : Extern α τ) :
    ∀ (gs : List (Geometry α τ)) (fusion : Merge α) (d : Discretizer α)
      (r : Option (Merge α)) (d1 : Discretizer α) (h0 : List (ExplicitModel α)),
      mergeList E gs fusion d = some (r, d1) → heapKeeps h0 d.heap → heapKeeps h0 d1.heap
  | [], fusion, d, r, d1, h0, h, hc => by
    simp only [mergeList, Option.some.injEq, Prod.mk.injEq] at h
    obtain ⟨-, rfl⟩ := h
    exact hc
  | geom2 :: rest, fusion, d, r, d1, h0, h, hc => by
    simp only [mergeList] at h
    split at h
    · cases h
    · rename_i d2 heq2
      cases h
      exact process_keeps E geom2 d _ false h0 heq2 hc
    · rename_i d2 heq2
      have h2 := process_keeps E geom2 d d2 true h0 heq2 hc
      split at h
      · cases h
      · rename_i heap2 f2 heq3
        cases h
        exact applyModel_keeps E heq3 h2
      · rename_i heap2 fusion2 heq3
        exact mergeList_keeps E rest fusion2 _ r d1 h0 h (applyModel_keeps E heq3 h2)
end

/-- A pointer that designates an object still designates it, up to its name,
in a free store that keeps the objects. -/
theorem deref_keeps {α : Type} {h h2 : List (ExplicitModel α)} (hk : heapKeeps h h2)
    {r : Ref α} {m : ExplicitModel α} (hm : deref h r = some m) :
    ∃ m2, deref h2 r = some m2 ∧ m2 = { m with name := m2.name } := by
  cases r with
  | node id self =>
    simp only [deref, Option.some.injEq] at hm
    subst hm
    exact ⟨self, rfl, rfl⟩
  | alloc a => exact hk a m hm

/-- The model stored by `GEOM_DISCRETIZER_UPDATE_CACHE` when the current result
is the last object of the free store. -/
theorem updateCache_last {α : Type} (info : NodeInfo) (d : Discretizer α)
    (pre : List (ExplicitModel α)) (M : ExplicitModel α) :
    (updateCache info
        { d with heap := pre ++ [M], discretization := some (.alloc pre.length) }).heap
      = pre ++ [namedAs info M] ∧
    (updateCache info
        { d with heap := pre ++ [M], discretization := some (.alloc pre.length) }).discretization
      = some (.alloc pre.length) ∧
    (updateCache info
        { d with heap := pre ++ [M], discretization := some (.alloc pre.length) }).cache
      = (if info.isNamed then d.cache.insert info.id (some (.alloc pre.length)) else d.cache) ∧
    (updateCache info
        { d with heap := pre ++ [M],
                 discretization := some (.alloc pre.length) }).computeTexCoord
      = d.computeTexCoord := by
  by_cases hn : info.isNamed = true
  · simp [updateCache, hn, setName, modify_append_last, namedAs]
  · simp [updateCache, hn, namedAs]

/-- The `basegeom` of a group designates the model the result of the first
child designates. -/
theorem baseGeom_deref {α τ : Type} (first : Geometry α τ) (heap : List (ExplicitModel α))
    (r : Ref α) (A : ExplicitModel α) (hA : deref heap r = some A) :
    deref (baseGeom first heap r).1 (baseGeom first heap r).2 = some A := by
  unfold baseGeom
  split
  · rename_i id self
    simp only [deref, Option.some.injEq] at hA
    subst hA
    split
    · exact deref_alloc_append heap self
    · rfl
  · exact hA

theorem namedAs_fields {α : Type} (info : NodeInfo) (m : ExplicitModel α) :
    (namedAs info m).arrays = m.arrays ∧ (namedAs info m).cls = m.cls := by
  unfold namedAs
  split
  · exact ⟨rfl, rfl⟩
  · exact ⟨rfl, rfl⟩

/-- How `process(Group*)` runs on two children once the lookup of the group has
fallen through: the Composer holds the model of the first child, the second
child is dispatched in the state the first one left, and its model is merged
into a new object, which is stored under the name of the group. -/
theorem processGroup_two_run {α τ : Type} (E : Extern α τ) (info : NodeInfo)
    (G1 G2 : Geometry α τ) (d d1 d2 d3 : Discretizer α) (b1 : Bool) (r1 r2 : Ref α)
    (A B M : ExplicitModel α)
    (hmiss : checkCache info d = .go d1)
    (h1 : process E G1 d1 = some (b1, d2))
    (hr1 : d2.discretization = some r1)
    (h2 : process E G2 { d2 with heap := (baseGeom G1 d2.heap r1).1 } = some (true, d3))
    (hr2 : d3.discretization = some r2)
    (hA : deref d3.heap (baseGeom G1 d2.heap r1).2 = some A)
    (hB : deref d3.heap r2 = some B)
    (hM : E.merge A B = some M) :
    process E (.group info [G1, G2]) d
      = some (true, updateCache info
          { d3 with heap := d3.heap ++ [M],
                    discretization := some (.alloc d3.heap.length) }) := by
  obtain ⟨heap2, cache2, disc2, tex2⟩ := d2
  simp only at hr1
  subst hr1
  obtain ⟨heap3, cache3, disc3, tex3⟩ := d3
  simp only at hr2
  subst hr2
  simp only at h2 hA hB
  simp only [process, hmiss, h1, mergeList, h2, Merge.applyModel, hA, hB, hM]

/-- The numbers of points and of triangles of the mesh of a sphere. -/
theorem sphereArrays_counts {R : Type} (ops : RealOps R) (radius : R) (slices nbStacks : Nat)
    (h1 : 1 ≤ slices) (h2 : slices < 256) (h3 : 2 ≤ nbStacks) (h4 : nbStacks < 256) :
    (sphereArrays ops radius slices nbStacks).points.length = slices * (nbStacks - 1) + 2 ∧
    (sphereArrays ops radius slices nbStacks).faces.length = 2 * slices * (nbStacks - 1) := by
  obtain ⟨s, hs, -, -, a3, a4, -, -, -⟩ :=
    sphereKernel_arrays ops radius slices nbStacks h1 h2 h3 h4
  have p1 := congrArg List.length a3
  have p2 := congrArg List.length a4
  simp only [Buffer.positions, List.length_map, List.length_range] at p1 p2
  simp only [sphereArrays, hs, Buffer.values, List.length_map]
  exact ⟨p1, p2⟩

/-- An array written at the positions 0, 1, ... up to its size has no write
outside its slots. -/
theorem Buffer.inBounds_of_range {β : Type} (b : Buffer β)
    (h : b.positions = List.range b.size) : b.inBounds = true := by
  unfold Buffer.inBounds
  rw [h, List.all_eq_true]
  intro i hi
  simpa using List.mem_range.mp hi

/-- The kernel of a sphere of 1 to 255 slices and 2 to 255 stacks runs to
completion, with or without texcoords. -/
theorem sphereDefined_of_bounds {R : Type} (ops : RealOps R) (radius : R)
    (slices nbStacks : Nat) (tex : Bool)
    (h1 : 1 ≤ slices) (h2 : slices < 256) (h3 : 2 ≤ nbStacks) (h4 : nbStacks < 256) :
    sphereDefined ops radius slices nbStacks tex = true := by
  obtain ⟨s, hs, a1, a2, a3, a4, -, -, -⟩ :=
    sphereKernel_arrays ops radius slices nbStacks h1 h2 h3 h4
  obtain ⟨u, hu, b1, b2, -, b4, b5, -⟩ := sphereTexKernel_arrays ops slices nbStacks h2 h3 h4
  have i1 : s.pointList.inBounds = true := Buffer.inBounds_of_range _ (by rw [a1]; exact a3)
  have i2 : s.indexList.inBounds = true := Buffer.inBounds_of_range _ (by rw [a2]; exact a4)
  have i3 : u.texList.inBounds = true := Buffer.inBounds_of_range _ (by rw [b1]; exact b2)
  have i4 : u.texIndexList.inBounds = true :=
    Buffer.inBounds_of_range _ (by rw [b4]; exact b5)
  simp [sphereDefined, hs, hu, i1, i2, i3, i4]

/-- The kernel of a sphere of one stack takes a remainder by zero: it is
undefined. -/
theorem sphereDefined_one_stack {R : Type} (ops : RealOps R) (radius : R) (slices : Nat)
    (tex : Bool) (h1 : 1 ≤ slices) : sphereDefined ops radius slices 1 tex = false := by
  have hk : sphereKernel ops radius slices 1 = none := by
    obtain ⟨n, rfl⟩ : ∃ n, slices = n + 1 := ⟨slices - 1, by omega⟩
    simp [sphereKernel, sub32, forLoop, sphereSliceBody, u32]
  simp [sphereDefined, hk]

/-- The kernel of a cone that is not solid writes its apex outside the point
array: it does not run to completion. -/
theorem coneDefined_open {R : Type} (ops : RealOps R) (radius height : R) (slices : Nat)
    (h1 : 1 ≤ slices) (h2 : 2 * slices + 2 < 4294967296) :
    coneDefined ops radius height false slices = false := by
  obtain ⟨s, hs, a1, a2, -⟩ := coneKernel_arrays ops radius height false slices h1 h2
  have hsz : s.pointList.size = slices + 1 := by simpa using a1
  simp [coneDefined, hs, Buffer.inBounds, a2, hsz]

/-- The kernel of a solid cone runs to completion. -/
theorem coneDefined_solid {R : Type} (ops : RealOps R) (radius height : R) (slices : Nat)
    (h1 : 1 ≤ slices) (h2 : 2 * slices + 2 < 4294967296) :
    coneDefined ops radius height true slices = true := by
  obtain ⟨s, hs, a1, a2, -, a4, a5, -⟩ := coneKernel_arrays ops radius height true slices h1 h2
  have hsz : s.pointList.size = slices + 2 := by simpa using a1
  have hsi : s.indexList.size = slices * 2 := by simpa using a4
  have hpi : s.indexList.positions = List.range (slices * 2) := by simpa using a5
  have i2 : s.indexList.inBounds = true := Buffer.inBounds_of_range _ (by rw [hsi]; exact hpi)
  have i1 : s.pointList.inBounds = true := by
    simp only [Buffer.inBounds, a2, hsz, List.all_cons, List.all_eq_true, List.mem_range,
      Bool.and_eq_true, decide_eq_true_eq]
    exact ⟨by omega, fun x hx => by omega⟩
  simp [coneDefined, hs, i1, i2]

/-- On an unnamed `BezierPatch`, `ElevationGrid`, `Sphere` or `Disc` whose
kernel is defined, `process` allocates the mesh and leaves the cache as it
is. -/
theorem processTexLeaf_unnamed {α τ : Type} (E : Extern α τ) (k : TexLeafKind) (id : Nat)
    (d : Discretizer α) (hk : E.kernelDefined id d.computeTexCoord [] = true) :
    processTexLeaf E k ⟨id, ""⟩ d = some (true,
      { heap := d.heap ++ [{ cls := k.cls, hasPointList := true,
                             hasTexCoordList := d.computeTexCoord, name := "",
                             arrays := E.tessellate id d.computeTexCoord [] }],
        cache := d.cache,
        discretization := some (.alloc d.heap.length),
        computeTexCoord := d.computeTexCoord }) := by
  simp [processTexLeaf, checkCacheWithTex, isNamed_empty, hk, updateCache, newModel]

/-- How `process(Group*)` runs on an unnamed sphere followed by an unnamed
translation of an unnamed sphere, on a new Discretizer, the kernel being
defined on both spheres: the three objects built are the two spheres and the
moved copy, and the current result is the merge of the first sphere and of the
moved copy. -/
theorem processGroup_spheres_run {R τ : Type} (ops : RealOps R) (radius : Nat → R)
    (slices nbStacks : Nat → Nat) (move : τ → Vector3 R → Vector3 R) (t : τ)
    (i0 i1 i2 i3 : Nat) (M : ExplicitModel (MeshArrays (Vector3 R)))
    (hd1 : sphereDefined ops (radius i1) (slices i1) (nbStacks i1) false = true)
    (hd3 : sphereDefined ops (radius i3) (slices i3) (nbStacks i3) false = true)
    (hM : composerMerge
        { cls := .triangleSet, hasPointList := true, hasTexCoordList := false, name := "",
          arrays := sphereArrays ops (radius i1) (slices i1) (nbStacks i1) }
        { cls := .triangleSet, hasPointList := true, hasTexCoordList := false, name := "",
          arrays :=
            { points := (sphereArrays ops (radius i3) (slices i3) (nbStacks i3)).points.map
                (move t),
              faces := (sphereArrays ops (radius i3) (slices i3) (nbStacks i3)).faces } }
      = some M) :
    ∃ d4, process (sphereExtern ops radius slices nbStacks move)
        (.group ⟨i0, ""⟩ [.primitive (.texLeaf .sphere ⟨i1, ""⟩),
          .transformed .translated ⟨i2, ""⟩ t (.primitive (.texLeaf .sphere ⟨i3, ""⟩))])
        (Discretizer.new []) = some (true, d4) ∧
      d4.getDiscretization = some (.alloc 3) ∧ deref d4.heap (.alloc 3) = some M := by
  simp only [composerMerge, Option.some.injEq] at hM
  subst hM
  refine ⟨Discretizer.mk
      [{ cls := .triangleSet, hasPointList := true, hasTexCoordList := false, name := "",
         arrays := sphereArrays ops (radius i1) (slices i1) (nbStacks i1) },
       { cls := .triangleSet, hasPointList := true, hasTexCoordList := false, name := "",
         arrays := sphereArrays ops (radius i3) (slices i3) (nbStacks i3) },
       { cls := .triangleSet, hasPointList := true, hasTexCoordList := false, name := "",
         arrays :=
           { points := (sphereArrays ops (radius i3) (slices i3) (nbStacks i3)).points.map
               (move t),
             faces := (sphereArrays ops (radius i3) (slices i3) (nbStacks i3)).faces } },
       _] [] (some (.alloc 3)) false, ?_, rfl, rfl⟩
  simp [process, processPrimitive, processTexLeaf, checkCache, checkCacheWithTex,
    isNamed_empty, Discretizer.new, updateCache, newModel, baseGeom, mergeList,
    Merge.applyModel, deref, alloc, sphereExtern, meshExtern, hd1, hd3, composerMerge,
    TexLeafKind.cls]

/-- C33 (group of two children), for a Group whose lookup in the cache falls
through (it is unnamed or not stored yet) and whose merges are those of the
Composer. When the first child is dispatched with a result that designates the
mesh `A`, and the second child, dispatched in the state the first one left,
returns `true` with a result that designates the mesh `B` of the same class
(face arity): `process` returns `true`; the current result designates a mesh
`M` of that class whose point array is the points of `A` followed by those of
`B`, and whose index array is the faces of `A` followed by the faces of `B`
with every index shifted by the number of points of `A`, so that `M` has
`|A.points| + |B.points|` points and `|A.faces| + |B.faces|` faces. For the
Group of a sphere and of a translated sphere, on a new Discretizer, the merged
mesh has the points of the first sphere followed by the moved points of the
second, and its numbers of points and of triangles are the sums of those of
the two spheres. -/
theorem group_of_two_concatenates_meshes {P τ : Type}
    (tessellate : Nat → Bool → List (MeshArrays P) → MeshArrays P)
    (kernelDefined : Nat → Bool → List (MeshArrays P) → Bool)
    (transform : τ → ExplicitModel (MeshArrays P) → ExplicitModel (MeshArrays P))
    (info : NodeInfo) (G1 G2 : Geometry (MeshArrays P) τ)
    (d d1 d2 d3 : Discretizer (MeshArrays P)) (r1 r2 : Ref (MeshArrays P))
    (A B : ExplicitModel (MeshArrays P))
    {R σ : Type} (ops : RealOps R) (radius : Nat → R) (slices nbStacks : Nat → Nat)
    (move : σ → Vector3 R → Vector3 R) (t : σ) (i0 i1 i2 i3 : Nat)
    (hmiss : checkCache info d = .go d1)
    (h1 : process (meshExtern tessellate kernelDefined transform) G1 d1 = some (true, d2))
    (hr1 : d2.getDiscretization = some r1) (hA : deref d2.heap r1 = some A)
    (h2 : process (meshExtern tessellate kernelDefined transform) G2
        { d2 with heap := (baseGeom G1 d2.heap r1).1 } = some (true, d3))
    (hr2 : d3.getDiscretization = some r2) (hB : deref d3.heap r2 = some B)
    (hcls : A.cls = B.cls)
    (s1 : 1 ≤ slices i1) (s2 : slices i1 < 256) (s3 : 2 ≤ nbStacks i1)
    (s4 : nbStacks i1 < 256)
    (s5 : 1 ≤ slices i3) (s6 : slices i3 < 256) (s7 : 2 ≤ nbStacks i3)
    (s8 : nbStacks i3 < 256) :
    (∃ d4 r M,
      process (meshExtern tessellate kernelDefined transform) (.group info [G1, G2]) d = some (true, d4) ∧
      d4.getDiscretization = some r ∧ deref d4.heap r = some M ∧
      M.cls = A.cls ∧
      M.arrays.points = A.arrays.points ++ B.arrays.points ∧
      M.arrays.faces
        = A.arrays.faces ++ B.arrays.faces.map (shiftFace A.arrays.points.length) ∧
      M.arrays.points.length = A.arrays.points.length + B.arrays.points.length ∧
      M.arrays.faces.length = A.arrays.faces.length + B.arrays.faces.length) ∧
    (∃ d4 r M,
      process (sphereExtern ops radius slices nbStacks move)
        (.group ⟨i0, ""⟩ [.primitive (.texLeaf .sphere ⟨i1, ""⟩),
          .transformed .translated ⟨i2, ""⟩ t (.primitive (.texLeaf .sphere ⟨i3, ""⟩))])
        (Discretizer.new []) = some (true, d4) ∧
      d4.getDiscretization = some r ∧ deref d4.heap r = some M ∧
      M.arrays.points
        = (sphereArrays ops (radius i1) (slices i1) (nbStacks i1)).points
          ++ (sphereArrays ops (radius i3) (slices i3) (nbStacks i3)).points.map (move t) ∧
      M.arrays.faces
        = (sphereArrays ops (radius i1) (slices i1) (nbStacks i1)).faces
          ++ (sphereArrays ops (radius i3) (slices i3) (nbStacks i3)).faces.map
              (shiftFace (slices i1 * (nbStacks i1 - 1) + 2)) ∧
      M.arrays.points.length
        = (slices i1 * (nbStacks i1 - 1) + 2) + (slices i3 * (nbStacks i3 - 1) + 2) ∧
      M.arrays.faces.length
        = 2 * slices i1 * (nbStacks i1 - 1) + 2 * slices i3 * (nbStacks i3 - 1)) := by
  constructor
  · simp only [Discretizer.getDiscretization] at hr1 hr2
    have hA1 := baseGeom_deref G1 d2.heap r1 A hA
    have hk : heapKeeps (baseGeom G1 d2.heap r1).1 d3.heap :=
      process_keeps (meshExtern tessellate kernelDefined transform) G2 _ d3 true _ h2 (heapKeeps_refl _)
    obtain ⟨A2, hA2, hA3⟩ := deref_keeps hk hA1
    have hrun := processGroup_two_run (meshExtern tessellate kernelDefined transform) info G1 G2 d d1 d2 d3
      true r1 r2 A2 B _ hmiss h1 hr1 h2 hr2 hA2 hB rfl
    obtain ⟨u1, u2, -, -⟩ := updateCache_last info d3 d3.heap
      { cls := if A2.cls = B.cls then A2.cls else .faceSet,
        hasPointList := true,
        hasTexCoordList := A2.hasTexCoordList && B.hasTexCoordList,
        name := A2.name,
        arrays := { points := A2.arrays.points ++ B.arrays.points,
                    faces := A2.arrays.faces
                      ++ B.arrays.faces.map (shiftFace A2.arrays.points.length) } }
    have ea : A2.arrays = A.arrays := by rw [hA3]
    have ec : A2.cls = A.cls := by rw [hA3]
    refine ⟨_, .alloc d3.heap.length, _, hrun, u2,
      by rw [u1]; exact deref_alloc_append _ _, ?_, ?_, ?_, ?_, ?_⟩
    · rw [(namedAs_fields info _).2]
      show (if A2.cls = B.cls then A2.cls else ExplicitKind.faceSet) = A.cls
      rw [ec, if_pos hcls]
    · rw [(namedAs_fields info _).1]
      show A2.arrays.points ++ B.arrays.points = _
      rw [ea]
    · rw [(namedAs_fields info _).1]
      show A2.arrays.faces ++ B.arrays.faces.map (shiftFace A2.arrays.points.length) = _
      rw [ea]
    · rw [(namedAs_fields info _).1]
      show (A2.arrays.points ++ B.arrays.points).length = _
      rw [ea, List.length_append]
    · rw [(namedAs_fields info _).1]
      show (A2.arrays.faces ++ B.arrays.faces.map (shiftFace A2.arrays.points.length)).length = _
      rw [ea, List.length_append, List.length_map]
  · obtain ⟨c1, c2⟩ := sphereArrays_counts ops (radius i1) (slices i1) (nbStacks i1) s1 s2 s3 s4
    obtain ⟨c3, c4⟩ := sphereArrays_counts ops (radius i3) (slices i3) (nbStacks i3) s5 s6 s7 s8
    obtain ⟨d4, e1, e2, e3⟩ :=
      processGroup_spheres_run ops radius slices nbStacks move t i0 i1 i2 i3 _
        (sphereDefined_of_bounds ops _ _ _ false s1 s2 s3 s4)
        (sphereDefined_of_bounds ops _ _ _ false s5 s6 s7 s8) rfl
    refine ⟨d4, .alloc 3, _, e1, e2, e3, rfl, ?_, ?_, ?_⟩
    · show _ ++ List.map (shiftFace _) _ = _
      rw [c1]
    · show (_ ++ List.map (move t) _).length = _
      rw [List.length_append, List.length_map, c1, c3]
    · show (_ ++ List.map (shiftFace _) _).length = _
      rw [List.length_append, List.length_map, c2, c4]

/-- C33, at `Group(Sphere(r=1), Translated((10,0,0), Sphere(r=1)))` with unnamed
nodes and spheres of 4 slices and 3 stacks, on a new Discretizer: each sphere
has 10 points and 16 triangles, the merged mesh 20 points and 32 triangles, and
the indices of the second sphere are shifted by 10. -/
theorem group_of_two_concatenates_meshes_witness :
    (∃ (d4 : Discretizer (MeshArrays (Vector3 RealTerm))) (r : Ref (MeshArrays (Vector3 RealTerm)))
        (M : ExplicitModel (MeshArrays (Vector3 RealTerm))),
      process sampleSpheres
        (.group ⟨1, ""⟩ [.primitive (.texLeaf .sphere ⟨2, ""⟩),
          .transformed .translated ⟨3, ""⟩ { x := .ofNat 10, y := .ofNat 0, z := .ofNat 0 }
            (.primitive (.texLeaf .sphere ⟨4, ""⟩))])
        (Discretizer.new []) = some (true, d4) ∧
      d4.getDiscretization = some r ∧ deref d4.heap r = some M ∧
      M.cls = .triangleSet ∧
      M.arrays.points
        = sampleSphereMesh.arrays.points
          ++ (sampleSpheres.transform { x := .ofNat 10, y := .ofNat 0, z := .ofNat 0 }
                sampleSphereMesh).arrays.points ∧
      M.arrays.faces
        = sampleSphereMesh.arrays.faces
          ++ sampleSphereMesh.arrays.faces.map (shiftFace sampleSphereMesh.arrays.points.length) ∧
      M.arrays.points.length
        = sampleSphereMesh.arrays.points.length + sampleSphereMesh.arrays.points.length ∧
      M.arrays.faces.length
        = sampleSphereMesh.arrays.faces.length + sampleSphereMesh.arrays.faces.length) ∧
    (∃ (d4 : Discretizer (MeshArrays (Vector3 RealTerm))) (r : Ref (MeshArrays (Vector3 RealTerm)))
        (M : ExplicitModel (MeshArrays (Vector3 RealTerm))),
      process sampleSpheres
        (.group ⟨1, ""⟩ [.primitive (.texLeaf .sphere ⟨2, ""⟩),
          .transformed .translated ⟨3, ""⟩ { x := .ofNat 10, y := .ofNat 0, z := .ofNat 0 }
            (.primitive (.texLeaf .sphere ⟨4, ""⟩))])
        (Discretizer.new []) = some (true, d4) ∧
      d4.getDiscretization = some r ∧ deref d4.heap r = some M ∧
      M.arrays.points
        = sampleSphereMesh.arrays.points
          ++ sampleSphereMesh.arrays.points.map
              (symbolicMove { x := .ofNat 10, y := .ofNat 0, z := .ofNat 0 }) ∧
      M.arrays.faces
        = sampleSphereMesh.arrays.faces
          ++ sampleSphereMesh.arrays.faces.map (shiftFace 10) ∧
      M.arrays.points.length = 10 + 10 ∧
      M.arrays.faces.length = 16 + 16) :=
  group_of_two_concatenates_meshes
    (fun _ _ _ => sphereArrays symbolicReal (.ofNat 1) 4 3)
    (fun _ tex _ => sphereDefined symbolicReal (.ofNat 1) 4 3 tex)
    (fun t m =>
      { m with arrays := { m.arrays with points := m.arrays.points.map (symbolicMove t) } })
    ⟨1, ""⟩ (.primitive (.texLeaf .sphere ⟨2, ""⟩))
    (.transformed .translated ⟨3, ""⟩ { x := .ofNat 10, y := .ofNat 0, z := .ofNat 0 }
      (.primitive (.texLeaf .sphere ⟨4, ""⟩)))
    (Discretizer.new []) (Discretizer.new [])
    { heap := [sampleSphereMesh], cache := [], discretization := some (.alloc 0),
      computeTexCoord := false }
    { heap := [sampleSphereMesh, sampleSphereMesh,
        sampleSpheres.transform { x := .ofNat 10, y := .ofNat 0, z := .ofNat 0 }
          sampleSphereMesh],
      cache := [], discretization := some (.alloc 2), computeTexCoord := false }
    (.alloc 0) (.alloc 2) sampleSphereMesh
    (sampleSpheres.transform { x := .ofNat 10, y := .ofNat 0, z := .ofNat 0 } sampleSphereMesh)
    symbolicReal (fun _ => .ofNat 1) (fun _ => 4) (fun _ => 3) symbolicMove
    { x := .ofNat 10, y := .ofNat 0, z := .ofNat 0 } 1 2 3 4
    rfl rfl rfl rfl rfl rfl rfl rfl
    (by decide) (by decide) (by decide) (by decide) (by decide) (by decide) (by decide)
    (by decide)

/-! ## Entries of the cache and results designate objects of the free store -/

theorem allocIn_mono {α : Type} {r : Ref α} {n hi hi2 : Nat} (h : r.allocIn n hi)
    (hle : hi ≤ hi2) : r.allocIn n hi2 := by
  cases r with
  | node id self => exact h
  | alloc a => exact ⟨h.1, lt_of_lt_of_le h.2 hle⟩

theorem allocIn_deref {α : Type} {r : Ref α} {n : Nat} {heap : List (ExplicitModel α)}
    (h : r.allocIn n heap.length) : ∃ m, deref heap r = some m := by
  cases r with
  | node id self => exact absurd h (fun x => x)
  | alloc a =>
    simp only [deref]
    cases hx : heap[a]? with
    | some m => exact ⟨m, rfl⟩
    | none =>
      rw [List.getElem?_eq_none_iff] at hx
      exact absurd h.2 (by omega)

theorem heapKeeps_length {α : Type} {h h2 : List (ExplicitModel α)} (hk : heapKeeps h h2) :
    h.length ≤ h2.length := by
  by_contra hlt
  push_neg at hlt
  cases hx : h[h2.length]? with
  | none =>
    rw [List.getElem?_eq_none_iff] at hx
    omega
  | some m =>
    obtain ⟨m2, e, -⟩ := hk h2.length m hx
    rw [List.getElem?_eq_none (le_refl _)] at e
    cases e

theorem storesIn_of_le {α : Type} {d d1 : Discretizer α} {n : Nat} (h : d.storesIn n)
    (hc : d1.cache = d.cache) (hle : d.heap.length ≤ d1.heap.length) : d1.storesIn n := by
  refine ⟨le_trans h.1 hle, fun k r hk => ?_⟩
  rw [hc] at hk
  exact allocIn_mono (h.2 k r hk) hle

theorem storesIn_of_eq {α : Type} {d d1 : Discretizer α} {n : Nat}
    (hc : d1.cache = d.cache ∧ d1.heap = d.heap) (h : d.storesIn n) : d1.storesIn n :=
  storesIn_of_le h hc.1 (by rw [hc.2])

/-- A model returned by `GEOM_DISCRETIZER_CHECK_CACHE` is an entry of the
cache. -/
theorem checkCache_ret_stores {α : Type} {info : NodeInfo} {d d1 : Discretizer α} {b : Bool}
    {n : Nat} (h : checkCache info d = .ret b d1) (hs : d.storesIn n) :
    d1.storesIn n ∧ d1.resultIn n ∧ d1.discretization ≠ none := by
  unfold checkCache at h
  split at h
  · split at h
    · rename_i p hp
      split at h
      · rename_i r
        cases h
        refine ⟨hs, ?_, by simp⟩
        intro r2 hr2
        simp only [Option.some.injEq] at hr2
        subst hr2
        exact hs.2 _ _ hp
      · cases h
    · cases h
  · cases h

/-- A model returned by `GEOM_DISCRETIZER_CHECK_CACHE_WITH_TEX` is an entry of
the cache. -/
theorem checkCacheWithTex_ret_stores {α : Type} {info : NodeInfo} {d d1 : Discretizer α}
    {b : Bool} {n : Nat} (h : checkCacheWithTex info d = .ret b d1) (hs : d.storesIn n) :
    d1.storesIn n ∧ d1.resultIn n ∧ d1.discretization ≠ none := by
  unfold checkCacheWithTex at h
  split at h
  · split at h
    · rename_i p hp
      split at h
      · cases h
      · split at h
        · rename_i r
          cases h
          refine ⟨hs, ?_, by simp⟩
          intro r2 hr2
          simp only [Option.some.injEq] at hr2
          subst hr2
          exact hs.2 _ _ hp
        · cases h
      · cases h
    · cases h
  · cases h

theorem newModel_stores {α : Type} (d : Discretizer α) (m : ExplicitModel α) {n : Nat}
    (hs : d.storesIn n) : (newModel d m).storesIn n ∧ (newModel d m).resultIn n := by
  constructor
  · exact storesIn_of_le hs rfl (by simp [newModel])
  · intro r hr
    simp only [newModel, Option.some.injEq] at hr
    subst hr
    exact ⟨hs.1, by simp [newModel]⟩

/-- Macro `GEOM_DISCRETIZER_UPDATE_CACHE` stores the current result, which stays
the current result. -/
theorem updateCache_stores {α : Type} (info : NodeInfo) (d : Discretizer α) {n : Nat}
    (hs : d.storesIn n) (hr : d.resultIn n) :
    (updateCache info d).storesIn n ∧ (updateCache info d).resultIn n ∧
    ((updateCache info d).discretization = none ↔ d.discretization = none) := by
  unfold updateCache
  split
  · split
    · rename_i r hd
      have hra := hr r hd
      cases r with
      | node id self => exact absurd hra (fun x => x)
      | alloc a =>
        simp only [setName]
        refine ⟨⟨by simpa using hs.1, ?_⟩, ?_, by simp [hd]⟩
        · intro k r2 hk
          simp only [find_insert] at hk
          split at hk
          · simp only [Option.some.injEq] at hk
            subst hk
            simpa using hra
          · simpa using hs.2 k r2 hk
        · intro r2 hr2
          simp only [Option.some.injEq] at hr2
          subst hr2
          simpa using hra
    · rename_i hd
      refine ⟨⟨hs.1, ?_⟩, ?_, by simp [hd]⟩
      · intro k r2 hk
        simp only [find_insert] at hk
        split at hk
        · cases hk
        · exact hs.2 k r2 hk
      · intro r2 hr2
        simp only [hd] at hr2
        cases hr2
  · exact ⟨hs, hr, Iff.rfl⟩

theorem newModel_updateCache_stores {α : Type} (info : NodeInfo) (d : Discretizer α)
    (m : ExplicitModel α) {n : Nat} (b : Bool) (hs : d.storesIn n) :
    (updateCache info (newModel d m)).storesIn n ∧
    (updateCache info (newModel d m)).resultIn n ∧
    (b = true → (updateCache info (newModel d m)).discretization ≠ none) := by
  obtain ⟨h1, h2⟩ := newModel_stores d m hs
  obtain ⟨h3, h4, h5⟩ := updateCache_stores info (newModel d m) h1 h2
  refine ⟨h3, h4, fun _ hx => ?_⟩
  have h6 := h5.mp hx
  simp [newModel] at h6

theorem processLeaf_stores {α τ : Type} (E : Extern α τ) (k : LeafKind) (info : NodeInfo)
    {d d1 : Discretizer α} {b : Bool} {n : Nat}
    (h : processLeaf E k info d = some (b, d1)) (hs : d.storesIn n) :
    d1.storesIn n ∧ d1.resultIn n ∧ (b = true → d1.discretization ≠ none) := by
  unfold processLeaf at h
  split at h
  · cases h
  · rename_i heq
    cases h
    obtain ⟨h1, h2, h3⟩ := checkCache_ret_stores heq hs
    exact ⟨h1, h2, fun _ => h3⟩
  · rename_i d0 heq
    split at h
    · cases h
      exact newModel_updateCache_stores _ _ _ _ (storesIn_of_eq (checkCache_go_cache heq) hs)
    · cases h

theorem processTexLeaf_stores {α τ : Type} (E : Extern α τ) (k : TexLeafKind)
    (info : NodeInfo) {d d1 : Discretizer α} {b : Bool} {n : Nat}
    (h : processTexLeaf E k info d = some (b, d1)) (hs : d.storesIn n) :
    d1.storesIn n ∧ d1.resultIn n ∧ (b = true → d1.discretization ≠ none) := by
  unfold processTexLeaf at h
  split at h
  · cases h
  · rename_i heq
    cases h
    obtain ⟨h1, h2, h3⟩ := checkCacheWithTex_ret_stores heq hs
    exact ⟨h1, h2, fun _ => h3⟩
  · rename_i d0 heq
    split at h
    · cases h
      exact newModel_updateCache_stores _ _ _ _
        (storesIn_of_eq (checkCacheWithTex_go_cache heq) hs)
    · cases h

theorem processNurbsPatch_stores {α τ : Type} (E : Extern α τ) (info : NodeInfo)
    {d d1 : Discretizer α} {b : Bool} {n : Nat}
    (h : processNurbsPatch E info d = some (b, d1)) (hs : d.storesIn n) :
    d1.storesIn n ∧ d1.resultIn n := by
  unfold processNurbsPatch at h
  split at h
  · cases h
  · rename_i heq
    cases h
    obtain ⟨h1, h2, -⟩ := checkCacheWithTex_ret_stores heq hs
    exact ⟨h1, h2⟩
  · rename_i d0 heq
    cases h
    have h0 := storesIn_of_eq (checkCacheWithTex_go_cache heq) hs
    obtain ⟨h3, h4, -⟩ := updateCache_stores info
      { d0 with heap := d0.heap ++ [ExplicitModel.mk .quadSet true d0.computeTexCoord ""
          (E.tessellate info.id d0.computeTexCoord [])], discretization := none }
      (storesIn_of_le h0 rfl (by simp))
      (fun r hr => by cases hr)
    exact ⟨h3, h4⟩

theorem processCurve2D_true {α τ : Type} (E : Extern α τ) (c : Curve2D)
    {d d1 : Discretizer α} {b : Bool} (h : processCurve2D E c d = some (b, d1)) :
    b = true := by
  unfold processCurve2D at h
  split at h
  · cases h
  · rename_i heq
    cases h
    unfold checkCache at heq
    split at heq
    · split at heq
      · split at heq
        · cases heq
          rfl
        · cases heq
      · cases heq
    · cases heq
  · cases h
    rfl

theorem processCurve2D_stores {α τ : Type} (E : Extern α τ) (c : Curve2D)
    {d d1 : Discretizer α} {b : Bool} {n : Nat}
    (h : processCurve2D E c d = some (b, d1)) (hs : d.storesIn n) :
    d1.storesIn n ∧ d1.resultIn n ∧ (b = true → d1.discretization ≠ none) := by
  unfold processCurve2D at h
  split at h
  · cases h
  · rename_i heq
    cases h
    obtain ⟨h1, h2, h3⟩ := checkCache_ret_stores heq hs
    exact ⟨h1, h2, fun _ => h3⟩
  · rename_i d0 heq
    cases h
    exact newModel_updateCache_stores _ _ _ _ (storesIn_of_eq (checkCache_go_cache heq) hs)

theorem applyProfile_go_stores {α τ : Type} (E : Extern α τ) (c : Curve2D)
    {d d1 : Discretizer α} {n : Nat}
    (h : applyProfile E c d = .go d1) (hs : d.storesIn n) :
    d1.storesIn n ∧ d1.resultIn n ∧ d1.discretization ≠ none := by
  unfold applyProfile at h
  split at h
  · cases h
  · rename_i d0 heq
    cases h
    obtain ⟨h1, h2, h3⟩ := processCurve2D_stores E c heq hs
    exact ⟨h1, h2, h3 rfl⟩
  · rename_i d0 heq
    exact absurd (processCurve2D_true E c heq) (by decide)

theorem applyProfile_not_ret {α τ : Type} (E : Extern α τ) (c : Curve2D)
    {d d1 : Discretizer α} {b : Bool} (h : applyProfile E c d = .ret b d1) : False := by
  unfold applyProfile at h
  split at h
  · cases h
  · cases h
  · rename_i d0 heq
    exact absurd (processCurve2D_true E c heq) (by decide)

theorem processExtrudedHull_stores {α τ : Type} (E : Extern α τ) (info : NodeInfo)
    (hor ver : Curve2D) {d d1 : Discretizer α} {b : Bool} {n : Nat}
    (h : processExtrudedHull E info hor ver d = some (b, d1)) (hs : d.storesIn n) :
    d1.storesIn n ∧ d1.resultIn n ∧ (b = true → d1.discretization ≠ none) := by
  unfold processExtrudedHull at h
  split at h
  · cases h
  · rename_i heq
    cases h
    obtain ⟨h1, h2, h3⟩ := checkCache_ret_stores heq hs
    exact ⟨h1, h2, fun _ => h3⟩
  · rename_i d0 heq
    have h0 := storesIn_of_eq (checkCache_go_cache heq) hs
    split at h
    · cases h
    · rename_i heq2
      exact (applyProfile_not_ret E hor heq2).elim
    · rename_i d2 heq2
      obtain ⟨h2, h2r, h2n⟩ := applyProfile_go_stores E hor heq2 h0
      split at h
      · cases h
      · cases h
        exact ⟨h2, h2r, fun _ => h2n⟩
      · split at h
        · cases h
        · rename_i heq3
          exact (applyProfile_not_ret E ver heq3).elim
        · rename_i d3 heq3
          obtain ⟨h3, h3r, h3n⟩ := applyProfile_go_stores E ver heq3 h2
          split at h
          · cases h
          · cases h
            exact ⟨h3, h3r, fun _ => h3n⟩
          · split at h
            · cases h
              exact newModel_updateCache_stores _ _ _ _ h3
            · cases h

theorem processRevolution_stores {α τ : Type} (E : Extern α τ) (info : NodeInfo)
    (profile : Curve2D) {d d1 : Discretizer α} {b : Bool} {n : Nat}
    (h : processRevolution E info profile d = some (b, d1)) (hs : d.storesIn n) :
    d1.storesIn n ∧ d1.resultIn n ∧ (b = true → d1.discretization ≠ none) := by
  unfold processRevolution at h
  split at h
  · cases h
  · rename_i heq
    cases h
    obtain ⟨h1, h2, h3⟩ := checkCache_ret_stores heq hs
    exact ⟨h1, h2, fun _ => h3⟩
  · rename_i d0 heq
    have h0 := storesIn_of_eq (checkCache_go_cache heq) hs
    split at h
    · cases h
    · rename_i heq2
      exact (applyProfile_not_ret E profile heq2).elim
    · rename_i d2 heq2
      obtain ⟨h2, -, -⟩ := applyProfile_go_stores E profile heq2 h0
      split at h
      · split at h
        · cases h
          exact newModel_updateCache_stores _ _ _ _ h2
        · cases h
      · cases h

theorem processExtrusion_stores {α τ : Type} (E : Extern α τ) (info : NodeInfo)
    (solid : Bool) (c : Curve2D) {d d1 : Discretizer α} {b : Bool} {n : Nat}
    (h : processExtrusion E info solid c d = some (b, d1)) (hs : d.storesIn n) :
    d1.storesIn n ∧ d1.resultIn n ∧ (b = true → d1.discretization ≠ none) := by
  unfold processExtrusion at h
  split at h
  · cases h
  · rename_i heq
    cases h
    obtain ⟨h1, h2, h3⟩ := checkCacheWithTex_ret_stores heq hs
    exact ⟨h1, h2, fun _ => h3⟩
  · rename_i d0 heq
    have h0 := storesIn_of_eq (checkCacheWithTex_go_cache heq) hs
    split at h
    · cases h
    · rename_i d2 heq2
      exact absurd (processCurve2D_true E c heq2) (by decide)
    · rename_i d2 heq2
      obtain ⟨h2, -, -⟩ := processCurve2D_stores E c heq2 h0
      split at h
      · cases h
        exact ⟨storesIn_of_le h2 rfl (le_refl _), (fun r hr => by cases hr),
          (fun hb => by cases hb)⟩
      · split at h
        · split at h
          · cases h
            exact newModel_updateCache_stores _ _ _ _ h2
          · cases h
        · cases h

/-- Dispatching a primitive: afterwards every non-null entry of the cache
designates an object of the free store allocated after the first `n`, and so
does the current result, unless the primitive is an explicit model, which is
its own result; a call that returns `true` leaves a non-null result unless the
primitive is a `NurbsPatch`. -/
theorem processPrimitive_stores {α τ : Type} (E : Extern α τ) (p : Primitive α)
    {d d1 : Discretizer α} {b : Bool} {n : Nat}
    (h : processPrimitive E p d = some (b, d1)) (hs : d.storesIn n) :
    d1.storesIn n ∧
    (d1.resultIn n ∨ ∃ id self, p = .explicit id self ∧ d1.discretization = some (.node id self)) ∧
    (b = true → (∀ i, p ≠ .nurbsPatch i) → d1.discretization ≠ none) := by
  cases p with
  | explicit id self =>
    simp only [processPrimitive, processExplicit, Option.some.injEq, Prod.mk.injEq] at h
    obtain ⟨-, rfl⟩ := h
    exact ⟨hs, Or.inr ⟨id, self, rfl, rfl⟩, fun _ _ => by simp⟩
  | leaf k info =>
    obtain ⟨h1, h2, h3⟩ := processLeaf_stores E k info h hs
    exact ⟨h1, Or.inl h2, fun hb _ => h3 hb⟩
  | texLeaf k info =>
    obtain ⟨h1, h2, h3⟩ := processTexLeaf_stores E k info h hs
    exact ⟨h1, Or.inl h2, fun hb _ => h3 hb⟩
  | nurbsPatch info =>
    obtain ⟨h1, h2⟩ := processNurbsPatch_stores E info h hs
    exact ⟨h1, Or.inl h2, fun _ hq => absurd rfl (hq info)⟩
  | curve2D c =>
    obtain ⟨h1, h2, h3⟩ := processCurve2D_stores E c h hs
    exact ⟨h1, Or.inl h2, fun hb _ => h3 hb⟩
  | extrudedHull info hor ver =>
    obtain ⟨h1, h2, h3⟩ := processExtrudedHull_stores E info hor ver h hs
    exact ⟨h1, Or.inl h2, fun hb _ => h3 hb⟩
  | extrusion info solid c =>
    obtain ⟨h1, h2, h3⟩ := processExtrusion_stores E info solid c h hs
    exact ⟨h1, Or.inl h2, fun hb _ => h3 hb⟩
  | revolution info profile =>
    obtain ⟨h1, h2, h3⟩ := processRevolution_stores E info profile h hs
    exact ⟨h1, Or.inl h2, fun hb _ => h3 hb⟩

/-- The `basegeom` of a group is an object of the free store: the result of the
first child, or the copy of the first child when it is an explicit model. -/
theorem baseGeom_stores {α τ : Type} (first : Geometry α τ) (heap : List (ExplicitModel α))
    (r : Ref α) {n : Nat} (hn : n ≤ heap.length)
    (hr : r.allocIn n heap.length ∨
      ∃ id self, first = .primitive (.explicit id self) ∧ r = .node id self) :
    heap.length ≤ (baseGeom first heap r).1.length ∧
    (baseGeom first heap r).2.allocIn n (baseGeom first heap r).1.length := by
  rcases hr with hr | ⟨id, self, hf, hr⟩
  · cases r with
    | node id self => exact absurd hr (fun x => x)
    | alloc a => exact ⟨le_refl _, hr⟩
  · subst hf
    subst hr
    simp only [baseGeom, Geometry.isPtr, beq_self_eq_true, if_true, alloc, List.length_append,
      List.length_singleton]
    exact ⟨by omega, hn, by omega⟩

theorem applyModel_stores {α τ : Type} (E : Extern α τ) {heap heap2 : List (ExplicitModel α)}
    {fusion fusion2 : Merge α} {p : Option (Ref α)} {b : Bool} {n : Nat}
    (h : Merge.applyModel E heap fusion p = some (b, heap2, fusion2)) (hn : n ≤ heap.length)
    (hf : fusion.model.allocIn n heap.length) :
    heap.length ≤ heap2.length ∧ fusion2.model.allocIn n heap2.length := by
  unfold Merge.applyModel at h
  split at h
  · cases h
    exact ⟨le_refl _, hf⟩
  · split at h
    · split at h
      · cases h
        exact ⟨le_refl _, hf⟩
      · cases h
        simp only [List.length_append, List.length_singleton]
        exact ⟨by omega, hn, by omega⟩
    · cases h

theorem ifsLoop_stores {α τ : Type} (E : Extern α τ) (r : Ref α) :
    ∀ (rest : List τ) (fusion : Merge α) (heap : List (ExplicitModel α))
      (o : Option (Merge α)) (heap3 : List (ExplicitModel α)) (n : Nat),
      ifsLoop E r rest fusion heap = some (o, heap3) → n ≤ heap.length →
      fusion.model.allocIn n heap.length →
      heap.length ≤ heap3.length ∧ ∀ f, o = some f → f.model.allocIn n heap3.length
  | [], fusion, heap, o, heap3, n, h, hn, hf => by
    simp only [ifsLoop, Option.some.injEq, Prod.mk.injEq] at h
    obtain ⟨rfl, rfl⟩ := h
    refine ⟨le_refl _, fun f hf2 => ?_⟩
    simp only [Option.some.injEq] at hf2
    subst hf2
    exact hf
  | m :: rest, fusion, heap, o, heap3, n, h, hn, hf => by
    simp only [ifsLoop] at h
    split at h
    · cases h
    · rename_i base hb
      have hl : heap.length ≤ (alloc heap (E.transform m base)).1.length := by simp [alloc]
      split at h
      · cases h
      · rename_i heap2 fusion2 heq
        cases h
        obtain ⟨h1, -⟩ := applyModel_stores E heq (le_trans hn hl) (allocIn_mono hf hl)
        exact ⟨le_trans hl h1, fun f hf2 => by cases hf2⟩
      · rename_i heap2 fusion2 heq
        obtain ⟨h1, h2⟩ := applyModel_stores E heq (le_trans hn hl) (allocIn_mono hf hl)
        obtain ⟨h3, h4⟩ := ifsLoop_stores E r rest fusion2 heap2 o heap3 n h
          (le_trans (le_trans hn hl) h1) h2
        exact ⟨le_trans (le_trans hl h1) h3, h4⟩

mutual
/-- Dispatching a geometry in a state whose entries designate objects of the
free store allocated after the first `n`: afterwards the entries still do, and
so does the current result unless the geometry is an explicit model, which is
its own result; a call that returns `true` leaves a non-null result unless the
geometry is a `NurbsPatch`. -/
theorem process_stores {α τ : Type} (E : Extern α τ) :
    ∀ (g : Geometry α τ) (d d1 : Discretizer α) (b : Bool) (n : Nat),
      process E g d = some (b, d1) → d.storesIn n →
      d1.storesIn n ∧
      (d1.resultIn n ∨
        ∃ id self, g = .primitive (.explicit id self) ∧
          d1.discretization = some (.node id self)) ∧
      (b = true → g.isNurbsPatch = false → d1.discretization ≠ none)
  | .primitive p, d, d1, b, n, h, hs => by
    simp only [process] at h
    obtain ⟨h1, h2, h3⟩ := processPrimitive_stores E p h hs
    refine ⟨h1, ?_, ?_⟩
    · rcases h2 with h2 | ⟨id, self, e1, e2⟩
      · exact Or.inl h2
      · exact Or.inr ⟨id, self, by rw [e1], e2⟩
    · intro hb hq
      refine h3 hb (fun i hi => ?_)
      subst hi
      simp [Geometry.isNurbsPatch] at hq
  | .text _, d, d1, b, n, h, hs => by
    simp only [process, processNothing, Option.some.injEq, Prod.mk.injEq] at h
    obtain ⟨rfl, rfl⟩ := h
    exact ⟨hs, Or.inl (fun r hr => by cases hr), fun hb => by cases hb⟩
  | .transformed _ info t geometry, d, d1, b, n, h, hs => by
    simp only [process] at h
    split at h
    · cases h
    · rename_i heq
      cases h
      obtain ⟨h1, h2, h3⟩ := checkCache_ret_stores heq hs
      exact ⟨h1, Or.inl h2, fun _ _ => h3⟩
    · rename_i d0 heq
      have h0 := storesIn_of_eq (checkCache_go_cache heq) hs
      split at h
      · cases h
      · rename_i b2 d2 heq2
        obtain ⟨h2, -, -⟩ := process_stores E geometry d0 d2 b2 n heq2 h0
        split at h
        · split at h
          · cases h
          · cases h
            obtain ⟨e1, e2, e3⟩ := newModel_updateCache_stores info d2 _ true h2
            exact ⟨e1, Or.inl e2, fun _ _ => e3 rfl⟩
        · cases h
          exact ⟨storesIn_of_le h2 rfl (le_refl _), Or.inl (fun r hr => by cases hr),
            fun hb => by cases hb⟩
  | .tapered info t primitive, d, d1, b, n, h, hs => by
    simp only [process] at h
    split at h
    · cases h
    · rename_i heq
      cases h
      obtain ⟨h1, h2, h3⟩ := checkCache_ret_stores heq hs
      exact ⟨h1, Or.inl h2, fun _ _ => h3⟩
    · rename_i d0 heq
      have h0 := storesIn_of_eq (checkCache_go_cache heq) hs
      split at h
      · cases h
      · rename_i d2 heq2
        cases h
        obtain ⟨h2, -, -⟩ := processPrimitive_stores E primitive heq2 h0
        exact ⟨storesIn_of_le h2 rfl (le_refl _), Or.inl (fun r hr => by cases hr),
          fun hb => by cases hb⟩
      · rename_i d2 heq2
        obtain ⟨h2, -, -⟩ := processPrimitive_stores E primitive heq2 h0
        split at h
        · cases h
        · split at h
          · cases h
          · cases h
            obtain ⟨e1, e2, e3⟩ := newModel_updateCache_stores info d2 _ true h2
            exact ⟨e1, Or.inl e2, fun _ _ => e3 rfl⟩
  | .group info geometryList, d, d1, b, n, h, hs => by
    simp only [process] at h
    split at h
    · cases h
    · rename_i heq
      cases h
      obtain ⟨h1, h2, h3⟩ := checkCache_ret_stores heq hs
      exact ⟨h1, Or.inl h2, fun _ _ => h3⟩
    · rename_i d0 heq
      have h0 := storesIn_of_eq (checkCache_go_cache heq) hs
      split at h
      · cases h
      · rename_i first rest
        split at h
        · cases h
        · rename_i b2 d2 heq2
          obtain ⟨h2, h2r, -⟩ := process_stores E first d0 d2 b2 n heq2 h0
          split at h
          · rename_i hnone
            cases h
            obtain ⟨e1, e2, -⟩ := updateCache_stores info d2 h2
              (fun r hr => by rw [hnone] at hr; cases hr)
            exact ⟨e1, Or.inl e2, fun hb => by cases hb⟩
          · rename_i r hsome
            have hr : r.allocIn n d2.heap.length ∨
                ∃ id self, first = .primitive (.explicit id self) ∧ r = .node id self := by
              rcases h2r with h2r | ⟨id, self, e1, e2⟩
              · exact Or.inl (h2r r hsome)
              · rw [hsome] at e2
                simp only [Option.some.injEq] at e2
                exact Or.inr ⟨id, self, e1, e2⟩
            obtain ⟨hb1, hb2⟩ := baseGeom_stores first d2.heap r h2.1 hr
            have hs2 : ({ d2 with heap := (baseGeom first d2.heap r).1 } :
                Discretizer α).storesIn n := storesIn_of_le h2 rfl hb1
            split at h
            · cases h
            · rename_i d3 heq3
              cases h
              obtain ⟨h3, -⟩ := mergeList_stores E rest _ _ _ d3 n heq3 hs2 hb2
              obtain ⟨e1, e2, -⟩ := updateCache_stores info { d3 with discretization := none }
                (storesIn_of_le h3 rfl (le_refl _)) (fun r hr => by cases hr)
              exact ⟨e1, Or.inl e2, fun hb => by cases hb⟩
            · rename_i fusion d3 heq3
              cases h
              obtain ⟨h3, h3f⟩ := mergeList_stores E rest _ _ _ d3 n heq3 hs2 hb2
              obtain ⟨e1, e2, e3⟩ := updateCache_stores info
                { d3 with discretization := some fusion.model }
                (storesIn_of_le h3 rfl (le_refl _))
                (fun r hr => by
                  simp only [Option.some.injEq] at hr
                  subst hr
                  exact h3f fusion rfl)
              exact ⟨e1, Or.inl e2, fun _ _ hx => by
                have := e3.mp hx
                cases this⟩
  | .ifs info matrices geometry, d, d1, b, n, h, hs => by
    simp only [process] at h
    split at h
    · cases h
    · rename_i heq
      cases h
      obtain ⟨h1, h2, h3⟩ := checkCache_ret_stores heq hs
      exact ⟨h1, Or.inl h2, fun _ _ => h3⟩
    · rename_i d0 heq
      have h0 := storesIn_of_eq (checkCache_go_cache heq) hs
      split at h
      · cases h
      · rename_i d2 heq2
        cases h
        obtain ⟨h2, -, -⟩ := process_stores E geometry d0 d2 false n heq2 h0
        exact ⟨storesIn_of_le h2 rfl (le_refl _), Or.inl (fun r hr => by cases hr),
          fun hb => by cases hb⟩
      · rename_i d2 heq2
        obtain ⟨h2, -, -⟩ := process_stores E geometry d0 d2 true n heq2 h0
        split at h
        · cases h
        · rename_i matrix rest
          split at h
          · cases h
          · rename_i r hsome
            split at h
            · cases h
            · rename_i base hbase
              have hl : d2.heap.length ≤ (alloc d2.heap (E.transform matrix base)).1.length := by
                simp [alloc]
              have hm : (alloc d2.heap (E.transform matrix base)).2.allocIn n
                  (alloc d2.heap (E.transform matrix base)).1.length := by
                simp only [alloc, List.length_append, List.length_singleton]
                exact ⟨h2.1, by omega⟩
              split at h
              · cases h
              · rename_i heap3 heq3
                cases h
                obtain ⟨e1, -⟩ := ifsLoop_stores E r rest _ _ _ heap3 n heq3
                  (le_trans h2.1 hl) hm
                exact ⟨storesIn_of_le h2 rfl (le_trans hl e1),
                  Or.inl (fun r hr => by cases hr), fun hb => by cases hb⟩
              · rename_i fusion heap3 heq3
                cases h
                obtain ⟨e1, e2⟩ := ifsLoop_stores E r rest _ _ _ heap3 n heq3
                  (le_trans h2.1 hl) hm
                obtain ⟨u1, u2, u3⟩ := updateCache_stores info
                  { d2 with heap := heap3, discretization := some fusion.model }
                  (storesIn_of_le h2 rfl (le_trans hl e1))
                  (fun r hr => by
                    simp only [Option.some.injEq] at hr
                    subst hr
                    exact e2 fusion rfl)
                exact ⟨u1, Or.inl u2, fun _ _ hx => by
                  have := u3.mp hx
                  cases this⟩
/-- Merging the remaining children of a group keeps the entries of the cache
and the model of the Composer among the objects of the free store allocated
after the first `n`. -/
theorem mergeList_stores {α τ : Type} (E : Extern α τ) :
    ∀ (gs : List (Geometry α τ)) (fusion : Merge α) (d : Discretizer α)
      (o : Option (Merge α)) (d1 : Discretizer α) (n : Nat),
      mergeList E gs fusion d = some (o, d1) → d.storesIn n →
      fusion.model.allocIn n d.heap.length →
      d1.storesIn n ∧ ∀ f, o = some f → f.model.allocIn n d1.heap.length
  | [], fusion, d, o, d1, n, h, hs, hf => by
    simp only [mergeList, Option.some.injEq, Prod.mk.injEq] at h
    obtain ⟨rfl, rfl⟩ := h
    refine ⟨hs, fun f hf2 => ?_⟩
    simp only [Option.some.injEq] at hf2
    subst hf2
    exact hf
  | geom2 :: rest, fusion, d, o, d1, n, h, hs, hf => by
    simp only [mergeList] at h
    split at h
    · cases h
    · rename_i d2 heq2
      cases h
      obtain ⟨h2, -, -⟩ := process_stores E geom2 d _ false n heq2 hs
      exact ⟨h2, fun f hf2 => by cases hf2⟩
    · rename_i d2 heq2
      obtain ⟨h2, -, -⟩ := process_stores E geom2 d d2 true n heq2 hs
      have hk : d.heap.length ≤ d2.heap.length :=
        heapKeeps_length (process_keeps E geom2 d d2 true d.heap heq2 (heapKeeps_refl _))
      split at h
      · cases h
      · rename_i heap2 fusion2 heq3
        cases h
        obtain ⟨e1, -⟩ := applyModel_stores E heq3 h2.1 (allocIn_mono hf hk)
        exact ⟨storesIn_of_le h2 rfl e1, fun f hf2 => by cases hf2⟩
      · rename_i heap2 fusion2 heq3
        obtain ⟨e1, e2⟩ := applyModel_stores E heq3 h2.1 (allocIn_mono hf hk)
        exact mergeList_stores E rest fusion2 _ o d1 n h (storesIn_of_le h2 rfl e1) e2
end

/-- In every state reached from a new Discretizer, a non-null entry of the
cache designates an object of the free store. -/
theorem reachable_stores {α τ : Type} (E : Extern α τ) (ids : List Nat)
    (d : Discretizer α) (h : ReachableWith E ids d) : d.storesIn 0 := by
  induction h with
  | init heap =>
    exact ⟨Nat.zero_le _, fun k r hk => by simp [Discretizer.new, Cache.find] at hk⟩
  | step g ids d d1 b _ hp ih => exact (process_stores E g d d1 b 0 hp ih).1
  | cleared ids d _ _ =>
    exact ⟨Nat.zero_le _, fun k r hk => by simp [Discretizer.clear, Cache.find] at hk⟩
  | toggled ids d b _ ih => exact ih

/-! ## Transformed nodes (C7) -/

/-- What `GEOM_DISCRETIZER_TRANSFORM` does once the lookup of the node has
fallen through and the child has yielded the model `M`: a new object equal to
`M.transform(t)` is allocated, named after the node when it is named, and
becomes the current result. -/
theorem processTransformed_run {α τ : Type} (E : Extern α τ)
    (k : TransformedKind) (info : NodeInfo) (t : τ) (N : Geometry α τ)
    (d d1 d2 : Discretizer α) (r : Ref α) (M : ExplicitModel α)
    (hmiss : checkCache info d = .go d1)
    (hN : process E N d1 = some (true, d2))
    (hr : d2.getDiscretization = some r) (hM : deref d2.heap r = some M) :
    process E (.transformed k info t N) d
      = some (true,
          { heap := d2.heap ++ [namedAs info (E.transform t M)],
            cache := if info.isNamed then
                       d2.cache.insert info.id (some (.alloc d2.heap.length))
                     else d2.cache,
            discretization := some (.alloc d2.heap.length),
            computeTexCoord := d2.computeTexCoord }) := by
  simp only [Discretizer.getDiscretization] at hr
  have hp : process E (.transformed k info t N) d
      = some (true, updateCache info (newModel d2 (E.transform t M))) := by
    simp [process, hmiss, hN, hr, hM]
  rw [hp]
  by_cases hn : info.isNamed = true
  · simp [updateCache, newModel, hn, setName, modify_append_last, namedAs]
  · simp [updateCache, newModel, hn, namedAs]

/-- C7: for a transformed node `T(N)` (translated, scaled, axis-rotated,
euler-rotated or oriented) with transformation `t`, in every state. When the
lookup of `T(N)` falls through and the child `N` discretizes to a model `M`,
`process` returns `true` and the current result is a new object equal to
`M.transform(t)` (carrying the name of the node when it is named). When a model
is stored under the id of the named node, `process` returns it without
dispatching `N`, whatever `N` would yield. So for a named translation of an
unnamed sphere computed with the texcoord flag off (no entry before, kernel
defined under both flags, `transform` keeping the texcoord list): the first
call stores a model `X` without texcoords; with the flag on, the second call
returns `X` again, while the sphere itself now discretizes to a mesh `M` with
texcoords, and `X` is not `M.transform(t)`. -/
theorem transformed_applies_transformation_unless_stored {α τ : Type} (E : Extern α τ)
    (k : TransformedKind) (info : NodeInfo) (t : τ) (d : Discretizer α)
    (kN : TexLeafKind) (idN : Nat)
    (hn : info.isNamed = true) (hf : d.computeTexCoord = false)
    (hc : d.cache.find info.id = none)
    (hk0 : E.kernelDefined idN false [] = true) (hk1 : E.kernelDefined idN true [] = true)
    (ht : ∀ m, (E.transform t m).hasTexCoordList = m.hasTexCoordList) :
    (∀ (N : Geometry α τ) (s s1 s2 : Discretizer α) (kk : TransformedKind) (i : NodeInfo)
        (r : Ref α) (M : ExplicitModel α),
      checkCache i s = .go s1 → process E N s1 = some (true, s2) →
      s2.getDiscretization = some r → deref s2.heap r = some M →
      ∃ s3, process E (.transformed kk i t N) s = some (true, s3) ∧
        s3.getDiscretization = some (.alloc s2.heap.length) ∧
        s3.heap.length = s2.heap.length + 1 ∧
        deref s3.heap (.alloc s2.heap.length) = some (namedAs i (E.transform t M))) ∧
    (∀ (N : Geometry α τ) (s : Discretizer α) (kk : TransformedKind) (i : NodeInfo) (r : Ref α),
      i.isNamed = true → s.cache.find i.id = some (some r) →
      process E (.transformed kk i t N) s = some (true, { s with discretization := some r })) ∧
    (∃ (d1 dN : Discretizer α) (r1 rN : Ref α) (X M : ExplicitModel α),
      process E (.transformed k info t (.primitive (.texLeaf kN ⟨idN, ""⟩))) d
        = some (true, d1) ∧
      d1.getDiscretization = some r1 ∧ d1.cache.find info.id = some (some r1) ∧
      deref d1.heap r1 = some X ∧ X.hasTexCoordList = false ∧
      process E (.transformed k info t (.primitive (.texLeaf kN ⟨idN, ""⟩)))
          (d1.setComputeTexCoord true)
        = some (true, d1.setComputeTexCoord true) ∧
      deref (d1.setComputeTexCoord true).heap r1 = some X ∧
      process E (.primitive (.texLeaf kN ⟨idN, ""⟩)) (d1.setComputeTexCoord true)
        = some (true, dN) ∧
      dN.getDiscretization = some rN ∧ deref dN.heap rN = some M ∧
      M.hasTexCoordList = true ∧
      (namedAs info (E.transform t M)).hasTexCoordList = true ∧
      X ≠ namedAs info (E.transform t M)) := by
  refine ⟨?_, ?_, ?_⟩
  · intro N s s1 s2 kk i r M hmiss hN hr hM
    refine ⟨_, processTransformed_run E kk i t N s s1 s2 r M hmiss hN hr hM, rfl, ?_, ?_⟩
    · simp
    · exact deref_alloc_append _ _
  · intro N s kk i r hi hs
    simp [process, checkCache, hi, hs]
  · have hmiss : checkCache info d = .go d := by simp [checkCache, hn, hc]
    obtain ⟨S0, hS0⟩ : ∃ S0 : ExplicitModel α,
        S0 = ExplicitModel.mk kN.cls true false "" (E.tessellate idN false []) := ⟨_, rfl⟩
    obtain ⟨S1, hS1⟩ : ∃ S1 : ExplicitModel α,
        S1 = ExplicitModel.mk kN.cls true true "" (E.tessellate idN true []) := ⟨_, rfl⟩
    have hS0t : S0.hasTexCoordList = false := by rw [hS0]
    have hS1t : S1.hasTexCoordList = true := by rw [hS1]
    have hXt : (namedAs info (E.transform t S0)).hasTexCoordList = false := by
      simp only [namedAs, hn, if_true]
      exact (ht S0).trans hS0t
    have hMt : (namedAs info (E.transform t S1)).hasTexCoordList = true := by
      simp only [namedAs, hn, if_true]
      exact (ht S1).trans hS1t
    -- the first call
    have hS : process E (.primitive (.texLeaf kN ⟨idN, ""⟩)) d = some (true,
        Discretizer.mk (d.heap ++ [S0]) d.cache (some (.alloc d.heap.length)) false) := by
      have h := processTexLeaf_unnamed E kN idN d (by rw [hf]; exact hk0)
      rw [hf] at h
      rw [hS0]
      simpa [process, processPrimitive] using h
    have h1 := processTransformed_run E k info t (.primitive (.texLeaf kN ⟨idN, ""⟩)) d d _
      (.alloc d.heap.length) S0 hmiss hS rfl (deref_alloc_append d.heap S0)
    rw [if_pos hn] at h1
    have h1b : process E (.transformed k info t (.primitive (.texLeaf kN ⟨idN, ""⟩))) d
        = some (true, Discretizer.mk (d.heap ++ [S0] ++ [namedAs info (E.transform t S0)])
            (d.cache.insert info.id (some (.alloc (d.heap ++ [S0]).length)))
            (some (.alloc (d.heap ++ [S0]).length)) false) := h1
    -- the second call, with the flag on
    have h2 : process E (.transformed k info t (.primitive (.texLeaf kN ⟨idN, ""⟩)))
        (Discretizer.mk (d.heap ++ [S0] ++ [namedAs info (E.transform t S0)])
            (d.cache.insert info.id (some (.alloc (d.heap ++ [S0]).length)))
            (some (.alloc (d.heap ++ [S0]).length)) true)
        = some (true, Discretizer.mk (d.heap ++ [S0] ++ [namedAs info (E.transform t S0)])
            (d.cache.insert info.id (some (.alloc (d.heap ++ [S0]).length)))
            (some (.alloc (d.heap ++ [S0]).length)) true) := by
      simp [process, checkCache, hn, find_insert_self]
    -- the child, dispatched in that state
    have h3 : process E (.primitive (.texLeaf kN ⟨idN, ""⟩))
        (Discretizer.mk (d.heap ++ [S0] ++ [namedAs info (E.transform t S0)])
            (d.cache.insert info.id (some (.alloc (d.heap ++ [S0]).length)))
            (some (.alloc (d.heap ++ [S0]).length)) true)
        = some (true, Discretizer.mk
            (d.heap ++ [S0] ++ [namedAs info (E.transform t S0)] ++ [S1])
            (d.cache.insert info.id (some (.alloc (d.heap ++ [S0]).length)))
            (some (.alloc (d.heap ++ [S0] ++ [namedAs info (E.transform t S0)]).length))
            true) := by
      have h := processTexLeaf_unnamed E kN idN
        (Discretizer.mk (d.heap ++ [S0] ++ [namedAs info (E.transform t S0)])
            (d.cache.insert info.id (some (.alloc (d.heap ++ [S0]).length)))
            (some (.alloc (d.heap ++ [S0]).length)) true) hk1
      rw [hS1]
      simpa [process, processPrimitive] using h
    refine ⟨_, _, .alloc (d.heap ++ [S0]).length,
      .alloc (d.heap ++ [S0] ++ [namedAs info (E.transform t S0)]).length,
      namedAs info (E.transform t S0), S1, h1b, rfl, find_insert_self _ _ _,
      deref_alloc_append _ _, hXt, h2, deref_alloc_append _ _, h3, rfl,
      deref_alloc_append _ _, hS1t, hMt, ?_⟩
    intro h
    have h4 := congrArg ExplicitModel.hasTexCoordList h
    rw [hXt, hMt] at h4
    cases h4

/-- C7, at the named translation `moved` (by 7) of an unnamed sphere and a new
Discretizer, with the kernels that write the id of the node and the flag: the
first call stores the arrays `[7, 3, 0]` without texcoords; with the flag on,
the second call returns them again, while the sphere now yields `[3, 1]` with
texcoords. -/
theorem transformed_applies_transformation_unless_stored_witness :
    ∃ (d1 dN : Discretizer (List Nat)) (r1 rN : Ref (List Nat))
        (X M : ExplicitModel (List Nat)),
      process sampleExtern
        (.transformed .translated ⟨2, "moved"⟩ 7 (.primitive (.texLeaf .sphere ⟨3, ""⟩)))
        (Discretizer.new []) = some (true, d1) ∧
      d1.getDiscretization = some r1 ∧ d1.cache.find 2 = some (some r1) ∧
      deref d1.heap r1 = some X ∧ X.hasTexCoordList = false ∧
      process sampleExtern
        (.transformed .translated ⟨2, "moved"⟩ 7 (.primitive (.texLeaf .sphere ⟨3, ""⟩)))
        (d1.setComputeTexCoord true) = some (true, d1.setComputeTexCoord true) ∧
      deref (d1.setComputeTexCoord true).heap r1 = some X ∧
      process sampleExtern (.primitive (.texLeaf .sphere ⟨3, ""⟩)) (d1.setComputeTexCoord true)
        = some (true, dN) ∧
      dN.getDiscretization = some rN ∧ deref dN.heap rN = some M ∧
      M.hasTexCoordList = true ∧
      (namedAs ⟨2, "moved"⟩ (sampleExtern.transform 7 M)).hasTexCoordList = true ∧
      X ≠ namedAs ⟨2, "moved"⟩ (sampleExtern.transform 7 M) :=
  (transformed_applies_transformation_unless_stored sampleExtern .translated ⟨2, "moved"⟩ 7
    (Discretizer.new []) .sphere 3 (by decide) rfl rfl rfl rfl (fun _ => rfl)).2.2

/-! ## Unnamed leaves (C10) -/

/-- C10: for an unnamed parametric primitive without children, in every state
`d` and for every content `c` of the cache. The cache is not read: the outcome
with the cache `c` is the outcome with the cache of `d` (a result or undefined
behaviour), up to the cache itself. It is not written: whenever the call
returns, the cache is as before. When the kernel is defined on the node,
`process` returns `true` and allocates exactly one object; processing the node
a second time runs the kernel again and allocates a second object, and (except
for `NurbsPatch`, whose result is null) the two results are the two new
objects. When the kernel is undefined on the node, so is the call. -/
theorem unnamed_leaf_bypasses_cache {α τ : Type} (E : Extern α τ) (p : Primitive α)
    (info : NodeInfo) (d : Discretizer α) (c : Cache α)
    (hp : p.leafInfo = some info) (hn : info.isNamed = false) :
    (process E (.primitive p) { d with cache := c }
      = (process E (.primitive p) d).map (fun x => (x.1, { x.2 with cache := c }))) ∧
    (∀ b d1, process E (.primitive p) d = some (b, d1) → d1.cache = d.cache) ∧
    (p.kernelRuns E d.computeTexCoord = true →
      ∃ d1 d2,
        process E (.primitive p) d = some (true, d1) ∧
        d1.cache = d.cache ∧ d1.heap.length = d.heap.length + 1 ∧
        process E (.primitive p) d1 = some (true, d2) ∧
        d2.cache = d.cache ∧ d2.heap.length = d.heap.length + 2 ∧
        ((∀ i, p ≠ .nurbsPatch i) →
          d1.getDiscretization = some (.alloc d.heap.length) ∧
          d2.getDiscretization = some (.alloc (d.heap.length + 1)))) ∧
    (p.kernelRuns E d.computeTexCoord = false → process E (.primitive p) d = none) := by
  cases p with
  | explicit id self => simp [Primitive.leafInfo] at hp
  | extrudedHull i h v => simp [Primitive.leafInfo] at hp
  | extrusion i s c => simp [Primitive.leafInfo] at hp
  | revolution i c => simp [Primitive.leafInfo] at hp
  | leaf k i =>
    simp only [Primitive.leafInfo, Option.some.injEq] at hp
    subst hp
    cases hk : E.kernelDefined i.id false [] <;>
      simp [process, processPrimitive, processLeaf, checkCache, hn, hk, updateCache, newModel,
        Discretizer.getDiscretization, Primitive.kernelRuns]
  | texLeaf k i =>
    simp only [Primitive.leafInfo, Option.some.injEq] at hp
    subst hp
    cases hk : E.kernelDefined i.id d.computeTexCoord [] <;>
      simp [process, processPrimitive, processTexLeaf, checkCacheWithTex, hn, hk, updateCache,
        newModel, Discretizer.getDiscretization, Primitive.kernelRuns]
  | nurbsPatch i =>
    simp only [Primitive.leafInfo, Option.some.injEq] at hp
    subst hp
    simp [process, processPrimitive, processNurbsPatch, checkCacheWithTex, hn, updateCache,
      Primitive.kernelRuns]
  | curve2D cv =>
    simp only [Primitive.leafInfo, Option.some.injEq] at hp
    subst hp
    simp [process, processPrimitive, processCurve2D, checkCache, hn, updateCache, newModel,
      Discretizer.getDiscretization, Primitive.kernelRuns]

/-- C10, at unnamed nodes and a new Discretizer, the cache given having one
entry. For a sphere of 4 slices and 3 stacks, on which the kernel of the sphere
is defined, the two calls build two meshes and the cache stays empty. For a
sphere of one stack, whose kernel takes a remainder by zero, and for a cone of
3 slices that is not solid, whose kernel writes the apex outside the point
array, the call is undefined. -/
theorem unnamed_leaf_bypasses_cache_witness :
    ((Primitive.texLeaf .sphere ⟨4, ""⟩ : Primitive (MeshArrays (Vector3 RealTerm))).leafInfo
        = some ⟨4, ""⟩ ∧
      NodeInfo.isNamed ⟨4, ""⟩ = false ∧
      sphereDefined symbolicReal (.ofNat 1) 4 3 false = true ∧
      sphereDefined symbolicReal (.ofNat 1) 4 1 false = false ∧
      coneDefined symbolicReal (.var "radius") (.var "height") false 3 = false) ∧
    (∃ d1 d2 : Discretizer (MeshArrays (Vector3 RealTerm)),
      process sampleSpheres (.primitive (.texLeaf .sphere ⟨4, ""⟩)) (Discretizer.new [])
        = some (true, d1) ∧
      d1.cache = [] ∧ d1.heap.length = 0 + 1 ∧
      process sampleSpheres (.primitive (.texLeaf .sphere ⟨4, ""⟩)) d1 = some (true, d2) ∧
      d2.cache = [] ∧ d2.heap.length = 0 + 2 ∧
      ((∀ i, (Primitive.texLeaf .sphere ⟨4, ""⟩ : Primitive (MeshArrays (Vector3 RealTerm)))
          ≠ .nurbsPatch i) →
        d1.getDiscretization = some (.alloc 0) ∧
        d2.getDiscretization = some (.alloc (0 + 1)))) ∧
    process
        (sphereExtern symbolicReal (fun _ => .ofNat 1) (fun _ => 4) (fun _ => 1) symbolicMove)
        (.primitive (.texLeaf .sphere ⟨4, ""⟩)) (Discretizer.new []) = none ∧
    process
        (coneExtern symbolicReal (fun _ => .var "radius") (fun _ => .var "height")
          (fun _ => false) (fun _ => 3) symbolicMove)
        (.primitive (.leaf .cone ⟨4, ""⟩)) (Discretizer.new []) = none := by
  have hs : sphereDefined symbolicReal (.ofNat 1) 4 3 false = true :=
    sphereDefined_of_bounds _ _ 4 3 false (by decide) (by decide) (by decide) (by decide)
  have hs1 : sphereDefined symbolicReal (.ofNat 1) 4 1 false = false :=
    sphereDefined_one_stack _ _ 4 false (by decide)
  have hc : coneDefined symbolicReal (.var "radius") (.var "height") false 3 = false :=
    coneDefined_open _ _ _ 3 (by decide) (by decide)
  have hk : Primitive.kernelRuns sampleSpheres false (.texLeaf .sphere ⟨4, ""⟩) = true := hs
  have hk1 : Primitive.kernelRuns
      (sphereExtern symbolicReal (fun _ => .ofNat 1) (fun _ => 4) (fun _ => 1) symbolicMove)
      false (.texLeaf .sphere ⟨4, ""⟩) = false := hs1
  have hkc : Primitive.kernelRuns
      (coneExtern symbolicReal (fun _ => .var "radius") (fun _ => .var "height")
        (fun _ => false) (fun _ => 3) symbolicMove)
      false (.leaf .cone ⟨4, ""⟩) = false := hc
  exact ⟨⟨rfl, by decide, hs, hs1, hc⟩,
    (unnamed_leaf_bypasses_cache sampleSpheres (.texLeaf .sphere ⟨4, ""⟩) ⟨4, ""⟩
      (Discretizer.new []) [(4, none)] rfl (by decide)).2.2.1 hk,
    (unnamed_leaf_bypasses_cache _ (.texLeaf .sphere ⟨4, ""⟩) ⟨4, ""⟩
      (Discretizer.new []) [(4, none)] rfl (by decide)).2.2.2 hk1,
    (unnamed_leaf_bypasses_cache _ (.leaf .cone ⟨4, ""⟩) ⟨4, ""⟩
      (Discretizer.new []) [(4, none)] rfl (by decide)).2.2.2 hkc⟩

/-! ## The texcoord flag and the cache (C3, C4) -/

theorem allocIn_iff {α : Type} (r : Ref α) (lo hi : Nat) :
    r.allocIn lo hi ↔ ∃ a, r = .alloc a ∧ lo ≤ a ∧ a < hi := by
  cases r with
  | node id self =>
    constructor
    · intro h
      exact absurd h (fun x => x)
    · rintro ⟨a, h, -⟩
      cases h
  | alloc b =>
    constructor
    · intro h
      exact ⟨b, rfl, h.1, h.2⟩
    · rintro ⟨a, h, h1, h2⟩
      cases h
      exact ⟨h1, h2⟩

/-- After `clear()` both lookups of the cache fall through, for every node. -/
theorem checkCache_clear {α : Type} (info : NodeInfo) (d : Discretizer α) :
    checkCache info d.clear = .go d.clear ∧ checkCacheWithTex info d.clear = .go d.clear := by
  cases hn : info.isNamed <;>
    simp [checkCache, checkCacheWithTex, hn, Discretizer.clear, Cache.find]

/-- The kernel of a named `Revolution` once the lookup has fallen through and
the profile has been discretized to a model with a point list, on which the
kernel is defined. -/
theorem processRevolution_run {α τ : Type} (E : Extern α τ) (info : NodeInfo)
    (c : Curve2D) (d d2 : Discretizer α) (r : Ref α) (m : ExplicitModel α)
    (hn : info.isNamed = true) (h0 : checkCache info d = .go d)
    (h1 : processCurve2D E c d = some (true, d2)) (h2 : d2.discretization = some r)
    (h3 : deref d2.heap r = some m) (h4 : m.hasPointList = true)
    (hk : E.kernelDefined info.id false [m.arrays] = true) :
    ∃ M : ExplicitModel α,
      processRevolution E info c d = some (true,
        { heap := d2.heap ++ [M],
          cache := d2.cache.insert info.id (some (.alloc d2.heap.length)),
          discretization := some (.alloc d2.heap.length),
          computeTexCoord := d2.computeTexCoord }) := by
  refine ⟨ExplicitModel.mk .triangleSet true false info.name
    (E.tessellate info.id false [m.arrays]), ?_⟩
  simp [processRevolution, h0, applyProfile, h1, h2, getPointList, h3, h4, hk, updateCache,
    newModel, hn, setName, modify_append_last]

/-- The kernel of a named `ExtrudedHull` once the lookup has fallen through and
the two profiles have been discretized to models with a point list, on which
the kernel is defined. -/
theorem processExtrudedHull_run {α τ : Type} (E : Extern α τ) (info : NodeInfo)
    (hor ver : Curve2D) (d d2 d3 : Discretizer α) (r2 r3 : Ref α) (m2 m3 : ExplicitModel α)
    (hn : info.isNamed = true) (h0 : checkCache info d = .go d)
    (h1 : processCurve2D E hor d = some (true, d2)) (h2 : d2.discretization = some r2)
    (h3 : deref d2.heap r2 = some m2) (h4 : m2.hasPointList = true)
    (h5 : processCurve2D E ver d2 = some (true, d3)) (h6 : d3.discretization = some r3)
    (h7 : deref d3.heap r3 = some m3) (h8 : m3.hasPointList = true)
    (hk : E.kernelDefined info.id false [m2.arrays, m3.arrays] = true) :
    ∃ M : ExplicitModel α,
      processExtrudedHull E info hor ver d = some (true,
        { heap := d3.heap ++ [M],
          cache := d3.cache.insert info.id (some (.alloc d3.heap.length)),
          discretization := some (.alloc d3.heap.length),
          computeTexCoord := d3.computeTexCoord }) := by
  refine ⟨ExplicitModel.mk .triangleSet true false info.name
    (E.tessellate info.id false [m2.arrays, m3.arrays]), ?_⟩
  simp [processExtrudedHull, h0, applyProfile, h1, h2, getPointList, h3, h4, h5, h6, h7, h8,
    hk, updateCache, newModel, hn, setName, modify_append_last]

/-- The dispatch of a 2D curve in a state where its entry designates points
yields a model with points and keeps the free store. -/
theorem processCurve2D_points {α τ : Type} (E : Extern α τ) (c : Curve2D)
    (d : Discretizer α) (hcs : c.storedWithPoints d.heap d.cache) :
    ∃ d2 r m, processCurve2D E c d = some (true, d2) ∧ d2.discretization = some r ∧
      deref d2.heap r = some m ∧ m.hasPointList = true ∧ d.heap.length ≤ d2.heap.length ∧
      d2.computeTexCoord = d.computeTexCoord := by
  rcases processCurve2D_cases E c d with ⟨r, hcn, hcf, hrun⟩ | ⟨-, m, hmp, hrun⟩
  · obtain ⟨m, hm, hp⟩ := hcs hcn r hcf
    exact ⟨_, r, m, hrun, rfl, hm, hp, le_refl _, rfl⟩
  · exact ⟨_, .alloc d.heap.length, m, hrun, rfl, deref_alloc_append _ _, hmp, by simp, rfl⟩

theorem storedWithPoints_clear {α : Type} (c : Curve2D) (d : Discretizer α) :
    c.storedWithPoints d.clear.heap d.clear.cache := by
  intro _ r hr
  simp [Discretizer.clear, Cache.find] at hr

/-- After a curve has been dispatched in a cleared state, the entry of any
curve designates points. -/
theorem storedWithPoints_after_curve {α τ : Type} (E : Extern α τ) (c v : Curve2D)
    (d d2 : Discretizer α) (h : processCurve2D E c d.clear = some (true, d2)) :
    v.storedWithPoints d2.heap d2.cache := by
  obtain ⟨m, hmp, hrun⟩ := processCurve2D_fresh E c d.clear
    (fun _ r hr => by simp [Discretizer.clear, Cache.find] at hr)
  rw [hrun] at h
  simp only [Option.some.injEq, Prod.mk.injEq, true_and] at h
  subst h
  intro _ r hr
  by_cases hcn : c.info.isNamed = true
  · simp only [hcn, if_true, find_insert] at hr
    split at hr
    · simp only [Option.some.injEq] at hr
      subst hr
      exact ⟨m, deref_alloc_append _ _, hmp⟩
    · simp [Discretizer.clear, Cache.find] at hr
  · simp [hcn, Discretizer.clear, Cache.find] at hr

/-- C11 (the claim, and the code at the failing input). `clear()` empties the
result and the cache and leaves the free store and the texcoord flag as they
are; a newly constructed Discretizer has a null result, an empty cache and the
flag off, and the cleared state is that of a new Discretizer over the same free
store with the same flag; in it both lookups fall through for every node.
Whenever a geometry of any kind is processed next and the call returns, every
object that existed before is kept, every entry of the cache designates an
object allocated after the `clear`, so does the current result (an explicit
model is its own result), and a call that returns `true` leaves a non-null
result unless the geometry is a `NurbsPatch`. A named parametric primitive
without children, a named `Extrusion`, `Revolution` or `ExtrudedHull`, each
with a kernel that is defined, and a transformed or `Tapered` node whose child
yields a model, are computed again: `process` returns `true` and the result is a new object,
stored under the id of a named node. A named `NurbsPatch` is computed again but
yields no model: `process` returns `true` with a null result and stores a null
entry. -/
theorem clear_forces_fresh_model {α τ : Type} (E : Extern α τ) (d : Discretizer α)
    (heap : List (ExplicitModel α)) :
    (d.clear.getDiscretization = none ∧ d.clear.cache = [] ∧
      (∀ id, d.clear.cache.find id = none) ∧
      d.clear.heap = d.heap ∧ d.clear.computeTexCoord = d.computeTexCoord) ∧
    ((Discretizer.new heap).getDiscretization = none ∧ (Discretizer.new heap).cache = [] ∧
      (Discretizer.new heap).computeTexCoord = false ∧
      d.clear = (Discretizer.new d.heap).setComputeTexCoord d.computeTexCoord) ∧
    (∀ info : NodeInfo,
      checkCache info d.clear = .go d.clear ∧ checkCacheWithTex info d.clear = .go d.clear) ∧
    (∀ (g : Geometry α τ) (b : Bool) (d1 : Discretizer α),
      process E g d.clear = some (b, d1) →
      heapKeeps d.heap d1.heap ∧
      (∀ k r, d1.cache.find k = some (some r) →
        ∃ a, r = .alloc a ∧ d.heap.length ≤ a ∧ a < d1.heap.length) ∧
      (∀ r, d1.getDiscretization = some r →
        (∃ a, r = .alloc a ∧ d.heap.length ≤ a ∧ a < d1.heap.length) ∨
        ∃ id self, g = .primitive (.explicit id self) ∧ r = .node id self) ∧
      (b = true → g.isNurbsPatch = false → d1.getDiscretization ≠ none)) ∧
    (∀ (p : Primitive α) (info : NodeInfo),
      p.leafInfo = some info → info.isNamed = true → (∀ i, p ≠ .nurbsPatch i) →
      p.kernelRuns E d.computeTexCoord = true →
      ∃ d1, process E (.primitive p) d.clear = some (true, d1) ∧
        d1.getDiscretization = some (.alloc d.heap.length) ∧
        d1.heap.length = d.heap.length + 1 ∧
        d1.cache.find info.id = some (some (.alloc d.heap.length)) ∧
        ∀ r, deref d.heap r ≠ none → d1.getDiscretization ≠ some r) ∧
    (∀ info : NodeInfo, info.isNamed = true →
      (∀ (solid : Bool) (c : Curve2D),
        (∀ ps, E.kernelDefined info.id d.computeTexCoord ps = true) → ∃ d1 a,
        process E (.primitive (.extrusion info solid c)) d.clear = some (true, d1) ∧
        d1.getDiscretization = some (.alloc a) ∧ d.heap.length ≤ a ∧
        d1.heap.length = a + 1 ∧ d1.cache.find info.id = some (some (.alloc a))) ∧
      (∀ c : Curve2D, (∀ ps, E.kernelDefined info.id false ps = true) → ∃ d1 a,
        process E (.primitive (.revolution info c)) d.clear = some (true, d1) ∧
        d1.getDiscretization = some (.alloc a) ∧ d.heap.length ≤ a ∧
        d1.heap.length = a + 1 ∧ d1.cache.find info.id = some (some (.alloc a))) ∧
      (∀ h v : Curve2D, (∀ ps, E.kernelDefined info.id false ps = true) → ∃ d1 a,
        process E (.primitive (.extrudedHull info h v)) d.clear = some (true, d1) ∧
        d1.getDiscretization = some (.alloc a) ∧ d.heap.length ≤ a ∧
        d1.heap.length = a + 1 ∧ d1.cache.find info.id = some (some (.alloc a)))) ∧
    (∀ (info : NodeInfo) (t : τ) (N : Geometry α τ) (d2 : Discretizer α) (r : Ref α)
        (M : ExplicitModel α),
      process E N d.clear = some (true, d2) → d2.getDiscretization = some r →
      deref d2.heap r = some M →
      d.heap.length ≤ d2.heap.length ∧
      (∀ k : TransformedKind, ∃ d1,
        process E (.transformed k info t N) d.clear = some (true, d1) ∧
        d1.getDiscretization = some (.alloc d2.heap.length) ∧
        d1.heap.length = d2.heap.length + 1 ∧
        deref d1.heap (.alloc d2.heap.length) = some (namedAs info (E.transform t M)) ∧
        (info.isNamed = true →
          d1.cache.find info.id = some (some (.alloc d2.heap.length)))) ∧
      (∀ p : Primitive α, N = .primitive p → ∃ d1,
        process E (.tapered info t p) d.clear = some (true, d1) ∧
        d1.getDiscretization = some (.alloc d2.heap.length) ∧
        d1.heap.length = d2.heap.length + 1 ∧
        deref d1.heap (.alloc d2.heap.length) = some (namedAs info (E.transform t M)) ∧
        (info.isNamed = true →
          d1.cache.find info.id = some (some (.alloc d2.heap.length))))) ∧
    (∀ info : NodeInfo, info.isNamed = true →
      ∃ d1, process E (.primitive (.nurbsPatch info)) d.clear = some (true, d1) ∧
        d1.getDiscretization = none ∧ d1.heap.length = d.heap.length + 1 ∧
        d1.cache.find info.id = some none) := by
  have hclear : d.clear.storesIn d.heap.length :=
    ⟨le_refl _, fun k r hk => by simp [Discretizer.clear, Cache.find] at hk⟩
  have hfresh : ∀ r : Ref α, deref d.heap r ≠ none → some (Ref.alloc d.heap.length) ≠ some r := by
    intro r hr h
    cases h
    simp [deref] at hr
  refine ⟨⟨rfl, rfl, fun _ => rfl, rfl, rfl⟩, ⟨rfl, rfl, rfl, rfl⟩,
    fun info => checkCache_clear info d, ?_, ?_, ?_, ?_, ?_⟩
  · intro g b d1 h
    obtain ⟨h1, h2, h3⟩ := process_stores E g d.clear d1 b d.heap.length h hclear
    refine ⟨process_keeps E g d.clear d1 b d.heap h (heapKeeps_refl _), ?_, ?_, h3⟩
    · intro k r hk
      exact (allocIn_iff r _ _).mp (h1.2 k r hk)
    · intro r hr
      rcases h2 with h2 | ⟨id, self, e1, e2⟩
      · exact Or.inl ((allocIn_iff r _ _).mp (h2 r hr))
      · refine Or.inr ⟨id, self, e1, ?_⟩
        simp only [Discretizer.getDiscretization] at hr
        rw [hr] at e2
        simp only [Option.some.injEq] at e2
        exact e2
  · intro p info hp hn hq hk
    cases p with
    | explicit id self => simp [Primitive.leafInfo] at hp
    | extrudedHull i h v => simp [Primitive.leafInfo] at hp
    | extrusion i s c => simp [Primitive.leafInfo] at hp
    | revolution i c => simp [Primitive.leafInfo] at hp
    | nurbsPatch i => exact absurd rfl (hq i)
    | leaf k i =>
      simp only [Primitive.leafInfo, Option.some.injEq] at hp
      subst hp
      refine ⟨_, processLeaf_miss E k i d.clear hn rfl hk, rfl, ?_, ?_, hfresh⟩
      · simp [Discretizer.clear]
      · exact find_insert_self _ _ _
    | texLeaf k i =>
      simp only [Primitive.leafInfo, Option.some.injEq] at hp
      subst hp
      refine ⟨_, processTexLeaf_miss E k i d.clear hn rfl hk, rfl, ?_, ?_, hfresh⟩
      · simp [Discretizer.clear]
      · exact find_insert_self _ _ _
    | curve2D cv =>
      simp only [Primitive.leafInfo, Option.some.injEq] at hp
      subst hp
      obtain ⟨m, -, h⟩ := processCurve2D_fresh E cv d.clear
        (fun _ r hr => by simp [Discretizer.clear, Cache.find] at hr)
      refine ⟨_, h, rfl, ?_, ?_, hfresh⟩
      · simp [Discretizer.clear]
      · simp only [hn, if_true]
        exact find_insert_self _ _ _
  · intro info hn
    refine ⟨?_, ?_, ?_⟩
    · intro solid c hk
      obtain ⟨d2, r, m, h1, h2, h3, h4, h5, h6⟩ :=
        processCurve2D_points E c d.clear (storedWithPoints_clear c d)
      obtain ⟨M, -, -, -, hE⟩ := processExtrusion_run E info solid c d.clear d2 r m hn
        (checkCache_clear info d).2 h1 h2 h3 h4 (by rw [h6]; exact hk _)
      exact ⟨_, d2.heap.length, hE, rfl, h5, by simp, find_insert_self _ _ _⟩
    · intro c hk
      obtain ⟨d2, r, m, h1, h2, h3, h4, h5, -⟩ :=
        processCurve2D_points E c d.clear (storedWithPoints_clear c d)
      obtain ⟨M, hE⟩ := processRevolution_run E info c d.clear d2 r m hn
        (checkCache_clear info d).1 h1 h2 h3 h4 (hk _)
      exact ⟨_, d2.heap.length, hE, rfl, h5, by simp, find_insert_self _ _ _⟩
    · intro h v hk
      obtain ⟨d2, r2, m2, h1, h2, h3, h4, h5, -⟩ :=
        processCurve2D_points E h d.clear (storedWithPoints_clear h d)
      obtain ⟨d3, r3, m3, k1, k2, k3, k4, k5, -⟩ :=
        processCurve2D_points E v d2 (storedWithPoints_after_curve E h v d d2 h1)
      obtain ⟨M, hE⟩ := processExtrudedHull_run E info h v d.clear d2 d3 r2 r3 m2 m3 hn
        (checkCache_clear info d).1 h1 h2 h3 h4 k1 k2 k3 k4 (hk _)
      exact ⟨_, d3.heap.length, hE, rfl, le_trans h5 k5, by simp, find_insert_self _ _ _⟩
  · intro info t N d2 r M hN hr hM
    have hlen : d.heap.length ≤ d2.heap.length :=
      heapKeeps_length (process_keeps E N d.clear d2 true d.heap hN (heapKeeps_refl _))
    refine ⟨hlen, ?_, ?_⟩
    · intro k
      have hrun := processTransformed_run E k info t N d.clear d.clear d2 r M
        (checkCache_clear info d).1 hN hr hM
      refine ⟨_, hrun, rfl, by simp, deref_alloc_append _ _, fun hn => ?_⟩
      simp only [hn, if_true]
      exact find_insert_self _ _ _
    · intro p hp
      subst hp
      simp only [Discretizer.getDiscretization] at hr
      simp only [process] at hN
      have hp2 : process E (.tapered info t p) d.clear
          = some (true, updateCache info (newModel d2 (E.transform t M))) := by
        simp [process, (checkCache_clear info d).1, hN, hr, hM]
      obtain ⟨u1, u2, u3, -⟩ := updateCache_last info d2 d2.heap (E.transform t M)
      refine ⟨_, hp2, u2, ?_, ?_, fun hn => ?_⟩
      · have e := congrArg List.length u1
        simpa [newModel] using e
      · have e : deref (updateCache info (newModel d2 (E.transform t M))).heap
            (.alloc d2.heap.length) = some (namedAs info (E.transform t M)) := by
          have u1b : (updateCache info (newModel d2 (E.transform t M))).heap
              = d2.heap ++ [namedAs info (E.transform t M)] := u1
          rw [u1b]
          exact deref_alloc_append _ _
        exact e
      · have u3b : (updateCache info (newModel d2 (E.transform t M))).cache
            = (if info.isNamed then d2.cache.insert info.id (some (.alloc d2.heap.length))
               else d2.cache) := u3
        rw [u3b]
        simp only [hn, if_true]
        exact find_insert_self _ _ _
  · intro info hn
    have hp : process E (.primitive (.nurbsPatch info)) d.clear
        = some (true, updateCache info
            { d.clear with
              heap := d.clear.heap ++ [ExplicitModel.mk .quadSet true d.clear.computeTexCoord ""
                (E.tessellate info.id d.clear.computeTexCoord [])],
              discretization := none }) := by
      simp only [process, processPrimitive, processNurbsPatch, (checkCache_clear info d).2]
    refine ⟨_, hp, ?_, ?_, ?_⟩
    · simp [updateCache, hn, Discretizer.getDiscretization]
    · simp [updateCache, hn, Discretizer.clear]
    · simp [updateCache, hn, find_insert_self]

/-- C11, at a named sphere and at a named `NurbsPatch`, each in the state a new
Discretizer reaches by processing it once: after `clear()` the sphere is
tessellated again into a new object, and the patch is computed again but the
result is null. -/
theorem clear_forces_fresh_model_witness :
    (∃ d : Discretizer (List Nat),
      process sampleExtern (.primitive (.texLeaf .sphere ⟨1, "sphere"⟩)) (Discretizer.new [])
        = some (true, d) ∧
      d.getDiscretization = some (.alloc 0) ∧
      d.clear.getDiscretization = none ∧ d.clear.cache = [] ∧
      ∃ d1, process sampleExtern (.primitive (.texLeaf .sphere ⟨1, "sphere"⟩)) d.clear
          = some (true, d1) ∧
        d1.getDiscretization = some (.alloc 1) ∧
        d1.heap.length = 1 + 1 ∧
        d1.cache.find 1 = some (some (.alloc 1)) ∧
        ∀ r, deref d.heap r ≠ none → d1.getDiscretization ≠ some r) ∧
    (∃ d : Discretizer (List Nat),
      process sampleExtern (.primitive (.nurbsPatch ⟨2, "patch"⟩)) (Discretizer.new [])
        = some (true, d) ∧
      d.cache.find 2 = some none ∧ d.clear.cache.find 2 = none ∧
      ∃ d1, process sampleExtern (.primitive (.nurbsPatch ⟨2, "patch"⟩)) d.clear
          = some (true, d1) ∧
        d1.getDiscretization = none ∧ d1.heap.length = 1 + 1 ∧
        d1.cache.find 2 = some none) :=
  ⟨⟨Discretizer.mk [ExplicitModel.mk .triangleSet true false "sphere" [1, 0]]
      [(1, some (.alloc 0))] (some (.alloc 0)) false, rfl, rfl, rfl, rfl,
    (clear_forces_fresh_model sampleExtern
      (Discretizer.mk [ExplicitModel.mk .triangleSet true false "sphere" [1, 0]]
        [(1, some (.alloc 0))] (some (.alloc 0)) false) []).2.2.2.2.1
      (.texLeaf .sphere ⟨1, "sphere"⟩) ⟨1, "sphere"⟩ rfl (by decide)
      (fun i h => by cases h) rfl⟩,
   ⟨Discretizer.mk [ExplicitModel.mk .quadSet true false "" [2, 0]] [(2, none)] none false,
    rfl, rfl, rfl,
    (clear_forces_fresh_model sampleExtern
      (Discretizer.mk [ExplicitModel.mk .quadSet true false "" [2, 0]] [(2, none)] none
        false) []).2.2.2.2.2.2.2 ⟨2, "patch"⟩ (by decide)⟩⟩

/-! ## Null entries of the cache (C5) -/

/-- C5 (the claim, and the code at the failing inputs), for a named node
without an entry in the cache. A `Group` whose first child leaves the result
null, or whose second child fails, makes `process` return `false` and store the
null pointer under the id of the group. A `NurbsPatch` makes `process` return
`true` with a null result and store the null pointer under its id, and the next
lookup of the patch calls a member function through that null pointer. The
other composite nodes store nothing when they fail: a transformed node whose
child fails or yields no model, and an `IFS` whose child fails, return `false`
with the cache as the child left it. In every state reached from a new
Discretizer, a null entry is stored under the id of a named `Group` or of a
named `NurbsPatch` that was processed, and every other entry designates an
object of the free store. -/
theorem failed_group_stores_null_entry {α τ : Type} (E : Extern α τ) (info : NodeInfo)
    (d : Discretizer α) (hn : info.isNamed = true) (hc : d.cache.find info.id = none) :
    (∀ (first : Geometry α τ) (rest : List (Geometry α τ)) (b : Bool) (d2 : Discretizer α),
      process E first d = some (b, d2) → d2.getDiscretization = none →
      ∃ d1, process E (.group info (first :: rest)) d = some (false, d1) ∧
        d1.getDiscretization = none ∧ d1.cache.find info.id = some none ∧
        d1.heap = d2.heap) ∧
    (∀ (first G2 : Geometry α τ) (rest : List (Geometry α τ)) (b : Bool)
        (d2 d3 : Discretizer α) (r : Ref α),
      process E first d = some (b, d2) → d2.getDiscretization = some r →
      process E G2 { d2 with heap := (baseGeom first d2.heap r).1 } = some (false, d3) →
      ∃ d1, process E (.group info (first :: G2 :: rest)) d = some (false, d1) ∧
        d1.getDiscretization = none ∧ d1.cache.find info.id = some none ∧
        d1.heap = d3.heap) ∧
    (∃ d1, process E (.primitive (.nurbsPatch info)) d = some (true, d1) ∧
      d1.getDiscretization = none ∧ d1.cache.find info.id = some none ∧
      process E (.primitive (.nurbsPatch info)) d1 = none) ∧
    (∀ (k : TransformedKind) (t : τ) (N : Geometry α τ) (b : Bool) (d2 : Discretizer α),
      process E N d = some (b, d2) → (b = false ∨ d2.getDiscretization = none) →
      process E (.transformed k info t N) d
        = some (false, { d2 with discretization := none })) ∧
    (∀ (ms : List τ) (N : Geometry α τ) (d2 : Discretizer α),
      process E N d = some (false, d2) →
      process E (.ifs info ms N) d = some (false, { d2 with discretization := none })) ∧
    (∀ (ids : List Nat) (s : Discretizer α), ReachableWith E ids s →
      (∀ k, s.cache.find k = some none → k ∈ ids) ∧
      (∀ k r, s.cache.find k = some (some r) →
        ∃ a m, r = .alloc a ∧ deref s.heap r = some m)) := by
  have h0 : checkCache info d = .go d := by simp [checkCache, hn, hc]
  refine ⟨?_, ?_, ?_, ?_, ?_, ?_⟩
  · intro first rest b d2 h1 h2
    simp only [Discretizer.getDiscretization] at h2
    have hp : process E (.group info (first :: rest)) d = some (false, updateCache info d2) := by
      simp [process, h0, h1, h2]
    refine ⟨_, hp, ?_, ?_, ?_⟩
    · simp [updateCache, hn, h2, Discretizer.getDiscretization]
    · simp [updateCache, hn, h2, find_insert_self]
    · simp [updateCache, hn, h2]
  · intro first G2 rest b d2 d3 r h1 h2 h3
    simp only [Discretizer.getDiscretization] at h2
    simp only [h2] at h3
    have hp : process E (.group info (first :: G2 :: rest)) d
        = some (false, updateCache info { d3 with discretization := none }) := by
      simp [process, h0, h1, h2, mergeList, h3]
    refine ⟨_, hp, ?_, ?_, ?_⟩
    · simp [updateCache, hn, Discretizer.getDiscretization]
    · simp [updateCache, hn, find_insert_self]
    · simp [updateCache, hn]
  · have hp : process E (.primitive (.nurbsPatch info)) d
        = some (true, updateCache info
            { d with
              heap := d.heap ++ [ExplicitModel.mk .quadSet true d.computeTexCoord ""
                (E.tessellate info.id d.computeTexCoord [])],
              discretization := none }) := by
      simp [process, processPrimitive, processNurbsPatch, checkCacheWithTex, hn, hc]
    refine ⟨_, hp, ?_, ?_, ?_⟩
    · simp [updateCache, hn, Discretizer.getDiscretization]
    · simp [updateCache, hn, find_insert_self]
    · simp [process, processPrimitive, processNurbsPatch, checkCacheWithTex, hn, updateCache,
        find_insert_self, castHasTexCoordList]
  · intro k t N b d2 h1 h2
    rcases h2 with h2 | h2
    · subst h2
      simp [process, h0, h1]
    · simp only [Discretizer.getDiscretization] at h2
      cases b <;> simp [process, h0, h1, h2]
  · intro ms N d2 h1
    simp [process, h0, h1]
  · intro ids s hs
    refine ⟨reachable_nulls E ids s hs, fun k r hk => ?_⟩
    have h1 := (reachable_stores E ids s hs).2 k r hk
    obtain ⟨a, ha, -, -⟩ := (allocIn_iff r _ _).mp h1
    obtain ⟨m, hm⟩ := allocIn_deref h1
    exact ⟨a, m, ha, hm⟩

/-- C5, at a named `Group` whose only child is a `Text`, on a new Discretizer:
`process` returns `false` and the null pointer is stored under the id of the
group. -/
theorem failed_group_stores_null_entry_witness :
    (NodeInfo.isNamed ⟨5, "group"⟩ = true ∧
      (Discretizer.new ([] : List (ExplicitModel (List Nat)))).cache.find 5 = none) ∧
    ∃ d1 : Discretizer (List Nat),
      process sampleExtern (.group ⟨5, "group"⟩ [.text ⟨6, ""⟩]) (Discretizer.new [])
        = some (false, d1) ∧
      d1.getDiscretization = none ∧ d1.cache.find 5 = some none ∧
      d1.heap = [] :=
  ⟨⟨by decide, rfl⟩,
    (failed_group_stores_null_entry sampleExtern ⟨5, "group"⟩ (Discretizer.new [])
      (by decide) rfl).1 (.text ⟨6, ""⟩) [] false (Discretizer.new []) rfl rfl⟩

end PlantGL
